import Mathlib

/-!
# Directory-based MESI simulator (`assignment.c`): embedding and properties

The per-thread body of `main` is embedded as pure functions on an explicit
thread state.  One iteration of the inner drain loop is `drainStep`; the code
after the drain loop (lines 377-438) is `afterDrain`.  `sendMessage` calls are
collected, in program order, as a list of `(receiver, message)` pairs and are
applied to the global array `message_buffers` by `deliver`.

Machine integers: `byte` values are naturals below 256, and every assignment
to a `byte` lvalue that can leave that range is followed by `% 256`.  Thread
ids, `sender` and `secondReceiver` are non-negative `int`s and are naturals
here.  Undefined behaviour (`__builtin_ctz(0)`, indexing `message_buffers`
out of range) is `none`.
-/

namespace Assignment

/-! ## Constants and types (lines 6-74) -/

def NUM_PROCS : Nat := 4
def MEM_SIZE : Nat := 16
def CACHE_SIZE : Nat := 4
def MAX_INSTR_NUM : Nat := 32
def MSG_BUFFER_SIZE : Nat := 256

inductive cacheLineState where
  | MODIFIED
  | EXCLUSIVE
  | SHARED
  | INVALID
  deriving DecidableEq, Repr

inductive directoryEntryState where
  | EM
  | S
  | U
  deriving DecidableEq, Repr

inductive transactionType where
  | READ_REQUEST
  | WRITE_REQUEST
  | REPLY_RD
  | REPLY_WR
  | REPLY_ID
  | INV
  | UPGRADE
  | WRITEBACK_INV
  | WRITEBACK_INT
  | FLUSH
  | FLUSH_INVACK
  | EVICT_SHARED
  | EVICT_MODIFIED
  deriving DecidableEq, Repr

structure instruction where
  type : Nat
  address : Nat
  value : Nat
  deriving DecidableEq, Repr

structure cacheLine where
  address : Nat
  value : Nat
  state : cacheLineState
  deriving DecidableEq, Repr

structure directoryEntry where
  bitVector : Nat
  state : directoryEntryState
  deriving DecidableEq, Repr

structure message where
  type : transactionType
  sender : Nat
  address : Nat
  value : Nat
  bitVector : Nat
  secondReceiver : Nat
  dirState : directoryEntryState
  deriving DecidableEq, Repr

structure messageBuffer where
  queue : Nat → message
  head : Nat
  tail : Nat
  count : Nat

structure processorNode where
  cache : Nat → cacheLine
  memory : Nat → Nat
  directory : Nat → directoryEntry
  instructions : Nat → instruction
  instructionCount : Nat

/-- The variables of one thread of the parallel region (lines 99-112) that
live across loop iterations. -/
structure threadState where
  local_node : processorNode
  current_instr : instruction
  instr_counter : Int
  should_print : Nat
  awaiting_response : Nat

/-! ## Compiler builtins on 32-bit operands -/

/-- The number of set bits among the low 32 bits. -/
def builtin_popcount (x : Nat) : Nat :=
  ((List.range 32).filter (fun i => Nat.testBit x i)).length

/-- The index of the lowest set bit among the low 32 bits; undefined on 0. -/
def builtin_ctz (x : Nat) : Option Nat :=
  (List.range 32).find? (fun i => Nat.testBit x i)

/-- The 32-bit pattern of the C `int` expression `~(1 << s)`, for `s < 31`. -/
def notBit (s : Nat) : Nat := 0xFFFFFFFF - (1 <<< s)

/-! ## Field updates on the thread-private node -/

def setCache (t : threadState) (i : Nat) (c : cacheLine) : threadState :=
  { t with local_node := { t.local_node with cache := Function.update t.local_node.cache i c } }

def setMemory (t : threadState) (i : Nat) (v : Nat) : threadState :=
  { t with local_node := { t.local_node with memory := Function.update t.local_node.memory i v } }

def setDirectory (t : threadState) (i : Nat) (d : directoryEntry) : threadState :=
  { t with local_node :=
      { t.local_node with directory := Function.update t.local_node.directory i d } }

/-! ## `handleCacheReplacement` (lines 456-483) -/

def handleCacheReplacement (sender : Nat) (old_cache_line : cacheLine) :
    List (Nat × message) :=
  let target_proc := (old_cache_line.address >>> 4) &&& 0x0F
  match old_cache_line.state with
  | .EXCLUSIVE | .SHARED =>
      [(target_proc,
        { type := .EVICT_SHARED, sender := sender, address := old_cache_line.address,
          value := 0, bitVector := 0, secondReceiver := 0, dirState := .EM })]
  | .MODIFIED =>
      [(target_proc,
        { type := .EVICT_MODIFIED, sender := sender, address := old_cache_line.address,
          value := old_cache_line.value, bitVector := 0, secondReceiver := 0,
          dirState := .EM })]
  | .INVALID => []

/-- The guarded replacement of lines 168-171, 202-205, 242-245 and 328-331. -/
def replaceIfOther (current_thread : Nat) (line : cacheLine) (address : Nat) :
    List (Nat × message) :=
  if line.address ≠ address ∧ line.state ≠ .INVALID then
    handleCacheReplacement current_thread line
  else []

/-! ## The message dispatch switch (lines 127-374) -/

def case_READ_REQUEST (current_thread : Nat) (t : threadState) (incoming_msg : message) :
    Option (threadState × List (Nat × message)) :=
  let mem_location := incoming_msg.address &&& 0x0F
  let d := t.local_node.directory mem_location
  match d.state with
  | .EM =>
      match builtin_ctz d.bitVector with
      | none => none
      | some previous_owner =>
          some (t, [(previous_owner,
            { type := .WRITEBACK_INT, sender := current_thread,
              address := incoming_msg.address, value := 0, bitVector := 0,
              secondReceiver := incoming_msg.sender, dirState := .EM })])
  | .S =>
      some (setDirectory t mem_location
              { d with bitVector := (d.bitVector ||| (1 <<< incoming_msg.sender)) % 256 },
            [(incoming_msg.sender,
              { type := .REPLY_RD, sender := current_thread,
                address := incoming_msg.address,
                value := t.local_node.memory mem_location, bitVector := 0,
                secondReceiver := 0, dirState := .S })])
  | .U =>
      some (setDirectory t mem_location
              { bitVector := (1 <<< incoming_msg.sender) % 256, state := .EM },
            [(incoming_msg.sender,
              { type := .REPLY_RD, sender := current_thread,
                address := incoming_msg.address,
                value := t.local_node.memory mem_location, bitVector := 0,
                secondReceiver := 0, dirState := .EM })])

def case_REPLY_RD (current_thread : Nat) (t : threadState) (incoming_msg : message) :
    Option (threadState × List (Nat × message)) :=
  let cache_slot := (incoming_msg.address &&& 0x0F) % CACHE_SIZE
  let t1 := setCache t cache_slot
    { address := incoming_msg.address, value := incoming_msg.value,
      state := if incoming_msg.dirState = .S then .SHARED else .EXCLUSIVE }
  some ({ t1 with awaiting_response := 0 },
        replaceIfOther current_thread (t.local_node.cache cache_slot) incoming_msg.address)

def case_WRITEBACK_INT (current_thread : Nat) (t : threadState) (incoming_msg : message) :
    Option (threadState × List (Nat × message)) :=
  let target_node := (incoming_msg.address >>> 4) &&& 0x0F
  let cache_slot := (incoming_msg.address &&& 0x0F) % CACHE_SIZE
  let line := t.local_node.cache cache_slot
  let response_msg : message :=
    { type := .FLUSH, sender := current_thread, address := incoming_msg.address,
      value := line.value, bitVector := 0,
      secondReceiver := incoming_msg.secondReceiver, dirState := .EM }
  some (setCache t cache_slot { line with state := .SHARED },
        (target_node, response_msg) ::
          (if target_node ≠ incoming_msg.secondReceiver then
             [(incoming_msg.secondReceiver, response_msg)]
           else []))

def case_FLUSH (current_thread : Nat) (t : threadState) (incoming_msg : message) :
    Option (threadState × List (Nat × message)) :=
  let target_node := (incoming_msg.address >>> 4) &&& 0x0F
  let mem_location := incoming_msg.address &&& 0x0F
  let cache_slot := mem_location % CACHE_SIZE
  let t1 :=
    if current_thread = target_node then
      setMemory
        (setDirectory t mem_location
          { bitVector := ((t.local_node.directory mem_location).bitVector
                            ||| (1 <<< incoming_msg.secondReceiver)) % 256,
            state := .S })
        mem_location incoming_msg.value
    else t
  if current_thread = incoming_msg.secondReceiver then
    some ({ setCache t1 cache_slot
              { address := incoming_msg.address, value := incoming_msg.value,
                state := .SHARED } with awaiting_response := 0 },
          replaceIfOther current_thread (t1.local_node.cache cache_slot) incoming_msg.address)
  else
    some ({ t1 with awaiting_response := 0 }, [])

def case_UPGRADE (current_thread : Nat) (t : threadState) (incoming_msg : message) :
    Option (threadState × List (Nat × message)) :=
  let mem_location := incoming_msg.address &&& 0x0F
  let other_nodes :=
    ((t.local_node.directory mem_location).bitVector &&& notBit incoming_msg.sender) % 256
  some (setDirectory t mem_location
          { bitVector := (1 <<< incoming_msg.sender) % 256, state := .EM },
        [(incoming_msg.sender,
          { type := .REPLY_ID, sender := current_thread, address := incoming_msg.address,
            value := 0, bitVector := other_nodes, secondReceiver := 0, dirState := .EM })])

/-- The `INV` fan-out loop of lines 231-240. -/
def invLoop (current_thread : Nat) (incoming_msg : message) : List (Nat × message) :=
  ((List.range NUM_PROCS).filter
      (fun i => incoming_msg.bitVector &&& (1 <<< i) ≠ 0)).map
    (fun i => (i,
      { type := .INV, sender := current_thread, address := incoming_msg.address,
        value := 0, bitVector := 0, secondReceiver := 0, dirState := .EM }))

def case_REPLY_ID (current_thread : Nat) (t : threadState) (incoming_msg : message) :
    Option (threadState × List (Nat × message)) :=
  let cache_slot := (incoming_msg.address &&& 0x0F) % CACHE_SIZE
  let t1 := setCache t cache_slot
    { address := incoming_msg.address, value := t.current_instr.value, state := .MODIFIED }
  some ({ t1 with awaiting_response := 0 },
        invLoop current_thread incoming_msg ++
          replaceIfOther current_thread (t.local_node.cache cache_slot) incoming_msg.address)

def case_INV (t : threadState) (incoming_msg : message) :
    Option (threadState × List (Nat × message)) :=
  let cache_slot := (incoming_msg.address &&& 0x0F) % CACHE_SIZE
  let line := t.local_node.cache cache_slot
  if line.address = incoming_msg.address then
    some (setCache t cache_slot { line with state := .INVALID }, [])
  else
    some (t, [])

def case_WRITE_REQUEST (current_thread : Nat) (t : threadState) (incoming_msg : message) :
    Option (threadState × List (Nat × message)) :=
  let mem_location := incoming_msg.address &&& 0x0F
  let d := t.local_node.directory mem_location
  let t1 := setDirectory t mem_location
    { bitVector := (1 <<< incoming_msg.sender) % 256, state := .EM }
  match d.state with
  | .U =>
      some (t1, [(incoming_msg.sender,
        { type := .REPLY_WR, sender := current_thread, address := incoming_msg.address,
          value := 0, bitVector := 0, secondReceiver := 0, dirState := .EM })])
  | .S =>
      some (t1, [(incoming_msg.sender,
        { type := .REPLY_ID, sender := current_thread, address := incoming_msg.address,
          value := 0, bitVector := (d.bitVector &&& notBit incoming_msg.sender) % 256,
          secondReceiver := 0, dirState := .EM })])
  | .EM =>
      match builtin_ctz d.bitVector with
      | none => none
      | some previous_owner =>
          some (t1, [(previous_owner,
            { type := .WRITEBACK_INV, sender := current_thread,
              address := incoming_msg.address, value := incoming_msg.value,
              bitVector := 0, secondReceiver := incoming_msg.sender, dirState := .EM })])

def case_REPLY_WR (current_thread : Nat) (t : threadState) (incoming_msg : message) :
    Option (threadState × List (Nat × message)) :=
  let cache_slot := (incoming_msg.address &&& 0x0F) % CACHE_SIZE
  let t1 := setCache t cache_slot
    { address := incoming_msg.address, value := t.current_instr.value, state := .MODIFIED }
  some ({ t1 with awaiting_response := 0 },
        handleCacheReplacement current_thread (t.local_node.cache cache_slot))

def case_WRITEBACK_INV (current_thread : Nat) (t : threadState) (incoming_msg : message) :
    Option (threadState × List (Nat × message)) :=
  let target_node := (incoming_msg.address >>> 4) &&& 0x0F
  let cache_slot := (incoming_msg.address &&& 0x0F) % CACHE_SIZE
  let line := t.local_node.cache cache_slot
  let response_msg : message :=
    { type := .FLUSH_INVACK, sender := current_thread, address := incoming_msg.address,
      value := line.value, bitVector := 0,
      secondReceiver := incoming_msg.secondReceiver, dirState := .EM }
  some (setCache t cache_slot { line with state := .INVALID },
        [(target_node, response_msg), (incoming_msg.secondReceiver, response_msg)])

def case_FLUSH_INVACK (current_thread : Nat) (t : threadState) (incoming_msg : message) :
    Option (threadState × List (Nat × message)) :=
  let target_node := (incoming_msg.address >>> 4) &&& 0x0F
  let mem_location := incoming_msg.address &&& 0x0F
  let cache_slot := mem_location % CACHE_SIZE
  let t1 :=
    if current_thread = target_node then
      setMemory
        (setDirectory t mem_location
          { t.local_node.directory mem_location with
            bitVector := (1 <<< incoming_msg.secondReceiver) % 256 })
        mem_location incoming_msg.value
    else t
  if current_thread = incoming_msg.secondReceiver then
    some ({ setCache t1 cache_slot
              { address := incoming_msg.address, value := t.current_instr.value,
                state := .MODIFIED } with awaiting_response := 0 },
          replaceIfOther current_thread (t1.local_node.cache cache_slot) incoming_msg.address)
  else
    some ({ t1 with awaiting_response := 0 }, [])

def case_EVICT_SHARED (current_thread : Nat) (t : threadState) (incoming_msg : message) :
    Option (threadState × List (Nat × message)) :=
  let target_node := (incoming_msg.address >>> 4) &&& 0x0F
  let mem_location := incoming_msg.address &&& 0x0F
  let cache_slot := mem_location % CACHE_SIZE
  if current_thread ≠ target_node then
    some (setCache t cache_slot { t.local_node.cache cache_slot with state := .EXCLUSIVE }, [])
  else
    let d := t.local_node.directory mem_location
    let bv := (d.bitVector &&& notBit incoming_msg.sender) % 256
    let sharer_count := builtin_popcount bv
    if sharer_count = 0 then
      some (setDirectory t mem_location { bitVector := bv, state := .U }, [])
    else if sharer_count = 1 then
      let t1 := setDirectory t mem_location { bitVector := bv, state := .EM }
      match builtin_ctz bv with
      | none => none
      | some new_owner =>
          if new_owner ≠ target_node then
            some (t1, [(new_owner,
              { type := .EVICT_SHARED, sender := current_thread,
                address := incoming_msg.address,
                value := t.local_node.memory mem_location, bitVector := 0,
                secondReceiver := 0, dirState := .EM })])
          else
            some (setCache t1 cache_slot
                    { t.local_node.cache cache_slot with state := .EXCLUSIVE }, [])
    else
      some (setDirectory t mem_location { d with bitVector := bv }, [])

def case_EVICT_MODIFIED (t : threadState) (incoming_msg : message) :
    Option (threadState × List (Nat × message)) :=
  let mem_location := incoming_msg.address &&& 0x0F
  some (setDirectory (setMemory t mem_location incoming_msg.value) mem_location
          { bitVector := 0, state := .U }, [])

/-- The `switch` on `incoming_msg.type`: the new thread state and the messages
sent, in order; `none` when the handler runs into undefined behaviour. -/
def dispatch (current_thread : Nat) (t : threadState) (incoming_msg : message) :
    Option (threadState × List (Nat × message)) :=
  match incoming_msg.type with
  | .READ_REQUEST => case_READ_REQUEST current_thread t incoming_msg
  | .REPLY_RD => case_REPLY_RD current_thread t incoming_msg
  | .WRITEBACK_INT => case_WRITEBACK_INT current_thread t incoming_msg
  | .FLUSH => case_FLUSH current_thread t incoming_msg
  | .UPGRADE => case_UPGRADE current_thread t incoming_msg
  | .REPLY_ID => case_REPLY_ID current_thread t incoming_msg
  | .INV => case_INV t incoming_msg
  | .WRITE_REQUEST => case_WRITE_REQUEST current_thread t incoming_msg
  | .REPLY_WR => case_REPLY_WR current_thread t incoming_msg
  | .WRITEBACK_INV => case_WRITEBACK_INV current_thread t incoming_msg
  | .FLUSH_INVACK => case_FLUSH_INVACK current_thread t incoming_msg
  | .EVICT_SHARED => case_EVICT_SHARED current_thread t incoming_msg
  | .EVICT_MODIFIED => case_EVICT_MODIFIED t incoming_msg

/-! ## The code after the drain loop (lines 377-438) -/

/-- Lines 390-438: fetch `instructions[instr_counter]` and execute it. -/
def issue (current_thread : Nat) (t : threadState) : threadState × List (Nat × message) :=
  let current_instr := t.local_node.instructions t.instr_counter.toNat
  let target_proc := (current_instr.address >>> 4) &&& 0x0F
  let mem_pos := current_instr.address &&& 0x0F
  let cache_pos := mem_pos % CACHE_SIZE
  let line := t.local_node.cache cache_pos
  let t0 := { t with current_instr := current_instr }
  let cache_hit : Bool :=
    if line.address = current_instr.address then
      (if line.state = .INVALID then false else true)
    else false
  if current_instr.type = 82 then
    if cache_hit then (t0, [])
    else
      ({ t0 with awaiting_response := 1 },
       [(target_proc,
         { type := .READ_REQUEST, sender := current_thread,
           address := current_instr.address, value := 0, bitVector := 0,
           secondReceiver := 0, dirState := .EM })])
  else
    if cache_hit then
      if line.state = .MODIFIED ∨ line.state = .EXCLUSIVE then
        (setCache t0 cache_pos { line with value := current_instr.value, state := .MODIFIED },
         [])
      else
        ({ t0 with awaiting_response := 1 },
         [(target_proc,
           { type := .UPGRADE, sender := current_thread,
             address := current_instr.address, value := current_instr.value,
             bitVector := 0, secondReceiver := 0, dirState := .EM })])
    else
      ({ t0 with awaiting_response := 1 },
       [(target_proc,
         { type := .WRITE_REQUEST, sender := current_thread,
           address := current_instr.address, value := current_instr.value,
           bitVector := 0, secondReceiver := 0, dirState := .EM })])

/-- Lines 377-438, one pass: the new thread state, the messages sent, and
whether `printProcessorState` was called. -/
def afterDrain (current_thread : Nat) (t : threadState) :
    threadState × List (Nat × message) × Bool :=
  if t.awaiting_response > 0 then (t, [], false)
  else if t.instr_counter < (t.local_node.instructionCount : Int) - 1 then
    let r := issue current_thread { t with instr_counter := t.instr_counter + 1 }
    (r.1, r.2, false)
  else if t.should_print > 0 then
    ({ t with should_print := t.should_print - 1 }, [], true)
  else (t, [], false)

/-! ## Message transport (lines 443-454) and the drain loop head (lines 115-125) -/

/-- The body of `sendMessage` on the receiver's buffer. -/
def enqueue (msg_buf : messageBuffer) (msg : message) : messageBuffer :=
  if msg_buf.count < MSG_BUFFER_SIZE then
    { queue := Function.update msg_buf.queue msg_buf.tail msg,
      head := msg_buf.head,
      tail := (msg_buf.tail + 1) % MSG_BUFFER_SIZE,
      count := msg_buf.count + 1 }
  else msg_buf

/-- The function `sendMessage` on the global array `message_buffers`; indexing
the array with `receiver >= NUM_PROCS` is undefined. -/
def sendMessage (message_buffers : Nat → messageBuffer) (receiver : Nat) (msg : message) :
    Option (Nat → messageBuffer) :=
  if receiver < NUM_PROCS then
    some (Function.update message_buffers receiver (enqueue (message_buffers receiver) msg))
  else none

/-- The calls of `sendMessage` made by one handler, in order. -/
def deliver (message_buffers : Nat → messageBuffer) :
    List (Nat × message) → Option (Nat → messageBuffer)
  | [] => some message_buffers
  | (receiver, msg) :: rest =>
      match sendMessage message_buffers receiver msg with
      | none => none
      | some bufs => deliver bufs rest

/-- The guard of the drain loop (lines 116-117). -/
def drainGuard (b : messageBuffer) : Bool :=
  decide (b.count > 0) && decide (b.head ≠ b.tail)

/-- Lines 122-125: the message read at `head` and the buffer after the dequeue. -/
def dequeue (b : messageBuffer) : message × messageBuffer :=
  (b.queue b.head,
   { b with head := (b.head + 1) % MSG_BUFFER_SIZE, count := b.count - 1 })

/-! ## `initializeProcessor` (lines 486-500) and the initial global state -/

/-- The node after `initializeProcessor`; the instructions parsed from the
input file are a parameter. -/
def initializeProcessor (threadId : Nat) (instructions : Nat → instruction)
    (instructionCount : Nat) : processorNode :=
  { cache := fun _ => { address := 0xFF, value := 0, state := .INVALID },
    memory := fun i => (20 * threadId + i) % 256,
    directory := fun _ => { bitVector := 0, state := .U },
    instructions := instructions,
    instructionCount := instructionCount }

/-- The zero-initialised global `message` slot. -/
def zeroMessage : message :=
  { type := .READ_REQUEST, sender := 0, address := 0, value := 0, bitVector := 0,
    secondReceiver := 0, dirState := .EM }

/-- A buffer of `message_buffers` after lines 93-98. -/
def emptyBuffer : messageBuffer :=
  { queue := fun _ => zeroMessage, head := 0, tail := 0, count := 0 }

/-- All threads and all inboxes. -/
structure globalState where
  threads : Nat → threadState
  message_buffers : Nat → messageBuffer

/-- The state at the barrier of line 105.  The program of thread `k` is the
list `progs k`; `junk` is the indeterminate initial content of `current_instr`. -/
def initialState (progs : Nat → List instruction) (junk : instruction) : globalState :=
  { threads := fun k =>
      { local_node := initializeProcessor k
          (fun i => ((progs k).take MAX_INSTR_NUM).getD i { type := 0, address := 0, value := 0 })
          ((progs k).take MAX_INSTR_NUM).length,
        current_instr := junk,
        instr_counter := -1,
        should_print := 1,
        awaiting_response := 0 },
    message_buffers := fun _ => emptyBuffer }

/-- Lines 119-121: the drain loop re-arms `should_print` before the switch. -/
def rearm (t : threadState) : threadState :=
  if t.should_print = 0 then { t with should_print := t.should_print + 1 } else t

/-- One iteration of the drain loop of thread `k` (lines 115-375): defined
when the guard holds and the handler and its sends are defined. -/
def drainStep (g : globalState) (k : Nat) : Option globalState :=
  let b := g.message_buffers k
  if drainGuard b then
    let d := dequeue b
    match dispatch k (rearm (g.threads k)) d.1 with
    | none => none
    | some (t1, sends) =>
        match deliver (Function.update g.message_buffers k d.2) sends with
        | none => none
        | some bufs =>
            some { threads := Function.update g.threads k t1, message_buffers := bufs }
  else none

/-- One pass of thread `k` through lines 377-438. -/
def tailStep (g : globalState) (k : Nat) : Option globalState :=
  let r := afterDrain k (g.threads k)
  match deliver g.message_buffers r.2.1 with
  | none => none
  | some bufs => some { threads := Function.update g.threads k r.1, message_buffers := bufs }

/-- A scheduler choice: thread `k` runs one drain-loop iteration, or one pass
of the code after the drain loop. -/
inductive action where
  | drain (k : Nat)
  | tail (k : Nat)
  deriving DecidableEq, Repr

/-- The effect of a scheduler choice.  A thread reaches the code after the
drain loop only past a false loop guard, so `tail` is enabled only then. -/
def step (g : globalState) : action → Option globalState
  | .drain k => if k < NUM_PROCS then drainStep g k else none
  | .tail k =>
      if k < NUM_PROCS ∧ drainGuard (g.message_buffers k) = false then tailStep g k else none

/-- Run a schedule from a state. -/
def run (g : globalState) : List action → Option globalState
  | [] => some g
  | a :: rest =>
      match step g a with
      | none => none
      | some g1 => run g1 rest

/-! ## Predicates used in the statements -/

/-- Every directory entry in state `EM` has exactly one sharer bit set. -/
def dirEmSingleton (dir : Nat → directoryEntry) : Prop :=
  ∀ i, i < MEM_SIZE → (dir i).state = .EM → builtin_popcount (dir i).bitVector = 1

instance (dir : Nat → directoryEntry) : Decidable (dirEmSingleton dir) :=
  inferInstanceAs (Decidable (∀ i, i < MEM_SIZE → (dir i).state = .EM →
    builtin_popcount (dir i).bitVector = 1))

def emSingleton (t : threadState) : Prop := dirEmSingleton t.local_node.directory

instance (t : threadState) : Decidable (emSingleton t) :=
  inferInstanceAs (Decidable (dirEmSingleton t.local_node.directory))

/-- The directory invariants of the data model: `U` has no sharer, `S` at
least one, `EM` exactly one. -/
def dirWellFormed (dir : Nat → directoryEntry) : Prop :=
  ∀ i, i < MEM_SIZE →
    ((dir i).state = .U → (dir i).bitVector = 0) ∧
    ((dir i).state = .S → 1 ≤ builtin_popcount (dir i).bitVector) ∧
    ((dir i).state = .EM → builtin_popcount (dir i).bitVector = 1)

instance (dir : Nat → directoryEntry) : Decidable (dirWellFormed dir) :=
  inferInstanceAs (Decidable (∀ i, i < MEM_SIZE →
    ((dir i).state = .U → (dir i).bitVector = 0) ∧
    ((dir i).state = .S → 1 ≤ builtin_popcount (dir i).bitVector) ∧
    ((dir i).state = .EM → builtin_popcount (dir i).bitVector = 1)))

/-- Every directory entry in state `U` has an empty sharer vector. -/
def dirUnownedEmpty (dir : Nat → directoryEntry) : Prop :=
  ∀ i, i < MEM_SIZE → (dir i).state = .U → (dir i).bitVector = 0

instance (dir : Nat → directoryEntry) : Decidable (dirUnownedEmpty dir) :=
  inferInstanceAs (Decidable (∀ i, i < MEM_SIZE → (dir i).state = .U → (dir i).bitVector = 0))

/-- The message completes a pending write of thread `X` to address `A`. -/
def completesWrite (X : Nat) (m : message) (A : Nat) : Prop :=
  m.address = A ∧
    (m.type = .REPLY_WR ∨ m.type = .REPLY_ID ∨ (m.type = .FLUSH_INVACK ∧ m.secondReceiver = X))

instance (X : Nat) (m : message) (A : Nat) : Decidable (completesWrite X m A) :=
  inferInstanceAs (Decidable (m.address = A ∧
    (m.type = .REPLY_WR ∨ m.type = .REPLY_ID ∨ (m.type = .FLUSH_INVACK ∧ m.secondReceiver = X))))

/-- The thread is not blocked and its next instruction is `ins`. -/
def nextInstr (t : threadState) (ins : instruction) : Prop :=
  t.awaiting_response = 0 ∧
    t.instr_counter < (t.local_node.instructionCount : Int) - 1 ∧
    t.local_node.instructions (t.instr_counter + 1).toNat = ins

instance (t : threadState) (ins : instruction) : Decidable (nextInstr t ins) :=
  inferInstanceAs (Decidable (t.awaiting_response = 0 ∧
    t.instr_counter < (t.local_node.instructionCount : Int) - 1 ∧
    t.local_node.instructions (t.instr_counter + 1).toNat = ins))

/-- The slot of `A` holds `A` with value `v` in `MODIFIED` and the thread is
not blocked. -/
def holdsWritten (t : threadState) (A v : Nat) : Prop :=
  t.local_node.cache ((A &&& 0x0F) % CACHE_SIZE) =
      { address := A, value := v, state := .MODIFIED } ∧
    t.awaiting_response = 0

instance (t : threadState) (A v : Nat) : Decidable (holdsWritten t A v) :=
  inferInstanceAs (Decidable (t.local_node.cache ((A &&& 0x0F) % CACHE_SIZE) =
      { address := A, value := v, state := .MODIFIED } ∧ t.awaiting_response = 0))

/-- A read of `A` issued next is a hit: nothing is sent, nothing is printed,
the thread stays unblocked, the cache is untouched and the line read holds `v`. -/
def readsBack (X : Nat) (t : threadState) (A v : Nat) : Prop :=
  ∀ v0, nextInstr t { type := 82, address := A, value := v0 } →
    (afterDrain X t).2 = ([], false) ∧
    (afterDrain X t).1.awaiting_response = 0 ∧
    (afterDrain X t).1.local_node.cache = t.local_node.cache ∧
    ((afterDrain X t).1.local_node.cache ((A &&& 0x0F) % CACHE_SIZE)).address = A ∧
    ((afterDrain X t).1.local_node.cache ((A &&& 0x0F) % CACHE_SIZE)).value = v ∧
    ((afterDrain X t).1.local_node.cache ((A &&& 0x0F) % CACHE_SIZE)).state ≠ .INVALID

/-! ## Concrete inputs -/

def junkInstr : instruction := { type := 0, address := 0, value := 0 }

/-- A thread just after `initializeProcessor`, with the program `prog`. -/
def freshThread (k : Nat) (prog : List instruction) : threadState :=
  { local_node := initializeProcessor k (fun i => prog.getD i junkInstr) prog.length,
    current_instr := junkInstr,
    instr_counter := -1, should_print := 1, awaiting_response := 0 }

/-- Node 1 with entry 0 in `EM`, owned by node 0. -/
def homeOwnedBy0 : threadState :=
  setDirectory (freshThread 1 []) 0 { bitVector := 1, state := .EM }

/-- Node 1 with entry 0 in `S`, shared by nodes 0, 2 and 3. -/
def homeShared023 : threadState :=
  setDirectory (freshThread 1 []) 0 { bitVector := 13, state := .S }

/-- Node 1 with entry 0 in `S`, shared by nodes 0 and 3. -/
def homeShared03 : threadState :=
  setDirectory (freshThread 1 []) 0 { bitVector := 9, state := .S }

/-- Node 1 with entry 0 in `S`, shared by nodes 0 and 2. -/
def homeShared02 : threadState :=
  setDirectory (freshThread 1 []) 0 { bitVector := 5, state := .S }

def writeRequestFrom2 : message :=
  { type := .WRITE_REQUEST, sender := 2, address := 0x10, value := 7, bitVector := 0,
    secondReceiver := 0, dirState := .EM }

def readRequestFrom2 : message :=
  { type := .READ_REQUEST, sender := 2, address := 0x10, value := 0, bitVector := 0,
    secondReceiver := 0, dirState := .EM }

def upgradeFrom2 : message :=
  { type := .UPGRADE, sender := 2, address := 0x10, value := 7, bitVector := 0,
    secondReceiver := 0, dirState := .EM }

def evictSharedFrom0 : message :=
  { type := .EVICT_SHARED, sender := 0, address := 0x10, value := 0, bitVector := 0,
    secondReceiver := 0, dirState := .EM }

def flushInvackFor2 : message :=
  { type := .FLUSH_INVACK, sender := 0, address := 0x10, value := 9, bitVector := 0,
    secondReceiver := 2, dirState := .EM }

/-- Node 0 about to execute `WR 0x10 5` with the line in `EXCLUSIVE`. -/
def writerWithHit : threadState :=
  setCache (freshThread 0 [{ type := 87, address := 0x10, value := 5 }]) 0
    { address := 0x10, value := 20, state := .EXCLUSIVE }

/-- Node 2 blocked on `WR 0x10 5`. -/
def writerBlocked : threadState :=
  { freshThread 2 [{ type := 87, address := 0x10, value := 5 }] with
    current_instr := { type := 87, address := 0x10, value := 5 },
    instr_counter := 0, awaiting_response := 1 }

/-! ## Global states: reachability and the invariants P1 and P2 -/

/-- The states reachable from `g0`: some thread below `NUM_PROCS` runs one
drain-loop iteration, or one pass of the code after the drain loop.  (A pass
with `awaiting_response` set, or with no instruction left, changes at most
`should_print`.)  A pass is allowed whatever the inbox holds, since a message
can arrive between the loop guard and the issue. -/
inductive Reachable (g0 : globalState) : globalState → Prop where
  | init : Reachable g0 g0
  | drain (g g1 : globalState) (k : Nat) :
      Reachable g0 g → k < NUM_PROCS → drainStep g k = some g1 → Reachable g0 g1
  | tail (g g1 : globalState) (k : Nat) :
      Reachable g0 g → k < NUM_PROCS → tailStep g k = some g1 → Reachable g0 g1

/-- The programs given as a list, one entry per thread. -/
def progsOf (l : List (List instruction)) : Nat → List instruction :=
  fun k => l.getD k []

/-- Every instruction address is a byte whose upper nibble is a node id. -/
def homed (progs : Nat → List instruction) : Prop :=
  ∀ k ins, ins ∈ progs k → ins.address < 256 ∧ (ins.address >>> 4) &&& 0x0F < NUM_PROCS

/-- The message at the head of the inbox of thread `k`. -/
def headMsg (g : globalState) (k : Nat) : message := (dequeue (g.message_buffers k)).1

/-- The cache of node `k` holds address `A` in state `st`. -/
def holdsState (g : globalState) (k A : Nat) (st : cacheLineState) : Prop :=
  ((g.threads k).local_node.cache ((A &&& 0x0F) % CACHE_SIZE)).address = A ∧
    ((g.threads k).local_node.cache ((A &&& 0x0F) % CACHE_SIZE)).state = st

instance (g : globalState) (k A : Nat) (st : cacheLineState) : Decidable (holdsState g k A st) :=
  inferInstanceAs (Decidable (_ ∧ _))

/-- The directory entry for `A` at the home node of `A`. -/
def homeEntry (g : globalState) (A : Nat) : directoryEntry :=
  (g.threads ((A >>> 4) &&& 0x0F)).local_node.directory (A &&& 0x0F)

/-- P2: a `MODIFIED` copy of `A` at node `k` means the home entry is `EM` with
sharers exactly `{k}`. -/
def P2 (g : globalState) : Prop :=
  ∀ k, k < NUM_PROCS → ∀ A, A < 256 → holdsState g k A .MODIFIED →
    homeEntry g A = { bitVector := 2 ^ k, state := .EM }

/-- P1: at most one node holds `A` in `MODIFIED` or `EXCLUSIVE`. -/
def P1 (g : globalState) : Prop :=
  ∀ A, A < 256 → ∀ k1, k1 < NUM_PROCS → ∀ k2, k2 < NUM_PROCS →
    (holdsState g k1 A .MODIFIED ∨ holdsState g k1 A .EXCLUSIVE) →
    (holdsState g k2 A .MODIFIED ∨ holdsState g k2 A .EXCLUSIVE) → k1 = k2

/-! ## The ring buffer as a queue -/

/-- The representation relation of the inbox ring buffer. -/
def bufferOK (b : messageBuffer) : Prop :=
  b.head < MSG_BUFFER_SIZE ∧ b.count ≤ MSG_BUFFER_SIZE ∧
    b.tail = (b.head + b.count) % MSG_BUFFER_SIZE

/-- The messages waiting in the buffer, oldest first. -/
def inFlight (b : messageBuffer) : List message :=
  (List.range b.count).map (fun j => b.queue ((b.head + j) % MSG_BUFFER_SIZE))

/-! ## The runs refuting P2 and P1 -/

/-- Node 0 writes 0x10, then node 3 writes 0x10. -/
def twoWriters : List (List instruction) :=
  [[{ type := 87, address := 0x10, value := 5 }], [], [],
   [{ type := 87, address := 0x10, value := 7 }]]

/-- Node 0 completes its write, then node 3 issues its write; the next step,
the home dispatching that request, is the one after which P2 fails. -/
def twoWritersSchedule : List action :=
  [.tail 0, .drain 1, .drain 0, .tail 3]

/-- Nodes 0 and 1 each read 0x10 and then write it. -/
def twoUpgraders : List (List instruction) :=
  [[{ type := 82, address := 0x10, value := 0 }, { type := 87, address := 0x10, value := 5 }],
   [{ type := 82, address := 0x10, value := 0 }, { type := 87, address := 0x10, value := 7 }],
   [], []]

/-- Both nodes come to share 0x10 (steps 1-8), node 0 issues its write before
the home has dispatched the `FLUSH`, the home answers the `UPGRADE` of node 0,
then node 1 issues its write and the home answers that `UPGRADE` too; both
nodes dispatch their `REPLY_ID`. -/
def twoUpgradersSchedule : List action :=
  [.tail 0, .drain 1, .drain 0, .tail 1, .drain 1, .drain 0, .tail 0, .drain 1, .drain 1,
   .tail 1, .drain 1, .drain 0, .drain 1]

/-- The programs of the promotion run: node 0 reads 0x10 then 0x20, node 2 writes 0x10. -/
def promotionProgs : List (List instruction) :=
  [[{ type := 82, address := 0x10, value := 0 }, { type := 82, address := 0x20, value := 0 }],
   [], [{ type := 87, address := 0x10, value := 42 }], []]

/-- The schedule of the promotion run, up to the point where the promotion
`EVICT_SHARED` for 0x10 is at the head of node 2's inbox. -/
def promotionSchedule : List action :=
  [.tail 0, .drain 1, .drain 0, .tail 0, .drain 2, .tail 2, .drain 0, .drain 1, .drain 1]

/-! ## Further definitions for the handler and inbox statements -/

/-- An eviction notice: a message of type `EVICT_SHARED` or `EVICT_MODIFIED`. -/
def isEviction (p : Nat × message) : Bool :=
  decide (p.2.type = .EVICT_SHARED) || decide (p.2.type = .EVICT_MODIFIED)

/-- An invalidation: a message of type `INV`. -/
def isInv (p : Nat × message) : Bool := decide (p.2.type = .INV)

/-- Node 0 holding `0x20` with value 7 in `MODIFIED` in slot 0. -/
def holderOfModified : threadState :=
  setCache (freshThread 0 []) 0 { address := 0x20, value := 7, state := .MODIFIED }

/-- The `REPLY_RD` of home 1 for `0x10` with value 20. -/
def replyRdFor0x10 : message :=
  { type := .REPLY_RD, sender := 1, address := 0x10, value := 20, bitVector := 0,
    secondReceiver := 0, dirState := .EM }

/-- The `REPLY_ID` of home 1 for `0x10` naming the sharers 1 and 3. -/
def replyIdFor2 : message :=
  { type := .REPLY_ID, sender := 1, address := 0x10, value := 0, bitVector := 10,
    secondReceiver := 0, dirState := .EM }

/-- An `INV` for `0x10` sent by node 2. -/
def invFor0x10 : message :=
  { type := .INV, sender := 2, address := 0x10, value := 0, bitVector := 0,
    secondReceiver := 0, dirState := .EM }

/-- The `WRITEBACK_INV` of home 1 for `0x10` on behalf of the writer 2. -/
def writebackInvFor2 : message :=
  { type := .WRITEBACK_INV, sender := 1, address := 0x10, value := 5, bitVector := 0,
    secondReceiver := 2, dirState := .EM }

/-- The `FLUSH` of owner 0 for `0x10` with value 20 on behalf of the reader 2. -/
def flushFor2 : message :=
  { type := .FLUSH, sender := 0, address := 0x10, value := 20, bitVector := 0,
    secondReceiver := 2, dirState := .EM }

/-- Nodes 0 and 3 read `0x10`; its home, node 1, writes 5 to `0x20` and then
9 to `0x30`. -/
def homeAlsoWrites : List (List instruction) :=
  [[{ type := 82, address := 0x10, value := 0 }],
   [{ type := 87, address := 0x20, value := 5 }, { type := 87, address := 0x30, value := 9 }],
   [], [{ type := 82, address := 0x10, value := 0 }]]

/-- Node 0 obtains `0x10` in `EXCLUSIVE`, node 3 requests it, home 1 forwards
the request to node 0 and then issues its own `WR 0x20 5`; node 0 answers with
a `FLUSH` to home 1 and to node 3. -/
def homeAlsoWritesSchedule : List action :=
  [.tail 0, .drain 1, .drain 0, .tail 3, .drain 1, .tail 1, .drain 0]

/-- The relation between an inbox and the list of its pending messages:
`head` and `tail` are below 256, `count` is at most 256,
`tail = (head + count) mod 256`, and the list has length `count` with
`queue[(head + i) mod 256]` as its `i`-th element. -/
def represents (b : messageBuffer) (l : List message) : Prop :=
  b.head < MSG_BUFFER_SIZE ∧ b.tail < MSG_BUFFER_SIZE ∧ b.count ≤ MSG_BUFFER_SIZE ∧
    b.tail = (b.head + b.count) % MSG_BUFFER_SIZE ∧ l.length = b.count ∧
    ∀ i, i < l.length → l.getD i zeroMessage = b.queue ((b.head + i) % MSG_BUFFER_SIZE)

/-- A send into an inbox, or one evaluation of the drain loop's guard followed
by the dequeue of lines 122-125 when the guard holds. -/
inductive inboxOp where
  | send (m : message)
  | receive

/-- The inbox after a sequence of operations, and the messages dequeued, in
order. -/
def inboxRun : messageBuffer → List inboxOp → messageBuffer × List message
  | b, [] => (b, [])
  | b, .send m :: ops => inboxRun (enqueue b m) ops
  | b, .receive :: ops =>
      if drainGuard b then
        ((inboxRun (dequeue b).2 ops).1, (dequeue b).1 :: (inboxRun (dequeue b).2 ops).2)
      else inboxRun b ops

/-- The messages passed to `send`, in order. -/
def sentBy : List inboxOp → List message
  | [] => []
  | .send m :: ops => m :: sentBy ops
  | .receive :: ops => sentBy ops

/-- No send of the sequence finds the inbox full. -/
def noDrop : messageBuffer → List inboxOp → Prop
  | _, [] => True
  | b, .send m :: ops => b.count < MSG_BUFFER_SIZE ∧ noDrop (enqueue b m) ops
  | b, .receive :: ops => noDrop (if drainGuard b then (dequeue b).2 else b) ops

/-- The message number `i` of a burst: a `READ_REQUEST` carrying `i` as value. -/
def burstMessage (i : Nat) : message := { zeroMessage with value := i }

/-- An inbox into which 256 messages were sent and from which none was
dequeued. -/
def fullInbox : messageBuffer :=
  ((List.range MSG_BUFFER_SIZE).map burstMessage).foldl enqueue emptyBuffer

/-- An event of one node's loop: an iteration of the drain loop on the message
`m`, or a pass through the code after the drain loop. -/
inductive loopEvent where
  | message (m : message)
  | pass

/-- One node's loop over a sequence of events: the final thread state and,
for every pass that moved the cursor, the new cursor, the instruction then in
`current_instr` and the value that `awaiting_response` had before the pass,
in order. -/
def loopRun (k : Nat) : threadState → List loopEvent →
    Option (threadState × List (Int × instruction × Nat))
  | t, [] => some (t, [])
  | t, .message m :: es =>
      match dispatch k (rearm t) m with
      | none => none
      | some (t1, _) => loopRun k t1 es
  | t, .pass :: es =>
      match loopRun k (afterDrain k t).1 es with
      | none => none
      | some (t2, tr) =>
          some (t2,
            if (afterDrain k t).1.instr_counter ≠ t.instr_counter then
              ((afterDrain k t).1.instr_counter, (afterDrain k t).1.current_instr,
                t.awaiting_response) :: tr
            else tr)

/-- Node 0 with the program `RD 0x10; WR 0x10 5`. -/
def readThenWrite : threadState :=
  freshThread 0 [{ type := 82, address := 0x10, value := 0 },
    { type := 87, address := 0x10, value := 5 }]

/-! ## Definitions for the dump, the scenario and the lock statements -/

/-- The number of calls of `printProcessorState` made by one node's loop over
a sequence of events. -/
def dumpCount (k : Nat) : threadState → List loopEvent → Option Nat
  | _, [] => some 0
  | t, .message m :: es =>
      match dispatch k (rearm t) m with
      | none => none
      | some (t1, _) => dumpCount k t1 es
  | t, .pass :: es =>
      match dumpCount k (afterDrain k t).1 es with
      | none => none
      | some n => some (if (afterDrain k t).2.2 then n + 1 else n)

/-- The number of drain-loop iterations among the events. -/
def messagesIn : List loopEvent → Nat
  | [] => 0
  | .message _ :: es => messagesIn es + 1
  | .pass :: es => messagesIn es

/-- Scenario 3: nodes 0 and 2 each read `0x10`. -/
def sharedReaders : List (List instruction) :=
  [[{ type := 82, address := 0x10, value := 0 }], [],
   [{ type := 82, address := 0x10, value := 0 }], []]

/-- Node 0 issues its read and receives the reply of home 1; node 2 then
issues its read, home 1 forwards it to the owner 0, node 0 flushes to home 1
and to node 2, and both dispatch the `FLUSH`. -/
def sharedReadersSchedule : List action :=
  [.tail 0, .drain 1, .drain 0, .tail 2, .drain 1, .drain 0, .drain 1, .drain 2]

/-- The same run with the two `FLUSH` messages dispatched in the other order. -/
def sharedReadersSchedule2 : List action :=
  [.tail 0, .drain 1, .drain 0, .tail 2, .drain 1, .drain 0, .drain 2, .drain 1]

/-- No inbox holds a message, no node is blocked and every node has issued
all its instructions. -/
def quiescent (g : globalState) : Prop :=
  ∀ k, k < NUM_PROCS →
    (g.message_buffers k).count = 0 ∧ (g.threads k).awaiting_response = 0 ∧
      ¬ (g.threads k).instr_counter < ((g.threads k).local_node.instructionCount : Int) - 1

instance (g : globalState) : Decidable (quiescent g) :=
  inferInstanceAs (Decidable (∀ k, k < NUM_PROCS → _))

/-- The promotion run continued: node 2 dispatches the promotion
`EVICT_SHARED`, and node 0 answers the `WRITEBACK_INV` for `0x10`, so that the
`FLUSH_INVACK` for `0x10` is at the head of node 2's inbox. -/
def strayEvictionSchedule : List action :=
  promotionSchedule ++ [.drain 2, .drain 0]

/-! ## The inbox accesses, statement by statement -/

/-- The shared variables of one inbox: `message_buffers[r]` and the thread
holding `msg_buffer_locks[r]`, if any. -/
structure lockedInbox where
  buf : messageBuffer
  holder : Option Nat

/-- The statements of `sendMessage` (lines 443-454); `count++` on the plain
`int` is a load followed by a store. -/
inductive sendPoint where
  | setLock
  | testCount
  | writeSlot
  | writeTail
  | loadCount
  | storeCount
  | unsetLock
  | finished
  deriving DecidableEq

/-- The statements of the head of one drain-loop iteration (lines 115-125);
`count--` on the plain `int` is a load followed by a store. -/
inductive drainPoint where
  | guard
  | readHead
  | readSlot
  | writeHead
  | loadCount
  | storeCount
  | finished
  deriving DecidableEq

/-- A thread inside `sendMessage`: its next statement and the value of
`count` it has loaded. -/
structure senderState where
  pc : sendPoint
  reg : Nat

/-- The owner inside the drain loop: its next statement, its locals
`queue_head` and `incoming_msg`, and the value of `count` it has loaded. -/
structure ownerState where
  pc : drainPoint
  queue_head : Nat
  incoming_msg : message
  reg : Nat

/-- One statement of `sendMessage(r, msg)` executed by thread `me`;
`omp_set_lock` can only be executed while nobody holds the lock. -/
def sendMicro (me : Nat) (msg : message) (s : lockedInbox) (p : senderState) :
    Option (lockedInbox × senderState) :=
  match p.pc with
  | .setLock =>
      if s.holder = none then some ({ s with holder := some me }, { p with pc := .testCount })
      else none
  | .testCount =>
      if s.buf.count < MSG_BUFFER_SIZE then some (s, { p with pc := .writeSlot })
      else some (s, { p with pc := .unsetLock })
  | .writeSlot =>
      some ({ s with buf := { s.buf with queue := Function.update s.buf.queue s.buf.tail msg } },
            { p with pc := .writeTail })
  | .writeTail =>
      some ({ s with buf := { s.buf with tail := (s.buf.tail + 1) % MSG_BUFFER_SIZE } },
            { p with pc := .loadCount })
  | .loadCount => some (s, { pc := .storeCount, reg := s.buf.count })
  | .storeCount =>
      some ({ s with buf := { s.buf with count := p.reg + 1 } }, { p with pc := .unsetLock })
  | .unsetLock => some ({ s with holder := none }, { p with pc := .finished })
  | .finished => none

/-- One statement of the head of the drain loop executed by the owner of the
inbox (lines 115-125). -/
def drainMicro (s : lockedInbox) (o : ownerState) : Option (lockedInbox × ownerState) :=
  match o.pc with
  | .guard =>
      if drainGuard s.buf then some (s, { o with pc := .readHead })
      else some (s, { o with pc := .finished })
  | .readHead => some (s, { o with pc := .readSlot, queue_head := s.buf.head })
  | .readSlot => some (s, { o with pc := .writeHead, incoming_msg := s.buf.queue o.queue_head })
  | .writeHead =>
      some ({ s with buf := { s.buf with head := (o.queue_head + 1) % MSG_BUFFER_SIZE } },
            { o with pc := .loadCount })
  | .loadCount => some (s, { o with pc := .storeCount, reg := s.buf.count })
  | .storeCount =>
      some ({ s with buf := { s.buf with count := o.reg - 1 } }, { o with pc := .finished })
  | .finished => none

/-- Which of the two threads executes its next statement. -/
inductive mover where
  | sender
  | owner

/-- An inbox, a thread inside `sendMessage` on it, and its owner inside the
drain loop. -/
structure raceState where
  shared : lockedInbox
  sending : senderState
  draining : ownerState

/-- One statement of the thread chosen by the scheduler. -/
def raceStep (me : Nat) (msg : message) (c : raceState) : mover → Option raceState
  | .sender =>
      match sendMicro me msg c.shared c.sending with
      | none => none
      | some (s, p) => some { c with shared := s, sending := p }
  | .owner =>
      match drainMicro c.shared c.draining with
      | none => none
      | some (s, o) => some { c with shared := s, draining := o }

/-- The statements executed along a schedule. -/
def raceRun (me : Nat) (msg : message) : raceState → List mover → Option raceState
  | c, [] => some c
  | c, w :: ws =>
      match raceStep me msg c w with
      | none => none
      | some c1 => raceRun me msg c1 ws

/-- The inbox of node 1 holding one message, with its lock free; node 0 is
about to call `sendMessage` on it and node 1 is about to evaluate the guard of
its drain loop. -/
def raceStart : raceState :=
  { shared := { buf := enqueue emptyBuffer readRequestFrom2, holder := none },
    sending := { pc := .setLock, reg := 0 },
    draining := { pc := .guard, queue_head := 0, incoming_msg := zeroMessage, reg := 0 } }

/-- Node 0 takes the lock, tests `count` and writes the slot; the owner then
runs its guard and its dequeue up to the write of `head`. -/
def raceInterleaving : List mover :=
  [.sender, .sender, .sender, .owner, .owner, .owner, .owner]

/-- The interleaving continued: node 0 advances `tail`, both threads load
`count`, node 0 stores `count + 1`, the owner stores `count - 1`, and node 0
releases the lock. -/
def raceLostUpdate : List mover :=
  raceInterleaving ++ [.sender, .owner, .sender, .sender, .owner, .sender]

/-! ## Executions without overlapping transactions -/

/-- Every inbox is empty. -/
def allEmpty (g : globalState) : Prop :=
  ∀ j, j < NUM_PROCS → (g.message_buffers j).count = 0

instance (g : globalState) : Decidable (allEmpty g) :=
  inferInstanceAs (Decidable (∀ j, j < NUM_PROCS → _))

/-- The states reachable from `g0` when transactions do not overlap: a thread
runs a drain-loop iteration at any time, a pass of the code after the drain
loop that issues no instruction at any time, and a pass that may issue an
instruction only when every inbox is empty, that is, when the previous
transaction, with the invalidations and eviction notices it caused, has been
dispatched completely. -/
inductive SerialReachable (g0 : globalState) : globalState → Prop where
  | init : SerialReachable g0 g0
  | drain (g g1 : globalState) (k : Nat) :
      SerialReachable g0 g → k < NUM_PROCS → drainStep g k = some g1 → SerialReachable g0 g1
  | issue (g g1 : globalState) (k : Nat) :
      SerialReachable g0 g → k < NUM_PROCS → allEmpty g → tailStep g k = some g1 →
      SerialReachable g0 g1
  | idle (g g1 : globalState) (k : Nat) :
      SerialReachable g0 g → k < NUM_PROCS →
      (afterDrain k (g.threads k)).1.instr_counter = (g.threads k).instr_counter →
      tailStep g k = some g1 → SerialReachable g0 g1

/-- The effect of a scheduler choice when transactions may not overlap: a pass
of the code after the drain loop is enabled only when every inbox is empty. -/
def serialStep (g : globalState) : action → Option globalState
  | .drain k => if k < NUM_PROCS then drainStep g k else none
  | .tail k => if k < NUM_PROCS ∧ allEmpty g then tailStep g k else none

/-- Run a schedule without overlapping transactions. -/
def serialRun (g : globalState) : List action → Option globalState
  | [] => some g
  | a :: rest =>
      match serialStep g a with
      | none => none
      | some g1 => serialRun g1 rest

/-! ## What the system knows about one address -/

/-- The line in the slot of address `X` in the cache of node `k`. -/
def lineOf (g : globalState) (k X : Nat) : cacheLine :=
  (g.threads k).local_node.cache ((X &&& 0x0F) % CACHE_SIZE)

/-- The state in which a line holds `X`, if it holds `X` at all. -/
def statusOf (l : cacheLine) (X : Nat) : Option cacheLineState :=
  if l.address = X ∧ l.state ≠ .INVALID then some l.state else none

/-- The messages about `X` waiting in the inbox of node `k`, oldest first. -/
def viewOf (g : globalState) (k X : Nat) : List message :=
  (inFlight (g.message_buffers k)).filter (fun m => decide (m.address = X))

/-- The part of the global state that concerns one address: its home entry,
the state in which each node holds it, and the messages about it waiting in
each inbox. -/
structure addrObs where
  dir : directoryEntry
  st : Nat → Option cacheLineState
  view : Nat → List message

/-- The part of `g` that concerns the address `X`. -/
def obsOf (g : globalState) (X : Nat) : addrObs :=
  { dir := homeEntry g X,
    st := fun j => if j < NUM_PROCS then statusOf (lineOf g j X) X else none,
    view := fun j => if j < NUM_PROCS then viewOf g j X else [] }

/-- The home entry and the caches agree: `U` with no sharer and no holder;
`EM` with one sharer, who is the only holder and holds the address in
`MODIFIED` or `EXCLUSIVE`; `S` with the holders as sharers, all in `SHARED`. -/
def agreesO (o : addrObs) : Prop :=
  (o.dir.state = .U → o.dir.bitVector = 0 ∧ ∀ j, o.st j = none) ∧
  (o.dir.state = .EM →
    ∃ w x, w < NUM_PROCS ∧ o.dir.bitVector = 2 ^ w ∧ (x = .MODIFIED ∨ x = .EXCLUSIVE) ∧
      ∀ j, o.st j = if j = w then some x else none) ∧
  (o.dir.state = .S →
    o.dir.bitVector < 16 ∧
    ∀ j, o.st j = if o.dir.bitVector.testBit j = true then some .SHARED else none)

/-- The address is at rest: entry and caches agree and no message about it is
waiting. -/
def stableO (o : addrObs) : Prop :=
  agreesO o ∧ ∀ j, o.view j = []

/-- The phases of the transaction on `A` in which the requester has not yet
installed `A`: the request waits at the home (`req`); the home has forwarded
it to the owner (`fwdInt`, `fwdInv`); a reply waits at the requester (`grant`,
`replyS`, `replyID`); the owner has flushed (`flush2`, `flushInv`). -/
inductive prePhaseO (o : addrObs) (A : Nat) : Prop where
  | req (R : Nat) (m : message) :
      R < NUM_PROCS → (A >>> 4) &&& 0x0F < NUM_PROCS → agreesO o →
      (∀ j, o.view j = if j = (A >>> 4) &&& 0x0F then [m] else []) → m.sender = R →
      (((m.type = .READ_REQUEST ∨ m.type = .WRITE_REQUEST) ∧ o.st R = none) ∨
        (m.type = .UPGRADE ∧ o.st R = some .SHARED)) →
      prePhaseO o A
  | fwdInt (R O : Nat) (m : message) (x : cacheLineState) :
      R < NUM_PROCS → O < NUM_PROCS → O ≠ R → (A >>> 4) &&& 0x0F < NUM_PROCS →
      (∀ j, o.view j = if j = O then [m] else []) →
      m.type = .WRITEBACK_INT → m.secondReceiver = R →
      o.dir = { bitVector := 2 ^ O, state := .EM } →
      (x = .MODIFIED ∨ x = .EXCLUSIVE) →
      (∀ j, o.st j = if j = O then some x else none) →
      prePhaseO o A
  | fwdInv (R O : Nat) (m : message) (x : cacheLineState) :
      R < NUM_PROCS → O < NUM_PROCS → O ≠ R → (A >>> 4) &&& 0x0F < NUM_PROCS →
      (∀ j, o.view j = if j = O then [m] else []) →
      m.type = .WRITEBACK_INV → m.secondReceiver = R →
      o.dir = { bitVector := 2 ^ R, state := .EM } →
      (x = .MODIFIED ∨ x = .EXCLUSIVE) →
      (∀ j, o.st j = if j = O then some x else none) →
      prePhaseO o A
  | grant (R : Nat) (m : message) :
      R < NUM_PROCS → (∀ j, o.view j = if j = R then [m] else []) →
      ((m.type = .REPLY_RD ∧ m.dirState ≠ .S) ∨ m.type = .REPLY_WR) →
      o.dir = { bitVector := 2 ^ R, state := .EM } →
      (∀ j, o.st j = none) →
      prePhaseO o A
  | replyS (R : Nat) (m : message) :
      R < NUM_PROCS → (∀ j, o.view j = if j = R then [m] else []) →
      ((m.type = .REPLY_RD ∧ m.dirState = .S) ∨
        (m.type = .FLUSH ∧ m.secondReceiver = R ∧ R ≠ (A >>> 4) &&& 0x0F)) →
      o.dir.state = .S → o.dir.bitVector < 16 → o.dir.bitVector.testBit R = true →
      (∀ j, o.st j =
        if j ≠ R ∧ o.dir.bitVector.testBit j = true then some .SHARED else none) →
      prePhaseO o A
  | flush2 (R O : Nat) (m : message) :
      R < NUM_PROCS → O < NUM_PROCS → O ≠ R → (A >>> 4) &&& 0x0F < NUM_PROCS →
      m.type = .FLUSH → m.secondReceiver = R →
      (∀ j, o.view j = if j = (A >>> 4) &&& 0x0F ∨ j = R then [m] else []) →
      o.dir = { bitVector := 2 ^ O, state := .EM } →
      (∀ j, o.st j = if j = O then some .SHARED else none) →
      prePhaseO o A
  | replyID (R : Nat) (m : message) :
      R < NUM_PROCS → (∀ j, o.view j = if j = R then [m] else []) → m.type = .REPLY_ID →
      m.bitVector < 16 → m.bitVector.testBit R = false →
      o.dir = { bitVector := 2 ^ R, state := .EM } →
      (o.st R = none ∨ o.st R = some .SHARED) →
      (∀ j, j ≠ R → o.st j = if m.bitVector.testBit j = true then some .SHARED else none) →
      prePhaseO o A
  | flushInv (R : Nat) (m : message) :
      R < NUM_PROCS → (A >>> 4) &&& 0x0F < NUM_PROCS →
      m.type = .FLUSH_INVACK → m.secondReceiver = R →
      o.dir = { bitVector := 2 ^ R, state := .EM } →
      (∀ j, o.st j = none) →
      (∀ j, j ≠ (A >>> 4) &&& 0x0F → j ≠ R → o.view j = []) →
      (R ≠ (A >>> 4) &&& 0x0F →
        o.view R = [m] ∧ (o.view ((A >>> 4) &&& 0x0F) = [m] ∨ o.view ((A >>> 4) &&& 0x0F) = [])) →
      (R = (A >>> 4) &&& 0x0F → o.view R = [m, m]) →
      prePhaseO o A

/-- The phases of the transaction on `A` after the requester has installed
`A`, the state at rest included: the home has yet to dispatch the `FLUSH`
(`flushH`) or the `FLUSH_INVACK` (`flushInv`), or the sharers have yet to
dispatch their `INV` (`inv`). -/
inductive postPhaseO (o : addrObs) (A : Nat) : Prop where
  | stable : stableO o → postPhaseO o A
  | flushH (R O : Nat) (m : message) :
      R < NUM_PROCS → O < NUM_PROCS → O ≠ R → (A >>> 4) &&& 0x0F < NUM_PROCS →
      R ≠ (A >>> 4) &&& 0x0F →
      (∀ j, o.view j = if j = (A >>> 4) &&& 0x0F then [m] else []) →
      m.type = .FLUSH → m.secondReceiver = R →
      o.dir = { bitVector := 2 ^ O, state := .EM } →
      (∀ j, o.st j = if j = O ∨ j = R then some .SHARED else none) →
      postPhaseO o A
  | inv (R : Nat) :
      R < NUM_PROCS → o.dir = { bitVector := 2 ^ R, state := .EM } →
      o.st R = some .MODIFIED → o.view R = [] →
      (∀ j, j ≠ R →
        (o.st j = some .SHARED ∧ ∃ m, o.view j = [m] ∧ m.type = .INV) ∨
        (o.st j = none ∧ o.view j = [])) →
      postPhaseO o A
  | flushInv (R : Nat) (m : message) :
      R < NUM_PROCS → (A >>> 4) &&& 0x0F < NUM_PROCS →
      m.type = .FLUSH_INVACK → m.secondReceiver = R →
      o.dir = { bitVector := 2 ^ R, state := .EM } →
      (∀ j, o.st j = if j = R then some .MODIFIED else none) →
      (∀ j, j ≠ (A >>> 4) &&& 0x0F → o.view j = []) →
      (o.view ((A >>> 4) &&& 0x0F) = [m] ∨ o.view ((A >>> 4) &&& 0x0F) = []) →
      postPhaseO o A

/-- The phases of the eviction of `B` from the cache of a node, the state at
rest included: the notice waits at the home (`notice`, `writeback`), or the
home has told the last sharer that it is now the owner (`promote`). -/
inductive evictPhaseO (o : addrObs) (B : Nat) : Prop where
  | stable : stableO o → evictPhaseO o B
  | notice (R : Nat) (m : message) :
      R < NUM_PROCS → (B >>> 4) &&& 0x0F < NUM_PROCS →
      (∀ j, o.view j = if j = (B >>> 4) &&& 0x0F then [m] else []) →
      m.type = .EVICT_SHARED → m.sender = R →
      ((o.dir = { bitVector := 2 ^ R, state := .EM } ∧ ∀ j, o.st j = none) ∨
        (o.dir.state = .S ∧ o.dir.bitVector < 16 ∧ o.dir.bitVector.testBit R = true ∧
          ∀ j, o.st j =
            if j ≠ R ∧ o.dir.bitVector.testBit j = true then some .SHARED else none)) →
      evictPhaseO o B
  | writeback (R : Nat) (m : message) :
      R < NUM_PROCS → (B >>> 4) &&& 0x0F < NUM_PROCS →
      (∀ j, o.view j = if j = (B >>> 4) &&& 0x0F then [m] else []) →
      m.type = .EVICT_MODIFIED →
      o.dir = { bitVector := 2 ^ R, state := .EM } → (∀ j, o.st j = none) →
      evictPhaseO o B
  | promote (x : Nat) (m : message) :
      x < NUM_PROCS → x ≠ (B >>> 4) &&& 0x0F →
      (∀ j, o.view j = if j = x then [m] else []) → m.type = .EVICT_SHARED →
      o.dir = { bitVector := 2 ^ x, state := .EM } →
      (∀ j, o.st j = if j = x then some .SHARED else none) →
      evictPhaseO o B

/-- Every line that is not `INVALID` sits in the slot of its address, and its
address is a byte. -/
def slotsOK (g : globalState) : Prop :=
  ∀ k, k < NUM_PROCS → ∀ s,
    ((g.threads k).local_node.cache s).state ≠ .INVALID →
      ((g.threads k).local_node.cache s).address < 256 ∧
      (((g.threads k).local_node.cache s).address &&& 0x0F) % CACHE_SIZE = s

/-- Every thread still runs the program it was initialised with. -/
def programsOK (progs : Nat → List instruction) (g : globalState) : Prop :=
  ∀ k, k < NUM_PROCS →
    (g.threads k).local_node.instructions =
      (fun i => ((progs k).take MAX_INSTR_NUM).getD i { type := 0, address := 0, value := 0 }) ∧
    (g.threads k).local_node.instructionCount = ((progs k).take MAX_INSTR_NUM).length ∧
    -1 ≤ (g.threads k).instr_counter

/-- The invariant of the executions without overlapping transactions: at most
one transaction, on an address `A`, and at most one eviction, of an address
`B`, are in progress; before the requester installs `A` no eviction is in
progress; every other address is at rest. -/
def coherent (progs : Nat → List instruction) (g : globalState) : Prop :=
  (∀ j, j < NUM_PROCS → bufferOK (g.message_buffers j)) ∧ slotsOK g ∧ programsOK progs g ∧
  ∃ A B, A < 256 ∧ B < 256 ∧ A ≠ B ∧
    (∀ j, j < NUM_PROCS → ∀ m, m ∈ inFlight (g.message_buffers j) →
      m.address = A ∨ m.address = B) ∧
    (∀ X, X < 256 → X ≠ A → X ≠ B → stableO (obsOf g X)) ∧
    ((prePhaseO (obsOf g A) A ∧ stableO (obsOf g B)) ∨
      (postPhaseO (obsOf g A) A ∧ evictPhaseO (obsOf g B) B))

/-- P2 outside the hand-over of ownership: a `MODIFIED` copy of `A` at node
`k` means that the home entry is `EM`, with sharers exactly `{k}` unless a
`WRITEBACK_INV` for `A` is waiting in the inbox of `k`, in which case the
sharers are exactly the node named by its `secondReceiver`. -/
def P2serial (g : globalState) : Prop :=
  ∀ k, k < NUM_PROCS → ∀ A, A < 256 → holdsState g k A .MODIFIED →
    (homeEntry g A).state = .EM ∧
    ((homeEntry g A).bitVector = 2 ^ k ∨
      ∃ m, m ∈ inFlight (g.message_buffers k) ∧ m.type = .WRITEBACK_INV ∧ m.address = A ∧
        (homeEntry g A).bitVector = 2 ^ m.secondReceiver)

/-! ## The frame of a drain-loop iteration -/

/-- The messages about `X` among those sent to `j`. -/
def sentTo (sends : List (Nat × message)) (j X : Nat) : List message :=
  ((sends.filter (fun p => decide (p.1 = j))).map (fun p => p.2)).filter
    (fun m => decide (m.address = X))

/-- The facts about a drain-loop iteration of thread `k` that the
observations depend on: the new thread state `t1`, the message `m` taken from
the inbox, and the messages `sends` appended to the inboxes. -/
structure drained (g g1 : globalState) (k : Nat) (m : message) (t1 : threadState)
    (sends : List (Nat × message)) (rest : List message) : Prop where
  node : k < NUM_PROCS
  threads : g1.threads = Function.update g.threads k t1
  head : inFlight (g.message_buffers k) = m :: rest
  inbox : ∀ j, j < NUM_PROCS → inFlight (g1.message_buffers j) =
    (if j = k then rest else inFlight (g.message_buffers j)) ++
      (sends.filter (fun p => decide (p.1 = j))).map (fun p => p.2)

/-- The context of a drain-loop iteration in a state that satisfies the
invariant with the transaction address `A` and the eviction address `B`. -/
structure stepCtx (progs : Nat → List instruction) (g g1 : globalState) (k : Nat)
    (m : message) (t1 : threadState) (sends : List (Nat × message)) (rest : List message)
    (A B : Nat) : Prop where
  hs : drained g g1 k m t1 sends rest
  hd : dispatch k (rearm (g.threads k)) m = some (t1, sends)
  hb1 : ∀ j, j < NUM_PROCS → bufferOK (g1.message_buffers j)
  hrecv : ∀ p, p ∈ sends → p.1 < NUM_PROCS
  hslots : slotsOK g
  hprog : programsOK progs g
  hA : A < 256
  hB : B < 256
  hAB : A ≠ B
  hmsgs : ∀ j, j < NUM_PROCS → ∀ x, x ∈ inFlight (g.message_buffers j) →
    x.address = A ∨ x.address = B
  hoth : ∀ X, X < 256 → X ≠ A → X ≠ B → stableO (obsOf g X)

/-! ## Runs without overlapping transactions, and runs that relax the rule -/

/-- The run of `twoWriters` without overlapping transactions, up to the
hand-over of 0x10: node 0 has completed its write, node 3 has issued its
write, and the home has dispatched the `WRITE_REQUEST` of node 3, so that the
`WRITEBACK_INV` waits in the inbox of node 0. -/
def twoWritersHandover : List action :=
  [.tail 0, .drain 1, .drain 0, .tail 3, .drain 1]

/-- The run of `twoWriters` without overlapping transactions to its end: node
0 has handed 0x10 over, node 3 holds it, and every inbox is empty. -/
def twoWritersDone : List action :=
  [.tail 0, .drain 1, .drain 0, .tail 3, .drain 1, .drain 0, .drain 1, .drain 3]

/-- A run of `twoUpgraders` without overlapping transactions: node 0 reads
0x10, then node 1 reads it, so that both share it; node 0 then writes it.  The
run stops after node 0 has dispatched the `REPLY_ID`, while the `INV` for
node 1 is still waiting. -/
def sharedThenWrite : List action :=
  [.tail 0, .drain 1, .drain 0, .tail 1, .drain 1, .drain 0, .drain 1,
   .tail 0, .drain 1, .drain 0]

/-- Every message waiting in an inbox has a type in `allowed`. -/
def onlyInFlight (allowed : transactionType → Bool) (g : globalState) : Prop :=
  ∀ j, j < NUM_PROCS → ∀ m, m ∈ inFlight (g.message_buffers j) → allowed m.type = true

instance (allowed : transactionType → Bool) (g : globalState) :
    Decidable (onlyInFlight allowed g) :=
  inferInstanceAs (Decidable (∀ j, j < NUM_PROCS → ∀ m, m ∈ _ → _))

/-- The effect of a scheduler choice under a relaxed rule: a pass of the code
after the drain loop is enabled when the messages still waiting all have a
type in `allowed`. -/
def relaxedStep (allowed : transactionType → Bool) (g : globalState) :
    action → Option globalState
  | .drain k => if k < NUM_PROCS then drainStep g k else none
  | .tail k => if k < NUM_PROCS ∧ onlyInFlight allowed g then tailStep g k else none

/-- Run a schedule under a relaxed rule. -/
def relaxedRun (allowed : transactionType → Bool) (g : globalState) :
    List action → Option globalState
  | [] => some g
  | a :: rest =>
      match relaxedStep allowed g a with
      | none => none
      | some g1 => relaxedRun allowed g1 rest

/-- The invalidations. -/
def invType : transactionType → Bool
  | .INV => true
  | _ => false

/-- The eviction notices. -/
def noticeType : transactionType → Bool
  | .EVICT_SHARED => true
  | .EVICT_MODIFIED => true
  | _ => false

/-- Nodes 0 and 2 each read 0x20 and then write it. -/
def invOverlap : List (List instruction) :=
  [[{ type := 82, address := 0x20, value := 0 }, { type := 87, address := 0x20, value := 5 }],
   [],
   [{ type := 82, address := 0x20, value := 0 }, { type := 87, address := 0x20, value := 7 }],
   []]

/-- Both nodes come to share 0x20 and node 0 completes its write; node 2
issues its write while the `INV` sent by node 0 is still waiting in its
inbox, and completes it. -/
def invOverlapSchedule : List action :=
  [.tail 0, .drain 2, .drain 0, .tail 2, .drain 2, .drain 0, .drain 2,
   .tail 0, .drain 2, .drain 0, .tail 2, .drain 2, .drain 2, .drain 2]

/-- Node 0 reads 0x20 and 0x10, node 2 reads 0x20 and 0x14, node 3 writes
0x10; the three addresses share cache slot 0. -/
def noticeOverlap : List (List instruction) :=
  [[{ type := 82, address := 0x20, value := 0 }, { type := 82, address := 0x10, value := 0 }],
   [],
   [{ type := 82, address := 0x20, value := 0 }, { type := 82, address := 0x14, value := 0 }],
   [{ type := 87, address := 0x10, value := 9 }]]

/-- Nodes 0 and 2 share 0x20; node 2 replaces it by 0x14 and node 0 replaces
it by 0x10 while the notice of node 2 is waiting; node 3 writes 0x10 while
both notices are waiting.  The home of 0x20 then promotes node 0, whose slot
holds the invalidated line of 0x10. -/
def noticeOverlapSchedule : List action :=
  [.tail 0, .drain 2, .drain 0, .tail 2, .drain 2, .drain 0, .drain 2,
   .tail 2, .drain 1, .drain 2, .tail 0, .drain 1, .drain 0,
   .tail 3, .drain 1, .drain 0, .drain 2, .drain 0, .drain 3]

/-- Node 0 reads 0x10, reads 0x20 and writes 0x20; node 3 reads 0x10 and
0x20; the two addresses share cache slot 0. -/
def noticeOverlapWrite : List (List instruction) :=
  [[{ type := 82, address := 0x10, value := 0 }, { type := 82, address := 0x20, value := 0 },
    { type := 87, address := 0x20, value := 5 }],
   [], [],
   [{ type := 82, address := 0x10, value := 0 }, { type := 82, address := 0x20, value := 0 }]]

/-- Nodes 0 and 3 share 0x10; node 3 replaces it by 0x20 and node 0 reads
0x20 while the notice of node 3 is waiting, so that both share 0x20.  The home
of 0x10 then promotes node 0, whose slot holds 0x20; the write of node 0 hits
the line. -/
def noticeOverlapWriteSchedule : List action :=
  [.tail 0, .drain 1, .drain 0, .tail 3, .drain 1, .drain 0, .drain 1, .drain 3,
   .tail 3, .drain 2, .drain 3, .tail 0, .drain 2, .drain 3, .drain 0,
   .drain 1, .drain 0, .drain 2, .tail 0]

/-! ## Bit-level facts about the sharer vector -/

theorem one_shl_mod {s : Nat} (h : s < 8) : (1 <<< s) % 256 = 2 ^ s := by
  rw [Nat.one_shiftLeft]
  interval_cases s <;> rfl

theorem notBit_eq {s : Nat} (h : s < 32) : notBit s = 2 ^ 32 - (2 ^ s + 1) := by
  unfold notBit
  rw [Nat.one_shiftLeft]
  have : 2 ^ s < 2 ^ 32 := Nat.pow_lt_pow_right (by norm_num) h
  omega

theorem testBit_notBit {s : Nat} (h : s < 32) (i : Nat) :
    (notBit s).testBit i = (decide (i < 32) && decide (i ≠ s)) := by
  rw [notBit_eq h, Nat.testBit_two_pow_sub_succ (Nat.pow_lt_pow_right (by norm_num) h),
    Nat.testBit_two_pow]
  by_cases h1 : s = i <;> simp [h1, eq_comm]

theorem testBit_clear (b : Nat) {s : Nat} (h : s < 32) (i : Nat) :
    ((b &&& notBit s) % 256).testBit i = (decide (i < 8) && (b.testBit i && decide (i ≠ s))) := by
  have e : (256 : Nat) = 2 ^ 8 := by norm_num
  rw [e, Nat.testBit_mod_two_pow, Nat.testBit_and, testBit_notBit h]
  by_cases h8 : i < 8
  · have : i < 32 := by omega
    simp [h8, this]
  · simp [h8]

theorem testBit_set (b s i : Nat) :
    ((b ||| (1 <<< s)) % 256).testBit i = (decide (i < 8) && (b.testBit i || decide (i = s))) := by
  have e : (256 : Nat) = 2 ^ 8 := by norm_num
  rw [e, Nat.testBit_mod_two_pow, Nat.testBit_or, Nat.one_shiftLeft, Nat.testBit_two_pow]
  by_cases h1 : s = i <;> simp [h1, eq_comm]

theorem testBit_byte {b : Nat} (hb : b < 256) {i : Nat} (hi : 8 ≤ i) : b.testBit i = false := by
  apply Nat.testBit_lt_two_pow
  calc b < 2 ^ 8 := by simpa using hb
    _ ≤ 2 ^ i := Nat.pow_le_pow_right (by norm_num) hi

theorem popcount_mono {x y : Nat} (h : ∀ i, i < 32 → x.testBit i = true → y.testBit i = true) :
    builtin_popcount x ≤ builtin_popcount y := by
  unfold builtin_popcount
  rw [← List.countP_eq_length_filter, ← List.countP_eq_length_filter]
  apply List.countP_mono_left
  intro i hi
  exact h i (List.mem_range.mp hi)

theorem popcount_clear_le (b s : Nat) (h : s < 32) :
    builtin_popcount ((b &&& notBit s) % 256) ≤ builtin_popcount b := by
  apply popcount_mono
  intro i _ hi
  rw [testBit_clear b h] at hi
  simp at hi
  exact hi.2.1

theorem popcount_two_pow {s : Nat} (h : s < 8) : builtin_popcount (2 ^ s) = 1 := by
  interval_cases s <;> rfl

theorem ctz_isSome_of_popcount {x : Nat} (h : builtin_popcount x ≠ 0) :
    ∃ o, builtin_ctz x = some o := by
  unfold builtin_popcount at h
  unfold builtin_ctz
  cases hf : (List.range 32).find? (fun i => Nat.testBit x i) with
  | some o => exact ⟨o, rfl⟩
  | none =>
    exfalso
    apply h
    rw [List.find?_eq_none] at hf
    rw [List.length_eq_zero, List.filter_eq_nil_iff]
    exact hf

set_option maxRecDepth 100000 in
theorem popcount_zero_byte : ∀ x, x < 256 → builtin_popcount x = 0 → x = 0 := by
  decide

set_option maxRecDepth 100000 in
theorem ctz_byte : ∀ x, x < 256 → x ≠ 0 →
    ∃ o, o < 8 ∧ builtin_ctz x = some o ∧ x.testBit o = true ∧ ∀ j, j < o → x.testBit j = false := by
  decide

theorem testBit_clear_byte {b : Nat} (hb : b < 256) {s : Nat} (h : s < 32) (i : Nat) :
    ((b &&& notBit s) % 256).testBit i = (b.testBit i && decide (i ≠ s)) := by
  rw [testBit_clear b h]
  by_cases h8 : i < 8
  · simp [h8]
  · simp [h8, testBit_byte hb (Nat.le_of_not_lt h8)]

theorem testBit_set_byte {b : Nat} (hb : b < 256) {s : Nat} (h : s < 8) (i : Nat) :
    ((b ||| (1 <<< s)) % 256).testBit i = (b.testBit i || decide (i = s)) := by
  rw [testBit_set]
  by_cases h8 : i < 8
  · simp [h8]
  · have : i ≠ s := by omega
    simp [h8, testBit_byte hb (Nat.le_of_not_lt h8), this]

set_option maxRecDepth 100000 in
theorem popcount_one_byte : ∀ x, x < 256 → builtin_popcount x = 1 →
    ∃ o, o < 8 ∧ builtin_ctz x = some o ∧ x = 2 ^ o := by
  decide

/-! ## Field projections of the update helpers -/

@[simp] theorem setCache_directory (t : threadState) (i : Nat) (c : cacheLine) :
    (setCache t i c).local_node.directory = t.local_node.directory := rfl
@[simp] theorem setCache_memory (t : threadState) (i : Nat) (c : cacheLine) :
    (setCache t i c).local_node.memory = t.local_node.memory := rfl
@[simp] theorem setCache_cache (t : threadState) (i : Nat) (c : cacheLine) :
    (setCache t i c).local_node.cache = Function.update t.local_node.cache i c := rfl
@[simp] theorem setCache_awaiting (t : threadState) (i : Nat) (c : cacheLine) :
    (setCache t i c).awaiting_response = t.awaiting_response := rfl
@[simp] theorem setCache_current_instr (t : threadState) (i : Nat) (c : cacheLine) :
    (setCache t i c).current_instr = t.current_instr := rfl
@[simp] theorem setMemory_directory (t : threadState) (i v : Nat) :
    (setMemory t i v).local_node.directory = t.local_node.directory := rfl
@[simp] theorem setMemory_memory (t : threadState) (i v : Nat) :
    (setMemory t i v).local_node.memory = Function.update t.local_node.memory i v := rfl
@[simp] theorem setMemory_cache (t : threadState) (i v : Nat) :
    (setMemory t i v).local_node.cache = t.local_node.cache := rfl
@[simp] theorem setMemory_awaiting (t : threadState) (i v : Nat) :
    (setMemory t i v).awaiting_response = t.awaiting_response := rfl
@[simp] theorem setMemory_current_instr (t : threadState) (i v : Nat) :
    (setMemory t i v).current_instr = t.current_instr := rfl
@[simp] theorem setDirectory_directory (t : threadState) (i : Nat) (d : directoryEntry) :
    (setDirectory t i d).local_node.directory = Function.update t.local_node.directory i d := rfl
@[simp] theorem setDirectory_memory (t : threadState) (i : Nat) (d : directoryEntry) :
    (setDirectory t i d).local_node.memory = t.local_node.memory := rfl
@[simp] theorem setDirectory_cache (t : threadState) (i : Nat) (d : directoryEntry) :
    (setDirectory t i d).local_node.cache = t.local_node.cache := rfl
@[simp] theorem setDirectory_awaiting (t : threadState) (i : Nat) (d : directoryEntry) :
    (setDirectory t i d).awaiting_response = t.awaiting_response := rfl
@[simp] theorem setDirectory_current_instr (t : threadState) (i : Nat) (d : directoryEntry) :
    (setDirectory t i d).current_instr = t.current_instr := rfl

theorem dirEmSingleton_update {dir : Nat → directoryEntry} (h : dirEmSingleton dir) (o : Nat)
    (d : directoryEntry) (hd : d.state = .EM → builtin_popcount d.bitVector = 1) :
    dirEmSingleton (Function.update dir o d) := by
  intro i hi
  by_cases hio : i = o
  · subst hio; simpa using hd
  · simpa [Function.update_noteq hio] using h i hi

theorem offset_lt (a : Nat) : a &&& 0x0F < MEM_SIZE :=
  Nat.lt_of_le_of_lt Nat.and_le_right (by decide)

theorem dirUnownedEmpty_update {dir : Nat → directoryEntry} (h : dirUnownedEmpty dir) (o : Nat)
    (d : directoryEntry) (hd : d.state = .U → d.bitVector = 0) :
    dirUnownedEmpty (Function.update dir o d) := by
  intro i hi
  by_cases hio : i = o
  · subst hio; simpa using hd
  · simpa [Function.update_noteq hio] using h i hi

/-! ## Evaluating schedules -/

theorem run_check {g0 : globalState} {s : List action} (P : globalState → Prop)
    [∀ g, Decidable (P g)] (h : (run g0 s).any (fun g => decide (P g)) = true) :
    ∃ g, run g0 s = some g ∧ P g := by
  cases hr : run g0 s with
  | none => simp [hr] at h
  | some g => exact ⟨g, rfl, by simpa [hr] using h⟩

/-! ## Reading back a completed write -/

theorem readsBack_of_holdsWritten (X : Nat) (t : threadState) (A v : Nat)
    (h : holdsWritten t A v) : readsBack X t A v := by
  intro v0 hn
  obtain ⟨ha, hc, hi⟩ := hn
  obtain ⟨hl, _⟩ := h
  have hlt : ¬ (t.awaiting_response > 0) := by omega
  simp only [afterDrain, hlt, hc, ↓reduceIte, issue, hi, hl]
  simp [hl, ha]

/-! ## Schedules and reachability -/

theorem reachable_of_run (g0 : globalState) (s : List action) :
    ∀ g1, Reachable g0 g1 → ∀ g2, run g1 s = some g2 → Reachable g0 g2 := by
  induction s with
  | nil => intro g1 h1 g2 h; simp only [run, Option.some.injEq] at h; exact h ▸ h1
  | cons a rest ih =>
    intro g1 h1 g2 h
    simp only [run] at h
    cases hs : step g1 a with
    | none => simp [hs] at h
    | some g =>
      simp only [hs] at h
      refine ih g ?_ g2 h
      cases a with
      | drain k =>
        simp only [step] at hs
        split at hs
        · rename_i hk; exact Reachable.drain g1 g k h1 hk hs
        · cases hs
      | tail k =>
        simp only [step] at hs
        split at hs
        · rename_i hk; exact Reachable.tail g1 g k h1 hk.1 hs
        · cases hs

theorem homed_progsOf (l : List (List instruction))
    (h : ∀ p ∈ l, ∀ ins ∈ p, ins.address < 256 ∧ (ins.address >>> 4) &&& 0x0F < NUM_PROCS) :
    homed (progsOf l) := by
  intro k ins hin
  unfold progsOf at hin
  by_cases hk : k < l.length
  · rw [List.getD_eq_getElem _ _ hk] at hin
    exact h _ (List.getElem_mem hk) ins hin
  · rw [List.getD_eq_default _ _ (Nat.le_of_not_lt hk)] at hin
    cases hin

/-! ## The ring buffer -/

theorem bufferOK_enqueue {b : messageBuffer} (hb : bufferOK b) (m : message) :
    bufferOK (enqueue b m) := by
  unfold enqueue
  split
  · unfold bufferOK at hb ⊢
    obtain ⟨hh, hc, ht⟩ := hb
    unfold MSG_BUFFER_SIZE at *
    refine ⟨hh, by simp only; omega, ?_⟩
    simp only [ht]
    omega
  · exact hb

theorem inFlight_dequeue {b : messageBuffer} (hb : bufferOK b) (hg : drainGuard b = true) :
    inFlight b = (dequeue b).1 :: inFlight (dequeue b).2 := by
  obtain ⟨hh, hc, ht⟩ := hb
  have hpos : 0 < b.count := by
    unfold drainGuard at hg
    simp only [Bool.and_eq_true, decide_eq_true_eq] at hg
    exact hg.1
  unfold inFlight dequeue
  unfold MSG_BUFFER_SIZE at *
  obtain ⟨n, hn⟩ : ∃ n, b.count = n + 1 := ⟨b.count - 1, by omega⟩
  simp only [hn, Nat.add_sub_cancel]
  rw [List.range_succ_eq_map]
  simp only [List.map_cons, List.map_map, Nat.add_zero, Nat.mod_eq_of_lt hh]
  congr 1
  apply List.map_congr_left
  intro j _
  simp only [Function.comp]
  congr 1
  omega

theorem bufferOK_dequeue {b : messageBuffer} (hb : bufferOK b) (hg : drainGuard b = true) :
    bufferOK (dequeue b).2 := by
  unfold bufferOK at hb
  obtain ⟨hh, hc, ht⟩ := hb
  have hpos : 0 < b.count := by
    unfold drainGuard at hg
    simp only [Bool.and_eq_true, decide_eq_true_eq] at hg
    exact hg.1
  unfold dequeue
  unfold bufferOK
  unfold MSG_BUFFER_SIZE at *
  refine ⟨Nat.mod_lt _ (by norm_num), by simp only; omega, ?_⟩
  simp only [ht]
  omega

/-! ## General facts about the handlers -/

@[simp] theorem rearm_local_node (t : threadState) : (rearm t).local_node = t.local_node := by
  unfold rearm; split <;> rfl
@[simp] theorem rearm_instr_counter (t : threadState) :
    (rearm t).instr_counter = t.instr_counter := by
  unfold rearm; split <;> rfl
@[simp] theorem rearm_current_instr (t : threadState) :
    (rearm t).current_instr = t.current_instr := by
  unfold rearm; split <;> rfl
@[simp] theorem rearm_awaiting (t : threadState) :
    (rearm t).awaiting_response = t.awaiting_response := by
  unfold rearm; split <;> rfl

theorem mem_handleCacheReplacement {sender : Nat} {line : cacheLine} {p : Nat × message}
    (hp : p ∈ handleCacheReplacement sender line) :
    p.2.type = .EVICT_SHARED ∨ p.2.type = .EVICT_MODIFIED := by
  unfold handleCacheReplacement at hp
  simp only at hp
  split at hp
  · simp only [List.mem_singleton] at hp; subst hp; exact Or.inl rfl
  · simp only [List.mem_singleton] at hp; subst hp; exact Or.inl rfl
  · simp only [List.mem_singleton] at hp; subst hp; exact Or.inr rfl
  · cases hp

theorem mem_replaceIfOther {k : Nat} {line : cacheLine} {a : Nat} {p : Nat × message}
    (hp : p ∈ replaceIfOther k line a) :
    p.2.type = .EVICT_SHARED ∨ p.2.type = .EVICT_MODIFIED := by
  unfold replaceIfOther at hp
  split at hp
  · exact mem_handleCacheReplacement hp
  · cases hp

theorem mem_invLoop {k : Nat} {m : message} {p : Nat × message} (hp : p ∈ invLoop k m) :
    p.2.type = .INV := by
  unfold invLoop at hp
  simp only [List.mem_map] at hp
  obtain ⟨i, _, hi⟩ := hp
  rw [← hi]

/-- No handler touches the program, the instruction cursor, `should_print`
or `current_instr`. -/
theorem dispatch_frame (k : Nat) (t : threadState) (m : message) (t1 : threadState)
    (sends : List (Nat × message)) (hd : dispatch k t m = some (t1, sends)) :
    t1.local_node.instructions = t.local_node.instructions ∧
      t1.local_node.instructionCount = t.local_node.instructionCount ∧
      t1.instr_counter = t.instr_counter ∧ t1.should_print = t.should_print ∧
      t1.current_instr = t.current_instr := by
  unfold dispatch at hd
  cases hty : m.type <;> simp only [hty] at hd
  all_goals first
    | unfold case_READ_REQUEST at hd
    | unfold case_WRITE_REQUEST at hd
    | unfold case_REPLY_RD at hd
    | unfold case_REPLY_WR at hd
    | unfold case_REPLY_ID at hd
    | unfold case_INV at hd
    | unfold case_UPGRADE at hd
    | unfold case_WRITEBACK_INV at hd
    | unfold case_WRITEBACK_INT at hd
    | unfold case_FLUSH at hd
    | unfold case_FLUSH_INVACK at hd
    | unfold case_EVICT_SHARED at hd
    | unfold case_EVICT_MODIFIED at hd
  all_goals simp only at hd
  all_goals repeat' split at hd
  all_goals first
    | (cases hd; exact ⟨rfl, rfl, rfl, rfl, rfl⟩)
    | cases hd


/-- The issue code leaves the program alone, never moves the cursor
backwards and never changes the address of a cache line. -/
theorem afterDrain_frame (k : Nat) (t : threadState) :
    (afterDrain k t).1.local_node.instructions = t.local_node.instructions ∧
      (afterDrain k t).1.local_node.instructionCount = t.local_node.instructionCount ∧
      t.instr_counter ≤ (afterDrain k t).1.instr_counter ∧
      ∀ s, ((afterDrain k t).1.local_node.cache s).address = (t.local_node.cache s).address := by
  unfold afterDrain
  split
  · exact ⟨rfl, rfl, le_refl _, fun _ => rfl⟩
  · split
    · simp only [issue]
      repeat' split
      all_goals first
        | exact ⟨rfl, rfl, Int.le_add_one (Int.le_refl _), fun _ => rfl⟩
        | (refine ⟨rfl, rfl, Int.le_add_one (Int.le_refl _), ?_⟩
           intro s
           simp only [setCache_cache, Function.update_apply]
           split
           · rename_i hs; subst hs; rfl
           · rfl)
    · split
      · exact ⟨rfl, rfl, le_refl _, fun _ => rfl⟩
      · exact ⟨rfl, rfl, le_refl _, fun _ => rfl⟩

/-! ## Single steps of the global system -/


/-- What one drain-loop iteration does, spelled out. -/
theorem drainStep_spec {g g1 : globalState} {k : Nat} (h : drainStep g k = some g1) :
    drainGuard (g.message_buffers k) = true ∧
    ∃ t1 sends bufs, dispatch k (rearm (g.threads k)) (headMsg g k) = some (t1, sends) ∧
      deliver (Function.update g.message_buffers k (dequeue (g.message_buffers k)).2) sends
        = some bufs ∧
      g1 = { threads := Function.update g.threads k t1, message_buffers := bufs } := by
  unfold drainStep at h
  simp only at h
  split at h
  · rename_i hguard
    split at h
    · cases h
    · rename_i t1 sends hd
      split at h
      · cases h
      · rename_i bufs hdel
        simp only [Option.some.injEq] at h
        exact ⟨hguard, t1, sends, bufs, hd, hdel, h.symm⟩
  · cases h

/-! ## Eviction notices sent by the handlers -/

theorem home_byte (a : Nat) (h : a < 256) : (a >>> 4) &&& 0x0F = a >>> 4 := by
  have h1 : (a >>> 4) &&& (2 ^ 4 - 1) = (a >>> 4) % 2 ^ 4 := Nat.and_pow_two_sub_one_eq_mod _ 4
  have h2 : a >>> 4 < 16 := by rw [Nat.shiftRight_eq_div_pow]; omega
  have h3 : (a >>> 4) % 2 ^ 4 = a >>> 4 := Nat.mod_eq_of_lt (by simpa using h2)
  simpa using h1.trans h3

theorem filter_eviction_handle (k : Nat) (line : cacheLine) :
    (handleCacheReplacement k line).filter isEviction = handleCacheReplacement k line := by
  unfold handleCacheReplacement
  cases line.state <;> simp [isEviction]

theorem filter_eviction_replace (k : Nat) (line : cacheLine) (a : Nat) :
    (replaceIfOther k line a).filter isEviction = replaceIfOther k line a := by
  unfold replaceIfOther
  split
  · exact filter_eviction_handle k line
  · rfl

theorem filter_eviction_invLoop (k : Nat) (m : message) :
    (invLoop k m).filter isEviction = [] := by
  rw [List.filter_eq_nil_iff]
  intro p hp
  have := mem_invLoop hp
  simp [isEviction, this]

theorem replace_of_ne (k : Nat) (line : cacheLine) (a : Nat) (h : a ≠ line.address) :
    replaceIfOther k line a = handleCacheReplacement k line := by
  unfold replaceIfOther
  split
  · rfl
  · rename_i hn
    have hi : line.state = .INVALID := by
      by_contra hc
      exact hn ⟨fun e => h e.symm, hc⟩
    simp [handleCacheReplacement, hi]

/-- The eviction notices among the messages of a dispatch that changes the
address in slot `s` are those of `handleCacheReplacement` for the old line. -/
theorem dispatch_evictions (k : Nat) (t : threadState) (m : message) (t1 : threadState)
    (sends : List (Nat × message)) (s : Nat) (hd : dispatch k t m = some (t1, sends))
    (hchg : (t1.local_node.cache s).address ≠ (t.local_node.cache s).address) :
    sends.filter isEviction = handleCacheReplacement k (t.local_node.cache s) := by
  unfold dispatch at hd
  cases hty : m.type <;> simp only [hty] at hd
  all_goals first
    | unfold case_READ_REQUEST at hd
    | unfold case_WRITE_REQUEST at hd
    | unfold case_REPLY_RD at hd
    | unfold case_REPLY_WR at hd
    | unfold case_REPLY_ID at hd
    | unfold case_INV at hd
    | unfold case_UPGRADE at hd
    | unfold case_WRITEBACK_INV at hd
    | unfold case_WRITEBACK_INT at hd
    | unfold case_FLUSH at hd
    | unfold case_FLUSH_INVACK at hd
    | unfold case_EVICT_SHARED at hd
    | unfold case_EVICT_MODIFIED at hd
  all_goals simp only at hd
  all_goals repeat' split at hd
  all_goals first
    | (cases hd; exact absurd rfl hchg)
    | (cases hd
       simp only [setCache_cache, setMemory_cache, setDirectory_cache,
         Function.update_apply] at hchg ⊢
       split at hchg
       · rename_i hs
         subst hs
         first
           | exact absurd rfl hchg
           | (rw [filter_eviction_replace, replace_of_ne _ _ _ hchg])
           | (rw [filter_eviction_handle])
           | (rw [List.filter_append, filter_eviction_invLoop, filter_eviction_replace,
                replace_of_ne _ _ _ hchg, List.nil_append])
       · exact absurd rfl hchg)
    | cases hd

/-! ## The `INV` fan-out -/

theorem invLoop_bits : ∀ b, b < 16 →
    (List.range NUM_PROCS).filter (fun i => b &&& (1 <<< i) ≠ 0) =
      (List.range NUM_PROCS).filter (fun i => b.testBit i) ∧
    ((List.range NUM_PROCS).filter (fun i => b.testBit i)).length = builtin_popcount b := by
  decide

theorem filter_inv_invLoop (k : Nat) (m : message) :
    (invLoop k m).filter isInv = invLoop k m := by
  rw [List.filter_eq_self]
  intro p hp
  simp [isInv, mem_invLoop hp]

theorem filter_inv_replace (k : Nat) (line : cacheLine) (a : Nat) :
    (replaceIfOther k line a).filter isInv = [] := by
  rw [List.filter_eq_nil_iff]
  intro p hp
  rcases mem_replaceIfOther hp with h | h <;> simp [isInv, h]

/-! ## The home of an address -/

theorem home_node (a : Nat) (h : a >>> 4 < NUM_PROCS) : (a >>> 4) &&& 0x0F = a >>> 4 := by
  unfold NUM_PROCS at h
  have : ∀ x, x < 4 → x &&& 0x0F = x := by decide
  exact this _ h

/-- The handlers of `FLUSH` and `FLUSH_INVACK` end with `awaiting_response = 0`
on every path (lines 211 and 337), whoever the `second_receiver` is. -/
theorem flush_clears_awaiting (k : Nat) (t : threadState) (m : message)
    (hty : m.type = .FLUSH ∨ m.type = .FLUSH_INVACK) :
    ∃ t1 sends, dispatch k t m = some (t1, sends) ∧ t1.awaiting_response = 0 := by
  rcases hty with hty | hty
  · have hd : dispatch k t m = case_FLUSH k t m := by simp only [dispatch, hty]
    rw [hd]
    unfold case_FLUSH
    simp only
    split
    · exact ⟨_, _, rfl, rfl⟩
    · exact ⟨_, _, rfl, rfl⟩
  · have hd : dispatch k t m = case_FLUSH_INVACK k t m := by simp only [dispatch, hty]
    rw [hd]
    unfold case_FLUSH_INVACK
    simp only
    split
    · exact ⟨_, _, rfl, rfl⟩
    · exact ⟨_, _, rfl, rfl⟩

/-! ## The inbox as a list -/

theorem represents_iff (b : messageBuffer) (l : List message) :
    represents b l ↔ bufferOK b ∧ l = inFlight b := by
  unfold represents bufferOK inFlight
  constructor
  · rintro ⟨hh, _, hc, ht, hl, hi⟩
    refine ⟨⟨hh, hc, ht⟩, ?_⟩
    apply List.ext_getElem
    · simp [hl]
    · intro i h1 h2
      have := hi i h1
      rw [List.getD_eq_getElem _ _ h1] at this
      simp [this]
  · rintro ⟨⟨hh, hc, ht⟩, hl⟩
    subst hl
    refine ⟨hh, ?_, hc, ht, by simp, ?_⟩
    · rw [ht]
      exact Nat.mod_lt _ (by unfold MSG_BUFFER_SIZE; norm_num)
    · intro i hi
      rw [List.getD_eq_getElem _ _ hi]
      simp

theorem inFlight_enqueue {b : messageBuffer} (m : message)
    (ht : b.tail = (b.head + b.count) % MSG_BUFFER_SIZE) (hc : b.count < MSG_BUFFER_SIZE) :
    inFlight (enqueue b m) = inFlight b ++ [m] := by
  unfold enqueue
  rw [if_pos hc]
  unfold inFlight
  unfold MSG_BUFFER_SIZE at *
  simp only [List.range_succ, List.map_append, List.map_cons, List.map_nil]
  congr 1
  · apply List.map_congr_left
    intro j hj
    rw [List.mem_range] at hj
    rw [Function.update_noteq]
    rw [ht]
    omega
  · rw [← ht]
    simp

theorem inFlight_dequeue_head {b : messageBuffer} (hh : b.head < MSG_BUFFER_SIZE)
    (hpos : 0 < b.count) :
    inFlight b = (dequeue b).1 :: inFlight (dequeue b).2 := by
  unfold inFlight dequeue
  unfold MSG_BUFFER_SIZE at *
  obtain ⟨n, hn⟩ : ∃ n, b.count = n + 1 := ⟨b.count - 1, by omega⟩
  simp only [hn, Nat.add_sub_cancel]
  rw [List.range_succ_eq_map]
  simp only [List.map_cons, List.map_map, Nat.add_zero, Nat.mod_eq_of_lt hh]
  congr 1
  apply List.map_congr_left
  intro j _
  simp only [Function.comp]
  congr 1
  omega

theorem represents_enqueue {b : messageBuffer} {l : List message} (m : message)
    (hr : represents b l) (hc : b.count < MSG_BUFFER_SIZE) :
    represents (enqueue b m) (l ++ [m]) := by
  rw [represents_iff] at hr ⊢
  obtain ⟨hb, hl⟩ := hr
  exact ⟨bufferOK_enqueue hb m, by rw [inFlight_enqueue m hb.2.2 hc, hl]⟩

theorem represents_dequeue {b : messageBuffer} {x : message} {rest : List message}
    (hr : represents b (x :: rest)) :
    (dequeue b).1 = x ∧ represents (dequeue b).2 rest := by
  have hpos : 0 < b.count := by rw [← hr.2.2.2.2.1]; simp
  rw [represents_iff] at hr ⊢
  obtain ⟨hb, hl⟩ := hr
  rw [inFlight_dequeue_head hb.1 hpos] at hl
  injection hl with h1 h2
  refine ⟨h1.symm, ?_, h2⟩
  obtain ⟨hh, hc, ht⟩ := hb
  unfold dequeue bufferOK
  unfold MSG_BUFFER_SIZE at *
  refine ⟨Nat.mod_lt _ (by norm_num), by simp only; omega, ?_⟩
  simp only [ht]
  omega

theorem inboxRun_fifo (ops : List inboxOp) : ∀ (b : messageBuffer) (l : List message),
    represents b l → noDrop b ops →
    ∃ pending, represents (inboxRun b ops).1 pending ∧
      (inboxRun b ops).2 ++ pending = l ++ sentBy ops := by
  induction ops with
  | nil =>
      intro b l hr _
      exact ⟨l, hr, by simp [inboxRun, sentBy]⟩
  | cons op ops ih =>
      intro b l hr hn
      cases op with
      | send m =>
          obtain ⟨hc, hn1⟩ := hn
          obtain ⟨p, h1, h3⟩ := ih (enqueue b m) (l ++ [m]) (represents_enqueue m hr hc) hn1
          exact ⟨p, h1, by simp only [inboxRun, sentBy]; rw [h3]; simp⟩
      | receive =>
          simp only [noDrop] at hn
          by_cases hg : drainGuard b = true
          · simp only [hg, ↓reduceIte] at hn
            have hpos : 0 < b.count := by
              unfold drainGuard at hg
              simp only [Bool.and_eq_true, decide_eq_true_eq] at hg
              exact hg.1
            cases l with
            | nil => rw [← hr.2.2.2.2.1] at hpos; simp at hpos
            | cons x rest =>
                obtain ⟨hx, hrest⟩ := represents_dequeue hr
                obtain ⟨p, h1, h3⟩ := ih (dequeue b).2 rest hrest hn
                refine ⟨p, ?_, ?_⟩
                · simp only [inboxRun, hg, ↓reduceIte]; exact h1
                · simp only [inboxRun, hg, ↓reduceIte, sentBy, List.cons_append]
                  rw [h3, hx]
          · simp only [hg] at hn
            obtain ⟨p, h1, h3⟩ := ih b l hr (by simpa using hn)
            refine ⟨p, ?_, ?_⟩
            · simp only [inboxRun, hg]; exact h1
            · simp only [inboxRun, hg, sentBy]; exact h3

/-- The guard of the drain loop holds for every well-formed inbox with
between 1 and 255 pending messages. -/
theorem drainGuard_of_not_full {b : messageBuffer} (hb : bufferOK b) (h1 : 1 ≤ b.count)
    (h2 : b.count < MSG_BUFFER_SIZE) : drainGuard b = true := by
  obtain ⟨hh, _, ht⟩ := hb
  unfold drainGuard
  unfold MSG_BUFFER_SIZE at *
  simp only [Bool.and_eq_true, decide_eq_true_eq]
  refine ⟨h1, ?_⟩
  rw [ht]
  omega

/-- The guard of the drain loop fails for every well-formed full inbox. -/
theorem drainGuard_of_full {b : messageBuffer} (hb : bufferOK b)
    (h : b.count = MSG_BUFFER_SIZE) : drainGuard b = false := by
  obtain ⟨hh, _, ht⟩ := hb
  unfold drainGuard
  unfold MSG_BUFFER_SIZE at *
  have : b.head = b.tail := by rw [ht, h]; omega
  simp [this]

/-! ## The instruction cursor -/

theorem issue_cursor (k : Nat) (t : threadState) :
    (issue k t).1.instr_counter = t.instr_counter ∧
      (issue k t).1.current_instr = t.local_node.instructions t.instr_counter.toNat ∧
      (issue k t).1.local_node.instructions = t.local_node.instructions ∧
      (issue k t).1.local_node.instructionCount = t.local_node.instructionCount := by
  simp only [issue]
  repeat' split
  all_goals exact ⟨rfl, rfl, rfl, rfl⟩

theorem afterDrain_blocked (k : Nat) (t : threadState) (h : t.awaiting_response ≠ 0) :
    afterDrain k t = (t, [], false) := by
  unfold afterDrain
  rw [if_pos (by omega)]

theorem afterDrain_advance (k : Nat) (t : threadState) (h : t.awaiting_response = 0)
    (hlt : t.instr_counter < (t.local_node.instructionCount : Int) - 1) :
    afterDrain k t =
        ((issue k { t with instr_counter := t.instr_counter + 1 }).1,
         (issue k { t with instr_counter := t.instr_counter + 1 }).2, false) ∧
      (afterDrain k t).1.instr_counter = t.instr_counter + 1 ∧
      (afterDrain k t).1.current_instr =
        t.local_node.instructions (t.instr_counter + 1).toNat := by
  have e : afterDrain k t =
      ((issue k { t with instr_counter := t.instr_counter + 1 }).1,
       (issue k { t with instr_counter := t.instr_counter + 1 }).2, false) := by
    unfold afterDrain
    rw [if_neg (by omega), if_pos hlt]
  refine ⟨e, ?_, ?_⟩
  · rw [e]; exact (issue_cursor k _).1
  · rw [e]; exact (issue_cursor k _).2.1

theorem afterDrain_done (k : Nat) (t : threadState) (h : t.awaiting_response = 0)
    (hge : ¬ t.instr_counter < (t.local_node.instructionCount : Int) - 1) :
    (afterDrain k t).1.instr_counter = t.instr_counter ∧ (afterDrain k t).2.1 = [] ∧
      (afterDrain k t).1.current_instr = t.current_instr ∧
      (afterDrain k t).1.local_node = t.local_node ∧
      (afterDrain k t).1.awaiting_response = t.awaiting_response := by
  unfold afterDrain
  rw [if_neg (by omega), if_neg hge]
  split
  · exact ⟨rfl, rfl, rfl, rfl, rfl⟩
  · exact ⟨rfl, rfl, rfl, rfl, rfl⟩

/-- From any state of the loop: the program is never changed, the cursor never
moves backwards and stays below `instructionCount`, and the passes that moved
it fetched the instructions from the old cursor up to the new one, one by one,
each while `awaiting_response` was 0. -/
theorem loopRun_cursor (k : Nat) (es : List loopEvent) :
    ∀ (t t1 : threadState) (tr : List (Int × instruction × Nat)),
      loopRun k t es = some (t1, tr) →
      -1 ≤ t.instr_counter →
      t.instr_counter ≤ (t.local_node.instructionCount : Int) - 1 →
      t1.local_node.instructions = t.local_node.instructions ∧
      t1.local_node.instructionCount = t.local_node.instructionCount ∧
      t.instr_counter ≤ t1.instr_counter ∧
      t1.instr_counter ≤ (t.local_node.instructionCount : Int) - 1 ∧
      tr.map (fun e => e.1) =
        (List.range (t1.instr_counter - t.instr_counter).toNat).map
          (fun (j : Nat) => t.instr_counter + 1 + (j : Int)) ∧
      ∀ e ∈ tr, e.2.1 = t.local_node.instructions e.1.toNat ∧ e.2.2 = 0 := by
  induction es with
  | nil =>
      intro t t1 tr h hlo hhi
      simp only [loopRun, Option.some.injEq, Prod.mk.injEq] at h
      obtain ⟨h1, h2⟩ := h
      subst h1; subst h2
      refine ⟨rfl, rfl, le_refl _, hhi, by simp, ?_⟩
      intro e he; cases he
  | cons ev es ih =>
      intro t t1 tr h hlo hhi
      cases ev with
      | message m =>
          simp only [loopRun] at h
          cases hd : dispatch k (rearm t) m with
          | none => rw [hd] at h; cases h
          | some r =>
              obtain ⟨u, sends⟩ := r
              rw [hd] at h
              simp only at h
              obtain ⟨f1, f2, f3, _, _⟩ := dispatch_frame k (rearm t) m u sends hd
              simp only [rearm_local_node, rearm_instr_counter] at f1 f2 f3
              have := ih u t1 tr h (by rw [f3]; exact hlo) (by rw [f3, f2]; exact hhi)
              rw [f1, f2, f3] at this
              exact this
      | pass =>
          simp only [loopRun] at h
          cases hr : loopRun k (afterDrain k t).1 es with
          | none => rw [hr] at h; cases h
          | some r =>
              obtain ⟨u, tr1⟩ := r
              rw [hr] at h
              simp only [Option.some.injEq, Prod.mk.injEq] at h
              obtain ⟨h1, h2⟩ := h
              subst h1
              obtain ⟨g1, g2, _, _⟩ := afterDrain_frame k t
              by_cases haw : t.awaiting_response = 0
              · by_cases hlt : t.instr_counter < (t.local_node.instructionCount : Int) - 1
                · obtain ⟨_, a2, a3⟩ := afterDrain_advance k t haw hlt
                  have := ih (afterDrain k t).1 u tr1 hr (by rw [a2]; omega)
                    (by rw [a2, g2]; omega)
                  rw [g1, g2, a2] at this
                  obtain ⟨i1, i2, i3, i4, i5, i6⟩ := this
                  have hne : (afterDrain k t).1.instr_counter ≠ t.instr_counter := by
                    rw [a2]; omega
                  rw [if_pos hne] at h2
                  subst h2
                  refine ⟨i1, i2, by omega, i4, ?_, ?_⟩
                  · simp only [List.map_cons, a2, i5]
                    obtain ⟨n, hn⟩ : ∃ n : Nat, u.instr_counter - (t.instr_counter + 1) = n :=
                      ⟨(u.instr_counter - (t.instr_counter + 1)).toNat, by omega⟩
                    have hn1 : u.instr_counter - t.instr_counter = ((n + 1 : Nat) : Int) := by
                      push_cast; omega
                    rw [hn, hn1, Int.toNat_ofNat, Int.toNat_ofNat, List.range_succ_eq_map]
                    simp only [List.map_cons, List.map_map, Nat.cast_zero, add_zero,
                      List.cons.injEq, true_and]
                    apply List.map_congr_left
                    intro j _
                    simp only [Function.comp, Nat.cast_succ]
                    omega
                  · intro e he
                    rcases List.mem_cons.mp he with he | he
                    · subst he
                      refine ⟨?_, haw⟩
                      show (afterDrain k t).1.current_instr =
                        t.local_node.instructions ((afterDrain k t).1.instr_counter).toNat
                      rw [a3, a2]
                    · exact i6 e he
                · obtain ⟨a1, _, _, _, _⟩ := afterDrain_done k t haw hlt
                  have := ih (afterDrain k t).1 u tr1 hr (by rw [a1]; exact hlo)
                    (by rw [a1, g2]; exact hhi)
                  rw [g1, g2, a1] at this
                  rw [if_neg (by rw [a1]; simp)] at h2
                  subst h2
                  exact this
              · have e := afterDrain_blocked k t haw
                rw [e] at hr h2
                simp only [ne_eq, not_true_eq_false, ↓reduceIte] at h2
                subst h2
                exact ih t u tr1 hr hlo hhi

/-! ## The final state dump -/

theorem rearm_should_print (t : threadState) (h : t.should_print ≤ 1) :
    (rearm t).should_print = 1 := by
  unfold rearm
  split
  · rename_i h0; simp [h0]
  · show t.should_print = 1; omega

/-- A pass calls `printProcessorState` exactly when the node is not blocked,
has no instruction left and `should_print` is positive; it then decrements
`should_print`, and otherwise leaves it alone. -/
theorem afterDrain_dump (k : Nat) (t : threadState) :
    ((afterDrain k t).2.2 = true ↔
      (t.awaiting_response = 0 ∧
        ¬ t.instr_counter < (t.local_node.instructionCount : Int) - 1 ∧
        0 < t.should_print)) ∧
    ((afterDrain k t).2.2 = true → (afterDrain k t).1.should_print = t.should_print - 1) ∧
    ((afterDrain k t).2.2 = false → (afterDrain k t).1.should_print = t.should_print) := by
  unfold afterDrain
  split
  · rename_i h
    refine ⟨⟨?_, ?_⟩, ?_, ?_⟩
    · intro h1; simp at h1
    · intro h1; omega
    · intro h1; simp at h1
    · intro _; rfl
  · rename_i h
    split
    · rename_i hlt
      refine ⟨⟨?_, ?_⟩, ?_, ?_⟩
      · intro h1; simp at h1
      · intro h1; exact absurd hlt h1.2.1
      · intro h1; simp at h1
      · intro _
        simp only [issue]
        repeat' split
        all_goals rfl
    · rename_i hlt
      split
      · rename_i hp
        refine ⟨⟨?_, ?_⟩, ?_, ?_⟩
        · intro _; exact ⟨by omega, hlt, hp⟩
        · intro _; rfl
        · intro _; rfl
        · intro h1; simp at h1
      · rename_i hp
        refine ⟨⟨?_, ?_⟩, ?_, ?_⟩
        · intro h1; simp at h1
        · intro h1; exact absurd h1.2.2 hp
        · intro h1; simp at h1
        · intro _; rfl

theorem dumpCount_le (k : Nat) (es : List loopEvent) :
    ∀ (t : threadState) (n : Nat), t.should_print ≤ 1 → dumpCount k t es = some n →
      n ≤ t.should_print + messagesIn es := by
  induction es with
  | nil =>
      intro t n _ h
      simp only [dumpCount, Option.some.injEq] at h
      omega
  | cons ev es ih =>
      intro t n hsp h
      cases ev with
      | message m =>
          simp only [dumpCount] at h
          cases hd : dispatch k (rearm t) m with
          | none => rw [hd] at h; cases h
          | some r =>
              obtain ⟨u, sends⟩ := r
              rw [hd] at h
              simp only at h
              obtain ⟨_, _, _, f4, _⟩ := dispatch_frame k (rearm t) m u sends hd
              rw [rearm_should_print t hsp] at f4
              have := ih u n (by omega) h
              simp only [messagesIn]
              omega
      | pass =>
          simp only [dumpCount] at h
          cases hr : dumpCount k (afterDrain k t).1 es with
          | none => rw [hr] at h; cases h
          | some n1 =>
              rw [hr] at h
              simp only [Option.some.injEq] at h
              obtain ⟨d1, d2, d3⟩ := afterDrain_dump k t
              simp only [messagesIn]
              cases hp : (afterDrain k t).2.2 with
              | true =>
                  rw [hp] at h
                  simp only [↓reduceIte] at h
                  have e := d2 hp
                  have hpos := (d1.mp hp).2.2
                  have := ih (afterDrain k t).1 n1 (by omega) hr
                  omega
              | false =>
                  rw [hp] at h
                  simp only [Bool.false_eq_true, ↓reduceIte] at h
                  have e := d3 hp
                  have := ih (afterDrain k t).1 n1 (by omega) hr
                  omega

/-! ## The lock of an inbox -/

/-- No statement of the drain loop takes or releases the lock of the inbox. -/
theorem drainMicro_holder (s : lockedInbox) (o : ownerState) (s1 : lockedInbox)
    (o1 : ownerState) (h : drainMicro s o = some (s1, o1)) : s1.holder = s.holder := by
  unfold drainMicro at h
  split at h
  · split at h <;> (cases h; rfl)
  all_goals first
    | (cases h; rfl)
    | cases h

/-- Between `omp_set_lock` and `omp_unset_lock` the thread inside
`sendMessage` is the holder of the lock. -/
theorem sendMicro_holder (me : Nat) (msg : message) (s : lockedInbox) (p : senderState)
    (s1 : lockedInbox) (p1 : senderState) (h : sendMicro me msg s p = some (s1, p1))
    (hp : p.pc ≠ .setLock) (hp1 : p.pc ≠ .unsetLock) : s1.holder = s.holder := by
  unfold sendMicro at h
  split at h
  · rename_i e; exact absurd e hp
  · split at h <;> (cases h; rfl)
  · cases h; rfl
  · cases h; rfl
  · cases h; rfl
  · cases h; rfl
  · rename_i e; exact absurd e hp1
  · cases h

/-! ## The inboxes along a step -/

theorem inFlight_length (b : messageBuffer) : (inFlight b).length = b.count := by
  unfold inFlight
  simp

theorem enqueue_count_le (b : messageBuffer) (m : message) :
    (enqueue b m).count ≤ b.count + 1 := by
  unfold enqueue
  split
  · exact le_refl _
  · exact Nat.le_succ _

/-- What a sequence of sends into inboxes with room does: every receiver is a
node, and each inbox receives its messages at the end, in order. -/
theorem deliver_inFlight : ∀ (sends : List (Nat × message)) (bufs bufs1 : Nat → messageBuffer),
    (∀ j, j < NUM_PROCS → bufferOK (bufs j)) →
    (∀ j, j < NUM_PROCS → (bufs j).count + sends.length ≤ MSG_BUFFER_SIZE) →
    deliver bufs sends = some bufs1 →
    (∀ p, p ∈ sends → p.1 < NUM_PROCS) ∧
    ∀ j, j < NUM_PROCS → bufferOK (bufs1 j) ∧
      inFlight (bufs1 j) =
        inFlight (bufs j) ++ (sends.filter (fun p => decide (p.1 = j))).map (fun p => p.2) := by
  intro sends
  induction sends with
  | nil =>
    intro bufs bufs1 hb _ hd
    simp only [deliver, Option.some.injEq] at hd
    subst hd
    refine ⟨fun p hp => (by cases hp), fun j hj => ⟨hb j hj, by simp⟩⟩
  | cons p rest ih =>
    intro bufs bufs1 hb hc hd
    obtain ⟨r, m⟩ := p
    simp only [deliver, sendMessage] at hd
    split at hd
    · cases hd
    · rename_i bufs2 hsend
      split at hsend
      · rename_i hr
        simp only [Option.some.injEq] at hsend
        have hb2 : ∀ j, j < NUM_PROCS → bufferOK (bufs2 j) := by
          intro j hj
          rw [← hsend]
          by_cases hjr : j = r
          · subst hjr
            simp only [Function.update_same]
            exact bufferOK_enqueue (hb j hj) m
          · simp only [Function.update_noteq hjr]
            exact hb j hj
        have hc2 : ∀ j, j < NUM_PROCS → (bufs2 j).count + rest.length ≤ MSG_BUFFER_SIZE := by
          intro j hj
          have := hc j hj
          simp only [List.length_cons] at this
          rw [← hsend]
          by_cases hjr : j = r
          · subst hjr
            simp only [Function.update_same]
            have := enqueue_count_le (bufs j) m
            omega
          · simp only [Function.update_noteq hjr]
            omega
        obtain ⟨h1, h2⟩ := ih bufs2 bufs1 hb2 hc2 hd
        refine ⟨?_, ?_⟩
        · intro q hq
          rcases List.mem_cons.mp hq with h | h
          · rw [h]; exact hr
          · exact h1 q h
        · intro j hj
          obtain ⟨h3, h4⟩ := h2 j hj
          refine ⟨h3, ?_⟩
          rw [h4, ← hsend]
          by_cases hjr : j = r
          · subst hjr
            have hlt : (bufs j).count < MSG_BUFFER_SIZE := by
              have := hc j hj
              simp only [List.length_cons] at this
              omega
            simp only [Function.update_same, inFlight_enqueue m (hb j hj).2.2 hlt,
              List.filter_cons, decide_True, ↓reduceIte, List.map_cons, List.append_assoc,
              List.singleton_append]
          · have hrj : ¬ r = j := fun h => hjr h.symm
            simp only [Function.update_noteq hjr, List.filter_cons, hrj, decide_False,
              Bool.false_eq_true, ↓reduceIte]
      · cases hsend

theorem handleCacheReplacement_length (k : Nat) (line : cacheLine) :
    (handleCacheReplacement k line).length ≤ 1 := by
  unfold handleCacheReplacement
  cases line.state <;> simp

theorem replaceIfOther_length (k : Nat) (line : cacheLine) (a : Nat) :
    (replaceIfOther k line a).length ≤ 1 := by
  unfold replaceIfOther
  split
  · exact handleCacheReplacement_length k line
  · simp

theorem invLoop_length (k : Nat) (m : message) : (invLoop k m).length ≤ 4 := by
  unfold invLoop
  rw [List.length_map]
  exact le_trans (List.length_filter_le _ _) (by simp [NUM_PROCS])

/-- A handler sends at most five messages. -/
theorem dispatch_sends_length (k : Nat) (t : threadState) (m : message) (t1 : threadState)
    (sends : List (Nat × message)) (hd : dispatch k t m = some (t1, sends)) :
    sends.length ≤ 5 := by
  have h1 := replaceIfOther_length k (t.local_node.cache ((m.address &&& 0x0F) % CACHE_SIZE))
    m.address
  have h2 := handleCacheReplacement_length k
    (t.local_node.cache ((m.address &&& 0x0F) % CACHE_SIZE))
  have h3 := invLoop_length k m
  unfold dispatch at hd
  cases hty : m.type <;> simp only [hty] at hd
  all_goals first
    | unfold case_READ_REQUEST at hd
    | unfold case_WRITE_REQUEST at hd
    | unfold case_REPLY_RD at hd
    | unfold case_REPLY_WR at hd
    | unfold case_REPLY_ID at hd
    | unfold case_INV at hd
    | unfold case_UPGRADE at hd
    | unfold case_WRITEBACK_INV at hd
    | unfold case_WRITEBACK_INT at hd
    | unfold case_FLUSH at hd
    | unfold case_FLUSH_INVACK at hd
    | unfold case_EVICT_SHARED at hd
    | unfold case_EVICT_MODIFIED at hd
  all_goals simp only at hd
  all_goals repeat' split at hd
  all_goals first
    | (cases hd; simp only [List.length_nil, List.length_cons, List.length_append,
        setMemory_cache, setDirectory_cache] at *; omega)
    | cases hd

/-- What one drain-loop iteration does to the threads and to the contents of
the inboxes, when the inboxes have room. -/
theorem drain_effect {g g1 : globalState} {k : Nat} (hk : k < NUM_PROCS)
    (hb : ∀ j, j < NUM_PROCS → bufferOK (g.message_buffers j))
    (hc : ∀ j, j < NUM_PROCS → (g.message_buffers j).count ≤ 100)
    (h : drainStep g k = some g1) :
    ∃ t1 sends rest,
      dispatch k (rearm (g.threads k)) (headMsg g k) = some (t1, sends) ∧
      inFlight (g.message_buffers k) = headMsg g k :: rest ∧
      g1.threads = Function.update g.threads k t1 ∧
      (∀ p, p ∈ sends → p.1 < NUM_PROCS) ∧
      ∀ j, j < NUM_PROCS → bufferOK (g1.message_buffers j) ∧
        inFlight (g1.message_buffers j) =
          (if j = k then rest else inFlight (g.message_buffers j)) ++
            (sends.filter (fun p => decide (p.1 = j))).map (fun p => p.2) := by
  obtain ⟨hguard, t1, sends, bufs, hd, hdel, he⟩ := drainStep_spec h
  have hlen := dispatch_sends_length _ _ _ _ _ hd
  have hdq := inFlight_dequeue (hb k hk) hguard
  have hb1 : ∀ j, j < NUM_PROCS →
      bufferOK (Function.update g.message_buffers k (dequeue (g.message_buffers k)).2 j) := by
    intro j hj
    by_cases hjk : j = k
    · subst hjk
      simp only [Function.update_same]
      exact bufferOK_dequeue (hb j hj) hguard
    · simp only [Function.update_noteq hjk]
      exact hb j hj
  have hc1 : ∀ j, j < NUM_PROCS →
      (Function.update g.message_buffers k (dequeue (g.message_buffers k)).2 j).count +
        sends.length ≤ MSG_BUFFER_SIZE := by
    intro j hj
    have := hc j hj
    unfold MSG_BUFFER_SIZE
    by_cases hjk : j = k
    · subst hjk
      simp only [Function.update_same, dequeue]
      omega
    · simp only [Function.update_noteq hjk]
      omega
  obtain ⟨h1, h2⟩ := deliver_inFlight sends _ bufs hb1 hc1 hdel
  refine ⟨t1, sends, inFlight (dequeue (g.message_buffers k)).2, hd, hdq, by rw [he], h1, ?_⟩
  intro j hj
  obtain ⟨h3, h4⟩ := h2 j hj
  rw [he]
  refine ⟨h3, ?_⟩
  simp only
  rw [h4]
  by_cases hjk : j = k
  · subst hjk
    simp only [Function.update_same, ↓reduceIte]
  · simp only [Function.update_noteq hjk, hjk, ↓reduceIte]

/-! ## The observation of an address along a step -/

theorem byte_address_eq {X Y : Nat} (hX : X < 256) (hY : Y < 256)
    (hh : (X >>> 4) &&& 0x0F = (Y >>> 4) &&& 0x0F) (ho : X &&& 0x0F = Y &&& 0x0F) : X = Y := by
  rw [home_byte X hX, home_byte Y hY, Nat.shiftRight_eq_div_pow, Nat.shiftRight_eq_div_pow] at hh
  have e : ∀ Z : Nat, Z &&& 0x0F = Z % 16 := fun Z => Nat.and_pow_two_sub_one_eq_mod Z 4
  rw [e, e] at ho
  omega

theorem sentTo_nil (j X : Nat) : sentTo [] j X = [] := rfl

theorem sentTo_cons (p : Nat × message) (sends : List (Nat × message)) (j X : Nat) :
    sentTo (p :: sends) j X =
      (if p.1 = j ∧ p.2.address = X then [p.2] else []) ++ sentTo sends j X := by
  unfold sentTo
  by_cases h1 : p.1 = j <;> by_cases h2 : p.2.address = X <;>
    simp [List.filter_cons, h1, h2]

theorem sentTo_append (s1 s2 : List (Nat × message)) (j X : Nat) :
    sentTo (s1 ++ s2) j X = sentTo s1 j X ++ sentTo s2 j X := by
  unfold sentTo
  simp [List.filter_append]

theorem sentTo_eq_nil {sends : List (Nat × message)} {X : Nat}
    (h : ∀ p, p ∈ sends → p.2.address ≠ X) (j : Nat) : sentTo sends j X = [] := by
  unfold sentTo
  rw [List.filter_eq_nil_iff]
  intro m hm
  simp only [List.mem_map, List.mem_filter, decide_eq_true_eq] at hm
  obtain ⟨p, ⟨hp, _⟩, rfl⟩ := hm
  simpa using h p hp

/-- The observation of any address after a drain-loop iteration, in terms of
the observation before it, the new thread state and the messages sent. -/
theorem obs_drain {g g1 : globalState} {k : Nat} {m : message} {t1 : threadState}
    {sends : List (Nat × message)} {rest : List message}
    (hs : drained g g1 k m t1 sends rest) (X : Nat) :
    obsOf g1 X =
      { dir := if (X >>> 4) &&& 0x0F = k then t1.local_node.directory (X &&& 0x0F)
               else (obsOf g X).dir,
        st := fun j => if j = k then
                statusOf (t1.local_node.cache ((X &&& 0x0F) % CACHE_SIZE)) X
              else (obsOf g X).st j,
        view := fun j => if j < NUM_PROCS then
                  (if j = k then
                    (if m.address = X then ((obsOf g X).view k).tail else (obsOf g X).view k)
                   else (obsOf g X).view j) ++ sentTo sends j X
                else [] } := by
  obtain ⟨hk, hth, hhead, hin⟩ := hs
  unfold obsOf
  congr 1
  · unfold homeEntry
    rw [hth]
    by_cases h : (X >>> 4) &&& 0x0F = k
    · rw [if_pos h, h, Function.update_same]
    · rw [if_neg h, Function.update_noteq h]
  · funext j
    unfold lineOf
    rw [hth]
    by_cases hjk : j = k
    · subst hjk
      simp only [hk, ↓reduceIte, Function.update_same]
    · simp only [hjk, ↓reduceIte, Function.update_noteq hjk]
  · funext j
    by_cases hj : j < NUM_PROCS
    · simp only [hj, ↓reduceIte, hk]
      unfold viewOf
      rw [hin j hj, List.filter_append]
      congr 1
      by_cases hjk : j = k
      · subst hjk
        simp only [↓reduceIte, hhead, List.filter_cons]
        by_cases hm : m.address = X
        · simp only [hm, decide_True, ↓reduceIte, List.tail_cons]
        · simp only [hm, decide_False, Bool.false_eq_true, ↓reduceIte]
      · simp only [hjk, ↓reduceIte]
    · simp only [hj, ↓reduceIte]

/-- An address other than the one of the message dispatched is observed as
before when the handler writes the directory only at the home, puts only
lines with the address of the message into the cache, replaces no line that
held the other address, and sends nothing about it. -/
theorem obs_other {g g1 : globalState} {k : Nat} {m : message} {t1 : threadState}
    {sends : List (Nat × message)} {rest : List message}
    (hs : drained g g1 k m t1 sends rest) {X : Nat} (hX : X < 256) (hA : m.address < 256)
    (hne : X ≠ m.address)
    (hdir : t1.local_node.directory = (g.threads k).local_node.directory ∨
      (k = (m.address >>> 4) &&& 0x0F ∧ ∃ d, t1.local_node.directory =
        Function.update (g.threads k).local_node.directory (m.address &&& 0x0F) d))
    (hcache : t1.local_node.cache = (g.threads k).local_node.cache ∨
      (∃ l, t1.local_node.cache =
          Function.update (g.threads k).local_node.cache
            ((m.address &&& 0x0F) % CACHE_SIZE) l ∧ l.address = m.address ∧
        statusOf ((g.threads k).local_node.cache ((m.address &&& 0x0F) % CACHE_SIZE)) X
          = none))
    (hsend : ∀ p, p ∈ sends → p.2.address ≠ X) :
    obsOf g1 X = obsOf g X := by
  rw [obs_drain hs X]
  have hk := hs.node
  unfold obsOf
  congr 1
  · by_cases h : (X >>> 4) &&& 0x0F = k
    · simp only [h, ↓reduceIte]
      unfold homeEntry
      rw [h]
      rcases hdir with e | ⟨hk2, d, e⟩
      · rw [e]
      · rw [e, Function.update_noteq]
        intro ho
        exact hne (byte_address_eq hX hA (h.trans hk2) ho)
    · simp only [h, ↓reduceIte]
  · funext j
    by_cases hjk : j = k
    · subst hjk
      simp only [↓reduceIte, hk]
      unfold lineOf
      rcases hcache with e | ⟨l, e, hl, hold⟩
      · rw [e]
      · rw [e]
        by_cases hslot : (X &&& 0x0F) % CACHE_SIZE = (m.address &&& 0x0F) % CACHE_SIZE
        · rw [hslot, Function.update_same, hold]
          unfold statusOf
          rw [if_neg]
          intro h
          exact hne (h.1.symm.trans hl)
        · rw [Function.update_noteq hslot]
    · simp only [hjk, ↓reduceIte]
  · funext j
    by_cases hj : j < NUM_PROCS
    · simp only [hj, ↓reduceIte, sentTo_eq_nil hsend, List.append_nil,
        fun h : m.address = X => hne h.symm]
      by_cases hjk : j = k
      · subst hjk
        simp only [↓reduceIte, if_neg (fun h : m.address = X => hne h.symm), hj]
      · simp only [hjk, ↓reduceIte, hj]
    · simp only [hj, ↓reduceIte]

/-! ## The side conditions along a step -/

theorem slotsOK_step {g g1 : globalState} {k : Nat} {t1 : threadState} {A : Nat}
    (hth : g1.threads = Function.update g.threads k t1) (hA : A < 256)
    (hslots : slotsOK g)
    (hcache : t1.local_node.cache = (g.threads k).local_node.cache ∨
      ∃ l, t1.local_node.cache =
          Function.update (g.threads k).local_node.cache ((A &&& 0x0F) % CACHE_SIZE) l ∧
        l.address = A) :
    slotsOK g1 := by
  intro j hj s hv
  rw [hth] at hv ⊢
  by_cases hjk : j = k
  · subst hjk
    simp only [Function.update_same] at hv ⊢
    rcases hcache with e | ⟨l, e, hl⟩
    · rw [e] at hv ⊢
      exact hslots j hj s hv
    · rw [e] at hv ⊢
      by_cases hs : s = (A &&& 0x0F) % CACHE_SIZE
      · subst hs
        simp only [Function.update_same, hl] at hv ⊢
        exact ⟨hA, trivial⟩
      · simp only [Function.update_noteq hs] at hv ⊢
        exact hslots j hj s hv
  · simp only [Function.update_noteq hjk] at hv ⊢
    exact hslots j hj s hv

theorem programsOK_drain {progs : Nat → List instruction} {g g1 : globalState} {k : Nat}
    {m : message} {t1 : threadState} {sends : List (Nat × message)}
    (hth : g1.threads = Function.update g.threads k t1)
    (hd : dispatch k (rearm (g.threads k)) m = some (t1, sends))
    (hp : programsOK progs g) : programsOK progs g1 := by
  intro j hj
  rw [hth]
  by_cases hjk : j = k
  · subst hjk
    simp only [Function.update_same]
    obtain ⟨f1, f2, f3, _, _⟩ := dispatch_frame j (rearm (g.threads j)) m t1 sends hd
    simp only [rearm_local_node, rearm_instr_counter] at f1 f2 f3
    obtain ⟨h1, h2, h3⟩ := hp j hj
    exact ⟨f1.trans h1, f2.trans h2, f3 ▸ h3⟩
  · simp only [Function.update_noteq hjk]
    exact hp j hj

theorem messages_drain {g g1 : globalState} {k : Nat} {m : message} {t1 : threadState}
    {sends : List (Nat × message)} {rest : List message}
    (hs : drained g g1 k m t1 sends rest) {P : message → Prop}
    (hold : ∀ j, j < NUM_PROCS → ∀ x, x ∈ inFlight (g.message_buffers j) → P x)
    (hnew : ∀ p, p ∈ sends → P p.2) :
    ∀ j, j < NUM_PROCS → ∀ x, x ∈ inFlight (g1.message_buffers j) → P x := by
  intro j hj x hx
  rw [hs.inbox j hj] at hx
  rcases List.mem_append.mp hx with h | h
  · by_cases hjk : j = k
    · subst hjk
      simp only [↓reduceIte] at h
      apply hold j hj
      rw [hs.head]
      exact List.mem_cons_of_mem _ h
    · simp only [hjk, ↓reduceIte] at h
      exact hold j hj x h
  · simp only [List.mem_map, List.mem_filter] at h
    obtain ⟨p, ⟨hp, _⟩, rfl⟩ := h
    exact hnew p hp

/-- The length of an inbox all of whose messages are about `A` or `B`. -/
theorem length_two_views {l : List message} {A B : Nat} (hne : A ≠ B)
    (h : ∀ m, m ∈ l → m.address = A ∨ m.address = B) :
    l.length = (l.filter (fun m => decide (m.address = A))).length +
      (l.filter (fun m => decide (m.address = B))).length := by
  induction l with
  | nil => rfl
  | cons x xs ih =>
    have ih1 := ih (fun m hm => h m (List.mem_cons_of_mem _ hm))
    rcases h x (List.mem_cons_self _ _) with hx | hx
    · have hb : ¬ x.address = B := fun e => hne (hx.symm.trans e)
      rw [List.filter_cons, List.filter_cons, if_pos (by simpa using hx),
        if_neg (by simpa using hb)]
      simp only [List.length_cons]
      omega
    · have ha : ¬ x.address = A := fun e => hne (e.symm.trans hx)
      rw [List.filter_cons, List.filter_cons, if_neg (by simpa using ha),
        if_pos (by simpa using hx)]
      simp only [List.length_cons]
      omega

/-! ## The frame of a step -/

theorem obs_drain_dir {g g1 : globalState} {k : Nat} {m : message} {t1 : threadState}
    {sends : List (Nat × message)} {rest : List message}
    (hs : drained g g1 k m t1 sends rest) (X : Nat) :
    (obsOf g1 X).dir = if (X >>> 4) &&& 0x0F = k then t1.local_node.directory (X &&& 0x0F)
      else (obsOf g X).dir := by
  rw [obs_drain hs X]

theorem obs_drain_st {g g1 : globalState} {k : Nat} {m : message} {t1 : threadState}
    {sends : List (Nat × message)} {rest : List message}
    (hs : drained g g1 k m t1 sends rest) (X j : Nat) :
    (obsOf g1 X).st j = if j = k then
        statusOf (t1.local_node.cache ((X &&& 0x0F) % CACHE_SIZE)) X
      else (obsOf g X).st j := by
  rw [obs_drain hs X]

theorem obs_drain_view {g g1 : globalState} {k : Nat} {m : message} {t1 : threadState}
    {sends : List (Nat × message)} {rest : List message}
    (hs : drained g g1 k m t1 sends rest) (X j : Nat) :
    (obsOf g1 X).view j = if j < NUM_PROCS then
        (if j = k then
          (if m.address = X then ((obsOf g X).view k).tail else (obsOf g X).view k)
         else (obsOf g X).view j) ++ sentTo sends j X
      else [] := by
  rw [obs_drain hs X]

/-- The message dispatched is the first of the messages about its address in
the inbox. -/
theorem view_head {g g1 : globalState} {k : Nat} {m : message} {t1 : threadState}
    {sends : List (Nat × message)} {rest : List message}
    (hs : drained g g1 k m t1 sends rest) :
    ∃ r, (obsOf g m.address).view k = m :: r := by
  refine ⟨rest.filter (fun x => decide (x.address = m.address)), ?_⟩
  unfold obsOf viewOf
  simp only [hs.node, ↓reduceIte, hs.head, List.filter_cons, decide_True]

theorem obs_st_old (g : globalState) (k X : Nat) (hk : k < NUM_PROCS) :
    (obsOf g X).st k = statusOf ((g.threads k).local_node.cache ((X &&& 0x0F) % CACHE_SIZE)) X := by
  unfold obsOf lineOf
  simp only [hk, ↓reduceIte]

theorem obs_dir_old (g : globalState) (X : Nat) :
    (obsOf g X).dir =
      (g.threads ((X >>> 4) &&& 0x0F)).local_node.directory (X &&& 0x0F) := rfl

theorem obs_st_ge (g : globalState) (X j : Nat) (hj : ¬ j < NUM_PROCS) :
    (obsOf g X).st j = none := by
  unfold obsOf
  simp only [hj, ↓reduceIte]

theorem obs_view_ge (g : globalState) (X j : Nat) (hj : ¬ j < NUM_PROCS) :
    (obsOf g X).view j = [] := by
  unfold obsOf
  simp only [hj, ↓reduceIte]

/-- A step that installs no new address keeps the invariant when the
observations of the two active addresses are in their phases afterwards. -/
theorem finish_step {progs : Nat → List instruction} {g g1 : globalState} {k : Nat}
    {m : message} {t1 : threadState} {sends : List (Nat × message)} {rest : List message}
    {A B : Nat} (c : stepCtx progs g g1 k m t1 sends rest A B)
    (hm : m.address = A ∨ m.address = B)
    (hdir : t1.local_node.directory = (g.threads k).local_node.directory ∨
      (k = (m.address >>> 4) &&& 0x0F ∧ ∃ d, t1.local_node.directory =
        Function.update (g.threads k).local_node.directory (m.address &&& 0x0F) d))
    (hcache : t1.local_node.cache = (g.threads k).local_node.cache ∨
      (∃ l, t1.local_node.cache =
          Function.update (g.threads k).local_node.cache
            ((m.address &&& 0x0F) % CACHE_SIZE) l ∧ l.address = m.address ∧
        ((g.threads k).local_node.cache ((m.address &&& 0x0F) % CACHE_SIZE)).address
          = m.address))
    (hsend : ∀ p, p ∈ sends → p.2.address = m.address)
    (hnew : (prePhaseO (obsOf g1 A) A ∧ stableO (obsOf g1 B)) ∨
      (postPhaseO (obsOf g1 A) A ∧ evictPhaseO (obsOf g1 B) B)) :
    coherent progs g1 := by
  have hmlt : m.address < 256 := by
    rcases hm with h | h
    · rw [h]; exact c.hA
    · rw [h]; exact c.hB
  refine ⟨c.hb1, ?_, programsOK_drain c.hs.threads c.hd c.hprog, A, B, c.hA, c.hB, c.hAB,
    ?_, ?_, hnew⟩
  · apply slotsOK_step c.hs.threads hmlt c.hslots
    rcases hcache with e | ⟨l, e, hl, _⟩
    · exact Or.inl e
    · exact Or.inr ⟨l, e, hl⟩
  · apply messages_drain c.hs c.hmsgs
    intro p hp
    rw [hsend p hp]
    exact hm
  · intro X hX hXA hXB
    have hne : X ≠ m.address := by
      rcases hm with h | h
      · rw [h]; exact hXA
      · rw [h]; exact hXB
    rw [obs_other c.hs hX hmlt hne hdir ?_ ?_]
    · exact c.hoth X hX hXA hXB
    · rcases hcache with e | ⟨l, e, hl, hold⟩
      · exact Or.inl e
      · refine Or.inr ⟨l, e, hl, ?_⟩
        unfold statusOf
        rw [if_neg]
        intro h
        exact hne (h.1.symm.trans hold)
    · intro p hp
      rw [hsend p hp]
      exact fun h => hne h.symm

/-- The other of the two active addresses is observed as before by a step
that installs no new address. -/
theorem other_same {progs : Nat → List instruction} {g g1 : globalState} {k : Nat}
    {m : message} {t1 : threadState} {sends : List (Nat × message)} {rest : List message}
    {A B : Nat} (c : stepCtx progs g g1 k m t1 sends rest A B) {X : Nat} (hX : X < 256)
    (hmlt : m.address < 256) (hne : X ≠ m.address)
    (hdir : t1.local_node.directory = (g.threads k).local_node.directory ∨
      (k = (m.address >>> 4) &&& 0x0F ∧ ∃ d, t1.local_node.directory =
        Function.update (g.threads k).local_node.directory (m.address &&& 0x0F) d))
    (hcache : t1.local_node.cache = (g.threads k).local_node.cache ∨
      (∃ l, t1.local_node.cache =
          Function.update (g.threads k).local_node.cache
            ((m.address &&& 0x0F) % CACHE_SIZE) l ∧ l.address = m.address ∧
        ((g.threads k).local_node.cache ((m.address &&& 0x0F) % CACHE_SIZE)).address
          = m.address))
    (hsend : ∀ p, p ∈ sends → p.2.address = m.address) :
    obsOf g1 X = obsOf g X := by
  apply obs_other c.hs hX hmlt hne hdir
  · rcases hcache with e | ⟨l, e, hl, hold⟩
    · exact Or.inl e
    · refine Or.inr ⟨l, e, hl, ?_⟩
      unfold statusOf
      rw [if_neg]
      intro h
      exact hne (h.1.symm.trans hold)
  · intro p hp
    rw [hsend p hp]
    exact fun h => hne h.symm

/-- A step on a message about the transaction address that installs no new
address keeps the invariant when the transaction is in one of its phases
afterwards. -/
theorem finish_A {progs : Nat → List instruction} {g g1 : globalState} {k : Nat}
    {m : message} {t1 : threadState} {sends : List (Nat × message)} {rest : List message}
    {A B : Nat} (c : stepCtx progs g g1 k m t1 sends rest A B) (hm : m.address = A)
    (hdir : t1.local_node.directory = (g.threads k).local_node.directory ∨
      (k = (m.address >>> 4) &&& 0x0F ∧ ∃ d, t1.local_node.directory =
        Function.update (g.threads k).local_node.directory (m.address &&& 0x0F) d))
    (hcache : t1.local_node.cache = (g.threads k).local_node.cache ∨
      (∃ l, t1.local_node.cache =
          Function.update (g.threads k).local_node.cache
            ((m.address &&& 0x0F) % CACHE_SIZE) l ∧ l.address = m.address ∧
        ((g.threads k).local_node.cache ((m.address &&& 0x0F) % CACHE_SIZE)).address
          = m.address))
    (hsend : ∀ p, p ∈ sends → p.2.address = m.address)
    (hnew : (prePhaseO (obsOf g1 A) A ∧ stableO (obsOf g B)) ∨
      (postPhaseO (obsOf g1 A) A ∧ evictPhaseO (obsOf g B) B)) :
    coherent progs g1 := by
  have hmlt : m.address < 256 := by rw [hm]; exact c.hA
  have hB : obsOf g1 B = obsOf g B :=
    other_same c c.hB hmlt (by rw [hm]; exact fun h => c.hAB h.symm) hdir hcache hsend
  refine finish_step c (Or.inl hm) hdir hcache hsend ?_
  rw [hB]
  exact hnew

/-- A step on a message about the eviction address keeps the invariant when
the eviction is in one of its phases afterwards. -/
theorem finish_B {progs : Nat → List instruction} {g g1 : globalState} {k : Nat}
    {m : message} {t1 : threadState} {sends : List (Nat × message)} {rest : List message}
    {A B : Nat} (c : stepCtx progs g g1 k m t1 sends rest A B) (hm : m.address = B)
    (hdir : t1.local_node.directory = (g.threads k).local_node.directory ∨
      (k = (m.address >>> 4) &&& 0x0F ∧ ∃ d, t1.local_node.directory =
        Function.update (g.threads k).local_node.directory (m.address &&& 0x0F) d))
    (hcache : t1.local_node.cache = (g.threads k).local_node.cache ∨
      (∃ l, t1.local_node.cache =
          Function.update (g.threads k).local_node.cache
            ((m.address &&& 0x0F) % CACHE_SIZE) l ∧ l.address = m.address ∧
        ((g.threads k).local_node.cache ((m.address &&& 0x0F) % CACHE_SIZE)).address
          = m.address))
    (hsend : ∀ p, p ∈ sends → p.2.address = m.address)
    (hA : postPhaseO (obsOf g A) A) (hnew : evictPhaseO (obsOf g1 B) B) :
    coherent progs g1 := by
  have hmlt : m.address < 256 := by rw [hm]; exact c.hB
  have hAe : obsOf g1 A = obsOf g A :=
    other_same c c.hA hmlt (by rw [hm]; exact c.hAB) hdir hcache hsend
  refine finish_step c (Or.inr hm) hdir hcache hsend (Or.inr ?_)
  rw [hAe]
  exact ⟨hA, hnew⟩

theorem obs_st_keep {g g1 : globalState} {k : Nat} {m : message} {t1 : threadState}
    {sends : List (Nat × message)} {rest : List message}
    (hs : drained g g1 k m t1 sends rest)
    (hc : t1.local_node.cache = (g.threads k).local_node.cache) (X j : Nat) :
    (obsOf g1 X).st j = (obsOf g X).st j := by
  rw [obs_drain_st hs]
  by_cases hjk : j = k
  · subst hjk
    rw [if_pos rfl, hc, obs_st_old g j X hs.node]
  · rw [if_neg hjk]

theorem obs_st_set {g g1 : globalState} {k : Nat} {m : message} {t1 : threadState}
    {sends : List (Nat × message)} {rest : List message}
    (hs : drained g g1 k m t1 sends rest) {X : Nat} {l : cacheLine}
    (hc : t1.local_node.cache =
      Function.update (g.threads k).local_node.cache ((X &&& 0x0F) % CACHE_SIZE) l) (j : Nat) :
    (obsOf g1 X).st j = if j = k then statusOf l X else (obsOf g X).st j := by
  rw [obs_drain_st hs, hc, Function.update_same]

theorem obs_dir_keep {g g1 : globalState} {k : Nat} {m : message} {t1 : threadState}
    {sends : List (Nat × message)} {rest : List message}
    (hs : drained g g1 k m t1 sends rest)
    (hc : t1.local_node.directory = (g.threads k).local_node.directory) (X : Nat) :
    (obsOf g1 X).dir = (obsOf g X).dir := by
  rw [obs_drain_dir hs]
  by_cases h : (X >>> 4) &&& 0x0F = k
  · rw [if_pos h, hc, obs_dir_old, h]
  · rw [if_neg h]

theorem obs_dir_set {g g1 : globalState} {k : Nat} {m : message} {t1 : threadState}
    {sends : List (Nat × message)} {rest : List message}
    (hs : drained g g1 k m t1 sends rest) {X : Nat} {d : directoryEntry}
    (hk : k = (X >>> 4) &&& 0x0F)
    (hc : t1.local_node.directory =
      Function.update (g.threads k).local_node.directory (X &&& 0x0F) d) :
    (obsOf g1 X).dir = d := by
  rw [obs_drain_dir hs, if_pos hk.symm, hc, Function.update_same]

theorem obs_dir_far {g g1 : globalState} {k : Nat} {m : message} {t1 : threadState}
    {sends : List (Nat × message)} {rest : List message}
    (hs : drained g g1 k m t1 sends rest) {X : Nat} (hk : k ≠ (X >>> 4) &&& 0x0F) :
    (obsOf g1 X).dir = (obsOf g X).dir := by
  rw [obs_drain_dir hs, if_neg (fun h => hk h.symm)]

/-- A line holds `X` in some state only if it carries the address `X`. -/
theorem statusOf_some {l : cacheLine} {X : Nat} {x : cacheLineState}
    (h : statusOf l X = some x) : l.address = X ∧ l.state = x ∧ x ≠ .INVALID := by
  unfold statusOf at h
  split at h
  · rename_i hv
    simp only [Option.some.injEq] at h
    exact ⟨hv.1, h, h ▸ hv.2⟩
  · cases h

theorem statusOf_set (l : cacheLine) (X : Nat) (x : cacheLineState) (hx : x ≠ .INVALID)
    (ha : l.address = X) : statusOf { l with state := x } X = some x := by
  unfold statusOf
  rw [if_pos ⟨ha, hx⟩]

theorem statusOf_install (X v : Nat) (x : cacheLineState) (hx : x ≠ .INVALID) :
    statusOf { address := X, value := v, state := x } X = some x := by
  unfold statusOf
  rw [if_pos ⟨rfl, hx⟩]

theorem statusOf_invalid (l : cacheLine) (X : Nat) :
    statusOf { l with state := .INVALID } X = none := by
  unfold statusOf
  rw [if_neg]
  intro h
  exact h.2 rfl

/-! ## The request at the home -/

theorem ctz_two_pow : ∀ w, w < 8 → builtin_ctz (2 ^ w) = some w := by decide

theorem set_bit_lt_16 : ∀ b, b < 16 → ∀ r, r < 4 → (b ||| (1 <<< r)) % 256 < 16 := by decide

theorem two_pow_lt_16 : ∀ r, r < 4 → 2 ^ r < 16 := by decide

theorem step_req_read {progs : Nat → List instruction} {g g1 : globalState} {k : Nat}
    {m : message} {t1 : threadState} {sends : List (Nat × message)} {rest : List message}
    {A B : Nat} (c : stepCtx progs g g1 k m t1 sends rest A B) (hmA : m.address = A)
    (hBs : stableO (obsOf g B)) (hR : m.sender < NUM_PROCS)
    (hH : (A >>> 4) &&& 0x0F < NUM_PROCS) (hag : agreesO (obsOf g A))
    (hview : ∀ j, (obsOf g A).view j = if j = (A >>> 4) &&& 0x0F then [m] else [])
    (hk : k = (A >>> 4) &&& 0x0F)
    (hty : m.type = .READ_REQUEST) (hst : (obsOf g A).st m.sender = none) :
    coherent progs g1 := by
  have hR4 : m.sender < 4 := hR
  have hR8 : m.sender < 8 := by omega
  have hk4 : k < 4 := c.hs.node
  have hd := c.hd
  have hdirA : (g.threads k).local_node.directory (m.address &&& 0x0F) = (obsOf g A).dir := by
    rw [hk, hmA]; rfl
  have hkm : k = (m.address >>> 4) &&& 0x0F := by rw [hmA]; exact hk
  simp only [dispatch, hty, case_READ_REQUEST, rearm_local_node] at hd
  cases hds : ((obsOf g A).dir).state with
  | U =>
    rw [hdirA] at hd
    simp only [hds, Option.some.injEq, Prod.mk.injEq] at hd
    obtain ⟨ht1, hsd⟩ := hd
    obtain ⟨msg, hsd1, hf1, hf2, hf3⟩ : ∃ msg : message, [(m.sender, msg)] = sends ∧
        msg.type = .REPLY_RD ∧ msg.dirState = .EM ∧ msg.address = m.address :=
      ⟨_, hsd, rfl, rfl, rfl⟩
    subst ht1
    subst hsd1
    obtain ⟨hbv, hnone⟩ := hag.1 hds
    refine finish_A c hmA (Or.inr ⟨hkm, _, by rw [setDirectory_directory, rearm_local_node]⟩)
      (Or.inl (by rw [setDirectory_cache, rearm_local_node])) ?_ (Or.inl ⟨?_, hBs⟩)
    · intro p hp
      simp only [List.mem_singleton] at hp
      rw [hp]
      exact hf3
    · refine prePhaseO.grant m.sender msg hR ?_ (Or.inl ⟨hf1, by simp [hf2]⟩) ?_ ?_
      · intro j
        rw [obs_drain_view c.hs, hmA]
        simp only [↓reduceIte, hview, ← hk, List.tail_cons, sentTo_cons, sentTo_nil,
          List.append_nil, hmA, hf3, and_true]
        unfold NUM_PROCS
        split_ifs <;> first | rfl | simp_all
      · rw [obs_drain_dir c.hs, if_pos hk.symm, ← hmA]
        simp [one_shl_mod hR8]
      · intro j
        rw [obs_drain_st c.hs]
        by_cases hjk : j = k
        · subst hjk
          simp only [↓reduceIte, setDirectory_cache, rearm_local_node]
          rw [← obs_st_old g j A c.hs.node]
          exact hnone j
        · simp only [hjk, ↓reduceIte]
          exact hnone j
  | S =>
    rw [hdirA] at hd
    simp only [hds, Option.some.injEq, Prod.mk.injEq] at hd
    obtain ⟨ht1, hsd⟩ := hd
    obtain ⟨msg, hsd1, hf1, hf2, hf3⟩ : ∃ msg : message, [(m.sender, msg)] = sends ∧
        msg.type = .REPLY_RD ∧ msg.dirState = .S ∧ msg.address = m.address :=
      ⟨_, hsd, rfl, rfl, rfl⟩
    subst ht1
    subst hsd1
    obtain ⟨hbv, hsts⟩ := hag.2.2 hds
    have hb256 : (obsOf g A).dir.bitVector < 256 := by omega
    have hdnew : (obsOf g1 A).dir =
        { bitVector := ((obsOf g A).dir.bitVector ||| 1 <<< m.sender) % 256, state := .S } :=
      obs_dir_set c.hs hk (by rw [setDirectory_directory, rearm_local_node, hmA])
    refine finish_A c hmA (Or.inr ⟨hkm, _, by rw [setDirectory_directory, rearm_local_node]⟩)
      (Or.inl (by rw [setDirectory_cache, rearm_local_node])) ?_ (Or.inl ⟨?_, hBs⟩)
    · intro p hp
      simp only [List.mem_singleton] at hp
      rw [hp]
      exact hf3
    · refine prePhaseO.replyS m.sender msg hR ?_ (Or.inl ⟨hf1, hf2⟩) ?_ ?_ ?_ ?_
      · intro j
        rw [obs_drain_view c.hs, hmA]
        simp only [↓reduceIte, hview, ← hk, List.tail_cons, sentTo_cons, sentTo_nil,
          List.append_nil, hmA, hf3, and_true]
        unfold NUM_PROCS
        split_ifs <;> first | rfl | simp_all
      · rw [hdnew]
      · rw [hdnew]; exact set_bit_lt_16 _ hbv _ hR4
      · rw [hdnew]
        simp only [testBit_set_byte hb256 hR8, decide_True, Bool.or_true]
      · intro j
        rw [obs_st_keep c.hs (by rw [setDirectory_cache, rearm_local_node]), hdnew]
        simp only [testBit_set_byte hb256 hR8]
        by_cases hjR : j = m.sender
        · subst hjR
          simp [hst]
        · rw [hsts j]
          simp [hjR]
  | EM =>
    rw [hdirA] at hd
    obtain ⟨w, x, hw, hbv, hx, hsts⟩ := hag.2.1 hds
    have hw8 : w < 8 := by unfold NUM_PROCS at hw; omega
    simp only [hds, hbv, ctz_two_pow w hw8, Option.some.injEq, Prod.mk.injEq] at hd
    obtain ⟨ht1, hsd⟩ := hd
    obtain ⟨msg, hsd1, hf1, hf2, hf3⟩ : ∃ msg : message, [(w, msg)] = sends ∧
        msg.type = .WRITEBACK_INT ∧ msg.secondReceiver = m.sender ∧
        msg.address = m.address :=
      ⟨_, hsd, rfl, rfl, rfl⟩
    subst ht1
    subst hsd1
    have hwR : w ≠ m.sender := by
      intro e
      have := hsts m.sender
      rw [hst, if_pos e.symm] at this
      cases this
    have hdold : (obsOf g A).dir = { bitVector := 2 ^ w, state := .EM } := by
      cases hdd : (obsOf g A).dir with
      | mk bv st =>
        rw [hdd] at hbv hds
        simp only at hbv hds
        rw [hbv, hds]
    refine finish_A c hmA (Or.inl (by rw [rearm_local_node]))
      (Or.inl (by rw [rearm_local_node])) ?_ (Or.inl ⟨?_, hBs⟩)
    · intro p hp
      simp only [List.mem_singleton] at hp
      rw [hp]
      exact hf3
    · refine prePhaseO.fwdInt m.sender w msg x hR hw hwR hH ?_ hf1 hf2 ?_ hx ?_
      · intro j
        rw [obs_drain_view c.hs, hmA]
        simp only [↓reduceIte, hview, ← hk, List.tail_cons, sentTo_cons, sentTo_nil,
          List.append_nil, hmA, hf3, and_true]
        unfold NUM_PROCS at *
        split_ifs <;> first | rfl | simp_all
      · rw [obs_dir_keep c.hs (by rw [rearm_local_node])]
        exact hdold
      · intro j
        rw [obs_st_keep c.hs (by rw [rearm_local_node])]
        exact hsts j

theorem clear_bit_lt_16 : ∀ b, b < 16 → ∀ r, r < 4 → (b &&& notBit r) % 256 < 16 := by decide

theorem dir_eq_of {d : directoryEntry} {bv : Nat} {s : directoryEntryState}
    (h1 : d.bitVector = bv) (h2 : d.state = s) : d = { bitVector := bv, state := s } := by
  cases d
  simp only at h1 h2
  rw [h1, h2]

theorem step_req_write {progs : Nat → List instruction} {g g1 : globalState} {k : Nat}
    {m : message} {t1 : threadState} {sends : List (Nat × message)} {rest : List message}
    {A B : Nat} (c : stepCtx progs g g1 k m t1 sends rest A B) (hmA : m.address = A)
    (hBs : stableO (obsOf g B)) (hR : m.sender < NUM_PROCS)
    (hH : (A >>> 4) &&& 0x0F < NUM_PROCS) (hag : agreesO (obsOf g A))
    (hview : ∀ j, (obsOf g A).view j = if j = (A >>> 4) &&& 0x0F then [m] else [])
    (hk : k = (A >>> 4) &&& 0x0F)
    (hty : m.type = .WRITE_REQUEST) (hst : (obsOf g A).st m.sender = none) :
    coherent progs g1 := by
  have hR4 : m.sender < 4 := hR
  have hR8 : m.sender < 8 := by omega
  have hR32 : m.sender < 32 := by omega
  have hk4 : k < 4 := c.hs.node
  have hd := c.hd
  have hdirA : (g.threads k).local_node.directory (m.address &&& 0x0F) = (obsOf g A).dir := by
    rw [hk, hmA]; rfl
  have hkm : k = (m.address >>> 4) &&& 0x0F := by rw [hmA]; exact hk
  simp only [dispatch, hty, case_WRITE_REQUEST, rearm_local_node] at hd
  rw [hdirA] at hd
  cases hds : ((obsOf g A).dir).state with
  | U =>
    simp only [hds, Option.some.injEq, Prod.mk.injEq] at hd
    obtain ⟨ht1, hsd⟩ := hd
    obtain ⟨msg, hsd1, hf1, hf3⟩ : ∃ msg : message, [(m.sender, msg)] = sends ∧
        msg.type = .REPLY_WR ∧ msg.address = m.address :=
      ⟨_, hsd, rfl, rfl⟩
    subst ht1
    subst hsd1
    obtain ⟨hbv, hnone⟩ := hag.1 hds
    refine finish_A c hmA (Or.inr ⟨hkm, _, by rw [setDirectory_directory, rearm_local_node]⟩)
      (Or.inl (by rw [setDirectory_cache, rearm_local_node])) ?_ (Or.inl ⟨?_, hBs⟩)
    · intro p hp
      simp only [List.mem_singleton] at hp
      rw [hp]
      exact hf3
    · refine prePhaseO.grant m.sender msg hR ?_ (Or.inr hf1) ?_ ?_
      · intro j
        rw [obs_drain_view c.hs, hmA]
        simp only [↓reduceIte, hview, ← hk, List.tail_cons, sentTo_cons, sentTo_nil,
          List.append_nil, hmA, hf3, and_true]
        unfold NUM_PROCS
        split_ifs <;> first | rfl | simp_all
      · rw [obs_dir_set c.hs hk (by rw [setDirectory_directory, rearm_local_node, hmA]),
          one_shl_mod hR8]
      · intro j
        rw [obs_st_keep c.hs (by rw [setDirectory_cache, rearm_local_node])]
        exact hnone j
  | S =>
    simp only [hds, Option.some.injEq, Prod.mk.injEq] at hd
    obtain ⟨ht1, hsd⟩ := hd
    obtain ⟨msg, hsd1, hf1, hf2, hf3⟩ : ∃ msg : message, [(m.sender, msg)] = sends ∧
        msg.type = .REPLY_ID ∧
        msg.bitVector = ((obsOf g A).dir.bitVector &&& notBit m.sender) % 256 ∧
        msg.address = m.address :=
      ⟨_, hsd, rfl, rfl, rfl⟩
    subst ht1
    subst hsd1
    obtain ⟨hbv, hsts⟩ := hag.2.2 hds
    have hb256 : (obsOf g A).dir.bitVector < 256 := by omega
    refine finish_A c hmA (Or.inr ⟨hkm, _, by rw [setDirectory_directory, rearm_local_node]⟩)
      (Or.inl (by rw [setDirectory_cache, rearm_local_node])) ?_ (Or.inl ⟨?_, hBs⟩)
    · intro p hp
      simp only [List.mem_singleton] at hp
      rw [hp]
      exact hf3
    · refine prePhaseO.replyID m.sender msg hR ?_ hf1 ?_ ?_ ?_ ?_ ?_
      · intro j
        rw [obs_drain_view c.hs, hmA]
        simp only [↓reduceIte, hview, ← hk, List.tail_cons, sentTo_cons, sentTo_nil,
          List.append_nil, hmA, hf3, and_true]
        unfold NUM_PROCS
        split_ifs <;> first | rfl | simp_all
      · rw [hf2]; exact clear_bit_lt_16 _ hbv _ hR4
      · rw [hf2, testBit_clear_byte hb256 hR32]
        simp
      · rw [obs_dir_set c.hs hk (by rw [setDirectory_directory, rearm_local_node, hmA]),
          one_shl_mod hR8]
      · left
        rw [obs_st_keep c.hs (by rw [setDirectory_cache, rearm_local_node])]
        exact hst
      · intro j hj
        rw [obs_st_keep c.hs (by rw [setDirectory_cache, rearm_local_node]), hsts j, hf2,
          testBit_clear_byte hb256 hR32]
        simp [hj]
  | EM =>
    obtain ⟨w, x, hw, hbv, hx, hsts⟩ := hag.2.1 hds
    have hw8 : w < 8 := by unfold NUM_PROCS at hw; omega
    simp only [hds, hbv, ctz_two_pow w hw8, Option.some.injEq, Prod.mk.injEq] at hd
    obtain ⟨ht1, hsd⟩ := hd
    obtain ⟨msg, hsd1, hf1, hf2, hf3⟩ : ∃ msg : message, [(w, msg)] = sends ∧
        msg.type = .WRITEBACK_INV ∧ msg.secondReceiver = m.sender ∧
        msg.address = m.address :=
      ⟨_, hsd, rfl, rfl, rfl⟩
    subst ht1
    subst hsd1
    have hwR : w ≠ m.sender := by
      intro e
      have := hsts m.sender
      rw [hst, if_pos e.symm] at this
      cases this
    refine finish_A c hmA (Or.inr ⟨hkm, _, by rw [setDirectory_directory, rearm_local_node]⟩)
      (Or.inl (by rw [setDirectory_cache, rearm_local_node])) ?_ (Or.inl ⟨?_, hBs⟩)
    · intro p hp
      simp only [List.mem_singleton] at hp
      rw [hp]
      exact hf3
    · refine prePhaseO.fwdInv m.sender w msg x hR hw hwR hH ?_ hf1 hf2 ?_ hx ?_
      · intro j
        rw [obs_drain_view c.hs, hmA]
        simp only [↓reduceIte, hview, ← hk, List.tail_cons, sentTo_cons, sentTo_nil,
          List.append_nil, hmA, hf3, and_true]
        unfold NUM_PROCS at *
        split_ifs <;> first | rfl | simp_all
      · rw [obs_dir_set c.hs hk (by rw [setDirectory_directory, rearm_local_node, hmA]),
          one_shl_mod hR8]
      · intro j
        rw [obs_st_keep c.hs (by rw [setDirectory_cache, rearm_local_node])]
        exact hsts j

theorem step_req_upgrade {progs : Nat → List instruction} {g g1 : globalState} {k : Nat}
    {m : message} {t1 : threadState} {sends : List (Nat × message)} {rest : List message}
    {A B : Nat} (c : stepCtx progs g g1 k m t1 sends rest A B) (hmA : m.address = A)
    (hBs : stableO (obsOf g B)) (hR : m.sender < NUM_PROCS)
    (_hH : (A >>> 4) &&& 0x0F < NUM_PROCS) (hag : agreesO (obsOf g A))
    (hview : ∀ j, (obsOf g A).view j = if j = (A >>> 4) &&& 0x0F then [m] else [])
    (hk : k = (A >>> 4) &&& 0x0F)
    (hty : m.type = .UPGRADE) (hst : (obsOf g A).st m.sender = some .SHARED) :
    coherent progs g1 := by
  have hR4 : m.sender < 4 := hR
  have hR8 : m.sender < 8 := by omega
  have hR32 : m.sender < 32 := by omega
  have hk4 : k < 4 := c.hs.node
  have hd := c.hd
  have hdirA : (g.threads k).local_node.directory (m.address &&& 0x0F) = (obsOf g A).dir := by
    rw [hk, hmA]; rfl
  have hkm : k = (m.address >>> 4) &&& 0x0F := by rw [hmA]; exact hk
  simp only [dispatch, hty, case_UPGRADE, rearm_local_node] at hd
  rw [hdirA] at hd
  simp only [Option.some.injEq, Prod.mk.injEq] at hd
  obtain ⟨ht1, hsd⟩ := hd
  obtain ⟨msg, hsd1, hf1, hf2, hf3⟩ : ∃ msg : message, [(m.sender, msg)] = sends ∧
      msg.type = .REPLY_ID ∧
      msg.bitVector = ((obsOf g A).dir.bitVector &&& notBit m.sender) % 256 ∧
      msg.address = m.address :=
    ⟨_, hsd, rfl, rfl, rfl⟩
  subst ht1
  subst hsd1
  have hds : (obsOf g A).dir.state = .S := by
    cases hds : ((obsOf g A).dir).state with
    | U =>
      have := (hag.1 hds).2 m.sender
      rw [hst] at this
      cases this
    | EM =>
      obtain ⟨w, x, hw, hbv, hx, hsts⟩ := hag.2.1 hds
      have := hsts m.sender
      rw [hst] at this
      split at this
      · simp only [Option.some.injEq] at this
        rcases hx with e | e <;> rw [e] at this <;> cases this
      · cases this
    | S => rfl
  obtain ⟨hbv, hsts⟩ := hag.2.2 hds
  have hb256 : (obsOf g A).dir.bitVector < 256 := by omega
  refine finish_A c hmA (Or.inr ⟨hkm, _, by rw [setDirectory_directory, rearm_local_node]⟩)
    (Or.inl (by rw [setDirectory_cache, rearm_local_node])) ?_ (Or.inl ⟨?_, hBs⟩)
  · intro p hp
    simp only [List.mem_singleton] at hp
    rw [hp]
    exact hf3
  · refine prePhaseO.replyID m.sender msg hR ?_ hf1 ?_ ?_ ?_ ?_ ?_
    · intro j
      rw [obs_drain_view c.hs, hmA]
      simp only [↓reduceIte, hview, ← hk, List.tail_cons, sentTo_cons, sentTo_nil,
        List.append_nil, hmA, hf3, and_true]
      unfold NUM_PROCS
      split_ifs <;> first | rfl | simp_all
    · rw [hf2]; exact clear_bit_lt_16 _ hbv _ hR4
    · rw [hf2, testBit_clear_byte hb256 hR32]
      simp
    · rw [obs_dir_set c.hs hk (by rw [setDirectory_directory, rearm_local_node, hmA]),
        one_shl_mod hR8]
    · right
      rw [obs_st_keep c.hs (by rw [setDirectory_cache, rearm_local_node])]
      exact hst
    · intro j hj
      rw [obs_st_keep c.hs (by rw [setDirectory_cache, rearm_local_node]), hsts j, hf2,
        testBit_clear_byte hb256 hR32]
      simp [hj]

/-! ## The owner answers a forwarded request -/

theorem only_view {o : addrObs} {H k : Nat} {m0 m : message} {r : List message}
    (hview : ∀ j, o.view j = if j = H then [m0] else []) (hh : o.view k = m :: r) :
    k = H ∧ m = m0 := by
  rw [hview k] at hh
  split at hh
  · rename_i h
    simp only [List.cons.injEq] at hh
    exact ⟨h, hh.1.symm⟩
  · cases hh

theorem step_fwdInt {progs : Nat → List instruction} {g g1 : globalState} {k : Nat}
    {m : message} {t1 : threadState} {sends : List (Nat × message)} {rest : List message}
    {A B : Nat} (c : stepCtx progs g g1 k m t1 sends rest A B) (hmA : m.address = A)
    (hBs : stableO (obsOf g B)) (hR : m.secondReceiver < NUM_PROCS)
    (hOR : k ≠ m.secondReceiver)
    (hH : (A >>> 4) &&& 0x0F < NUM_PROCS)
    (hview : ∀ j, (obsOf g A).view j = if j = k then [m] else [])
    (hty : m.type = .WRITEBACK_INT)
    (hdir : (obsOf g A).dir = { bitVector := 2 ^ k, state := .EM })
    (x : cacheLineState)
    (hst : ∀ j, (obsOf g A).st j = if j = k then some x else none) :
    coherent progs g1 := by
  subst hmA
  have hk4 : k < NUM_PROCS := c.hs.node
  have hd := c.hd
  have hline := hst k
  rw [if_pos rfl, obs_st_old g k _ hk4] at hline
  obtain ⟨hla, hls, _⟩ := statusOf_some hline
  simp only [dispatch, hty, case_WRITEBACK_INT, rearm_local_node, Option.some.injEq,
    Prod.mk.injEq] at hd
  obtain ⟨ht1, hsd⟩ := hd
  obtain ⟨msg, hsd1, hf1, hf2, hf3⟩ : ∃ msg : message,
      ((m.address >>> 4) &&& 0x0F, msg) ::
        (if (m.address >>> 4) &&& 0x0F ≠ m.secondReceiver then [(m.secondReceiver, msg)]
         else []) = sends ∧
      msg.type = .FLUSH ∧ msg.secondReceiver = m.secondReceiver ∧
      msg.address = m.address :=
    ⟨_, hsd, rfl, rfl, rfl⟩
  clear hsd
  subst ht1
  subst hsd1
  refine finish_A c rfl (Or.inl (by rw [setCache_directory, rearm_local_node]))
    (Or.inr ⟨_, by rw [setCache_cache, rearm_local_node], by exact hla, hla⟩) ?_
    (Or.inl ⟨?_, hBs⟩)
  · intro p hp
    simp only [List.mem_cons] at hp
    rcases hp with hp | hp
    · rw [hp]; exact hf3
    · split at hp
      · simp only [List.mem_singleton] at hp
        rw [hp]; exact hf3
      · cases hp
  · refine prePhaseO.flush2 m.secondReceiver k msg hR hk4 hOR hH hf1 hf2 ?_ ?_ ?_
    · intro j
      rw [obs_drain_view c.hs]
      simp only [↓reduceIte, hview, List.tail_cons, sentTo_cons, sentTo_nil,
        List.append_nil, hf3, and_true]
      unfold NUM_PROCS at *
      by_cases hHR : (m.address >>> 4) &&& 0x0F = m.secondReceiver
      · simp only [hHR, ne_eq, not_true_eq_false, ↓reduceIte, sentTo_nil, List.append_nil]
        split_ifs <;> first | rfl | omega
      · simp only [hHR, ne_eq, not_false_eq_true, ↓reduceIte, sentTo_cons, sentTo_nil,
          List.append_nil, hf3, and_true]
        split_ifs <;> first | rfl | omega
    · rw [obs_dir_keep c.hs (by rw [setCache_directory, rearm_local_node]), hdir]
    · intro j
      rw [obs_st_set c.hs (by rw [setCache_cache, rearm_local_node]), hst j]
      split
      · exact statusOf_set _ _ _ (by decide) hla
      · rfl

theorem step_fwdInv {progs : Nat → List instruction} {g g1 : globalState} {k : Nat}
    {m : message} {t1 : threadState} {sends : List (Nat × message)} {rest : List message}
    {A B : Nat} (c : stepCtx progs g g1 k m t1 sends rest A B) (hmA : m.address = A)
    (hBs : stableO (obsOf g B)) (hR : m.secondReceiver < NUM_PROCS)
    (_hOR : k ≠ m.secondReceiver)
    (hH : (A >>> 4) &&& 0x0F < NUM_PROCS)
    (hview : ∀ j, (obsOf g A).view j = if j = k then [m] else [])
    (hty : m.type = .WRITEBACK_INV)
    (hdir : (obsOf g A).dir = { bitVector := 2 ^ m.secondReceiver, state := .EM })
    (x : cacheLineState)
    (hst : ∀ j, (obsOf g A).st j = if j = k then some x else none) :
    coherent progs g1 := by
  subst hmA
  have hk4 : k < NUM_PROCS := c.hs.node
  have hd := c.hd
  have hline := hst k
  rw [if_pos rfl, obs_st_old g k _ hk4] at hline
  obtain ⟨hla, hls, _⟩ := statusOf_some hline
  simp only [dispatch, hty, case_WRITEBACK_INV, rearm_local_node, Option.some.injEq,
    Prod.mk.injEq] at hd
  obtain ⟨ht1, hsd⟩ := hd
  obtain ⟨msg, hsd1, hf1, hf2, hf3⟩ : ∃ msg : message,
      [((m.address >>> 4) &&& 0x0F, msg), (m.secondReceiver, msg)] = sends ∧
      msg.type = .FLUSH_INVACK ∧ msg.secondReceiver = m.secondReceiver ∧
      msg.address = m.address :=
    ⟨_, hsd, rfl, rfl, rfl⟩
  clear hsd
  subst ht1
  subst hsd1
  have hviews : ∀ j, (obsOf g1 m.address).view j =
      (if (m.address >>> 4) &&& 0x0F = j then [msg] else []) ++
        (if m.secondReceiver = j then [msg] else []) := by
    intro j
    rw [obs_drain_view c.hs]
    simp only [↓reduceIte, hview, List.tail_cons, sentTo_cons, sentTo_nil,
      List.append_nil, hf3, and_true]
    unfold NUM_PROCS at *
    split_ifs <;> first | rfl | omega
  refine finish_A c rfl (Or.inl (by rw [setCache_directory, rearm_local_node]))
    (Or.inr ⟨_, by rw [setCache_cache, rearm_local_node], by exact hla, hla⟩) ?_
    (Or.inl ⟨?_, hBs⟩)
  · intro p hp
    simp only [List.mem_cons, List.mem_singleton, List.not_mem_nil, or_false] at hp
    rcases hp with hp | hp <;> rw [hp] <;> exact hf3
  · refine prePhaseO.flushInv m.secondReceiver msg hR hH hf1 hf2 ?_ ?_ ?_ ?_ ?_
    · rw [obs_dir_keep c.hs (by rw [setCache_directory, rearm_local_node]), hdir]
    · intro j
      rw [obs_st_set c.hs (by rw [setCache_cache, rearm_local_node]), hst j]
      split
      · exact statusOf_invalid _ _
      · rfl
    · intro j h1 h2
      rw [hviews j, if_neg (fun e => h1 e.symm), if_neg (fun e => h2 e.symm)]
      rfl
    · intro h
      rw [hviews, hviews, if_pos rfl, if_pos rfl, if_neg (fun e => h e.symm), if_neg h]
      exact ⟨rfl, Or.inl rfl⟩
    · intro h
      rw [hviews, if_pos rfl, if_pos h.symm]
      rfl

theorem obs_view_nosend {g g1 : globalState} {k : Nat} {m : message} {t1 : threadState}
    {rest : List message} (hs : drained g g1 k m t1 [] rest) (X j : Nat) :
    (obsOf g1 X).view j = if j = k then
        (if m.address = X then ((obsOf g X).view k).tail else (obsOf g X).view k)
      else (obsOf g X).view j := by
  rw [obs_drain_view hs]
  by_cases hj : j < NUM_PROCS
  · rw [if_pos hj, sentTo_nil, List.append_nil]
  · have hjk : j ≠ k := fun e => hj (e ▸ hs.node)
    rw [if_neg hj, if_neg hjk, obs_view_ge g X j hj]

/-- The home dispatches its copy of the `FLUSH_INVACK` before the requester
dispatches its own. -/
theorem step_flushInv_home {progs : Nat → List instruction} {g g1 : globalState} {k : Nat}
    {m : message} {t1 : threadState} {sends : List (Nat × message)} {rest : List message}
    {A B : Nat} (c : stepCtx progs g g1 k m t1 sends rest A B) (hmA : m.address = A)
    (hBs : stableO (obsOf g B)) (hR : m.secondReceiver < NUM_PROCS)
    (hk : k = (A >>> 4) &&& 0x0F) (hkR : k ≠ m.secondReceiver)
    (hty : m.type = .FLUSH_INVACK)
    (hdir : (obsOf g A).dir = { bitVector := 2 ^ m.secondReceiver, state := .EM })
    (hst : ∀ j, (obsOf g A).st j = none)
    (hvo : ∀ j, j ≠ (A >>> 4) &&& 0x0F → j ≠ m.secondReceiver → (obsOf g A).view j = [])
    (hvR : (obsOf g A).view m.secondReceiver = [m])
    (hvH : (obsOf g A).view ((A >>> 4) &&& 0x0F) = [m]) :
    coherent progs g1 := by
  subst hmA
  have hk4 : k < NUM_PROCS := c.hs.node
  have hR8 : m.secondReceiver < 8 := by unfold NUM_PROCS at hR; omega
  have hd := c.hd
  have hdirA : (g.threads k).local_node.directory (m.address &&& 0x0F) =
      (obsOf g m.address).dir := by
    rw [hk]; rfl
  simp only [dispatch, hty, case_FLUSH_INVACK, rearm_local_node] at hd
  rw [if_pos hk, if_neg hkR] at hd
  simp only [Option.some.injEq, Prod.mk.injEq] at hd
  obtain ⟨ht1, hsd⟩ := hd
  subst ht1
  subst hsd
  refine finish_A c rfl (Or.inr ⟨hk, _, by
      simp only [setMemory_directory, setDirectory_directory, rearm_local_node]
      rfl⟩)
    (Or.inl (by simp only [setMemory_cache, setDirectory_cache, rearm_local_node])) ?_
    (Or.inl ⟨?_, hBs⟩)
  · intro p hp
    cases hp
  · refine prePhaseO.flushInv m.secondReceiver m hR (hk ▸ hk4) hty rfl ?_ ?_ ?_ ?_ ?_
    · rw [obs_dir_set c.hs hk (by
        simp only [setMemory_directory, setDirectory_directory, rearm_local_node]
        rfl), hdirA, hdir, one_shl_mod hR8]
    · intro j
      rw [obs_st_keep c.hs (by simp only [setMemory_cache, setDirectory_cache,
        rearm_local_node])]
      exact hst j
    · intro j h1 h2
      rw [obs_view_nosend c.hs, if_neg (fun e => h1 (e.trans hk)), hvo j h1 h2]
    · intro _
      rw [obs_view_nosend c.hs, obs_view_nosend c.hs, if_neg (fun e => hkR e.symm),
        hvR, ← hk, if_pos rfl, if_pos rfl, hk, hvH]
      exact ⟨rfl, Or.inr rfl⟩
    · intro h
      exact absurd (hk.trans h.symm) hkR

/-! ## The home dispatches a flush -/

theorem testBit_two_pow_eq (n i : Nat) : (2 ^ n).testBit i = decide (i = n) := by
  simp [Nat.testBit_two_pow, eq_comm]

theorem step_flush2_home {progs : Nat → List instruction} {g g1 : globalState} {k : Nat}
    {m : message} {t1 : threadState} {sends : List (Nat × message)} {rest : List message}
    {A B : Nat} (c : stepCtx progs g g1 k m t1 sends rest A B) (hmA : m.address = A)
    (hBs : stableO (obsOf g B)) (hR : m.secondReceiver < NUM_PROCS)
    (O : Nat) (hO : O < NUM_PROCS) (hOR : O ≠ m.secondReceiver)
    (hk : k = (A >>> 4) &&& 0x0F) (hkR : k ≠ m.secondReceiver)
    (hty : m.type = .FLUSH)
    (hview : ∀ j, (obsOf g A).view j =
      if j = (A >>> 4) &&& 0x0F ∨ j = m.secondReceiver then [m] else [])
    (hdir : (obsOf g A).dir = { bitVector := 2 ^ O, state := .EM })
    (hst : ∀ j, (obsOf g A).st j = if j = O then some .SHARED else none) :
    coherent progs g1 := by
  subst hmA
  have hk4 : k < NUM_PROCS := c.hs.node
  have hR8 : m.secondReceiver < 8 := by unfold NUM_PROCS at hR; omega
  have hO256 : 2 ^ O < 256 := by
    have := two_pow_lt_16 O hO
    omega
  have hd := c.hd
  have hdirA : (g.threads k).local_node.directory (m.address &&& 0x0F) =
      (obsOf g m.address).dir := by
    rw [hk]; rfl
  simp only [dispatch, hty, case_FLUSH, rearm_local_node] at hd
  rw [if_pos hk, if_neg hkR] at hd
  simp only [Option.some.injEq, Prod.mk.injEq] at hd
  obtain ⟨ht1, hsd⟩ := hd
  subst ht1
  subst hsd
  have hdn : (obsOf g1 m.address).dir =
      { bitVector := (2 ^ O ||| 1 <<< m.secondReceiver) % 256, state := .S } := by
    rw [obs_dir_set c.hs hk (by
      simp only [setMemory_directory, setDirectory_directory, rearm_local_node]
      rfl), hdirA, hdir]
  refine finish_A c rfl (Or.inr ⟨hk, _, by
      simp only [setMemory_directory, setDirectory_directory, rearm_local_node]
      rfl⟩)
    (Or.inl (by simp only [setMemory_cache, setDirectory_cache, rearm_local_node])) ?_
    (Or.inl ⟨?_, hBs⟩)
  · intro p hp
    cases hp
  · refine prePhaseO.replyS m.secondReceiver m hR ?_
      (Or.inr ⟨hty, rfl, fun e => hkR (hk.trans e.symm)⟩) ?_ ?_ ?_ ?_
    · intro j
      rw [obs_view_nosend c.hs, if_pos rfl, hview, hview, ← hk]
      split_ifs <;> first | rfl | omega
    · rw [hdn]
    · rw [hdn]
      exact set_bit_lt_16 _ (two_pow_lt_16 O hO) _ hR
    · rw [hdn, testBit_set_byte hO256 hR8]
      simp
    · intro j
      rw [obs_st_keep c.hs (by simp only [setMemory_cache, setDirectory_cache,
        rearm_local_node]), hst j, hdn, testBit_set_byte hO256 hR8, testBit_two_pow_eq]
      by_cases h1 : j = O <;> by_cases h2 : j = m.secondReceiver <;>
        simp [h1, h2, hOR, Ne.symm hOR]

theorem step_flushH {progs : Nat → List instruction} {g g1 : globalState} {k : Nat}
    {m : message} {t1 : threadState} {sends : List (Nat × message)} {rest : List message}
    {A B : Nat} (c : stepCtx progs g g1 k m t1 sends rest A B) (hmA : m.address = A)
    (hBe : evictPhaseO (obsOf g B) B) (hR : m.secondReceiver < NUM_PROCS)
    (O : Nat) (hO : O < NUM_PROCS)
    (hk : k = (A >>> 4) &&& 0x0F) (hkR : m.secondReceiver ≠ (A >>> 4) &&& 0x0F)
    (hty : m.type = .FLUSH)
    (hview : ∀ j, (obsOf g A).view j = if j = (A >>> 4) &&& 0x0F then [m] else [])
    (hdir : (obsOf g A).dir = { bitVector := 2 ^ O, state := .EM })
    (hst : ∀ j, (obsOf g A).st j =
      if j = O ∨ j = m.secondReceiver then some .SHARED else none) :
    coherent progs g1 := by
  subst hmA
  have hk4 : k < NUM_PROCS := c.hs.node
  have hR8 : m.secondReceiver < 8 := by unfold NUM_PROCS at hR; omega
  have hO256 : 2 ^ O < 256 := by
    have := two_pow_lt_16 O hO
    omega
  have hkR1 : k ≠ m.secondReceiver := fun e => hkR (e.symm.trans hk)
  have hd := c.hd
  have hdirA : (g.threads k).local_node.directory (m.address &&& 0x0F) =
      (obsOf g m.address).dir := by
    rw [hk]; rfl
  simp only [dispatch, hty, case_FLUSH, rearm_local_node] at hd
  rw [if_pos hk, if_neg hkR1] at hd
  simp only [Option.some.injEq, Prod.mk.injEq] at hd
  obtain ⟨ht1, hsd⟩ := hd
  subst ht1
  subst hsd
  have hdn : (obsOf g1 m.address).dir =
      { bitVector := (2 ^ O ||| 1 <<< m.secondReceiver) % 256, state := .S } := by
    rw [obs_dir_set c.hs hk (by
      simp only [setMemory_directory, setDirectory_directory, rearm_local_node]
      rfl), hdirA, hdir]
  refine finish_A c rfl (Or.inr ⟨hk, _, by
      simp only [setMemory_directory, setDirectory_directory, rearm_local_node]
      rfl⟩)
    (Or.inl (by simp only [setMemory_cache, setDirectory_cache, rearm_local_node])) ?_
    (Or.inr ⟨postPhaseO.stable ⟨⟨?_, ?_, ?_⟩, ?_⟩, hBe⟩)
  · intro p hp
    cases hp
  · intro h
    rw [hdn] at h
    cases h
  · intro h
    rw [hdn] at h
    cases h
  · intro _
    rw [hdn]
    refine ⟨set_bit_lt_16 _ (two_pow_lt_16 O hO) _ hR, ?_⟩
    intro j
    rw [obs_st_keep c.hs (by simp only [setMemory_cache, setDirectory_cache,
      rearm_local_node]), hst j]
    simp only [testBit_set_byte hO256 hR8, testBit_two_pow_eq]
    by_cases h1 : j = O <;> by_cases h2 : j = m.secondReceiver <;>
      simp [h1, h2]
  · intro j
    rw [obs_view_nosend c.hs, if_pos rfl, hview, hview, ← hk]
    split_ifs <;> rfl

/-! ## The sharers invalidate, and the home records the new owner -/

theorem step_inv {progs : Nat → List instruction} {g g1 : globalState} {k : Nat}
    {m : message} {t1 : threadState} {sends : List (Nat × message)} {rest : List message}
    {A B : Nat} (c : stepCtx progs g g1 k m t1 sends rest A B) (hmA : m.address = A)
    (hBe : evictPhaseO (obsOf g B) B) (R : Nat) (hR : R < NUM_PROCS)
    (hdir : (obsOf g A).dir = { bitVector := 2 ^ R, state := .EM })
    (hstR : (obsOf g A).st R = some .MODIFIED) (hvR : (obsOf g A).view R = [])
    (hall : ∀ j, j ≠ R →
      ((obsOf g A).st j = some .SHARED ∧ ∃ x, (obsOf g A).view j = [x] ∧ x.type = .INV) ∨
      ((obsOf g A).st j = none ∧ (obsOf g A).view j = [])) :
    coherent progs g1 := by
  subst hmA
  have hk4 : k < NUM_PROCS := c.hs.node
  obtain ⟨r, hvh⟩ := view_head c.hs
  have hkR : k ≠ R := by
    intro e
    rw [e, hvR] at hvh
    cases hvh
  have hstk : (obsOf g m.address).st k = some .SHARED ∧ (obsOf g m.address).view k = [m] ∧
      m.type = .INV := by
    rcases hall k hkR with ⟨h1, x, h2, h3⟩ | ⟨_, h2⟩
    · rw [h2] at hvh
      simp only [List.cons.injEq] at hvh
      have hx : x = m := hvh.1
      rw [hx] at h2 h3
      exact ⟨h1, h2, h3⟩
    · rw [h2] at hvh
      cases hvh
  obtain ⟨hsk, hvk, hty⟩ := hstk
  have hline := hsk
  rw [obs_st_old g k _ hk4] at hline
  obtain ⟨hla, hls, _⟩ := statusOf_some hline
  have hd := c.hd
  simp only [dispatch, hty, case_INV, rearm_local_node] at hd
  rw [if_pos hla] at hd
  simp only [Option.some.injEq, Prod.mk.injEq] at hd
  obtain ⟨ht1, hsd⟩ := hd
  subst ht1
  subst hsd
  refine finish_A c rfl (Or.inl (by rw [setCache_directory, rearm_local_node]))
    (Or.inr ⟨_, by rw [setCache_cache, rearm_local_node], by exact hla, hla⟩) ?_
    (Or.inr ⟨postPhaseO.inv R hR ?_ ?_ ?_ ?_, hBe⟩)
  · intro p hp
    cases hp
  · rw [obs_dir_keep c.hs (by rw [setCache_directory, rearm_local_node]), hdir]
  · rw [obs_st_set c.hs (by rw [setCache_cache, rearm_local_node]), if_neg (Ne.symm hkR)]
    exact hstR
  · rw [obs_view_nosend c.hs, if_neg (Ne.symm hkR)]
    exact hvR
  · intro j hj
    rw [obs_st_set c.hs (by rw [setCache_cache, rearm_local_node]), obs_view_nosend c.hs]
    by_cases hjk : j = k
    · rw [if_pos hjk, if_pos hjk, if_pos rfl, hvk]
      exact Or.inr ⟨statusOf_invalid _ _, rfl⟩
    · rw [if_neg hjk, if_neg hjk]
      exact hall j hj

theorem step_flushInv_post {progs : Nat → List instruction} {g g1 : globalState} {k : Nat}
    {m : message} {t1 : threadState} {sends : List (Nat × message)} {rest : List message}
    {A B : Nat} (c : stepCtx progs g g1 k m t1 sends rest A B) (hmA : m.address = A)
    (hBe : evictPhaseO (obsOf g B) B) (hR : m.secondReceiver < NUM_PROCS)
    (hk : k = (A >>> 4) &&& 0x0F)
    (hty : m.type = .FLUSH_INVACK)
    (hdir : (obsOf g A).dir = { bitVector := 2 ^ m.secondReceiver, state := .EM })
    (hst : ∀ j, (obsOf g A).st j = if j = m.secondReceiver then some .MODIFIED else none)
    (hvo : ∀ j, j ≠ (A >>> 4) &&& 0x0F → (obsOf g A).view j = [])
    (hvH : (obsOf g A).view ((A >>> 4) &&& 0x0F) = [m]) :
    coherent progs g1 := by
  subst hmA
  have hk4 : k < NUM_PROCS := c.hs.node
  have hR8 : m.secondReceiver < 8 := by unfold NUM_PROCS at hR; omega
  have hd := c.hd
  have hdirA : (g.threads k).local_node.directory (m.address &&& 0x0F) =
      (obsOf g m.address).dir := by
    rw [hk]; rfl
  have hviews : ∀ j, (obsOf g m.address).view j ≠ [] → j = k := by
    intro j hj
    by_contra hne
    exact hj (hvo j (fun e => hne (e.trans hk.symm)))
  simp only [dispatch, hty, case_FLUSH_INVACK, rearm_local_node] at hd
  rw [if_pos hk] at hd
  by_cases hkR : k = m.secondReceiver
  · have hline := hst k
    rw [if_pos hkR, obs_st_old g k _ hk4] at hline
    obtain ⟨hla, hls, _⟩ := statusOf_some hline
    have hrep : replaceIfOther k
        ((g.threads k).local_node.cache ((m.address &&& 0x0F) % CACHE_SIZE)) m.address = [] := by
      unfold replaceIfOther
      rw [if_neg]
      intro h
      exact h.1 hla
    rw [if_pos hkR] at hd
    simp only [setMemory_cache, setDirectory_cache, rearm_local_node, hrep, Option.some.injEq,
      Prod.mk.injEq] at hd
    obtain ⟨ht1, hsd⟩ := hd
    subst ht1
    subst hsd
    refine finish_A c rfl (Or.inr ⟨hk, _, by
        simp only [setCache_directory, setMemory_directory, setDirectory_directory,
          rearm_local_node]
        rfl⟩)
      (Or.inr ⟨_, by
        simp only [setCache_cache, setMemory_cache, setDirectory_cache, rearm_local_node]
        rfl, by exact rfl, hla⟩) ?_
      (Or.inr ⟨postPhaseO.flushInv m.secondReceiver m hR (hk ▸ hk4) hty rfl ?_ ?_ ?_ ?_, hBe⟩)
    · intro p hp
      cases hp
    · rw [obs_dir_set c.hs hk (by
        simp only [setCache_directory, setMemory_directory, setDirectory_directory,
          rearm_local_node]
        rfl), hdirA, hdir, one_shl_mod hR8]
    · intro j
      rw [obs_st_set c.hs (by
        simp only [setCache_cache, setMemory_cache, setDirectory_cache, rearm_local_node]
        rfl), hst j, ← hkR]
      split
      · exact statusOf_install _ _ _ (by decide)
      · rfl
    · intro j hj
      rw [obs_view_nosend c.hs, if_neg (fun e => hj (e.trans hk)), hvo j hj]
    · right
      rw [obs_view_nosend c.hs, if_pos hk.symm, if_pos rfl, hk, hvH]
      rfl
  · rw [if_neg hkR] at hd
    simp only [Option.some.injEq, Prod.mk.injEq] at hd
    obtain ⟨ht1, hsd⟩ := hd
    subst ht1
    subst hsd
    refine finish_A c rfl (Or.inr ⟨hk, _, by
        simp only [setMemory_directory, setDirectory_directory, rearm_local_node]
        rfl⟩)
      (Or.inl (by simp only [setMemory_cache, setDirectory_cache, rearm_local_node])) ?_
      (Or.inr ⟨postPhaseO.flushInv m.secondReceiver m hR (hk ▸ hk4) hty rfl ?_ ?_ ?_ ?_, hBe⟩)
    · intro p hp
      cases hp
    · rw [obs_dir_set c.hs hk (by
        simp only [setMemory_directory, setDirectory_directory, rearm_local_node]
        rfl), hdirA, hdir, one_shl_mod hR8]
    · intro j
      rw [obs_st_keep c.hs (by simp only [setMemory_cache, setDirectory_cache,
        rearm_local_node])]
      exact hst j
    · intro j hj
      rw [obs_view_nosend c.hs, if_neg (fun e => hj (e.trans hk)), hvo j hj]
    · right
      rw [obs_view_nosend c.hs, if_pos hk.symm, if_pos rfl, hk, hvH]
      rfl

/-! ## The home dispatches an eviction notice -/

theorem clear_own_bit : ∀ r, r < 4 → (2 ^ r &&& notBit r) % 256 = 0 := by decide

theorem popcount_zero : builtin_popcount 0 = 0 := by decide

theorem step_notice_em {progs : Nat → List instruction} {g g1 : globalState} {k : Nat}
    {m : message} {t1 : threadState} {sends : List (Nat × message)} {rest : List message}
    {A B : Nat} (c : stepCtx progs g g1 k m t1 sends rest A B) (hmB : m.address = B)
    (hA : postPhaseO (obsOf g A) A) (hR : m.sender < NUM_PROCS)
    (hk : k = (B >>> 4) &&& 0x0F)
    (hview : ∀ j, (obsOf g B).view j = if j = (B >>> 4) &&& 0x0F then [m] else [])
    (hty : m.type = .EVICT_SHARED)
    (hdir : (obsOf g B).dir = { bitVector := 2 ^ m.sender, state := .EM })
    (hst : ∀ j, (obsOf g B).st j = none) :
    coherent progs g1 := by
  subst hmB
  have hk4 : k < NUM_PROCS := c.hs.node
  have hd := c.hd
  have hdirA : (g.threads k).local_node.directory (m.address &&& 0x0F) =
      (obsOf g m.address).dir := by
    rw [hk]; rfl
  simp only [dispatch, hty, case_EVICT_SHARED, rearm_local_node] at hd
  rw [if_neg (not_not_intro hk), hdirA, hdir] at hd
  simp only [clear_own_bit m.sender hR, popcount_zero, ↓reduceIte, Option.some.injEq,
    Prod.mk.injEq] at hd
  obtain ⟨ht1, hsd⟩ := hd
  subst ht1
  subst hsd
  have hdn : (obsOf g1 m.address).dir = { bitVector := 0, state := .U } :=
    obs_dir_set c.hs hk (by rw [setDirectory_directory, rearm_local_node])
  refine finish_B c rfl (Or.inr ⟨hk, _, by rw [setDirectory_directory, rearm_local_node]⟩)
    (Or.inl (by rw [setDirectory_cache, rearm_local_node])) ?_ hA
    (evictPhaseO.stable ⟨⟨?_, ?_, ?_⟩, ?_⟩)
  · intro p hp
    cases hp
  · intro _
    rw [hdn]
    refine ⟨rfl, fun j => ?_⟩
    rw [obs_st_keep c.hs (by rw [setDirectory_cache, rearm_local_node])]
    exact hst j
  · intro h
    rw [hdn] at h
    cases h
  · intro h
    rw [hdn] at h
    cases h
  · intro j
    rw [obs_view_nosend c.hs, if_pos rfl, hview, hview, ← hk]
    split_ifs <;> rfl

theorem step_writeback {progs : Nat → List instruction} {g g1 : globalState} {k : Nat}
    {m : message} {t1 : threadState} {sends : List (Nat × message)} {rest : List message}
    {A B : Nat} (c : stepCtx progs g g1 k m t1 sends rest A B) (hmB : m.address = B)
    (hA : postPhaseO (obsOf g A) A)
    (hk : k = (B >>> 4) &&& 0x0F)
    (hview : ∀ j, (obsOf g B).view j = if j = (B >>> 4) &&& 0x0F then [m] else [])
    (hty : m.type = .EVICT_MODIFIED)
    (hst : ∀ j, (obsOf g B).st j = none) :
    coherent progs g1 := by
  subst hmB
  have hk4 : k < NUM_PROCS := c.hs.node
  have hd := c.hd
  simp only [dispatch, hty, case_EVICT_MODIFIED, rearm_local_node, Option.some.injEq,
    Prod.mk.injEq] at hd
  obtain ⟨ht1, hsd⟩ := hd
  subst ht1
  subst hsd
  have hdn : (obsOf g1 m.address).dir = { bitVector := 0, state := .U } :=
    obs_dir_set c.hs hk (by
      rw [setDirectory_directory, setMemory_directory, rearm_local_node])
  refine finish_B c rfl (Or.inr ⟨hk, _, by
      rw [setDirectory_directory, setMemory_directory, rearm_local_node]⟩)
    (Or.inl (by rw [setDirectory_cache, setMemory_cache, rearm_local_node])) ?_ hA
    (evictPhaseO.stable ⟨⟨?_, ?_, ?_⟩, ?_⟩)
  · intro p hp
    cases hp
  · intro _
    rw [hdn]
    refine ⟨rfl, fun j => ?_⟩
    rw [obs_st_keep c.hs (by rw [setDirectory_cache, setMemory_cache, rearm_local_node])]
    exact hst j
  · intro h
    rw [hdn] at h
    cases h
  · intro h
    rw [hdn] at h
    cases h
  · intro j
    rw [obs_view_nosend c.hs, if_pos rfl, hview, hview, ← hk]
    split_ifs <;> rfl

theorem step_promote {progs : Nat → List instruction} {g g1 : globalState} {k : Nat}
    {m : message} {t1 : threadState} {sends : List (Nat × message)} {rest : List message}
    {A B : Nat} (c : stepCtx progs g g1 k m t1 sends rest A B) (hmB : m.address = B)
    (hA : postPhaseO (obsOf g A) A)
    (hk : k ≠ (B >>> 4) &&& 0x0F)
    (hview : ∀ j, (obsOf g B).view j = if j = k then [m] else [])
    (hty : m.type = .EVICT_SHARED)
    (hdir : (obsOf g B).dir = { bitVector := 2 ^ k, state := .EM })
    (hst : ∀ j, (obsOf g B).st j = if j = k then some .SHARED else none) :
    coherent progs g1 := by
  subst hmB
  have hk4 : k < NUM_PROCS := c.hs.node
  have hline := hst k
  rw [if_pos rfl, obs_st_old g k _ hk4] at hline
  obtain ⟨hla, hls, _⟩ := statusOf_some hline
  have hd := c.hd
  simp only [dispatch, hty, case_EVICT_SHARED, rearm_local_node] at hd
  rw [if_pos hk] at hd
  simp only [Option.some.injEq, Prod.mk.injEq] at hd
  obtain ⟨ht1, hsd⟩ := hd
  subst ht1
  subst hsd
  have hdn : (obsOf g1 m.address).dir = { bitVector := 2 ^ k, state := .EM } := by
    rw [obs_dir_keep c.hs (by rw [setCache_directory, rearm_local_node]), hdir]
  refine finish_B c rfl (Or.inl (by rw [setCache_directory, rearm_local_node]))
    (Or.inr ⟨_, by rw [setCache_cache, rearm_local_node], by exact hla, hla⟩) ?_ hA
    (evictPhaseO.stable ⟨⟨?_, ?_, ?_⟩, ?_⟩)
  · intro p hp
    cases hp
  · intro h
    rw [hdn] at h
    cases h
  · intro _
    refine ⟨k, .EXCLUSIVE, hk4, by rw [hdn], Or.inr rfl, fun j => ?_⟩
    rw [obs_st_set c.hs (by rw [setCache_cache, rearm_local_node]), hst j]
    split
    · exact statusOf_set _ _ _ (by decide) hla
    · rfl
  · intro h
    rw [hdn] at h
    cases h
  · intro j
    rw [obs_view_nosend c.hs, if_pos rfl, hview, hview]
    split_ifs <;> rfl

/-! ## The home dispatches the notice of a sharer -/

theorem two_pow_byte_lt_16 : ∀ o, o < 8 → 2 ^ o < 16 → o < 4 := by decide

theorem step_notice_s {progs : Nat → List instruction} {g g1 : globalState} {k : Nat}
    {m : message} {t1 : threadState} {sends : List (Nat × message)} {rest : List message}
    {A B : Nat} (c : stepCtx progs g g1 k m t1 sends rest A B) (hmB : m.address = B)
    (hA : postPhaseO (obsOf g A) A) (hR : m.sender < NUM_PROCS)
    (hk : k = (B >>> 4) &&& 0x0F)
    (hview : ∀ j, (obsOf g B).view j = if j = (B >>> 4) &&& 0x0F then [m] else [])
    (hty : m.type = .EVICT_SHARED)
    (hds : (obsOf g B).dir.state = .S) (hbv : (obsOf g B).dir.bitVector < 16)
    (hst : ∀ j, (obsOf g B).st j =
      if j ≠ m.sender ∧ (obsOf g B).dir.bitVector.testBit j = true then some .SHARED
      else none) :
    coherent progs g1 := by
  subst hmB
  have hk4 : k < NUM_PROCS := c.hs.node
  have hR32 : m.sender < 32 := by unfold NUM_PROCS at hR; omega
  have hb256 : (obsOf g m.address).dir.bitVector < 256 := by omega
  have hn16 := clear_bit_lt_16 _ hbv _ hR
  have hn256 : ((obsOf g m.address).dir.bitVector &&& notBit m.sender) % 256 < 256 := by omega
  have hbit := testBit_clear_byte hb256 hR32
  have hd := c.hd
  have hdirA : (g.threads k).local_node.directory (m.address &&& 0x0F) =
      (obsOf g m.address).dir := by
    rw [hk]; rfl
  have hvnew : ∀ j, (if j = k then
      (if m.address = m.address then ((obsOf g m.address).view k).tail
        else (obsOf g m.address).view k)
      else (obsOf g m.address).view j) = [] := by
    intro j
    rw [if_pos rfl, hview, hview, ← hk]
    split_ifs <;> rfl
  simp only [dispatch, hty, case_EVICT_SHARED, rearm_local_node] at hd
  rw [if_neg (not_not_intro hk), hdirA] at hd
  split at hd
  · rename_i hc0
    have hz := popcount_zero_byte _ hn256 hc0
    simp only [Option.some.injEq, Prod.mk.injEq] at hd
    obtain ⟨ht1, hsd⟩ := hd
    subst ht1
    subst hsd
    have hdn : (obsOf g1 m.address).dir =
        { bitVector := ((obsOf g m.address).dir.bitVector &&& notBit m.sender) % 256,
          state := .U } :=
      obs_dir_set c.hs hk (by rw [setDirectory_directory, rearm_local_node])
    refine finish_B c rfl (Or.inr ⟨hk, _, by rw [setDirectory_directory, rearm_local_node]⟩)
      (Or.inl (by rw [setDirectory_cache, rearm_local_node])) ?_ hA
      (evictPhaseO.stable ⟨⟨?_, ?_, ?_⟩, ?_⟩)
    · intro p hp
      cases hp
    · intro _
      rw [hdn]
      refine ⟨hz, fun j => ?_⟩
      rw [obs_st_keep c.hs (by rw [setDirectory_cache, rearm_local_node]), hst j]
      have hj := hbit j
      rw [hz] at hj
      simp only [Nat.zero_testBit] at hj
      split
      · rename_i h
        simp [h.1, h.2] at hj
      · rfl
    · intro h
      rw [hdn] at h
      cases h
    · intro h
      rw [hdn] at h
      cases h
    · intro j
      rw [obs_view_nosend c.hs]
      exact hvnew j
  · split at hd
    · rename_i hc0 hc1
      obtain ⟨o, ho8, hctz, hpow⟩ := popcount_one_byte _ hn256 hc1
      have ho4 : o < 4 := two_pow_byte_lt_16 o ho8 (hpow ▸ hn16)
      have hsto : ∀ j, (obsOf g m.address).st j = if j = o then some .SHARED else none := by
        intro j
        rw [hst j]
        have hj := hbit j
        rw [hpow, testBit_two_pow_eq] at hj
        by_cases hjo : j = o
        · rw [if_pos hjo, if_pos]
          rw [decide_eq_true hjo] at hj
          have hj1 := hj.symm
          simp only [Bool.and_eq_true, decide_eq_true_eq] at hj1
          exact ⟨hj1.2, hj1.1⟩
        · rw [if_neg hjo, if_neg]
          intro h
          rw [decide_eq_false hjo] at hj
          have e : ((obsOf g m.address).dir.bitVector.testBit j && decide (j ≠ m.sender))
              = true := by
            simp [h.1, h.2]
          rw [e] at hj
          cases hj
      rw [hctz] at hd
      simp only at hd
      split at hd
      · rename_i hoh
        simp only [Option.some.injEq, Prod.mk.injEq] at hd
        obtain ⟨ht1, hsd⟩ := hd
        obtain ⟨msg, hsd1, hf1, hf3⟩ : ∃ msg : message, [(o, msg)] = sends ∧
            msg.type = .EVICT_SHARED ∧ msg.address = m.address :=
          ⟨_, hsd, rfl, rfl⟩
        clear hsd
        subst ht1
        subst hsd1
        have hdn : (obsOf g1 m.address).dir = { bitVector := 2 ^ o, state := .EM } := by
          rw [obs_dir_set c.hs hk (by rw [setDirectory_directory, rearm_local_node]), hpow]
        refine finish_B c rfl
          (Or.inr ⟨hk, _, by rw [setDirectory_directory, rearm_local_node]⟩)
          (Or.inl (by rw [setDirectory_cache, rearm_local_node])) ?_ hA
          (evictPhaseO.promote o msg ho4 hoh ?_ hf1 hdn ?_)
        · intro p hp
          simp only [List.mem_singleton] at hp
          rw [hp]
          exact hf3
        · intro j
          rw [obs_drain_view c.hs, hvnew j]
          simp only [sentTo_cons, sentTo_nil, hf3, and_true, List.append_nil, List.nil_append]
          unfold NUM_PROCS
          split_ifs <;>
            first | rfl | omega
        · intro j
          rw [obs_st_keep c.hs (by rw [setDirectory_cache, rearm_local_node])]
          exact hsto j
      · rename_i hoh
        have hoh1 : o = (m.address >>> 4) &&& 0x0F := not_not.mp hoh
        have hok : o = k := hoh1.trans hk.symm
        have hline := hsto k
        rw [if_pos hok.symm, obs_st_old g k _ hk4] at hline
        obtain ⟨hla, hls, _⟩ := statusOf_some hline
        simp only [Option.some.injEq, Prod.mk.injEq] at hd
        obtain ⟨ht1, hsd⟩ := hd
        subst ht1
        subst hsd
        have hdn : (obsOf g1 m.address).dir = { bitVector := 2 ^ o, state := .EM } := by
          rw [obs_dir_set c.hs hk (by
            rw [setCache_directory, setDirectory_directory, rearm_local_node]), hpow]
        refine finish_B c rfl
          (Or.inr ⟨hk, _, by rw [setCache_directory, setDirectory_directory, rearm_local_node]⟩)
          (Or.inr ⟨_, by rw [setCache_cache, setDirectory_cache, rearm_local_node],
            by exact hla, hla⟩) ?_ hA
          (evictPhaseO.stable ⟨⟨?_, ?_, ?_⟩, ?_⟩)
        · intro p hp
          cases hp
        · intro h
          rw [hdn] at h
          cases h
        · intro _
          refine ⟨o, .EXCLUSIVE, ho4, by rw [hdn], Or.inr rfl, fun j => ?_⟩
          rw [obs_st_set c.hs (by rw [setCache_cache, setDirectory_cache, rearm_local_node]),
            hsto j, hok]
          split
          · exact statusOf_set _ _ _ (by decide) hla
          · rfl
        · intro h
          rw [hdn] at h
          cases h
        · intro j
          rw [obs_view_nosend c.hs]
          exact hvnew j
    · rename_i hc0 hc1
      simp only [Option.some.injEq, Prod.mk.injEq] at hd
      obtain ⟨ht1, hsd⟩ := hd
      subst ht1
      subst hsd
      have hdn : (obsOf g1 m.address).dir =
          { bitVector := ((obsOf g m.address).dir.bitVector &&& notBit m.sender) % 256,
            state := .S } := by
        rw [obs_dir_set c.hs hk (by rw [setDirectory_directory, rearm_local_node]), hds]
      refine finish_B c rfl (Or.inr ⟨hk, _, by rw [setDirectory_directory, rearm_local_node]⟩)
        (Or.inl (by rw [setDirectory_cache, rearm_local_node])) ?_ hA
        (evictPhaseO.stable ⟨⟨?_, ?_, ?_⟩, ?_⟩)
      · intro p hp
        cases hp
      · intro h
        rw [hdn] at h
        cases h
      · intro h
        rw [hdn] at h
        cases h
      · intro _
        rw [hdn]
        refine ⟨hn16, fun j => ?_⟩
        rw [obs_st_keep c.hs (by rw [setDirectory_cache, rearm_local_node]), hst j]
        simp only [hbit j]
        by_cases h1 : j = m.sender <;> simp [h1]
      · intro j
        rw [obs_view_nosend c.hs]
        exact hvnew j

/-! ## The eviction caused by an install -/

theorem hcr_valid (k : Nat) (L : cacheLine) (h : L.state ≠ .INVALID) :
    ∃ ev : message, handleCacheReplacement k L = [((L.address >>> 4) &&& 0x0F, ev)] ∧
      ev.address = L.address ∧ ev.sender = k ∧
      (L.state = .MODIFIED → ev.type = .EVICT_MODIFIED) ∧
      (L.state ≠ .MODIFIED → ev.type = .EVICT_SHARED) := by
  unfold handleCacheReplacement
  cases hs : L.state with
  | INVALID => exact absurd hs h
  | MODIFIED => exact ⟨_, rfl, rfl, rfl, fun _ => rfl, fun e => absurd rfl e⟩
  | EXCLUSIVE => exact ⟨_, rfl, rfl, rfl, fun e => (by cases e), fun _ => rfl⟩
  | SHARED => exact ⟨_, rfl, rfl, rfl, fun e => (by cases e), fun _ => rfl⟩

theorem hcr_eq_rio (k : Nat) (L : cacheLine) (A : Nat) (h : statusOf L A = none) :
    handleCacheReplacement k L = replaceIfOther k L A := by
  unfold replaceIfOther
  split
  · rfl
  · rename_i hn
    have hi : L.state = .INVALID := by
      by_contra hv
      unfold statusOf at h
      by_cases ha : L.address = A
      · rw [if_pos ⟨ha, hv⟩] at h
        cases h
      · exact hn ⟨ha, hv⟩
    unfold handleCacheReplacement
    simp only [hi]

/-- The eviction of a line held by node `k` starts an eviction phase: the
notice waits at the home, and node `k` no longer holds the address. -/
theorem evict_phase {o o1 : addrObs} {X k : Nat} {ev : message} {x : cacheLineState}
    (hk : k < NUM_PROCS) (hH : (X >>> 4) &&& 0x0F < NUM_PROCS) (hst : stableO o)
    (hx : o.st k = some x) (hd : o1.dir = o.dir)
    (hs1 : ∀ j, o1.st j = if j = k then none else o.st j)
    (hv : ∀ j, o1.view j = if j = (X >>> 4) &&& 0x0F then [ev] else [])
    (hsender : ev.sender = k)
    (htm : x = .MODIFIED → ev.type = .EVICT_MODIFIED)
    (hts : x ≠ .MODIFIED → ev.type = .EVICT_SHARED) : evictPhaseO o1 X := by
  obtain ⟨hag, _⟩ := hst
  cases hds : o.dir.state with
  | U =>
    have := (hag.1 hds).2 k
    rw [hx] at this
    cases this
  | EM =>
    obtain ⟨w, y, hw, hbv, hy, hsts⟩ := hag.2.1 hds
    have hkw : k = w := by
      by_contra hne
      have := hsts k
      rw [hx, if_neg hne] at this
      cases this
    subst hkw
    have hxy : x = y := by
      have := hsts k
      rw [hx, if_pos rfl] at this
      exact Option.some.inj this
    subst hxy
    have hdir1 : o1.dir = { bitVector := 2 ^ k, state := .EM } := by
      rw [hd]
      exact dir_eq_of hbv hds
    have hnone : ∀ j, o1.st j = none := by
      intro j
      rw [hs1 j]
      split
      · rfl
      · rename_i hjk
        rw [hsts j, if_neg hjk]
    rcases hy with e | e
    · exact evictPhaseO.writeback k ev hk hH hv (htm e) hdir1 hnone
    · exact evictPhaseO.notice k ev hk hH hv (hts (by rw [e]; decide)) hsender
        (Or.inl ⟨hdir1, hnone⟩)
  | S =>
    obtain ⟨hbv, hsts⟩ := hag.2.2 hds
    have hkx := hsts k
    rw [hx] at hkx
    have hbit : o.dir.bitVector.testBit k = true := by
      by_contra hb
      rw [if_neg hb] at hkx
      cases hkx
    rw [if_pos hbit] at hkx
    have hxs : x = .SHARED := Option.some.inj hkx
    refine evictPhaseO.notice k ev hk hH hv (hts (by rw [hxs]; decide)) hsender (Or.inr ?_)
    rw [hd]
    refine ⟨hds, hbv, hbit, fun j => ?_⟩
    rw [hs1 j, hsts j]
    by_cases hjk : j = k
    · rw [if_pos hjk, if_neg]
      exact fun h => h.1 hjk
    · rw [if_neg hjk]
      by_cases hb : o.dir.bitVector.testBit j = true
      · rw [if_pos hb, if_pos ⟨hjk, hb⟩]
      · rw [if_neg hb, if_neg (fun h => hb h.2)]

/-! ## A step that installs the transaction address -/

theorem stable_no_messages {g : globalState} {A B : Nat}
    (hmsgs : ∀ j, j < NUM_PROCS → ∀ x, x ∈ inFlight (g.message_buffers j) →
      x.address = A ∨ x.address = B)
    (hBs : stableO (obsOf g B)) :
    ∀ j, j < NUM_PROCS → ∀ x, x ∈ inFlight (g.message_buffers j) → x.address = A := by
  intro j hj x hx
  rcases hmsgs j hj x hx with h | h
  · exact h
  · have hv := hBs.2 j
    have hmem : x ∈ (obsOf g B).view j := by
      unfold obsOf viewOf
      simp only [hj, ↓reduceIte, List.mem_filter, decide_eq_true_eq]
      exact ⟨hx, h⟩
    rw [hv] at hmem
    cases hmem

/-- The requester installs the transaction address.  The line it replaces, if
it held another address, starts the eviction of that address; no eviction was
in progress before. -/
theorem finish_install {progs : Nat → List instruction} {g g1 : globalState} {k : Nat}
    {m : message} {t1 : threadState} {sends : List (Nat × message)} {rest : List message}
    {A B : Nat} (c : stepCtx progs g g1 k m t1 sends rest A B) (hmA : m.address = A)
    (hBs : stableO (obsOf g B))
    (hdir : t1.local_node.directory = (g.threads k).local_node.directory ∨
      (k = (m.address >>> 4) &&& 0x0F ∧ ∃ d, t1.local_node.directory =
        Function.update (g.threads k).local_node.directory (m.address &&& 0x0F) d))
    (l : cacheLine)
    (hc : t1.local_node.cache = Function.update (g.threads k).local_node.cache
      ((m.address &&& 0x0F) % CACHE_SIZE) l)
    (hl : l.address = m.address)
    (s0 : List (Nat × message)) (hs0 : ∀ p, p ∈ s0 → p.2.address = m.address)
    (hsends : sends = s0 ++ replaceIfOther k
      ((g.threads k).local_node.cache ((m.address &&& 0x0F) % CACHE_SIZE)) m.address)
    (hpost : postPhaseO (obsOf g1 A) A) : coherent progs g1 := by
  subst hmA
  have hk4 : k < NUM_PROCS := c.hs.node
  have hslots1 : slotsOK g1 := slotsOK_step c.hs.threads c.hA c.hslots (Or.inr ⟨l, hc, hl⟩)
  have hprog1 := programsOK_drain c.hs.threads c.hd c.hprog
  have holdA := stable_no_messages c.hmsgs hBs
  obtain ⟨L, hL⟩ : ∃ L, L = (g.threads k).local_node.cache ((m.address &&& 0x0F) % CACHE_SIZE) :=
    ⟨_, rfl⟩
  rw [← hL] at hsends
  by_cases hev : L.address ≠ m.address ∧ L.state ≠ .INVALID
  · have hrio : replaceIfOther k L m.address = handleCacheReplacement k L := by
      unfold replaceIfOther
      rw [if_pos hev]
    obtain ⟨ev, hcr, heva, hevs, htm, hts⟩ := hcr_valid k L hev.2
    have hLs := c.hslots k hk4 ((m.address &&& 0x0F) % CACHE_SIZE)
    rw [← hL] at hLs
    obtain ⟨hB256, hslot⟩ := hLs hev.2
    rw [hrio, hcr] at hsends
    have hHlt : (L.address >>> 4) &&& 0x0F < NUM_PROCS :=
      c.hrecv ((L.address >>> 4) &&& 0x0F, ev) (by rw [hsends]; simp)
    have hsa : ∀ p, p ∈ sends → p.2.address = m.address ∨ p.2.address = L.address := by
      intro p hp
      rw [hsends] at hp
      rcases List.mem_append.mp hp with h | h
      · exact Or.inl (hs0 p h)
      · simp only [List.mem_singleton] at h
        rw [h]
        exact Or.inr heva
    have hstab : ∀ X, X < 256 → X ≠ m.address → stableO (obsOf g X) := by
      intro X hX hXA
      by_cases hXB : X = B
      · rw [hXB]; exact hBs
      · exact c.hoth X hX hXA hXB
    have hLst := hstab L.address hB256 hev.1
    refine ⟨c.hb1, hslots1, hprog1, m.address, L.address, c.hA, hB256, Ne.symm hev.1, ?_, ?_,
      Or.inr ⟨hpost, ?_⟩⟩
    · exact @messages_drain g g1 k m t1 sends rest c.hs
        (fun x => x.address = m.address ∨ x.address = L.address)
        (fun j hj x hx => Or.inl (holdA j hj x hx)) hsa
    · intro X hX hXA hXB
      rw [obs_other c.hs hX c.hA hXA hdir (Or.inr ⟨l, hc, hl, ?_⟩) ?_]
      · exact hstab X hX hXA
      · rw [← hL]
        unfold statusOf
        rw [if_neg]
        intro h
        exact hXB h.1.symm
      · intro p hp
        rcases hsa p hp with h | h
        · rw [h]; exact Ne.symm hXA
        · rw [h]; exact Ne.symm hXB
    · refine @evict_phase (obsOf g L.address) (obsOf g1 L.address) L.address k ev L.state
        hk4 hHlt hLst ?_ ?_ ?_ ?_ hevs htm hts
      · rw [obs_st_old g k _ hk4, hslot, ← hL]
        unfold statusOf
        rw [if_pos ⟨rfl, hev.2⟩]
      · rw [obs_drain_dir c.hs]
        split
        · rename_i h
          rcases hdir with e | ⟨hk2, d, e⟩
          · rw [e, obs_dir_old, h]
          · rw [e, Function.update_noteq, obs_dir_old, h]
            intro ho
            exact hev.1 (byte_address_eq hB256 c.hA (h.trans hk2) ho)
        · rfl
      · intro j
        rw [obs_drain_st c.hs]
        split
        · rw [hslot, hc, Function.update_same]
          unfold statusOf
          rw [if_neg]
          intro h
          exact hev.1 (h.1.symm.trans hl)
        · rfl
      · intro j
        rw [obs_drain_view c.hs]
        have hs0n : sentTo s0 j L.address = [] :=
          sentTo_eq_nil (fun p hp => by rw [hs0 p hp]; exact Ne.symm hev.1) j
        by_cases hj : j < NUM_PROCS
        · rw [if_pos hj, hsends, sentTo_append, hs0n, sentTo_cons, sentTo_nil]
          simp only [hLst.2, List.tail_nil, ite_self, List.nil_append, List.append_nil, heva,
            and_true]
          by_cases hjh : j = (L.address >>> 4) &&& 0x0F
          · rw [if_pos hjh, if_pos hjh.symm]
          · rw [if_neg hjh, if_neg (fun e => hjh e.symm)]
        · rw [if_neg hj, if_neg]
          intro e
          exact hj (e ▸ hHlt)
  · have hrio : replaceIfOther k L m.address = [] := by
      unfold replaceIfOther
      rw [if_neg hev]
    rw [hrio, List.append_nil] at hsends
    subst hsends
    have hsame : ∀ X, X < 256 → X ≠ m.address → obsOf g1 X = obsOf g X := by
      intro X hX hXA
      refine obs_other c.hs hX c.hA hXA hdir (Or.inr ⟨l, hc, hl, ?_⟩) ?_
      · rw [← hL]
        unfold statusOf
        rw [if_neg]
        intro h
        exact hev ⟨fun e => hXA (h.1.symm.trans e), h.2⟩
      · intro p hp
        rw [hs0 p hp]
        exact Ne.symm hXA
    refine ⟨c.hb1, hslots1, hprog1, m.address, B, c.hA, c.hB, c.hAB, ?_, ?_,
      Or.inr ⟨hpost, evictPhaseO.stable ?_⟩⟩
    · exact @messages_drain g g1 k m t1 sends rest c.hs
        (fun x => x.address = m.address ∨ x.address = B)
        c.hmsgs (fun p hp => Or.inl (hs0 p hp))
    · intro X hX hXA hXB
      rw [hsame X hX hXA]
      exact c.hoth X hX hXA hXB
    · rw [hsame B c.hB (Ne.symm c.hAB)]
      exact hBs

/-! ## The requester dispatches the reply -/

theorem sentTo_rio (k : Nat) (L : cacheLine) (A j : Nat) :
    sentTo (replaceIfOther k L A) j A = [] := by
  apply sentTo_eq_nil
  intro p hp
  unfold replaceIfOther at hp
  split at hp
  · rename_i h
    obtain ⟨ev, hcr, heva, _⟩ := hcr_valid k L h.2
    rw [hcr] at hp
    simp only [List.mem_singleton] at hp
    rw [hp]
    exact fun e => h.1 (heva.symm.trans e)
  · cases hp

theorem obs_view_install {g g1 : globalState} {k : Nat} {m : message} {t1 : threadState}
    {sends : List (Nat × message)} {rest : List message}
    (hs : drained g g1 k m t1 sends rest) (L : cacheLine) (s0 : List (Nat × message))
    (hsends : sends = s0 ++ replaceIfOther k L m.address) (j : Nat) :
    (obsOf g1 m.address).view j = if j < NUM_PROCS then
        (if j = k then ((obsOf g m.address).view k).tail else (obsOf g m.address).view j) ++
          sentTo s0 j m.address
      else [] := by
  rw [obs_drain_view hs, hsends, sentTo_append, sentTo_rio, List.append_nil, if_pos rfl]

theorem step_grant {progs : Nat → List instruction} {g g1 : globalState} {k : Nat}
    {m : message} {t1 : threadState} {sends : List (Nat × message)} {rest : List message}
    {A B : Nat} (c : stepCtx progs g g1 k m t1 sends rest A B) (hmA : m.address = A)
    (hBs : stableO (obsOf g B))
    (hview : ∀ j, (obsOf g A).view j = if j = k then [m] else [])
    (hty : (m.type = .REPLY_RD ∧ m.dirState ≠ .S) ∨ m.type = .REPLY_WR)
    (hdir : (obsOf g A).dir = { bitVector := 2 ^ k, state := .EM })
    (hst : ∀ j, (obsOf g A).st j = none) :
    coherent progs g1 := by
  subst hmA
  have hk4 : k < NUM_PROCS := c.hs.node
  have hline := hst k
  rw [obs_st_old g k _ hk4] at hline
  have hd := c.hd
  obtain ⟨v, x, hx, ht1, hsd⟩ : ∃ v x, (x = .MODIFIED ∨ x = .EXCLUSIVE) ∧
      t1.local_node.cache = Function.update (g.threads k).local_node.cache
        ((m.address &&& 0x0F) % CACHE_SIZE) { address := m.address, value := v, state := x } ∧
      t1.local_node.directory = (g.threads k).local_node.directory ∧
      sends = [] ++ replaceIfOther k
        ((g.threads k).local_node.cache ((m.address &&& 0x0F) % CACHE_SIZE)) m.address := by
    rcases hty with ⟨hty, hds⟩ | hty
    · simp only [dispatch, hty, case_REPLY_RD, rearm_local_node, Option.some.injEq,
        Prod.mk.injEq, if_neg hds] at hd
      obtain ⟨ht1, hsd⟩ := hd
      subst ht1
      exact ⟨_, .EXCLUSIVE, Or.inr rfl, by
        simp only [setCache_cache, rearm_local_node]
        rfl, by
        simp only [setCache_directory, rearm_local_node], hsd.symm⟩
    · simp only [dispatch, hty, case_REPLY_WR, rearm_local_node, Option.some.injEq,
        Prod.mk.injEq] at hd
      obtain ⟨ht1, hsd⟩ := hd
      subst ht1
      rw [hcr_eq_rio k _ m.address hline] at hsd
      exact ⟨_, .MODIFIED, Or.inl rfl, by
        simp only [setCache_cache, rearm_local_node]
        rfl, by
        simp only [setCache_directory, rearm_local_node], hsd.symm⟩
  have hxv : x ≠ .INVALID := by rcases hx with e | e <;> rw [e] <;> decide
  refine finish_install c rfl hBs (Or.inl hsd.1) _ ht1 rfl [] (fun p hp => by cases hp) hsd.2
    (postPhaseO.stable ⟨⟨?_, ?_, ?_⟩, ?_⟩)
  · intro h
    rw [obs_dir_keep c.hs hsd.1, hdir] at h
    cases h
  · intro _
    refine ⟨k, x, hk4, by rw [obs_dir_keep c.hs hsd.1, hdir], hx, fun j => ?_⟩
    rw [obs_st_set c.hs ht1, hst j]
    split
    · exact statusOf_install _ _ _ hxv
    · rfl
  · intro h
    rw [obs_dir_keep c.hs hsd.1, hdir] at h
    cases h
  · intro j
    rw [obs_view_install c.hs _ [] hsd.2, hview, hview, if_pos rfl, sentTo_nil]
    split_ifs <;> rfl

/-! ## The requester installs a shared copy -/

theorem step_replyS {progs : Nat → List instruction} {g g1 : globalState} {k : Nat}
    {m : message} {t1 : threadState} {sends : List (Nat × message)} {rest : List message}
    {A B : Nat} (c : stepCtx progs g g1 k m t1 sends rest A B) (hmA : m.address = A)
    (hBs : stableO (obsOf g B))
    (hview : ∀ j, (obsOf g A).view j = if j = k then [m] else [])
    (hty : (m.type = .REPLY_RD ∧ m.dirState = .S) ∨
      (m.type = .FLUSH ∧ m.secondReceiver = k ∧ k ≠ (A >>> 4) &&& 0x0F))
    (hds : (obsOf g A).dir.state = .S) (hbv : (obsOf g A).dir.bitVector < 16)
    (hbit : (obsOf g A).dir.bitVector.testBit k = true)
    (hst : ∀ j, (obsOf g A).st j =
      if j ≠ k ∧ (obsOf g A).dir.bitVector.testBit j = true then some .SHARED else none) :
    coherent progs g1 := by
  subst hmA
  have hk4 : k < NUM_PROCS := c.hs.node
  have hd := c.hd
  obtain ⟨v, ht1, hsd⟩ : ∃ v,
      t1.local_node.cache = Function.update (g.threads k).local_node.cache
        ((m.address &&& 0x0F) % CACHE_SIZE)
        { address := m.address, value := v, state := .SHARED } ∧
      t1.local_node.directory = (g.threads k).local_node.directory ∧
      sends = [] ++ replaceIfOther k
        ((g.threads k).local_node.cache ((m.address &&& 0x0F) % CACHE_SIZE)) m.address := by
    rcases hty with ⟨hty, hds⟩ | ⟨hty, hsec, hkh⟩
    · simp only [dispatch, hty, case_REPLY_RD, rearm_local_node, Option.some.injEq,
        Prod.mk.injEq, if_pos hds] at hd
      obtain ⟨ht1, hsd⟩ := hd
      subst ht1
      exact ⟨_, by
        simp only [setCache_cache, rearm_local_node]
        rfl, by
        simp only [setCache_directory, rearm_local_node], hsd.symm⟩
    · simp only [dispatch, hty, case_FLUSH, rearm_local_node] at hd
      rw [if_neg hkh, if_pos hsec.symm] at hd
      simp only [rearm_local_node, Option.some.injEq, Prod.mk.injEq] at hd
      obtain ⟨ht1, hsd⟩ := hd
      subst ht1
      exact ⟨_, by
        simp only [setCache_cache, rearm_local_node]
        rfl, by
        simp only [setCache_directory, rearm_local_node], hsd.symm⟩
  refine finish_install c rfl hBs (Or.inl hsd.1) _ ht1 rfl [] (fun p hp => by cases hp) hsd.2
    (postPhaseO.stable ⟨⟨?_, ?_, ?_⟩, ?_⟩)
  · intro h
    rw [obs_dir_keep c.hs hsd.1, hds] at h
    cases h
  · intro h
    rw [obs_dir_keep c.hs hsd.1, hds] at h
    cases h
  · intro _
    rw [obs_dir_keep c.hs hsd.1]
    refine ⟨hbv, fun j => ?_⟩
    rw [obs_st_set c.hs ht1, hst j]
    by_cases hjk : j = k
    · rw [if_pos hjk, hjk, if_pos hbit]
      exact statusOf_install _ _ _ (by decide)
    · rw [if_neg hjk]
      by_cases hb : (obsOf g m.address).dir.bitVector.testBit j = true
      · rw [if_pos ⟨hjk, hb⟩, if_pos hb]
      · rw [if_neg (fun h => hb h.2), if_neg hb]
  · intro j
    rw [obs_view_install c.hs _ [] hsd.2, hview, hview, if_pos rfl, sentTo_nil]
    split_ifs <;> rfl

theorem step_flush2_req {progs : Nat → List instruction} {g g1 : globalState} {k : Nat}
    {m : message} {t1 : threadState} {sends : List (Nat × message)} {rest : List message}
    {A B : Nat} (c : stepCtx progs g g1 k m t1 sends rest A B) (hmA : m.address = A)
    (hBs : stableO (obsOf g B))
    (O : Nat) (hO : O < NUM_PROCS) (hOk : O ≠ k) (hH : (A >>> 4) &&& 0x0F < NUM_PROCS)
    (hsec : m.secondReceiver = k) (hty : m.type = .FLUSH)
    (hview : ∀ j, (obsOf g A).view j = if j = (A >>> 4) &&& 0x0F ∨ j = k then [m] else [])
    (hdir : (obsOf g A).dir = { bitVector := 2 ^ O, state := .EM })
    (hst : ∀ j, (obsOf g A).st j = if j = O then some .SHARED else none) :
    coherent progs g1 := by
  subst hmA
  have hk4 : k < NUM_PROCS := c.hs.node
  have hk8 : k < 8 := by unfold NUM_PROCS at hk4; omega
  have hO256 : 2 ^ O < 256 := by
    have := two_pow_lt_16 O hO
    omega
  have hd := c.hd
  simp only [dispatch, hty, case_FLUSH, rearm_local_node] at hd
  rw [if_pos hsec.symm] at hd
  by_cases hkh : k = (m.address >>> 4) &&& 0x0F
  · have hdirA : (g.threads k).local_node.directory (m.address &&& 0x0F) =
        (obsOf g m.address).dir := by
      rw [hkh]; rfl
    rw [if_pos hkh, hsec, hdirA, hdir] at hd
    simp only [setMemory_cache, setDirectory_cache, rearm_local_node, Option.some.injEq,
      Prod.mk.injEq] at hd
    obtain ⟨ht1, hsd⟩ := hd
    subst ht1
    have hdn : (obsOf g1 m.address).dir =
        { bitVector := (2 ^ O ||| 1 <<< k) % 256, state := .S } :=
      obs_dir_set c.hs hkh (by
        simp only [setCache_directory, setMemory_directory, setDirectory_directory,
          rearm_local_node])
    refine finish_install c rfl hBs (Or.inr ⟨hkh, _, by
        simp only [setCache_directory, setMemory_directory, setDirectory_directory,
          rearm_local_node]
        rfl⟩) _ (by
        simp only [setCache_cache, setMemory_cache, setDirectory_cache, rearm_local_node]
        rfl) rfl [] (fun p hp => (by cases hp)) hsd.symm
      (postPhaseO.stable ⟨⟨?_, ?_, ?_⟩, ?_⟩)
    · intro h
      rw [hdn] at h
      cases h
    · intro h
      rw [hdn] at h
      cases h
    · intro _
      rw [hdn]
      refine ⟨set_bit_lt_16 _ (two_pow_lt_16 O hO) _ hk4, fun j => ?_⟩
      rw [obs_st_set c.hs (by
        simp only [setCache_cache, setMemory_cache, setDirectory_cache, rearm_local_node]
        rfl), hst j]
      simp only [testBit_set_byte hO256 hk8, testBit_two_pow_eq]
      by_cases hjk : j = k
      · rw [if_pos hjk, statusOf_install _ _ _ (by decide)]
        simp [hjk]
      · rw [if_neg hjk]
        by_cases hjo : j = O <;> simp [hjk, hjo]
    · intro j
      rw [obs_view_install c.hs _ [] hsd.symm, hview, hview, ← hkh, sentTo_nil]
      split_ifs <;> first | rfl | simp_all
  · rw [if_neg hkh] at hd
    simp only [rearm_local_node, Option.some.injEq, Prod.mk.injEq] at hd
    obtain ⟨ht1, hsd⟩ := hd
    subst ht1
    have hdk : (obsOf g1 m.address).dir = (obsOf g m.address).dir :=
      obs_dir_keep c.hs (by simp only [setCache_directory, rearm_local_node]) _
    refine finish_install c rfl hBs (Or.inl (by
        simp only [setCache_directory, rearm_local_node])) _ (by
        simp only [setCache_cache, rearm_local_node]
        rfl) rfl [] (fun p hp => (by cases hp)) hsd.symm
      (postPhaseO.flushH k O m hk4 hO hOk hH hkh ?_ hty hsec (by rw [hdk, hdir]) ?_)
    · intro j
      rw [obs_view_install c.hs _ [] hsd.symm, hview, hview, sentTo_nil]
      unfold NUM_PROCS at *
      split_ifs <;> first | rfl | omega
    · intro j
      rw [obs_st_set c.hs (by
        simp only [setCache_cache, rearm_local_node]
        rfl), hst j]
      by_cases hjk : j = k
      · rw [if_pos hjk, if_pos (Or.inr hjk)]
        exact statusOf_install _ _ _ (by decide)
      · rw [if_neg hjk]
        by_cases hjo : j = O
        · rw [if_pos hjo, if_pos (Or.inl hjo)]
        · rw [if_neg hjo, if_neg]
          rintro (h | h)
          · exact hjo h
          · exact hjk h

/-! ## The requester installs a modified copy -/

theorem sentTo_targets (msg : message) (j : Nat) : ∀ (l : List Nat), l.Nodup →
    sentTo (l.map (fun i => (i, msg))) j msg.address = if j ∈ l then [msg] else []
  | [], _ => by simp [sentTo_nil]
  | a :: l, h => by
    rw [List.map_cons, sentTo_cons, sentTo_targets msg j l (List.nodup_cons.mp h).2]
    simp only [and_true]
    by_cases haj : a = j
    · subst haj
      have hn : a ∉ l := (List.nodup_cons.mp h).1
      simp [hn]
    · have hja : j ≠ a := Ne.symm haj
      simp [haj, hja]

theorem sentTo_invLoop (k : Nat) (m : message) (hb : m.bitVector < 16) (j : Nat) :
    ∃ x : message, x.type = .INV ∧
      sentTo (invLoop k m) j m.address =
        if j < NUM_PROCS ∧ m.bitVector.testBit j = true then [x] else [] := by
  refine ⟨(⟨.INV, k, m.address, 0, 0, 0, .EM⟩ : message), rfl, ?_⟩
  unfold invLoop
  have h := (invLoop_bits m.bitVector hb).1
  have e := sentTo_targets (⟨.INV, k, m.address, 0, 0, 0, .EM⟩ : message) j
    ((List.range NUM_PROCS).filter (fun i => m.bitVector.testBit i))
    ((List.nodup_range NUM_PROCS).filter _)
  simp only [List.mem_filter, List.mem_range] at e
  rw [← e]
  congr 2

theorem step_replyID {progs : Nat → List instruction} {g g1 : globalState} {k : Nat}
    {m : message} {t1 : threadState} {sends : List (Nat × message)} {rest : List message}
    {A B : Nat} (c : stepCtx progs g g1 k m t1 sends rest A B) (hmA : m.address = A)
    (hBs : stableO (obsOf g B))
    (hview : ∀ j, (obsOf g A).view j = if j = k then [m] else [])
    (hty : m.type = .REPLY_ID) (hbv : m.bitVector < 16)
    (hbk : m.bitVector.testBit k = false)
    (hdir : (obsOf g A).dir = { bitVector := 2 ^ k, state := .EM })
    (hall : ∀ j, j ≠ k → (obsOf g A).st j =
      if m.bitVector.testBit j = true then some .SHARED else none) :
    coherent progs g1 := by
  subst hmA
  have hk4 : k < NUM_PROCS := c.hs.node
  have hd := c.hd
  simp only [dispatch, hty, case_REPLY_ID, rearm_local_node, Option.some.injEq,
    Prod.mk.injEq] at hd
  obtain ⟨ht1, hsd⟩ := hd
  subst ht1
  have hc : ∀ X, (obsOf g1 X).dir = (obsOf g X).dir :=
    obs_dir_keep c.hs (by simp only [setCache_directory, rearm_local_node])
  have hvs := obs_view_install c.hs _ (invLoop k m) hsd.symm
  refine finish_install c rfl hBs (Or.inl (by
      simp only [setCache_directory, rearm_local_node])) _ (by
      simp only [setCache_cache, rearm_local_node]
      rfl) rfl (invLoop k m) (fun p hp => ?_) hsd.symm
    (postPhaseO.inv k hk4 (by rw [hc, hdir]) ?_ ?_ ?_)
  · unfold invLoop at hp
    simp only [List.mem_map] at hp
    obtain ⟨i, _, hi⟩ := hp
    rw [← hi]
  · rw [obs_st_set c.hs (by
      simp only [setCache_cache, rearm_local_node]
      rfl), if_pos rfl]
    exact statusOf_install _ _ _ (by decide)
  · obtain ⟨x, _, hx⟩ := sentTo_invLoop k m hbv k
    rw [hvs, if_pos hk4, if_pos rfl, hview, if_pos rfl, hx, if_neg]
    · rfl
    · intro h
      rw [hbk] at h
      cases h.2
  · intro j hj
    obtain ⟨x, hxt, hx⟩ := sentTo_invLoop k m hbv j
    rw [obs_st_set c.hs (by
      simp only [setCache_cache, rearm_local_node]
      rfl), if_neg hj, hall j hj, hvs, if_neg hj, hview, if_neg hj, hx]
    by_cases hb : m.bitVector.testBit j = true
    · have hj4 : j < NUM_PROCS := by
        by_contra h
        have h4 : 4 ≤ j := by unfold NUM_PROCS at h; omega
        have hlt : m.bitVector < 2 ^ j :=
          lt_of_lt_of_le hbv (by
            calc 16 = 2 ^ 4 := rfl
              _ ≤ 2 ^ j := Nat.pow_le_pow_right (by decide) h4)
        rw [Nat.testBit_lt_two_pow hlt] at hb
        cases hb
      rw [if_pos hb, if_pos hj4, if_pos ⟨hj4, hb⟩]
      exact Or.inl ⟨rfl, x, rfl, hxt⟩
    · have hb2 : ¬ (j < NUM_PROCS ∧ m.bitVector.testBit j = true) := fun h => hb h.2
      rw [if_neg hb, if_neg hb2]
      refine Or.inr ⟨rfl, ?_⟩
      first | rfl | (split <;> rfl)

theorem step_flushInv_req {progs : Nat → List instruction} {g g1 : globalState} {k : Nat}
    {m : message} {t1 : threadState} {sends : List (Nat × message)} {rest : List message}
    {A B : Nat} (c : stepCtx progs g g1 k m t1 sends rest A B) (hmA : m.address = A)
    (hBs : stableO (obsOf g B)) (hH : (A >>> 4) &&& 0x0F < NUM_PROCS)
    (hsec : m.secondReceiver = k) (hty : m.type = .FLUSH_INVACK)
    (hdir : (obsOf g A).dir = { bitVector := 2 ^ k, state := .EM })
    (hst : ∀ j, (obsOf g A).st j = none)
    (hvo : ∀ j, j ≠ (A >>> 4) &&& 0x0F → j ≠ k → (obsOf g A).view j = [])
    (hne : k ≠ (A >>> 4) &&& 0x0F → (obsOf g A).view k = [m] ∧
      ((obsOf g A).view ((A >>> 4) &&& 0x0F) = [m] ∨ (obsOf g A).view ((A >>> 4) &&& 0x0F) = []))
    (heq : k = (A >>> 4) &&& 0x0F → (obsOf g A).view k = [m, m]) :
    coherent progs g1 := by
  subst hmA
  have hk4 : k < NUM_PROCS := c.hs.node
  have hk8 : k < 8 := by unfold NUM_PROCS at hk4; omega
  have hd := c.hd
  simp only [dispatch, hty, case_FLUSH_INVACK, rearm_local_node] at hd
  rw [if_pos hsec.symm] at hd
  by_cases hkh : k = (m.address >>> 4) &&& 0x0F
  · have hdirA : (g.threads k).local_node.directory (m.address &&& 0x0F) =
        (obsOf g m.address).dir := by
      rw [hkh]; rfl
    rw [if_pos hkh, hsec, hdirA, hdir] at hd
    simp only [setMemory_cache, setDirectory_cache, rearm_local_node, Option.some.injEq,
      Prod.mk.injEq] at hd
    obtain ⟨ht1, hsd⟩ := hd
    subst ht1
    have hdn : (obsOf g1 m.address).dir = { bitVector := 2 ^ k, state := .EM } := by
      rw [obs_dir_set c.hs hkh (by
        simp only [setCache_directory, setMemory_directory, setDirectory_directory,
          rearm_local_node]
        rfl), one_shl_mod hk8]
    have hvs := obs_view_install c.hs _ [] hsd.symm
    refine finish_install c rfl hBs (Or.inr ⟨hkh, _, by
        simp only [setCache_directory, setMemory_directory, setDirectory_directory,
          rearm_local_node]
        rfl⟩) _ (by
        simp only [setCache_cache, setMemory_cache, setDirectory_cache, rearm_local_node]
        rfl) rfl [] (fun p hp => (by cases hp)) hsd.symm
      (postPhaseO.flushInv k m hk4 hH hty hsec hdn ?_ ?_ ?_)
    · intro j
      rw [obs_st_set c.hs (by
        simp only [setCache_cache, setMemory_cache, setDirectory_cache, rearm_local_node]
        rfl), hst j]
      split
      · exact statusOf_install _ _ _ (by decide)
      · rfl
    · intro j hj
      have hjk : j ≠ k := fun e => hj (e.trans hkh)
      rw [hvs, if_neg hjk, hvo j hj hjk, sentTo_nil]
      split <;> rfl
    · left
      rw [hvs, ← hkh, if_pos hk4, if_pos rfl, heq hkh, sentTo_nil]
      rfl
  · rw [if_neg hkh] at hd
    simp only [rearm_local_node, Option.some.injEq, Prod.mk.injEq] at hd
    obtain ⟨ht1, hsd⟩ := hd
    subst ht1
    have hdk : (obsOf g1 m.address).dir = (obsOf g m.address).dir :=
      obs_dir_keep c.hs (by simp only [setCache_directory, rearm_local_node]) _
    have hvs := obs_view_install c.hs _ [] hsd.symm
    obtain ⟨hvk, hvh⟩ := hne hkh
    refine finish_install c rfl hBs (Or.inl (by
        simp only [setCache_directory, rearm_local_node])) _ (by
        simp only [setCache_cache, rearm_local_node]
        rfl) rfl [] (fun p hp => (by cases hp)) hsd.symm
      (postPhaseO.flushInv k m hk4 hH hty hsec (by rw [hdk, hdir]) ?_ ?_ ?_)
    · intro j
      rw [obs_st_set c.hs (by
        simp only [setCache_cache, rearm_local_node]
        rfl), hst j]
      split
      · exact statusOf_install _ _ _ (by decide)
      · rfl
    · intro j hj
      rw [hvs, sentTo_nil]
      by_cases hjk : j = k
      · rw [if_pos hjk, hvk]
        split <;> rfl
      · rw [if_neg hjk, hvo j hj hjk]
        split <;> rfl
    · rw [hvs, if_pos hH, if_neg (Ne.symm hkh), sentTo_nil, List.append_nil]
      exact hvh

/-! ## The inboxes stay short -/

theorem pre_view_length {o : addrObs} {A : Nat} (h : prePhaseO o A) (j : Nat) :
    (o.view j).length ≤ 2 := by
  cases h with
  | req R m _ _ _ hv _ _ => rw [hv j]; split <;> simp
  | fwdInt R O m x _ _ _ _ hv _ _ _ _ _ => rw [hv j]; split <;> simp
  | fwdInv R O m x _ _ _ _ hv _ _ _ _ _ => rw [hv j]; split <;> simp
  | grant R m _ hv _ _ _ => rw [hv j]; split <;> simp
  | replyS R m _ hv _ _ _ _ _ => rw [hv j]; split <;> simp
  | flush2 R O m _ _ _ _ _ _ hv _ _ => rw [hv j]; split <;> simp
  | replyID R m _ hv _ _ _ _ _ _ => rw [hv j]; split <;> simp
  | flushInv R m _ _ _ _ _ _ hvo hne heq =>
    by_cases hR : R = (A >>> 4) &&& 0x0F
    · by_cases hj : j = R
      · rw [hj, heq hR]
        simp
      · rw [hvo j (fun e => hj (e.trans hR.symm)) hj]
        simp
    · obtain ⟨h1, h2⟩ := hne hR
      by_cases hj : j = R
      · rw [hj, h1]
        simp
      · by_cases hjh : j = (A >>> 4) &&& 0x0F
        · rw [hjh]
          rcases h2 with e | e <;> rw [e] <;> simp
        · rw [hvo j hjh hj]
          simp

theorem post_view_length {o : addrObs} {A : Nat} (h : postPhaseO o A) (j : Nat) :
    (o.view j).length ≤ 1 := by
  cases h with
  | stable hs => rw [hs.2 j]; simp
  | flushH R O m _ _ _ _ _ hv _ _ _ _ => rw [hv j]; split <;> simp
  | inv R _ _ _ hvR hall =>
    by_cases hj : j = R
    · rw [hj, hvR]
      simp
    · rcases hall j hj with ⟨_, x, e, _⟩ | ⟨_, e⟩ <;> rw [e] <;> simp
  | flushInv R m _ _ _ _ _ _ hvo hvh =>
    by_cases hjh : j = (A >>> 4) &&& 0x0F
    · rw [hjh]
      rcases hvh with e | e <;> rw [e] <;> simp
    · rw [hvo j hjh]
      simp

theorem evict_view_length {o : addrObs} {B : Nat} (h : evictPhaseO o B) (j : Nat) :
    (o.view j).length ≤ 1 := by
  cases h with
  | stable hs => rw [hs.2 j]; simp
  | notice R m _ _ hv _ _ _ => rw [hv j]; split <;> simp
  | writeback R m _ _ hv _ _ _ => rw [hv j]; split <;> simp
  | promote x m _ _ hv _ _ _ => rw [hv j]; split <;> simp

/-- No inbox holds more than three messages in a state that satisfies the
invariant. -/
theorem coherent_count {progs : Nat → List instruction} {g : globalState}
    (hc : coherent progs g) (j : Nat) (hj : j < NUM_PROCS) :
    (g.message_buffers j).count ≤ 3 := by
  obtain ⟨_, _, _, A, B, _, _, hAB, hmsgs, _, hph⟩ := hc
  rw [← inFlight_length, length_two_views hAB (hmsgs j hj)]
  have eA : (inFlight (g.message_buffers j)).filter (fun m => decide (m.address = A)) =
      (obsOf g A).view j := by
    unfold obsOf viewOf
    simp only [hj, ↓reduceIte]
  have eB : (inFlight (g.message_buffers j)).filter (fun m => decide (m.address = B)) =
      (obsOf g B).view j := by
    unfold obsOf viewOf
    simp only [hj, ↓reduceIte]
  rw [eA, eB]
  rcases hph with ⟨h1, h2⟩ | ⟨h1, h2⟩
  · have := pre_view_length h1 j
    rw [h2.2 j]
    simp only [List.length_nil]
    omega
  · have := post_view_length h1 j
    have := evict_view_length h2 j
    omega

/-! ## A drain-loop iteration keeps the invariant -/

theorem coherent_drain {progs : Nat → List instruction} {g g1 : globalState} {k : Nat}
    (hk : k < NUM_PROCS) (hc : coherent progs g) (hd : drainStep g k = some g1) :
    coherent progs g1 := by
  have hcnt : ∀ j, j < NUM_PROCS → (g.message_buffers j).count ≤ 100 := fun j hj => by
    have := coherent_count hc j hj
    omega
  obtain ⟨hb, hslots, hprog, A, B, hA, hB, hAB, hmsgs, hoth, hph⟩ := hc
  obtain ⟨t1, sends, rest, hdisp, hhead, hth, hrecv, hbufs⟩ := drain_effect hk hb hcnt hd
  generalize headMsg g k = m at hdisp hhead
  have hs : drained g g1 k m t1 sends rest :=
    ⟨hk, hth, hhead, fun j hj => (hbufs j hj).2⟩
  have c : stepCtx progs g g1 k m t1 sends rest A B :=
    ⟨hs, hdisp, fun j hj => (hbufs j hj).1, hrecv, hslots, hprog, hA, hB, hAB, hmsgs, hoth⟩
  have hmem : m ∈ inFlight (g.message_buffers k) := by
    rw [hhead]
    exact List.mem_cons_self _ _
  obtain ⟨r, hvh⟩ := view_head hs
  rcases hph with ⟨hpre, hBs⟩ | ⟨hpost, hBe⟩
  · have hmA : m.address = A := stable_no_messages hmsgs hBs k hk m hmem
    rw [hmA] at hvh
    cases hpre with
    | req R m0 hR hH hag hv hsender hty =>
      obtain ⟨hkH, hm0⟩ := only_view hv hvh
      subst hm0
      subst hsender
      rcases hty with ⟨hty | hty, hst⟩ | ⟨hty, hst⟩
      · exact step_req_read c hmA hBs hR hH hag hv hkH hty hst
      · exact step_req_write c hmA hBs hR hH hag hv hkH hty hst
      · exact step_req_upgrade c hmA hBs hR hH hag hv hkH hty hst
    | fwdInt R O m0 x hR hO hOR hH hv hty hsec hdir hx hst =>
      obtain ⟨hkO, hm0⟩ := only_view hv hvh
      subst hm0
      subst hkO
      subst hsec
      exact step_fwdInt c hmA hBs hR hOR hH hv hty hdir x hst
    | fwdInv R O m0 x hR hO hOR hH hv hty hsec hdir hx hst =>
      obtain ⟨hkO, hm0⟩ := only_view hv hvh
      subst hm0
      subst hkO
      subst hsec
      exact step_fwdInv c hmA hBs hR hOR hH hv hty hdir x hst
    | grant R m0 hR hv hty hdir hst =>
      obtain ⟨hkR, hm0⟩ := only_view hv hvh
      subst hm0
      subst hkR
      exact step_grant c hmA hBs hv hty hdir hst
    | replyS R m0 hR hv hty hds hbv hbit hst =>
      obtain ⟨hkR, hm0⟩ := only_view hv hvh
      subst hm0
      subst hkR
      exact step_replyS c hmA hBs hv hty hds hbv hbit hst
    | flush2 R O m0 hR hO hOR hH hty hsec hv hdir hst =>
      have hvk := hv k
      rw [hvh] at hvk
      split at hvk
      · rename_i hkk
        simp only [List.cons.injEq] at hvk
        obtain ⟨hm0, _⟩ := hvk
        subst hm0
        by_cases hkR : k = R
        · subst hkR
          exact step_flush2_req c hmA hBs O hO hOR hH hsec hty hv hdir hst
        · have hkH : k = (A >>> 4) &&& 0x0F := by
            rcases hkk with e | e
            · exact e
            · exact absurd e hkR
          subst hsec
          exact step_flush2_home c hmA hBs hR O hO hOR hkH hkR hty hv hdir hst
      · cases hvk
    | replyID R m0 hR hv hty hbv hbit hdir hstR hall =>
      obtain ⟨hkR, hm0⟩ := only_view hv hvh
      subst hm0
      subst hkR
      exact step_replyID c hmA hBs hv hty hbv hbit hdir hall
    | flushInv R m0 hR hH hty hsec hdir hst hvo hne heq =>
      by_cases hkR : k = R
      · subst hkR
        have hm0 : m = m0 := by
          by_cases hRh : k = (A >>> 4) &&& 0x0F
          · have := heq hRh
            rw [hvh] at this
            simp only [List.cons.injEq] at this
            exact this.1
          · have := (hne hRh).1
            rw [hvh] at this
            simp only [List.cons.injEq] at this
            exact this.1
        subst hm0
        exact step_flushInv_req c hmA hBs hH hsec hty hdir hst hvo hne heq
      · have hkH : k = (A >>> 4) &&& 0x0F := by
          by_contra hne1
          rw [hvo k hne1 hkR] at hvh
          cases hvh
        have hRh : R ≠ (A >>> 4) &&& 0x0F := fun e => hkR (hkH.trans e.symm)
        obtain ⟨hvR, hvH⟩ := hne hRh
        have hvH1 : (obsOf g A).view ((A >>> 4) &&& 0x0F) = [m0] := by
          rcases hvH with e | e
          · exact e
          · rw [← hkH, hvh] at e
            cases e
        have hm0 : m = m0 := by
          have := hvH1
          rw [← hkH, hvh] at this
          simp only [List.cons.injEq] at this
          exact this.1
        subst hm0
        subst hsec
        exact step_flushInv_home c hmA hBs hR hkH hkR hty hdir hst hvo hvR hvH1
  · rcases hmsgs k hk m hmem with hmA | hmB
    · rw [hmA] at hvh
      cases hpost with
      | stable hst =>
        rw [hst.2 k] at hvh
        cases hvh
      | flushH R O m0 hR hO hOR hH hRh hv hty hsec hdir hst =>
        obtain ⟨hkH, hm0⟩ := only_view hv hvh
        subst hm0
        subst hsec
        exact step_flushH c hmA hBe hR O hO hkH hRh hty hv hdir hst
      | inv R hR hdir hstR hvR hall =>
        exact step_inv c hmA hBe R hR hdir hstR hvR hall
      | flushInv R m0 hR hH hty hsec hdir hst hvo hvH =>
        have hkH : k = (A >>> 4) &&& 0x0F := by
          by_contra hne1
          rw [hvo k hne1] at hvh
          cases hvh
        have hvH1 : (obsOf g A).view ((A >>> 4) &&& 0x0F) = [m0] := by
          rcases hvH with e | e
          · exact e
          · rw [← hkH, hvh] at e
            cases e
        have hm0 : m = m0 := by
          have := hvH1
          rw [← hkH, hvh] at this
          simp only [List.cons.injEq] at this
          exact this.1
        subst hm0
        subst hsec
        exact step_flushInv_post c hmA hBe hR hkH hty hdir hst hvo hvH1
    · rw [hmB] at hvh
      cases hBe with
      | stable hst =>
        rw [hst.2 k] at hvh
        cases hvh
      | notice R m0 hR hH hv hty hsender halt =>
        obtain ⟨hkH, hm0⟩ := only_view hv hvh
        subst hm0
        subst hsender
        rcases halt with ⟨hdir, hst⟩ | ⟨hds, hbv, hbit, hst⟩
        · exact step_notice_em c hmB hpost hR hkH hv hty hdir hst
        · exact step_notice_s c hmB hpost hR hkH hv hty hds hbv hst
      | writeback R m0 hR hH hv hty hdir hst =>
        obtain ⟨hkH, hm0⟩ := only_view hv hvh
        subst hm0
        exact step_writeback c hmB hpost hkH hv hty hst
      | promote x m0 hx hxh hv hty hdir hst =>
        obtain ⟨hkx, hm0⟩ := only_view hv hvh
        subst hm0
        subst hkx
        exact step_promote c hmB hpost hxh hv hty hdir hst

/-! ## A pass of the code after the drain loop -/

theorem afterDrain_sends_length (k : Nat) (t : threadState) :
    (afterDrain k t).2.1.length ≤ 1 := by
  unfold afterDrain
  split
  · simp
  · split
    · simp only [issue]
      repeat' split
      all_goals simp
    · split <;> simp

/-- What a pass of the code after the drain loop does to the threads and to
the contents of the inboxes, when the inboxes have room. -/
theorem tail_effect {g g1 : globalState} {k : Nat}
    (hb : ∀ j, j < NUM_PROCS → bufferOK (g.message_buffers j))
    (hc : ∀ j, j < NUM_PROCS → (g.message_buffers j).count ≤ 100)
    (h : tailStep g k = some g1) :
    g1.threads = Function.update g.threads k (afterDrain k (g.threads k)).1 ∧
      (∀ p, p ∈ (afterDrain k (g.threads k)).2.1 → p.1 < NUM_PROCS) ∧
      ∀ j, j < NUM_PROCS → bufferOK (g1.message_buffers j) ∧
        inFlight (g1.message_buffers j) = inFlight (g.message_buffers j) ++
          ((afterDrain k (g.threads k)).2.1.filter (fun p => decide (p.1 = j))).map
            (fun p => p.2) := by
  unfold tailStep at h
  simp only at h
  cases hdel : deliver g.message_buffers (afterDrain k (g.threads k)).2.1 with
  | none =>
    rw [hdel] at h
    cases h
  | some bufs =>
    rw [hdel] at h
    simp only [Option.some.injEq] at h
    subst h
    have hlen := afterDrain_sends_length k (g.threads k)
    have hc1 : ∀ j, j < NUM_PROCS → (g.message_buffers j).count +
        (afterDrain k (g.threads k)).2.1.length ≤ MSG_BUFFER_SIZE := by
      intro j hj
      have := hc j hj
      unfold MSG_BUFFER_SIZE
      omega
    obtain ⟨h1, h2⟩ := deliver_inFlight _ _ bufs hb hc1 hdel
    exact ⟨rfl, h1, h2⟩

/-- The observation of any address after a pass of the code after the drain
loop. -/
theorem obs_tail {g g1 : globalState} {k : Nat} {t1 : threadState}
    {sends : List (Nat × message)} (hk : k < NUM_PROCS)
    (hth : g1.threads = Function.update g.threads k t1)
    (hin : ∀ j, j < NUM_PROCS → inFlight (g1.message_buffers j) =
      inFlight (g.message_buffers j) ++
        (sends.filter (fun p => decide (p.1 = j))).map (fun p => p.2)) (X : Nat) :
    obsOf g1 X =
      { dir := if (X >>> 4) &&& 0x0F = k then t1.local_node.directory (X &&& 0x0F)
               else (obsOf g X).dir,
        st := fun j => if j = k then
                statusOf (t1.local_node.cache ((X &&& 0x0F) % CACHE_SIZE)) X
              else (obsOf g X).st j,
        view := fun j => if j < NUM_PROCS then (obsOf g X).view j ++ sentTo sends j X
                else [] } := by
  unfold obsOf
  congr 1
  · unfold homeEntry
    rw [hth]
    by_cases h : (X >>> 4) &&& 0x0F = k
    · rw [if_pos h, h, Function.update_same]
    · rw [if_neg h, Function.update_noteq h]
  · funext j
    unfold lineOf
    rw [hth]
    by_cases hjk : j = k
    · subst hjk
      simp only [hk, ↓reduceIte, Function.update_same]
    · simp only [hjk, ↓reduceIte, Function.update_noteq hjk]
  · funext j
    by_cases hj : j < NUM_PROCS
    · simp only [hj, ↓reduceIte]
      unfold viewOf
      rw [hin j hj, List.filter_append]
      rfl
    · simp only [hj, ↓reduceIte]

/-- The three behaviours of a pass of the code after the drain loop: it
changes neither cache nor directory and sends nothing; or it issues a request
for the address of the next instruction; or it performs a write hit on a line
held in `MODIFIED` or `EXCLUSIVE`. -/
theorem afterDrain_cases (k : Nat) (t : threadState) :
    ((afterDrain k t).1.local_node = t.local_node ∧ (afterDrain k t).2.1 = []) ∨
    (t.instr_counter < (t.local_node.instructionCount : Int) - 1 ∧
      (afterDrain k t).1.instr_counter = t.instr_counter + 1 ∧
      ((∃ msg : message,
          (afterDrain k t).2.1 =
            [((((t.local_node.instructions (t.instr_counter + 1).toNat).address >>> 4)
                &&& 0x0F), msg)] ∧
          (afterDrain k t).1.local_node = t.local_node ∧
          msg.address = (t.local_node.instructions (t.instr_counter + 1).toNat).address ∧
          msg.sender = k ∧
          (((msg.type = .READ_REQUEST ∨ msg.type = .WRITE_REQUEST) ∧
              statusOf (t.local_node.cache
                (((t.local_node.instructions (t.instr_counter + 1).toNat).address &&& 0x0F)
                  % CACHE_SIZE))
                (t.local_node.instructions (t.instr_counter + 1).toNat).address = none) ∨
            (msg.type = .UPGRADE ∧
              statusOf (t.local_node.cache
                (((t.local_node.instructions (t.instr_counter + 1).toNat).address &&& 0x0F)
                  % CACHE_SIZE))
                (t.local_node.instructions (t.instr_counter + 1).toNat).address
                = some .SHARED))) ∨
        (∃ l : cacheLine, (afterDrain k t).2.1 = [] ∧
          (afterDrain k t).1.local_node.directory = t.local_node.directory ∧
          (afterDrain k t).1.local_node.cache = Function.update t.local_node.cache
            (((t.local_node.instructions (t.instr_counter + 1).toNat).address &&& 0x0F)
              % CACHE_SIZE) l ∧
          l.address = (t.local_node.instructions (t.instr_counter + 1).toNat).address ∧
          l.state = .MODIFIED ∧
          ∃ x, (x = .MODIFIED ∨ x = .EXCLUSIVE) ∧
            statusOf (t.local_node.cache
              (((t.local_node.instructions (t.instr_counter + 1).toNat).address &&& 0x0F)
                % CACHE_SIZE))
              (t.local_node.instructions (t.instr_counter + 1).toNat).address = some x))) := by
  obtain ⟨r, hr⟩ : ∃ r, r = afterDrain k t := ⟨_, rfl⟩
  rw [← hr]
  unfold afterDrain at hr
  by_cases haw : t.awaiting_response > 0
  · rw [if_pos haw] at hr
    subst hr
    exact Or.inl ⟨rfl, rfl⟩
  rw [if_neg haw] at hr
  by_cases hlt : t.instr_counter < (t.local_node.instructionCount : Int) - 1
  swap
  · rw [if_neg hlt] at hr
    split at hr <;> subst hr <;> exact Or.inl ⟨rfl, rfl⟩
  rw [if_pos hlt] at hr
  have hst : ∀ (l : cacheLine) (X : Nat), ¬ (l.address = X ∧ l.state ≠ .INVALID) →
      statusOf l X = none := by
    intro l X h
    unfold statusOf
    rw [if_neg h]
  by_cases hty : (t.local_node.instructions (t.instr_counter + 1).toNat).type = 82
  · by_cases ha : (t.local_node.cache
        (((t.local_node.instructions (t.instr_counter + 1).toNat).address &&& 0x0F)
          % CACHE_SIZE)).address =
        (t.local_node.instructions (t.instr_counter + 1).toNat).address
    · by_cases hi : (t.local_node.cache
          (((t.local_node.instructions (t.instr_counter + 1).toNat).address &&& 0x0F)
            % CACHE_SIZE)).state = .INVALID
      · simp only [issue, hty, ha, hi, ↓reduceIte, Bool.false_eq_true] at hr
        subst hr
        exact Or.inr ⟨hlt, rfl, Or.inl ⟨_, rfl, rfl, rfl, rfl,
          Or.inl ⟨Or.inl rfl, hst _ _ (fun h => h.2 hi)⟩⟩⟩
      · simp only [issue, hty, ha, hi, ↓reduceIte, Bool.false_eq_true] at hr
        subst hr
        exact Or.inl ⟨rfl, rfl⟩
    · simp only [issue, hty, ha, ↓reduceIte, Bool.false_eq_true] at hr
      subst hr
      exact Or.inr ⟨hlt, rfl, Or.inl ⟨_, rfl, rfl, rfl, rfl,
        Or.inl ⟨Or.inl rfl, hst _ _ (fun h => ha h.1)⟩⟩⟩
  · by_cases ha : (t.local_node.cache
        (((t.local_node.instructions (t.instr_counter + 1).toNat).address &&& 0x0F)
          % CACHE_SIZE)).address =
        (t.local_node.instructions (t.instr_counter + 1).toNat).address
    · by_cases hi : (t.local_node.cache
          (((t.local_node.instructions (t.instr_counter + 1).toNat).address &&& 0x0F)
            % CACHE_SIZE)).state = .INVALID
      · simp only [issue, hty, ha, hi, ↓reduceIte, Bool.false_eq_true] at hr
        subst hr
        exact Or.inr ⟨hlt, rfl, Or.inl ⟨_, rfl, rfl, rfl, rfl,
          Or.inl ⟨Or.inr rfl, hst _ _ (fun h => h.2 hi)⟩⟩⟩
      · by_cases hme : (t.local_node.cache
            (((t.local_node.instructions (t.instr_counter + 1).toNat).address &&& 0x0F)
              % CACHE_SIZE)).state = .MODIFIED ∨
            (t.local_node.cache
            (((t.local_node.instructions (t.instr_counter + 1).toNat).address &&& 0x0F)
              % CACHE_SIZE)).state = .EXCLUSIVE
        · simp only [issue, hty, ha, hi, hme, ↓reduceIte, Bool.false_eq_true] at hr
          subst hr
          refine Or.inr ⟨hlt, rfl, Or.inr ⟨_, rfl, rfl, rfl, rfl, rfl, _, hme, ?_⟩⟩
          unfold statusOf
          rw [if_pos ⟨ha, hi⟩]
        · simp only [issue, hty, ha, hi, hme, ↓reduceIte, Bool.false_eq_true] at hr
          subst hr
          refine Or.inr ⟨hlt, rfl, Or.inl ⟨_, rfl, rfl, rfl, rfl, Or.inr ⟨rfl, ?_⟩⟩⟩
          unfold statusOf
          rw [if_pos ⟨ha, hi⟩]
          cases hs : (t.local_node.cache
            (((t.local_node.instructions (t.instr_counter + 1).toNat).address &&& 0x0F)
              % CACHE_SIZE)).state with
          | INVALID => exact absurd hs hi
          | MODIFIED => exact absurd (Or.inl hs) hme
          | EXCLUSIVE => exact absurd (Or.inr hs) hme
          | SHARED => rfl
    · simp only [issue, hty, ha, ↓reduceIte, Bool.false_eq_true] at hr
      subst hr
      exact Or.inr ⟨hlt, rfl, Or.inl ⟨_, rfl, rfl, rfl, rfl,
        Or.inl ⟨Or.inr rfl, hst _ _ (fun h => ha h.1)⟩⟩⟩

/-! ## The state between two transactions -/

theorem pre_view_nonempty {o : addrObs} {A : Nat} (h : prePhaseO o A) :
    ∃ j, o.view j ≠ [] := by
  cases h with
  | req R m _ _ _ hv _ _ => exact ⟨_, by rw [hv, if_pos rfl]; simp⟩
  | fwdInt R O m x _ _ _ _ hv _ _ _ _ _ => exact ⟨O, by rw [hv, if_pos rfl]; simp⟩
  | fwdInv R O m x _ _ _ _ hv _ _ _ _ _ => exact ⟨O, by rw [hv, if_pos rfl]; simp⟩
  | grant R m _ hv _ _ _ => exact ⟨R, by rw [hv, if_pos rfl]; simp⟩
  | replyS R m _ hv _ _ _ _ _ => exact ⟨R, by rw [hv, if_pos rfl]; simp⟩
  | flush2 R O m _ _ _ _ _ _ hv _ _ => exact ⟨R, by rw [hv, if_pos (Or.inr rfl)]; simp⟩
  | replyID R m _ hv _ _ _ _ _ _ => exact ⟨R, by rw [hv, if_pos rfl]; simp⟩
  | flushInv R m _ _ _ _ _ _ hvo hne heq =>
    refine ⟨R, ?_⟩
    by_cases hR : R = (A >>> 4) &&& 0x0F
    · rw [heq hR]
      simp
    · rw [(hne hR).1]
      simp

theorem post_stable_of_empty {o : addrObs} {A : Nat} (h : postPhaseO o A)
    (he : ∀ j, o.view j = []) : stableO o := by
  cases h with
  | stable hs => exact hs
  | flushH R O m _ _ _ _ _ hv _ _ _ _ =>
    have := he ((A >>> 4) &&& 0x0F)
    rw [hv, if_pos rfl] at this
    cases this
  | inv R hR hdir hstR hvR hall =>
    refine ⟨⟨?_, ?_, ?_⟩, he⟩
    · intro h
      rw [hdir] at h
      cases h
    · intro _
      refine ⟨R, .MODIFIED, hR, by rw [hdir], Or.inl rfl, fun j => ?_⟩
      by_cases hj : j = R
      · rw [if_pos hj, hj]
        exact hstR
      · rw [if_neg hj]
        rcases hall j hj with ⟨_, x, e, _⟩ | ⟨e, _⟩
        · rw [he j] at e
          cases e
        · exact e
    · intro h
      rw [hdir] at h
      cases h
  | flushInv R m hR _ _ _ hdir hst _ _ =>
    refine ⟨⟨?_, ?_, ?_⟩, he⟩
    · intro h
      rw [hdir] at h
      cases h
    · intro _
      exact ⟨R, .MODIFIED, hR, by rw [hdir], Or.inl rfl, hst⟩
    · intro h
      rw [hdir] at h
      cases h

theorem evict_stable_of_empty {o : addrObs} {B : Nat} (h : evictPhaseO o B)
    (he : ∀ j, o.view j = []) : stableO o := by
  cases h with
  | stable hs => exact hs
  | notice R m _ _ hv _ _ _ =>
    have := he ((B >>> 4) &&& 0x0F)
    rw [hv, if_pos rfl] at this
    cases this
  | writeback R m _ _ hv _ _ _ =>
    have := he ((B >>> 4) &&& 0x0F)
    rw [hv, if_pos rfl] at this
    cases this
  | promote x m _ _ hv _ _ _ =>
    have := he x
    rw [hv, if_pos rfl] at this
    cases this

theorem inFlight_of_empty {g : globalState} (he : allEmpty g) (j : Nat) (hj : j < NUM_PROCS) :
    inFlight (g.message_buffers j) = [] := by
  apply List.eq_nil_of_length_eq_zero
  rw [inFlight_length]
  exact he j hj

theorem view_of_empty {g : globalState} (he : allEmpty g) (X j : Nat) :
    (obsOf g X).view j = [] := by
  unfold obsOf viewOf
  simp only
  split
  · rename_i hj
    rw [inFlight_of_empty he j hj]
    rfl
  · rfl

/-- When every inbox is empty, every address is at rest. -/
theorem coherent_quiet {progs : Nat → List instruction} {g : globalState}
    (hc : coherent progs g) (he : allEmpty g) (X : Nat) (hX : X < 256) :
    stableO (obsOf g X) := by
  obtain ⟨_, _, _, A, B, _, _, _, _, hoth, hph⟩ := hc
  have hA : stableO (obsOf g A) := by
    rcases hph with ⟨h1, _⟩ | ⟨h1, _⟩
    · obtain ⟨j, hj⟩ := pre_view_nonempty h1
      exact absurd (view_of_empty he A j) hj
    · exact post_stable_of_empty h1 (view_of_empty he A)
  have hB : stableO (obsOf g B) := by
    rcases hph with ⟨_, h2⟩ | ⟨_, h2⟩
    · exact h2
    · exact evict_stable_of_empty h2 (view_of_empty he B)
  by_cases h1 : X = A
  · rw [h1]; exact hA
  · by_cases h2 : X = B
    · rw [h2]; exact hB
    · exact hoth X hX h1 h2

/-- A state in which every address is at rest satisfies the invariant. -/
theorem coherent_of_stable {progs : Nat → List instruction} {g : globalState}
    (hb : ∀ j, j < NUM_PROCS → bufferOK (g.message_buffers j)) (hs : slotsOK g)
    (hp : programsOK progs g)
    (he : ∀ j, j < NUM_PROCS → inFlight (g.message_buffers j) = [])
    (hst : ∀ X, X < 256 → stableO (obsOf g X)) : coherent progs g := by
  refine ⟨hb, hs, hp, 0, 1, by decide, by decide, by decide, ?_, ?_, ?_⟩
  · intro j hj m hm
    rw [he j hj] at hm
    cases hm
  · intro X hX _ _
    exact hst X hX
  · exact Or.inr ⟨postPhaseO.stable (hst 0 (by decide)),
      evictPhaseO.stable (hst 1 (by decide))⟩

/-! ## A pass of the code after the drain loop keeps the invariant -/

theorem coherent_congr {progs : Nat → List instruction} {g g1 : globalState}
    (hb1 : ∀ j, j < NUM_PROCS → bufferOK (g1.message_buffers j)) (hs1 : slotsOK g1)
    (hp1 : programsOK progs g1)
    (hin : ∀ j, j < NUM_PROCS →
      inFlight (g1.message_buffers j) = inFlight (g.message_buffers j))
    (hobs : ∀ X, obsOf g1 X = obsOf g X) (hc : coherent progs g) : coherent progs g1 := by
  obtain ⟨_, _, _, A, B, hA, hB, hAB, hmsgs, hoth, hph⟩ := hc
  refine ⟨hb1, hs1, hp1, A, B, hA, hB, hAB, ?_, ?_, ?_⟩
  · intro j hj m hm
    rw [hin j hj] at hm
    exact hmsgs j hj m hm
  · intro X hX h1 h2
    rw [hobs X]
    exact hoth X hX h1 h2
  · rw [hobs A, hobs B]
    exact hph

theorem programsOK_tail {progs : Nat → List instruction} {g g1 : globalState} {k : Nat}
    (hth : g1.threads = Function.update g.threads k (afterDrain k (g.threads k)).1)
    (hp : programsOK progs g) : programsOK progs g1 := by
  intro j hj
  rw [hth]
  by_cases hjk : j = k
  · subst hjk
    simp only [Function.update_same]
    obtain ⟨f1, f2, f3, _⟩ := afterDrain_frame j (g.threads j)
    obtain ⟨h1, h2, h3⟩ := hp j hj
    exact ⟨f1.trans h1, f2.trans h2, le_trans h3 f3⟩
  · simp only [Function.update_noteq hjk]
    exact hp j hj

theorem next_instr_homed {progs : Nat → List instruction} {g : globalState} {k : Nat}
    (hh : homed progs) (hp : programsOK progs g) (hk : k < NUM_PROCS)
    (hlt : (g.threads k).instr_counter <
      ((g.threads k).local_node.instructionCount : Int) - 1) :
    ((g.threads k).local_node.instructions ((g.threads k).instr_counter + 1).toNat).address
        < 256 ∧
      ((((g.threads k).local_node.instructions
        ((g.threads k).instr_counter + 1).toNat).address >>> 4) &&& 0x0F) < NUM_PROCS := by
  obtain ⟨hi, hc, hic⟩ := hp k hk
  rw [hc] at hlt
  have hidx : ((g.threads k).instr_counter + 1).toNat <
      ((progs k).take MAX_INSTR_NUM).length := by
    omega
  rw [hi]
  simp only [List.getD_eq_getElem _ _ hidx]
  exact hh k _ (List.mem_of_mem_take (List.getElem_mem hidx))

theorem coherent_tail_quiet {progs : Nat → List instruction} {g g1 : globalState} {k : Nat}
    (hk : k < NUM_PROCS) (hc : coherent progs g) (ht : tailStep g k = some g1)
    (hq : (afterDrain k (g.threads k)).1.local_node = (g.threads k).local_node ∧
      (afterDrain k (g.threads k)).2.1 = []) :
    coherent progs g1 := by
  have hcnt : ∀ j, j < NUM_PROCS → (g.message_buffers j).count ≤ 100 := fun j hj => by
    have := coherent_count hc j hj
    omega
  obtain ⟨hth, _, hbufs⟩ := tail_effect hc.1 hcnt ht
  have hin : ∀ j, j < NUM_PROCS → inFlight (g1.message_buffers j) =
      inFlight (g.message_buffers j) ++
        (([] : List (Nat × message)).filter (fun p => decide (p.1 = j))).map
          (fun p => p.2) := by
    intro j hj
    rw [(hbufs j hj).2, hq.2]
  refine coherent_congr (fun j hj => (hbufs j hj).1) ?_ (programsOK_tail hth hc.2.2.1) ?_ ?_ hc
  · exact @slotsOK_step g g1 k _ 0 hth (by decide) hc.2.1 (Or.inl (by rw [hq.1]))
  · intro j hj
    rw [hin j hj]
    simp
  · intro X
    rw [obs_tail hk hth hin X]
    have e : obsOf g X =
        { dir := (obsOf g X).dir, st := (obsOf g X).st, view := (obsOf g X).view } := rfl
    conv_rhs => rw [e]
    congr 1
    · split
      · rename_i h
        rw [hq.1, obs_dir_old, h]
      · rfl
    · funext j
      split
      · rename_i h
        rw [h, hq.1, obs_st_old g k X hk]
      · rfl
    · funext j
      split
      · rw [sentTo_nil, List.append_nil]
      · rename_i h
        rw [obs_view_ge g X j h]

/-! ## A thread issues an instruction between two transactions -/

theorem agreesO_congr {o o1 : addrObs} (hd : o1.dir = o.dir) (hs : ∀ j, o1.st j = o.st j)
    (h : agreesO o) : agreesO o1 := by
  have e : o1.st = o.st := funext hs
  unfold agreesO
  rw [hd, e]
  exact h

theorem coherent_tail_request {progs : Nat → List instruction} {g g1 : globalState} {k : Nat}
    (hk : k < NUM_PROCS) (hc : coherent progs g) (he : allEmpty g)
    (ht : tailStep g k = some g1) (a : Nat) (hA : a < 256)
    (hH : (a >>> 4) &&& 0x0F < NUM_PROCS) (msg : message)
    (hsends : (afterDrain k (g.threads k)).2.1 = [((a >>> 4) &&& 0x0F, msg)])
    (hln : (afterDrain k (g.threads k)).1.local_node = (g.threads k).local_node)
    (hma : msg.address = a) (hms : msg.sender = k)
    (hty : ((msg.type = .READ_REQUEST ∨ msg.type = .WRITE_REQUEST) ∧
        statusOf ((g.threads k).local_node.cache ((a &&& 0x0F) % CACHE_SIZE)) a = none) ∨
      (msg.type = .UPGRADE ∧
        statusOf ((g.threads k).local_node.cache ((a &&& 0x0F) % CACHE_SIZE)) a
          = some .SHARED)) :
    coherent progs g1 := by
  have hcnt : ∀ j, j < NUM_PROCS → (g.message_buffers j).count ≤ 100 := fun j hj => by
    have := coherent_count hc j hj
    omega
  have hst := coherent_quiet hc he
  obtain ⟨hth, _, hbufs⟩ := tail_effect hc.1 hcnt ht
  have hin : ∀ j, j < NUM_PROCS → inFlight (g1.message_buffers j) =
      inFlight (g.message_buffers j) ++
        ([((a >>> 4) &&& 0x0F, msg)].filter (fun p => decide (p.1 = j))).map
          (fun p => p.2) := by
    intro j hj
    rw [(hbufs j hj).2, hsends]
  have hdirX : ∀ X, (obsOf g1 X).dir = (obsOf g X).dir := by
    intro X
    rw [obs_tail hk hth hin X]
    simp only
    split
    · rename_i h
      rw [hln, obs_dir_old, h]
    · rfl
  have hstX : ∀ X j, (obsOf g1 X).st j = (obsOf g X).st j := by
    intro X j
    rw [obs_tail hk hth hin X]
    simp only
    split
    · rename_i h
      rw [h, hln, obs_st_old g k X hk]
    · rfl
  have hviewX : ∀ X j, (obsOf g1 X).view j =
      if j = (a >>> 4) &&& 0x0F ∧ a = X then [msg] else [] := by
    intro X j
    rw [obs_tail hk hth hin X]
    simp only [view_of_empty he, sentTo_cons, sentTo_nil, List.nil_append, List.append_nil, hma]
    by_cases hj : j < NUM_PROCS
    · rw [if_pos hj]
      by_cases h1 : (a >>> 4) &&& 0x0F = j ∧ a = X
      · rw [if_pos h1, if_pos ⟨h1.1.symm, h1.2⟩]
      · rw [if_neg h1, if_neg (fun h => h1 ⟨h.1.symm, h.2⟩)]
    · rw [if_neg hj, if_neg]
      intro h
      exact hj (h.1 ▸ hH)
  have hstab : ∀ X, X < 256 → X ≠ a → stableO (obsOf g1 X) := by
    intro X hX hXa
    refine ⟨agreesO_congr (hdirX X) (hstX X) (hst X hX).1, fun j => ?_⟩
    rw [hviewX, if_neg (fun h => hXa h.2.symm)]
  have hb256 : (if a = 0 then 1 else 0) < 256 := by split <;> decide
  have hab : a ≠ (if a = 0 then 1 else 0) := by
    split
    · rename_i h
      rw [h]
      decide
    · rename_i h
      exact h
  refine ⟨fun j hj => (hbufs j hj).1,
    @slotsOK_step g g1 k _ 0 hth (by decide) hc.2.1 (Or.inl (by rw [hln])),
    programsOK_tail hth hc.2.2.1, a, (if a = 0 then 1 else 0), hA, hb256, hab, ?_, ?_,
    Or.inl ⟨prePhaseO.req k msg hk hH (agreesO_congr (hdirX a) (hstX a) (hst a hA).1)
      ?_ hms ?_, hstab _ hb256 (Ne.symm hab)⟩⟩
  · intro j hj m hm
    rw [hin j hj, inFlight_of_empty he j hj] at hm
    simp only [List.nil_append, List.mem_map, List.mem_filter, List.mem_singleton] at hm
    obtain ⟨p, ⟨hp, _⟩, hpm⟩ := hm
    left
    rw [← hpm, hp]
    exact hma
  · intro X hX hXa _
    exact hstab X hX hXa
  · intro j
    rw [hviewX]
    by_cases hj : j = (a >>> 4) &&& 0x0F
    · rw [if_pos hj, if_pos ⟨hj, rfl⟩]
    · rw [if_neg hj, if_neg (fun h => hj h.1)]
  · rw [hstX, obs_st_old g k a hk]
    exact hty

theorem coherent_tail_write_hit {progs : Nat → List instruction} {g g1 : globalState}
    {k : Nat} (hk : k < NUM_PROCS) (hc : coherent progs g) (he : allEmpty g)
    (ht : tailStep g k = some g1) (a : Nat) (hA : a < 256) (l : cacheLine)
    (hsends : (afterDrain k (g.threads k)).2.1 = [])
    (hdir : (afterDrain k (g.threads k)).1.local_node.directory =
      (g.threads k).local_node.directory)
    (hcache : (afterDrain k (g.threads k)).1.local_node.cache =
      Function.update (g.threads k).local_node.cache ((a &&& 0x0F) % CACHE_SIZE) l)
    (hla : l.address = a) (hls : l.state = .MODIFIED) (x : cacheLineState)
    (hx : x = .MODIFIED ∨ x = .EXCLUSIVE)
    (hold : statusOf ((g.threads k).local_node.cache ((a &&& 0x0F) % CACHE_SIZE)) a
      = some x) :
    coherent progs g1 := by
  have hcnt : ∀ j, j < NUM_PROCS → (g.message_buffers j).count ≤ 100 := fun j hj => by
    have := coherent_count hc j hj
    omega
  have hst := coherent_quiet hc he
  obtain ⟨hth, _, hbufs⟩ := tail_effect hc.1 hcnt ht
  obtain ⟨hoa, _, _⟩ := statusOf_some hold
  have hin : ∀ j, j < NUM_PROCS → inFlight (g1.message_buffers j) =
      inFlight (g.message_buffers j) ++
        (([] : List (Nat × message)).filter (fun p => decide (p.1 = j))).map
          (fun p => p.2) := by
    intro j hj
    rw [(hbufs j hj).2, hsends]
  have hdirX : ∀ X, (obsOf g1 X).dir = (obsOf g X).dir := by
    intro X
    rw [obs_tail hk hth hin X]
    simp only
    split
    · rename_i h
      rw [hdir, obs_dir_old, h]
    · rfl
  have hstX : ∀ X j, (obsOf g1 X).st j =
      if j = k ∧ X = a then some .MODIFIED else (obsOf g X).st j := by
    intro X j
    rw [obs_tail hk hth hin X]
    simp only
    by_cases hjk : j = k
    · rw [if_pos hjk, hcache]
      by_cases hXa : X = a
      · rw [if_pos ⟨hjk, hXa⟩, hXa, Function.update_same]
        unfold statusOf
        rw [if_pos ⟨hla, by rw [hls]; decide⟩, hls]
      · rw [if_neg (fun h => hXa h.2), hjk, obs_st_old g k X hk]
        by_cases hs : (X &&& 0x0F) % CACHE_SIZE = (a &&& 0x0F) % CACHE_SIZE
        · rw [hs, Function.update_same]
          unfold statusOf
          rw [if_neg (fun h => hXa (h.1.symm.trans hla)),
            if_neg (fun h => hXa (h.1.symm.trans hoa))]
        · rw [Function.update_noteq hs]
    · rw [if_neg hjk, if_neg (fun h => hjk h.1)]
  have hviewX : ∀ X j, (obsOf g1 X).view j = [] := by
    intro X j
    rw [obs_tail hk hth hin X]
    simp only [view_of_empty he, sentTo_nil, List.append_nil, ite_self]
  have hin0 : ∀ j, j < NUM_PROCS → inFlight (g1.message_buffers j) = [] := by
    intro j hj
    rw [hin j hj, inFlight_of_empty he j hj]
    rfl
  refine coherent_of_stable (fun j hj => (hbufs j hj).1)
    (@slotsOK_step g g1 k _ a hth hA hc.2.1 (Or.inr ⟨l, hcache, hla⟩))
    (programsOK_tail hth hc.2.2.1) hin0 ?_
  intro X hX
  refine ⟨?_, hviewX X⟩
  by_cases hXa : X = a
  · subst hXa
    obtain ⟨hag, _⟩ := hst X hX
    have hk0 : (obsOf g X).st k = some x := by
      rw [obs_st_old g k X hk]
      exact hold
    have hxne : x ≠ .SHARED := by rcases hx with e | e <;> rw [e] <;> decide
    cases hds : (obsOf g X).dir.state with
    | U =>
      have := (hag.1 hds).2 k
      rw [hk0] at this
      cases this
    | S =>
      have := (hag.2.2 hds).2 k
      rw [hk0] at this
      split at this
      · exact absurd (Option.some.inj this) hxne
      · cases this
    | EM =>
      obtain ⟨w, y, hw, hbv, hy, hsts⟩ := hag.2.1 hds
      have hkw : k = w := by
        by_contra hne
        have := hsts k
        rw [hk0, if_neg hne] at this
        cases this
      subst hkw
      refine ⟨?_, ?_, ?_⟩
      · intro h
        rw [hdirX, hds] at h
        cases h
      · intro _
        refine ⟨k, .MODIFIED, hk, by rw [hdirX]; exact hbv, Or.inl rfl, fun j => ?_⟩
        rw [hstX, hsts j]
        by_cases hjk : j = k
        · rw [if_pos ⟨hjk, rfl⟩, if_pos hjk]
        · rw [if_neg (fun h => hjk h.1), if_neg hjk, if_neg hjk]
      · intro h
        rw [hdirX, hds] at h
        cases h
  · refine agreesO_congr (hdirX X) (fun j => ?_) (hst X hX).1
    rw [hstX, if_neg (fun h => hXa h.2)]

/-- A pass of the code after the drain loop, entered when every inbox is
empty, keeps the invariant. -/
theorem coherent_tail_issue {progs : Nat → List instruction} {g g1 : globalState} {k : Nat}
    (hh : homed progs) (hk : k < NUM_PROCS) (hc : coherent progs g) (he : allEmpty g)
    (ht : tailStep g k = some g1) : coherent progs g1 := by
  rcases afterDrain_cases k (g.threads k) with hq | ⟨hlt, _, h⟩
  · exact coherent_tail_quiet hk hc ht hq
  · obtain ⟨hA, hH⟩ := next_instr_homed hh hc.2.2.1 hk hlt
    rcases h with ⟨msg, hsends, hln, hma, hms, hty⟩ | ⟨l, hsends, hdir, hcache, hla, hls, x, hx,
      hold⟩
    · exact coherent_tail_request hk hc he ht _ hA hH msg hsends hln hma hms hty
    · exact coherent_tail_write_hit hk hc he ht _ hA l hsends hdir hcache hla hls x hx hold

/-- A pass of the code after the drain loop that issues no instruction keeps
the invariant. -/
theorem coherent_tail_idle {progs : Nat → List instruction} {g g1 : globalState} {k : Nat}
    (hk : k < NUM_PROCS) (hc : coherent progs g)
    (hi : (afterDrain k (g.threads k)).1.instr_counter = (g.threads k).instr_counter)
    (ht : tailStep g k = some g1) : coherent progs g1 := by
  rcases afterDrain_cases k (g.threads k) with hq | ⟨_, hcnt, _⟩
  · exact coherent_tail_quiet hk hc ht hq
  · rw [hi] at hcnt
    omega

/-! ## The owner of an address in each phase -/

theorem agrees_owner {o : addrObs} (h : agreesO o) {k : Nat} {x : cacheLineState}
    (hk : o.st k = some x) (hx : x = .MODIFIED ∨ x = .EXCLUSIVE) :
    o.dir.state = .EM ∧
      (o.dir.bitVector = 2 ^ k ∨ ∃ m, m ∈ o.view k ∧ m.type = .WRITEBACK_INV ∧
        o.dir.bitVector = 2 ^ m.secondReceiver) ∧
      ∀ j y, o.st j = some y → (y = .MODIFIED ∨ y = .EXCLUSIVE) → j = k := by
  have hxne : x ≠ .SHARED := by rcases hx with e | e <;> rw [e] <;> decide
  cases hds : o.dir.state with
  | U =>
    have := (h.1 hds).2 k
    rw [hk] at this
    cases this
  | S =>
    have := (h.2.2 hds).2 k
    rw [hk] at this
    split at this
    · exact absurd (Option.some.inj this) hxne
    · cases this
  | EM =>
    obtain ⟨w, y, hw, hbv, hy, hsts⟩ := h.2.1 hds
    have hkw : k = w := by
      by_contra hne
      have := hsts k
      rw [hk, if_neg hne] at this
      cases this
    subst hkw
    refine ⟨rfl, Or.inl hbv, fun j z hj _ => ?_⟩
    by_contra hne
    rw [hsts j, if_neg hne] at hj
    cases hj

theorem pre_owner {o : addrObs} {A : Nat} (h : prePhaseO o A) {k : Nat} {x : cacheLineState}
    (hk : o.st k = some x) (hx : x = .MODIFIED ∨ x = .EXCLUSIVE) :
    o.dir.state = .EM ∧
      (o.dir.bitVector = 2 ^ k ∨ ∃ m, m ∈ o.view k ∧ m.type = .WRITEBACK_INV ∧
        o.dir.bitVector = 2 ^ m.secondReceiver) ∧
      ∀ j y, o.st j = some y → (y = .MODIFIED ∨ y = .EXCLUSIVE) → j = k := by
  have hxne : x ≠ .SHARED := by rcases hx with e | e <;> rw [e] <;> decide
  cases h with
  | req R m _ _ hag _ _ _ => exact agrees_owner hag hk hx
  | fwdInt R O m x0 _ _ _ _ hv _ _ hdir _ hst =>
    have hkO : k = O := by
      by_contra hne
      rw [hst k, if_neg hne] at hk
      cases hk
    subst hkO
    refine ⟨by rw [hdir], Or.inl (by rw [hdir]), fun j y hj _ => ?_⟩
    by_contra hne
    rw [hst j, if_neg hne] at hj
    cases hj
  | fwdInv R O m x0 _ _ _ _ hv hty hsec hdir _ hst =>
    have hkO : k = O := by
      by_contra hne
      rw [hst k, if_neg hne] at hk
      cases hk
    subst hkO
    refine ⟨by rw [hdir], Or.inr ⟨m, by rw [hv k, if_pos rfl]; simp, hty, by rw [hdir, hsec]⟩,
      fun j y hj _ => ?_⟩
    by_contra hne
    rw [hst j, if_neg hne] at hj
    cases hj
  | grant R m _ _ _ _ hst =>
    rw [hst k] at hk
    cases hk
  | replyS R m _ _ _ _ _ _ hst =>
    rw [hst k] at hk
    split at hk
    · exact absurd (Option.some.inj hk).symm hxne
    · cases hk
  | flush2 R O m _ _ _ _ _ _ _ _ hst =>
    rw [hst k] at hk
    split at hk
    · exact absurd (Option.some.inj hk).symm hxne
    · cases hk
  | replyID R m _ _ _ _ _ _ hstR hall =>
    by_cases hkR : k = R
    · rw [hkR] at hk
      rcases hstR with e | e
      · rw [e] at hk
        cases hk
      · rw [e] at hk
        exact absurd (Option.some.inj hk).symm hxne
    · rw [hall k hkR] at hk
      split at hk
      · exact absurd (Option.some.inj hk).symm hxne
      · cases hk
  | flushInv R m _ _ _ _ _ hst _ _ _ =>
    rw [hst k] at hk
    cases hk

theorem post_owner {o : addrObs} {A : Nat} (h : postPhaseO o A) {k : Nat}
    {x : cacheLineState} (hk : o.st k = some x) (hx : x = .MODIFIED ∨ x = .EXCLUSIVE) :
    o.dir.state = .EM ∧
      (o.dir.bitVector = 2 ^ k ∨ ∃ m, m ∈ o.view k ∧ m.type = .WRITEBACK_INV ∧
        o.dir.bitVector = 2 ^ m.secondReceiver) ∧
      ∀ j y, o.st j = some y → (y = .MODIFIED ∨ y = .EXCLUSIVE) → j = k := by
  have hxne : x ≠ .SHARED := by rcases hx with e | e <;> rw [e] <;> decide
  cases h with
  | stable hs => exact agrees_owner hs.1 hk hx
  | flushH R O m _ _ _ _ _ _ _ _ _ hst =>
    rw [hst k] at hk
    split at hk
    · exact absurd (Option.some.inj hk).symm hxne
    · cases hk
  | inv R _ hdir hstR _ hall =>
    have hkR : k = R := by
      by_contra hne
      rcases hall k hne with ⟨e, _⟩ | ⟨e, _⟩
      · rw [e] at hk
        exact absurd (Option.some.inj hk).symm hxne
      · rw [e] at hk
        cases hk
    subst hkR
    refine ⟨by rw [hdir], Or.inl (by rw [hdir]), fun j y hj hy => ?_⟩
    by_contra hne
    have hyne : y ≠ .SHARED := by rcases hy with e | e <;> rw [e] <;> decide
    rcases hall j hne with ⟨e, _⟩ | ⟨e, _⟩
    · rw [e] at hj
      exact absurd (Option.some.inj hj).symm hyne
    · rw [e] at hj
      cases hj
  | flushInv R m _ _ _ _ hdir hst _ _ =>
    have hkR : k = R := by
      by_contra hne
      rw [hst k, if_neg hne] at hk
      cases hk
    subst hkR
    refine ⟨by rw [hdir], Or.inl (by rw [hdir]), fun j y hj _ => ?_⟩
    by_contra hne
    rw [hst j, if_neg hne] at hj
    cases hj

theorem evict_owner {o : addrObs} {B : Nat} (h : evictPhaseO o B) {k : Nat}
    {x : cacheLineState} (hk : o.st k = some x) (hx : x = .MODIFIED ∨ x = .EXCLUSIVE) :
    o.dir.state = .EM ∧
      (o.dir.bitVector = 2 ^ k ∨ ∃ m, m ∈ o.view k ∧ m.type = .WRITEBACK_INV ∧
        o.dir.bitVector = 2 ^ m.secondReceiver) ∧
      ∀ j y, o.st j = some y → (y = .MODIFIED ∨ y = .EXCLUSIVE) → j = k := by
  have hxne : x ≠ .SHARED := by rcases hx with e | e <;> rw [e] <;> decide
  cases h with
  | stable hs => exact agrees_owner hs.1 hk hx
  | notice R m _ _ _ _ _ halt =>
    rcases halt with ⟨_, hst⟩ | ⟨_, _, _, hst⟩
    · rw [hst k] at hk
      cases hk
    · rw [hst k] at hk
      split at hk
      · exact absurd (Option.some.inj hk).symm hxne
      · cases hk
  | writeback R m _ _ _ _ _ hst =>
    rw [hst k] at hk
    cases hk
  | promote y m _ _ _ _ _ hst =>
    rw [hst k] at hk
    split at hk
    · exact absurd (Option.some.inj hk).symm hxne
    · cases hk

/-- In a state that satisfies the invariant, a node that holds `X` in
`MODIFIED` or `EXCLUSIVE` is the only such node, the home entry of `X` is `EM`,
and its sharers are that node alone, except while the `WRITEBACK_INV` that
hands `X` over is waiting in the node's inbox. -/
theorem coherent_owner {progs : Nat → List instruction} {g : globalState}
    (hc : coherent progs g) {X : Nat} (hX : X < 256) {k : Nat} {x : cacheLineState}
    (hk : (obsOf g X).st k = some x) (hx : x = .MODIFIED ∨ x = .EXCLUSIVE) :
    (obsOf g X).dir.state = .EM ∧
      ((obsOf g X).dir.bitVector = 2 ^ k ∨ ∃ m, m ∈ (obsOf g X).view k ∧
        m.type = .WRITEBACK_INV ∧ (obsOf g X).dir.bitVector = 2 ^ m.secondReceiver) ∧
      ∀ j y, (obsOf g X).st j = some y → (y = .MODIFIED ∨ y = .EXCLUSIVE) → j = k := by
  obtain ⟨_, _, _, A, B, _, _, _, _, hoth, hph⟩ := hc
  by_cases h1 : X = A
  · subst h1
    rcases hph with ⟨h, _⟩ | ⟨h, _⟩
    · exact pre_owner h hk hx
    · exact post_owner h hk hx
  · by_cases h2 : X = B
    · subst h2
      rcases hph with ⟨_, h⟩ | ⟨_, h⟩
      · exact agrees_owner h.1 hk hx
      · exact evict_owner h hk hx
    · exact agrees_owner (hoth X hX h1 h2).1 hk hx

theorem holds_obs {g : globalState} {k X : Nat} {x : cacheLineState} (hk : k < NUM_PROCS)
    (hx : x ≠ .INVALID) (h : holdsState g k X x) : (obsOf g X).st k = some x := by
  rw [obs_st_old g k X hk]
  unfold statusOf
  rw [if_pos ⟨h.1, by rw [h.2]; exact hx⟩, h.2]

theorem coherent_P1 {progs : Nat → List instruction} {g : globalState}
    (hc : coherent progs g) : P1 g := by
  intro A hA k1 hk1 k2 hk2 h1 h2
  have e1 : ∃ x, (x = .MODIFIED ∨ x = .EXCLUSIVE) ∧ (obsOf g A).st k1 = some x := by
    rcases h1 with h | h
    · exact ⟨_, Or.inl rfl, holds_obs hk1 (by decide) h⟩
    · exact ⟨_, Or.inr rfl, holds_obs hk1 (by decide) h⟩
  have e2 : ∃ x, (x = .MODIFIED ∨ x = .EXCLUSIVE) ∧ (obsOf g A).st k2 = some x := by
    rcases h2 with h | h
    · exact ⟨_, Or.inl rfl, holds_obs hk2 (by decide) h⟩
    · exact ⟨_, Or.inr rfl, holds_obs hk2 (by decide) h⟩
  obtain ⟨x1, hx1, hs1⟩ := e1
  obtain ⟨x2, hx2, hs2⟩ := e2
  exact ((coherent_owner hc hA hs2 hx2).2.2 k1 x1 hs1 hx1)

theorem coherent_P2serial {progs : Nat → List instruction} {g : globalState}
    (hc : coherent progs g) : P2serial g := by
  intro k hk A hA h
  obtain ⟨h1, h2, _⟩ := coherent_owner hc hA (holds_obs hk (by decide) h) (Or.inl rfl)
  refine ⟨h1, ?_⟩
  rcases h2 with e | ⟨m, hm, hty, e⟩
  · exact Or.inl e
  · refine Or.inr ⟨m, ?_, hty, ?_, e⟩
    · unfold obsOf viewOf at hm
      simp only [hk, ↓reduceIte, List.mem_filter, decide_eq_true_eq] at hm
      exact hm.1
    · unfold obsOf viewOf at hm
      simp only [hk, ↓reduceIte, List.mem_filter, decide_eq_true_eq] at hm
      exact hm.2

/-! ## The invariant of the executions without overlapping transactions -/

theorem coherent_init (progs : Nat → List instruction) (junk : instruction) :
    coherent progs (initialState progs junk) := by
  refine coherent_of_stable ?_ ?_ ?_ ?_ ?_
  · intro j _
    exact (⟨by decide, by decide, by decide⟩ : bufferOK emptyBuffer)
  · intro k _ s hv
    exact absurd rfl hv
  · intro k _
    exact ⟨rfl, rfl, le_refl _⟩
  · intro j _
    rfl
  · intro X _
    refine ⟨⟨?_, ?_, ?_⟩, ?_⟩
    · intro _
      refine ⟨rfl, fun j => ?_⟩
      unfold obsOf
      simp only
      split
      · unfold statusOf
        rw [if_neg]
        intro h
        exact h.2 rfl
      · rfl
    · intro h
      cases h
    · intro h
      cases h
    · intro j
      unfold obsOf
      simp only
      split <;> rfl

/-- Every state of an execution without overlapping transactions satisfies
the invariant. -/
theorem coherent_serial {progs : Nat → List instruction} {junk : instruction}
    (hh : homed progs) {g : globalState}
    (h : SerialReachable (initialState progs junk) g) : coherent progs g := by
  induction h with
  | init => exact coherent_init progs junk
  | drain g g1 k _ hk hd ih => exact coherent_drain hk ih hd
  | issue g g1 k _ hk he ht ih => exact coherent_tail_issue hh hk ih he ht
  | idle g g1 k _ hk hi ht ih => exact coherent_tail_idle hk ih hi ht

theorem serialReachable_of_run (g0 : globalState) (s : List action) :
    ∀ g1, SerialReachable g0 g1 → ∀ g2, serialRun g1 s = some g2 → SerialReachable g0 g2 := by
  induction s with
  | nil => intro g1 h1 g2 h; simp only [serialRun, Option.some.injEq] at h; exact h ▸ h1
  | cons a rest ih =>
    intro g1 h1 g2 h
    simp only [serialRun] at h
    cases hs : serialStep g1 a with
    | none => simp [hs] at h
    | some g =>
      simp only [hs] at h
      refine ih g ?_ g2 h
      cases a with
      | drain k =>
        simp only [serialStep] at hs
        split at hs
        · rename_i hk; exact SerialReachable.drain g1 g k h1 hk hs
        · cases hs
      | tail k =>
        simp only [serialStep] at hs
        split at hs
        · rename_i hk; exact SerialReachable.issue g1 g k h1 hk.1 hk.2 hs
        · cases hs

theorem serialRun_check {g0 : globalState} {s : List action} (P : globalState → Prop)
    [∀ g, Decidable (P g)] (h : (serialRun g0 s).any (fun g => decide (P g)) = true) :
    ∃ g, serialRun g0 s = some g ∧ P g := by
  cases hr : serialRun g0 s with
  | none => simp [hr] at h
  | some g => exact ⟨g, rfl, by simpa [hr] using h⟩

/-- When no `WRITEBACK_INV` is waiting anywhere, the weakened P2 is P2. -/
theorem P2_of_P2serial {g : globalState} (h : P2serial g) (he : allEmpty g) : P2 g := by
  intro k hk A hA hm
  obtain ⟨h1, h2⟩ := h k hk A hA hm
  rcases h2 with e | ⟨m, hmem, _⟩
  · exact dir_eq_of e h1
  · rw [inFlight_of_empty he k hk] at hmem
    cases hmem

theorem relaxedRun_check {allowed : transactionType → Bool} {g0 : globalState}
    {s : List action} (P : globalState → Prop) [∀ g, Decidable (P g)]
    (h : (relaxedRun allowed g0 s).any (fun g => decide (P g)) = true) :
    ∃ g, relaxedRun allowed g0 s = some g ∧ P g := by
  cases hr : relaxedRun allowed g0 s with
  | none => simp [hr] at h
  | some g => exact ⟨g, rfl, by simpa [hr] using h⟩

/-! ## Claim C1 -/

/-- P2, even with the exception for the hand-over, fails once transactions
overlap. (i) In the run of `twoUpgraders` in which the two `UPGRADE` requests
overlap, node 0 holds 0x10 in `MODIFIED` while the home entry names node 1 and
no `WRITEBACK_INV` is waiting. (ii) The same happens on 0x20 when a thread may
issue while only `INV` messages are waiting. (iii) When a thread may issue
while only eviction notices are waiting, the late promotion of node 0 turns
its `SHARED` line of 0x20 into `EXCLUSIVE`, the write of node 0 hits it, and
node 0 holds 0x20 in `MODIFIED` while the home entry is `S`. -/
theorem P2serial_fails_on_overlap :
    (∃ g, run (initialState (progsOf twoUpgraders) junkInstr) twoUpgradersSchedule = some g ∧
      ¬ P2serial g) ∧
    (∃ g, relaxedRun invType (initialState (progsOf invOverlap) junkInstr)
        invOverlapSchedule = some g ∧ ¬ P2serial g) ∧
    (∃ g, relaxedRun noticeType (initialState (progsOf noticeOverlapWrite) junkInstr)
        noticeOverlapWriteSchedule = some g ∧ ¬ P2serial g) := by
  refine ⟨?_, ?_, ?_⟩
  · obtain ⟨g, hg, h1, h2, h3⟩ := @run_check (initialState (progsOf twoUpgraders) junkInstr)
      twoUpgradersSchedule
      (fun g => holdsState g 0 0x10 .MODIFIED ∧ (homeEntry g 0x10).bitVector ≠ 2 ^ 0 ∧
        ∀ m, m ∈ inFlight (g.message_buffers 0) → m.type ≠ .WRITEBACK_INV) _ (by decide)
    refine ⟨g, hg, fun h => ?_⟩
    rcases (h 0 (by decide) 0x10 (by decide) h1).2 with e | ⟨m, hm, hty, _⟩
    · exact h2 e
    · exact h3 m hm hty
  · obtain ⟨g, hg, h1, h2, h3⟩ := @relaxedRun_check invType
      (initialState (progsOf invOverlap) junkInstr) invOverlapSchedule
      (fun g => holdsState g 0 0x20 .MODIFIED ∧ (homeEntry g 0x20).bitVector ≠ 2 ^ 0 ∧
        ∀ m, m ∈ inFlight (g.message_buffers 0) → m.type ≠ .WRITEBACK_INV) _ (by decide)
    refine ⟨g, hg, fun h => ?_⟩
    rcases (h 0 (by decide) 0x20 (by decide) h1).2 with e | ⟨m, hm, hty, _⟩
    · exact h2 e
    · exact h3 m hm hty
  · obtain ⟨g, hg, h1, h2⟩ := @relaxedRun_check noticeType
      (initialState (progsOf noticeOverlapWrite) junkInstr) noticeOverlapWriteSchedule
      (fun g => holdsState g 0 0x20 .MODIFIED ∧ (homeEntry g 0x20).state ≠ .EM) _ (by decide)
    exact ⟨g, hg, fun h => h2 (h 0 (by decide) 0x20 (by decide) h1).1⟩

/-! ## Claim C2 -/

/-- P1 needs the whole rule: it fails when a thread may issue while messages
other than requests are still waiting. (i) When a thread may issue while only
`INV` messages are waiting, node 2 issues its write of 0x20 before it has
dispatched the `INV` of node 0, and both nodes hold 0x20 in `MODIFIED`. (ii)
When a thread may issue while only eviction notices are waiting, the late
promotion of node 0 for 0x20 turns the invalidated line of 0x10 in its slot
into `EXCLUSIVE` while node 3 holds 0x10 in `MODIFIED`. -/
theorem P1_fails_on_overlap :
    (∃ g, relaxedRun invType (initialState (progsOf invOverlap) junkInstr)
        invOverlapSchedule = some g ∧ ¬ P1 g) ∧
    (∃ g, relaxedRun noticeType (initialState (progsOf noticeOverlap) junkInstr)
        noticeOverlapSchedule = some g ∧ ¬ P1 g) := by
  refine ⟨?_, ?_⟩
  · obtain ⟨g, hg, h1, h2⟩ := @relaxedRun_check invType
      (initialState (progsOf invOverlap) junkInstr) invOverlapSchedule
      (fun g => holdsState g 0 0x20 .MODIFIED ∧ holdsState g 2 0x20 .MODIFIED) _ (by decide)
    refine ⟨g, hg, fun h => ?_⟩
    have := h 0x20 (by decide) 0 (by decide) 2 (by decide) (Or.inl h1) (Or.inl h2)
    exact absurd this (by decide)
  · obtain ⟨g, hg, h1, h2⟩ := @relaxedRun_check noticeType
      (initialState (progsOf noticeOverlap) junkInstr) noticeOverlapSchedule
      (fun g => holdsState g 0 0x10 .EXCLUSIVE ∧ holdsState g 3 0x10 .MODIFIED) _ (by decide)
    refine ⟨g, hg, fun h => ?_⟩
    have := h 0x10 (by decide) 0 (by decide) 3 (by decide) (Or.inr h1) (Or.inl h2)
    exact absurd this (by decide)

/-! ## Claim C3 -/

/-- Claim C3. If every directory entry in state `EM` has exactly one sharer bit
set, then dispatching any message whose `sender` and `secondReceiver` are in
0..3 is defined (in particular `__builtin_ctz` is never applied to 0 in the
`EM` branches) and afterwards every entry in state `EM` again has exactly one
sharer bit set. -/
theorem dispatch_emSingleton (current_thread : Nat) (t : threadState) (incoming_msg : message)
    (hinv : emSingleton t) (hs : incoming_msg.sender < NUM_PROCS)
    (hr : incoming_msg.secondReceiver < NUM_PROCS) :
    ∃ t1 sends, dispatch current_thread t incoming_msg = some (t1, sends) ∧ emSingleton t1 := by
  have hs8 : incoming_msg.sender < 8 := by unfold NUM_PROCS at hs; omega
  have hr8 : incoming_msg.secondReceiver < 8 := by unfold NUM_PROCS at hr; omega
  have hs32 : incoming_msg.sender < 32 := by omega
  have hold := hinv _ (offset_lt incoming_msg.address)
  unfold emSingleton at hinv ⊢
  unfold dispatch
  cases hty : incoming_msg.type <;> simp only
  · -- READ_REQUEST
    unfold case_READ_REQUEST
    simp only
    cases hst : (t.local_node.directory (incoming_msg.address &&& 0x0F)).state
    · obtain ⟨o, ho1⟩ := ctz_isSome_of_popcount
        (x := (t.local_node.directory (incoming_msg.address &&& 0x0F)).bitVector)
        (by rw [hold hst]; decide)
      simp only [ho1]
      exact ⟨_, _, rfl, hinv⟩
    · exact ⟨_, _, rfl, dirEmSingleton_update hinv _ _ (by simp [hst])⟩
    · exact ⟨_, _, rfl, dirEmSingleton_update hinv _ _
        (by simp [one_shl_mod hs8, popcount_two_pow hs8])⟩
  · -- WRITE_REQUEST
    unfold case_WRITE_REQUEST
    simp only
    have hnew := dirEmSingleton_update hinv (incoming_msg.address &&& 0x0F)
        { bitVector := (1 <<< incoming_msg.sender) % 256, state := .EM }
        (by simp [one_shl_mod hs8, popcount_two_pow hs8])
    cases hst : (t.local_node.directory (incoming_msg.address &&& 0x0F)).state
    · obtain ⟨o, ho1⟩ := ctz_isSome_of_popcount
        (x := (t.local_node.directory (incoming_msg.address &&& 0x0F)).bitVector)
        (by rw [hold hst]; decide)
      simp only [ho1]
      exact ⟨_, _, rfl, hnew⟩
    · exact ⟨_, _, rfl, hnew⟩
    · exact ⟨_, _, rfl, hnew⟩
  · -- REPLY_RD
    exact ⟨_, _, rfl, hinv⟩
  · -- REPLY_WR
    exact ⟨_, _, rfl, hinv⟩
  · -- REPLY_ID
    exact ⟨_, _, rfl, hinv⟩
  · -- INV
    unfold case_INV
    simp only
    split
    · exact ⟨_, _, rfl, hinv⟩
    · exact ⟨_, _, rfl, hinv⟩
  · -- UPGRADE
    exact ⟨_, _, rfl, dirEmSingleton_update hinv _ _
        (by simp [one_shl_mod hs8, popcount_two_pow hs8])⟩
  · -- WRITEBACK_INV
    exact ⟨_, _, rfl, hinv⟩
  · -- WRITEBACK_INT
    exact ⟨_, _, rfl, hinv⟩
  · -- FLUSH
    unfold case_FLUSH
    simp only
    have hnew : dirEmSingleton (if current_thread = (incoming_msg.address >>> 4) &&& 0x0F then
        setMemory
          (setDirectory t (incoming_msg.address &&& 0x0F)
            { bitVector := ((t.local_node.directory (incoming_msg.address &&& 0x0F)).bitVector
                              ||| (1 <<< incoming_msg.secondReceiver)) % 256,
              state := .S })
          (incoming_msg.address &&& 0x0F) incoming_msg.value
      else t).local_node.directory := by
      split
      · exact dirEmSingleton_update hinv _ _ (by simp)
      · exact hinv
    split
    · exact ⟨_, _, rfl, hnew⟩
    · exact ⟨_, _, rfl, hnew⟩
  · -- FLUSH_INVACK
    unfold case_FLUSH_INVACK
    simp only
    have hnew : dirEmSingleton (if current_thread = (incoming_msg.address >>> 4) &&& 0x0F then
        setMemory
          (setDirectory t (incoming_msg.address &&& 0x0F)
            { t.local_node.directory (incoming_msg.address &&& 0x0F) with
              bitVector := (1 <<< incoming_msg.secondReceiver) % 256 })
          (incoming_msg.address &&& 0x0F) incoming_msg.value
      else t).local_node.directory := by
      split
      · exact dirEmSingleton_update hinv _ _
          (by simp [one_shl_mod hr8, popcount_two_pow hr8])
      · exact hinv
    split
    · exact ⟨_, _, rfl, hnew⟩
    · exact ⟨_, _, rfl, hnew⟩
  · -- EVICT_SHARED
    unfold case_EVICT_SHARED
    simp only
    split
    · exact ⟨_, _, rfl, hinv⟩
    · split
      · exact ⟨_, _, rfl, dirEmSingleton_update hinv _ _ (by simp)⟩
      · rename_i hc0
        split
        · rename_i hc1
          obtain ⟨o, ho1⟩ := ctz_isSome_of_popcount hc0
          simp only [ho1]
          split
          · exact ⟨_, _, rfl, dirEmSingleton_update hinv _ _ (by simpa using hc1)⟩
          · exact ⟨_, _, rfl, dirEmSingleton_update hinv _ _ (by simpa using hc1)⟩
        · rename_i hc1
          refine ⟨_, _, rfl, dirEmSingleton_update hinv _ _ ?_⟩
          intro hst
          exfalso
          have hle := popcount_clear_le
            (t.local_node.directory (incoming_msg.address &&& 0x0F)).bitVector
            incoming_msg.sender hs32
          have := hold hst
          simp only at hle
          omega
  · -- EVICT_MODIFIED
    exact ⟨_, _, rfl, dirEmSingleton_update hinv _ _ (by simp)⟩

/-- Witness for C3: node 1 with entry 0 in `EM` owned by node 0 receives a
`WRITE_REQUEST` for 0x10 from node 2. -/
theorem dispatch_emSingleton_witness :
    emSingleton homeOwnedBy0 ∧ writeRequestFrom2.sender < NUM_PROCS ∧
      writeRequestFrom2.secondReceiver < NUM_PROCS ∧
      ∃ t1 sends, dispatch 1 homeOwnedBy0 writeRequestFrom2 = some (t1, sends) ∧
        emSingleton t1 :=
  ⟨by decide, by decide, by decide,
   dispatch_emSingleton 1 homeOwnedBy0 writeRequestFrom2 (by decide) (by decide) (by decide)⟩

/-! ## Claim C4 -/

/-- Claim C4, refuted as stated. Node 1 right after `initializeProcessor` (every
entry `U` with no sharer) dispatches a `FLUSH_INVACK` for 0x10 with
`secondReceiver = 2`: the home branch sets the sharer vector to bit 2 and
leaves the state `U`. -/
theorem dispatch_unownedEmpty_counterexample :
    ¬ (∀ (current_thread : Nat) (t : threadState) (incoming_msg : message),
        dirWellFormed t.local_node.directory →
        incoming_msg.sender < NUM_PROCS → incoming_msg.secondReceiver < NUM_PROCS →
        ∀ t1 sends, dispatch current_thread t incoming_msg = some (t1, sends) →
          dirUnownedEmpty t1.local_node.directory) := by
  intro h
  have h1 := h 1 (freshThread 1 []) flushInvackFor2 (by decide) (by decide) (by decide) _ _ rfl
  revert h1
  decide


/-- Claim C4, amended. From a well-formed directory, dispatching any message
with `sender` and `secondReceiver` in 0..3 is defined and leaves every entry in
state `U` with an empty sharer vector, except for a `FLUSH_INVACK` dispatched
by the home of its address while that entry is in state `U`. -/
theorem dispatch_unownedEmpty (current_thread : Nat) (t : threadState) (incoming_msg : message)
    (hwf : dirWellFormed t.local_node.directory) (hs : incoming_msg.sender < NUM_PROCS)
    (_hr : incoming_msg.secondReceiver < NUM_PROCS)
    (hex : ¬ (incoming_msg.type = .FLUSH_INVACK ∧
              current_thread = (incoming_msg.address >>> 4) &&& 0x0F ∧
              (t.local_node.directory (incoming_msg.address &&& 0x0F)).state = .U)) :
    ∃ t1 sends, dispatch current_thread t incoming_msg = some (t1, sends) ∧
      dirUnownedEmpty t1.local_node.directory := by
  have hs32 : incoming_msg.sender < 32 := by unfold NUM_PROCS at hs; omega
  have hold := hwf _ (offset_lt incoming_msg.address)
  have hinv : dirUnownedEmpty t.local_node.directory := fun i hi => (hwf i hi).1
  unfold dispatch
  cases hty : incoming_msg.type <;> simp only
  · -- READ_REQUEST
    unfold case_READ_REQUEST
    simp only
    cases hst : (t.local_node.directory (incoming_msg.address &&& 0x0F)).state
    · obtain ⟨o, ho1⟩ := ctz_isSome_of_popcount
        (x := (t.local_node.directory (incoming_msg.address &&& 0x0F)).bitVector)
        (by rw [hold.2.2 hst]; decide)
      simp only [ho1]
      exact ⟨_, _, rfl, hinv⟩
    · exact ⟨_, _, rfl, dirUnownedEmpty_update hinv _ _ (by simp [hst])⟩
    · exact ⟨_, _, rfl, dirUnownedEmpty_update hinv _ _ (by simp)⟩
  · -- WRITE_REQUEST
    unfold case_WRITE_REQUEST
    simp only
    have hnew := dirUnownedEmpty_update hinv (incoming_msg.address &&& 0x0F)
        { bitVector := (1 <<< incoming_msg.sender) % 256, state := .EM } (by simp)
    cases hst : (t.local_node.directory (incoming_msg.address &&& 0x0F)).state
    · obtain ⟨o, ho1⟩ := ctz_isSome_of_popcount
        (x := (t.local_node.directory (incoming_msg.address &&& 0x0F)).bitVector)
        (by rw [hold.2.2 hst]; decide)
      simp only [ho1]
      exact ⟨_, _, rfl, hnew⟩
    · exact ⟨_, _, rfl, hnew⟩
    · exact ⟨_, _, rfl, hnew⟩
  · exact ⟨_, _, rfl, hinv⟩
  · exact ⟨_, _, rfl, hinv⟩
  · exact ⟨_, _, rfl, hinv⟩
  · -- INV
    unfold case_INV
    simp only
    split
    · exact ⟨_, _, rfl, hinv⟩
    · exact ⟨_, _, rfl, hinv⟩
  · exact ⟨_, _, rfl, dirUnownedEmpty_update hinv _ _ (by simp)⟩
  · exact ⟨_, _, rfl, hinv⟩
  · exact ⟨_, _, rfl, hinv⟩
  · -- FLUSH
    unfold case_FLUSH
    simp only
    have hnew : dirUnownedEmpty (if current_thread = (incoming_msg.address >>> 4) &&& 0x0F then
        setMemory
          (setDirectory t (incoming_msg.address &&& 0x0F)
            { bitVector := ((t.local_node.directory (incoming_msg.address &&& 0x0F)).bitVector
                              ||| (1 <<< incoming_msg.secondReceiver)) % 256,
              state := .S })
          (incoming_msg.address &&& 0x0F) incoming_msg.value
      else t).local_node.directory := by
      split
      · exact dirUnownedEmpty_update hinv _ _ (by simp)
      · exact hinv
    split
    · exact ⟨_, _, rfl, hnew⟩
    · exact ⟨_, _, rfl, hnew⟩
  · -- FLUSH_INVACK
    unfold case_FLUSH_INVACK
    simp only
    have hnew : dirUnownedEmpty (if current_thread = (incoming_msg.address >>> 4) &&& 0x0F then
        setMemory
          (setDirectory t (incoming_msg.address &&& 0x0F)
            { t.local_node.directory (incoming_msg.address &&& 0x0F) with
              bitVector := (1 <<< incoming_msg.secondReceiver) % 256 })
          (incoming_msg.address &&& 0x0F) incoming_msg.value
      else t).local_node.directory := by
      split
      · rename_i hhome
        refine dirUnownedEmpty_update hinv _ _ ?_
        intro hst
        exact absurd ⟨hty, hhome, hst⟩ hex
      · exact hinv
    split
    · exact ⟨_, _, rfl, hnew⟩
    · exact ⟨_, _, rfl, hnew⟩
  · -- EVICT_SHARED
    unfold case_EVICT_SHARED
    simp only
    split
    · exact ⟨_, _, rfl, hinv⟩
    · split
      · rename_i hc0
        refine ⟨_, _, rfl, dirUnownedEmpty_update hinv _ _ ?_⟩
        intro _
        exact popcount_zero_byte _ (Nat.mod_lt _ (by norm_num)) hc0
      · rename_i hc0
        split
        · obtain ⟨o, ho1⟩ := ctz_isSome_of_popcount hc0
          simp only [ho1]
          split
          · exact ⟨_, _, rfl, dirUnownedEmpty_update hinv _ _ (by simp)⟩
          · exact ⟨_, _, rfl, dirUnownedEmpty_update hinv _ _ (by simp)⟩
        · refine ⟨_, _, rfl, dirUnownedEmpty_update hinv _ _ ?_⟩
          intro hst
          have := hold.1 hst
          simp [this]
  · -- EVICT_MODIFIED
    exact ⟨_, _, rfl, dirUnownedEmpty_update hinv _ _ (by simp)⟩

/-- Witness for the amended C4: the same `FLUSH_INVACK` arriving while entry 0
is in `EM`. -/
theorem dispatch_unownedEmpty_witness :
    dirWellFormed homeOwnedBy0.local_node.directory ∧
      flushInvackFor2.sender < NUM_PROCS ∧ flushInvackFor2.secondReceiver < NUM_PROCS ∧
      ¬ (flushInvackFor2.type = .FLUSH_INVACK ∧
          1 = (flushInvackFor2.address >>> 4) &&& 0x0F ∧
          (homeOwnedBy0.local_node.directory (flushInvackFor2.address &&& 0x0F)).state = .U) ∧
      ∃ t1 sends, dispatch 1 homeOwnedBy0 flushInvackFor2 = some (t1, sends) ∧
        dirUnownedEmpty t1.local_node.directory :=
  ⟨by decide, by decide, by decide, by decide,
   dispatch_unownedEmpty 1 homeOwnedBy0 flushInvackFor2 (by decide) (by decide) (by decide)
     (by decide)⟩

/-! ## Claim C5 -/

/-- Claim C5 (round-trip R1). Let `WR A v` be a write instruction of thread `X`.
If it is the next instruction and hits a line in `MODIFIED` or `EXCLUSIVE`,
then after the pass through the issue code, and otherwise (it is the current,
pending instruction) after `X` dispatches a reply completing it (`REPLY_WR` or
`REPLY_ID` for `A`, or `FLUSH_INVACK` for `A` with `secondReceiver = X`), the
slot of `A` holds `A` with value `v` in `MODIFIED` and `awaiting_response = 0`;
a read of `A` issued next then sends nothing, does not block, leaves the cache
as it is and finds `v` in the line. -/
theorem read_after_write (X : Nat) (t : threadState) (ty A v : Nat) (hw : ty ≠ 82) :
    (nextInstr t { type := ty, address := A, value := v } →
      (t.local_node.cache ((A &&& 0x0F) % CACHE_SIZE)).address = A →
      ((t.local_node.cache ((A &&& 0x0F) % CACHE_SIZE)).state = .MODIFIED ∨
        (t.local_node.cache ((A &&& 0x0F) % CACHE_SIZE)).state = .EXCLUSIVE) →
      (afterDrain X t).2 = ([], false) ∧
      holdsWritten (afterDrain X t).1 A v ∧ readsBack X (afterDrain X t).1 A v) ∧
    (∀ m, t.current_instr = { type := ty, address := A, value := v } →
      completesWrite X m A →
      ∃ t1 sends, dispatch X t m = some (t1, sends) ∧
        holdsWritten t1 A v ∧ readsBack X t1 A v) := by
  constructor
  · intro hn ha hst
    obtain ⟨haw, hc, hi⟩ := hn
    have hlt : ¬ (t.awaiting_response > 0) := by omega
    have hni : (t.local_node.cache ((A &&& 0x0F) % CACHE_SIZE)).state ≠ .INVALID := by
      rcases hst with h | h <;> simp [h]
    have hres : afterDrain X t =
        (setCache { t with instr_counter := t.instr_counter + 1,
                           current_instr := { type := ty, address := A, value := v } }
            ((A &&& 0x0F) % CACHE_SIZE)
            { address := A, value := v, state := .MODIFIED }, [], false) := by
      simp only [afterDrain, hlt, hc, ↓reduceIte, issue, hi, hw, ha, hni, hst]
    have hh : holdsWritten (afterDrain X t).1 A v := by
      rw [hres]
      exact ⟨by simp, haw⟩
    exact ⟨by rw [hres], hh, readsBack_of_holdsWritten X _ A v hh⟩
  · intro m hcur hm
    obtain ⟨hma, hk⟩ := hm
    have hv : t.current_instr.value = v := by rw [hcur]
    have hd : ∃ t1 sends, dispatch X t m = some (t1, sends) ∧ holdsWritten t1 A v := by
      rcases hk with hk | hk | ⟨hk, hx⟩
      · simp only [dispatch, hk, case_REPLY_WR]
        refine ⟨_, _, rfl, ?_⟩
        subst hma
        exact ⟨by simp [hv], rfl⟩
      · simp only [dispatch, hk, case_REPLY_ID]
        refine ⟨_, _, rfl, ?_⟩
        subst hma
        exact ⟨by simp [hv], rfl⟩
      · simp only [dispatch, hk, case_FLUSH_INVACK, hx, ↓reduceIte]
        refine ⟨_, _, rfl, ?_⟩
        subst hma
        exact ⟨by simp [hv], rfl⟩
    obtain ⟨t1, sends, h1, h2⟩ := hd
    exact ⟨t1, sends, h1, h2, readsBack_of_holdsWritten X _ A v h2⟩

/-- Witness for C5: node 0 executes `WR 0x10 5` on an `EXCLUSIVE` line, and
node 2, blocked on `WR 0x10 5`, dispatches the `FLUSH_INVACK` addressed to it. -/
theorem read_after_write_witness :
    ((87 : Nat) ≠ 82 ∧
      nextInstr writerWithHit { type := 87, address := 0x10, value := 5 } ∧
      (afterDrain 0 writerWithHit).2 = ([], false) ∧
      holdsWritten (afterDrain 0 writerWithHit).1 0x10 5 ∧
      readsBack 0 (afterDrain 0 writerWithHit).1 0x10 5) ∧
    (writerBlocked.current_instr = { type := 87, address := 0x10, value := 5 } ∧
      completesWrite 2 flushInvackFor2 0x10 ∧
      ∃ t1 sends, dispatch 2 writerBlocked flushInvackFor2 = some (t1, sends) ∧
        holdsWritten t1 0x10 5 ∧ readsBack 2 t1 0x10 5) :=
  ⟨⟨by decide, by decide,
    (read_after_write 0 writerWithHit 87 0x10 5 (by decide)).1 (by decide) (by decide)
      (by decide)⟩,
   ⟨by decide, by decide,
    (read_after_write 2 writerBlocked 87 0x10 5 (by decide)).2 flushInvackFor2 (by decide)
      (by decide)⟩⟩

/-! ## Claim C6 -/

/-- Claim C6. Dispatching a `WRITE_REQUEST` for `A` from `R` in 0..3 (the sharer
vector being a byte, non-zero when the entry is `EM`) sends exactly one
message: from `U`, `REPLY_WR` for `A` to `R`; from `S`, `REPLY_ID` for `A` to
`R` whose sharers are the old sharers with bit `R` cleared; from `EM`,
`WRITEBACK_INV` for `A` with `secondReceiver = R` and the request's value to
the node at the lowest set bit of the old sharers. Afterwards the entry is `EM`
with sharers `{R}`; memory, cache, the other entries and `awaiting_response`
are unchanged. -/
theorem WRITE_REQUEST_at_home (current_thread : Nat) (t : threadState) (incoming_msg : message)
    (hty : incoming_msg.type = .WRITE_REQUEST) (hs : incoming_msg.sender < NUM_PROCS)
    (hb : (t.local_node.directory (incoming_msg.address &&& 0x0F)).bitVector < 256)
    (hem : (t.local_node.directory (incoming_msg.address &&& 0x0F)).state = .EM →
      (t.local_node.directory (incoming_msg.address &&& 0x0F)).bitVector ≠ 0) :
    ∃ t1 receiver reply,
      dispatch current_thread t incoming_msg = some (t1, [(receiver, reply)]) ∧
      ((t.local_node.directory (incoming_msg.address &&& 0x0F)).state = .U →
        receiver = incoming_msg.sender ∧ reply.type = .REPLY_WR ∧
        reply.address = incoming_msg.address) ∧
      ((t.local_node.directory (incoming_msg.address &&& 0x0F)).state = .S →
        receiver = incoming_msg.sender ∧ reply.type = .REPLY_ID ∧
        reply.address = incoming_msg.address ∧
        ∀ i, reply.bitVector.testBit i =
          ((t.local_node.directory (incoming_msg.address &&& 0x0F)).bitVector.testBit i &&
            decide (i ≠ incoming_msg.sender))) ∧
      ((t.local_node.directory (incoming_msg.address &&& 0x0F)).state = .EM →
        (t.local_node.directory (incoming_msg.address &&& 0x0F)).bitVector.testBit receiver = true ∧
        (∀ j, j < receiver →
          (t.local_node.directory (incoming_msg.address &&& 0x0F)).bitVector.testBit j = false) ∧
        reply.type = .WRITEBACK_INV ∧ reply.address = incoming_msg.address ∧
        reply.secondReceiver = incoming_msg.sender ∧ reply.value = incoming_msg.value) ∧
      t1.local_node.directory (incoming_msg.address &&& 0x0F) =
        { bitVector := 2 ^ incoming_msg.sender, state := .EM } ∧
      (∀ i, i ≠ incoming_msg.address &&& 0x0F →
        t1.local_node.directory i = t.local_node.directory i) ∧
      t1.local_node.memory = t.local_node.memory ∧
      t1.local_node.cache = t.local_node.cache ∧
      t1.awaiting_response = t.awaiting_response := by
  have hs8 : incoming_msg.sender < 8 := by unfold NUM_PROCS at hs; omega
  have hs32 : incoming_msg.sender < 32 := by omega
  unfold dispatch
  simp only [hty]
  unfold case_WRITE_REQUEST
  simp only
  cases hst : (t.local_node.directory (incoming_msg.address &&& 0x0F)).state
  · obtain ⟨o, _, ho1, ho2, ho3⟩ := ctz_byte _ hb (hem hst)
    simp only [ho1]
    refine ⟨_, _, _, rfl, ?_, ?_, ?_, ?_, ?_, rfl, rfl, rfl⟩
    · intro h; cases h
    · intro h; cases h
    · intro _; exact ⟨ho2, ho3, rfl, rfl, rfl, rfl⟩
    · simp [one_shl_mod hs8]
    · intro i hi; simp [Function.update_noteq hi]
  · refine ⟨_, _, _, rfl, ?_, ?_, ?_, ?_, ?_, rfl, rfl, rfl⟩
    · intro h; cases h
    · intro _; exact ⟨rfl, rfl, rfl, fun i => testBit_clear_byte hb hs32 i⟩
    · intro h; cases h
    · simp [one_shl_mod hs8]
    · intro i hi; simp [Function.update_noteq hi]
  · refine ⟨_, _, _, rfl, ?_, ?_, ?_, ?_, ?_, rfl, rfl, rfl⟩
    · intro _; exact ⟨rfl, rfl, rfl⟩
    · intro h; cases h
    · intro h; cases h
    · simp [one_shl_mod hs8]
    · intro i hi; simp [Function.update_noteq hi]

/-- Witness for C6: entry 0 of node 1 is `EM` owned by node 0, the request
comes from node 2. -/
theorem WRITE_REQUEST_at_home_witness :
    writeRequestFrom2.type = .WRITE_REQUEST ∧ writeRequestFrom2.sender < NUM_PROCS ∧
      (homeOwnedBy0.local_node.directory (writeRequestFrom2.address &&& 0x0F)).bitVector < 256 ∧
      ((homeOwnedBy0.local_node.directory (writeRequestFrom2.address &&& 0x0F)).state = .EM →
        (homeOwnedBy0.local_node.directory (writeRequestFrom2.address &&& 0x0F)).bitVector ≠ 0) ∧
      ∃ t1 receiver reply,
        dispatch 1 homeOwnedBy0 writeRequestFrom2 = some (t1, [(receiver, reply)]) ∧
        t1.local_node.directory 0 = { bitVector := 4, state := .EM } := by
  refine ⟨by decide, by decide, by decide, by decide, ?_⟩
  obtain ⟨t1, receiver, reply, h, _, _, _, hd, _⟩ :=
    WRITE_REQUEST_at_home 1 homeOwnedBy0 writeRequestFrom2 (by decide) (by decide)
      (by decide) (by decide)
  exact ⟨t1, receiver, reply, h, hd⟩

/-! ## Claim C7 -/

/-- Claim C7. Dispatching a `READ_REQUEST` for `A` from `R` in 0..3 (the sharer
vector being a byte, non-zero when the entry is `EM`) sends exactly one
message: from `U`, `REPLY_RD` for `A` with `memory[o]` and hint `EM` to `R`, the
entry becoming `EM` with sharers `{R}`; from `S`, `REPLY_RD` for `A` with
`memory[o]` and hint `S` to `R`, bit `R` being added to the sharers and the
state staying `S`; from `EM`, `WRITEBACK_INT` for `A` with `secondReceiver = R`
to the node at the lowest set bit of the sharers, the directory being left
as it is. Memory, cache and `awaiting_response` are unchanged. -/
theorem READ_REQUEST_at_home (current_thread : Nat) (t : threadState) (incoming_msg : message)
    (hty : incoming_msg.type = .READ_REQUEST) (hs : incoming_msg.sender < NUM_PROCS)
    (hb : (t.local_node.directory (incoming_msg.address &&& 0x0F)).bitVector < 256)
    (hem : (t.local_node.directory (incoming_msg.address &&& 0x0F)).state = .EM →
      (t.local_node.directory (incoming_msg.address &&& 0x0F)).bitVector ≠ 0) :
    ∃ t1 receiver reply,
      dispatch current_thread t incoming_msg = some (t1, [(receiver, reply)]) ∧
      ((t.local_node.directory (incoming_msg.address &&& 0x0F)).state = .U →
        receiver = incoming_msg.sender ∧ reply.type = .REPLY_RD ∧
        reply.address = incoming_msg.address ∧
        reply.value = t.local_node.memory (incoming_msg.address &&& 0x0F) ∧
        reply.dirState = .EM ∧
        t1.local_node.directory (incoming_msg.address &&& 0x0F) =
          { bitVector := 2 ^ incoming_msg.sender, state := .EM }) ∧
      ((t.local_node.directory (incoming_msg.address &&& 0x0F)).state = .S →
        receiver = incoming_msg.sender ∧ reply.type = .REPLY_RD ∧
        reply.address = incoming_msg.address ∧
        reply.value = t.local_node.memory (incoming_msg.address &&& 0x0F) ∧
        reply.dirState = .S ∧
        (t1.local_node.directory (incoming_msg.address &&& 0x0F)).state = .S ∧
        ∀ i, (t1.local_node.directory (incoming_msg.address &&& 0x0F)).bitVector.testBit i =
          ((t.local_node.directory (incoming_msg.address &&& 0x0F)).bitVector.testBit i ||
            decide (i = incoming_msg.sender))) ∧
      ((t.local_node.directory (incoming_msg.address &&& 0x0F)).state = .EM →
        (t.local_node.directory (incoming_msg.address &&& 0x0F)).bitVector.testBit receiver = true ∧
        (∀ j, j < receiver →
          (t.local_node.directory (incoming_msg.address &&& 0x0F)).bitVector.testBit j = false) ∧
        reply.type = .WRITEBACK_INT ∧ reply.address = incoming_msg.address ∧
        reply.secondReceiver = incoming_msg.sender ∧
        t1.local_node.directory = t.local_node.directory) ∧
      (∀ i, i ≠ incoming_msg.address &&& 0x0F →
        t1.local_node.directory i = t.local_node.directory i) ∧
      t1.local_node.memory = t.local_node.memory ∧
      t1.local_node.cache = t.local_node.cache ∧
      t1.awaiting_response = t.awaiting_response := by
  have hs8 : incoming_msg.sender < 8 := by unfold NUM_PROCS at hs; omega
  unfold dispatch
  simp only [hty]
  unfold case_READ_REQUEST
  simp only
  cases hst : (t.local_node.directory (incoming_msg.address &&& 0x0F)).state
  · obtain ⟨o, _, ho1, ho2, ho3⟩ := ctz_byte _ hb (hem hst)
    simp only [ho1]
    refine ⟨_, _, _, rfl, ?_, ?_, ?_, ?_, rfl, rfl, rfl⟩
    · intro h; cases h
    · intro h; cases h
    · intro _; exact ⟨ho2, ho3, rfl, rfl, rfl, rfl⟩
    · intro i _; rfl
  · refine ⟨_, _, _, rfl, ?_, ?_, ?_, ?_, rfl, rfl, rfl⟩
    · intro h; cases h
    · intro _
      refine ⟨rfl, rfl, rfl, rfl, rfl, ?_, ?_⟩
      · simp [hst]
      · intro i; simpa using testBit_set_byte hb hs8 i
    · intro h; cases h
    · intro i hi; simp [Function.update_noteq hi]
  · refine ⟨_, _, _, rfl, ?_, ?_, ?_, ?_, rfl, rfl, rfl⟩
    · intro _; exact ⟨rfl, rfl, rfl, rfl, rfl, by simp [one_shl_mod hs8]⟩
    · intro h; cases h
    · intro h; cases h
    · intro i hi; simp [Function.update_noteq hi]

/-- Witness for C7: entry 0 of node 1 is `S` shared by nodes 0 and 3, and node 2
reads. -/
theorem READ_REQUEST_at_home_witness :
    readRequestFrom2.type = .READ_REQUEST ∧ readRequestFrom2.sender < NUM_PROCS ∧
      (homeShared03.local_node.directory (readRequestFrom2.address &&& 0x0F)).bitVector < 256 ∧
      ((homeShared03.local_node.directory (readRequestFrom2.address &&& 0x0F)).state = .EM →
        (homeShared03.local_node.directory (readRequestFrom2.address &&& 0x0F)).bitVector ≠ 0) ∧
      ∃ t1 receiver reply,
        dispatch 1 homeShared03 readRequestFrom2 = some (t1, [(receiver, reply)]) ∧
        t1.local_node.memory = homeShared03.local_node.memory := by
  refine ⟨by decide, by decide, by decide, by decide, ?_⟩
  obtain ⟨t1, receiver, reply, h, _, _, _, _, hm, _⟩ :=
    READ_REQUEST_at_home 1 homeShared03 readRequestFrom2 (by decide) (by decide)
      (by decide) (by decide)
  exact ⟨t1, receiver, reply, h, hm⟩

/-! ## Claim C8 -/

/-- Claim C8. Dispatching an `UPGRADE` for `A` from `R` in 0..3 (the sharer
vector being a byte) sends exactly one message, `REPLY_ID` for `A` to `R` whose
sharers are the old sharers with bit `R` cleared, so bit `R` is not set in the
reply; afterwards the entry is `EM` with sharers `{R}`, and memory, cache, the
other entries and `awaiting_response` are unchanged. -/
theorem UPGRADE_at_home (current_thread : Nat) (t : threadState) (incoming_msg : message)
    (hty : incoming_msg.type = .UPGRADE) (hs : incoming_msg.sender < NUM_PROCS)
    (hb : (t.local_node.directory (incoming_msg.address &&& 0x0F)).bitVector < 256) :
    ∃ t1 reply,
      dispatch current_thread t incoming_msg = some (t1, [(incoming_msg.sender, reply)]) ∧
      reply.type = .REPLY_ID ∧ reply.address = incoming_msg.address ∧
      (∀ i, reply.bitVector.testBit i =
        ((t.local_node.directory (incoming_msg.address &&& 0x0F)).bitVector.testBit i &&
          decide (i ≠ incoming_msg.sender))) ∧
      reply.bitVector.testBit incoming_msg.sender = false ∧
      t1.local_node.directory (incoming_msg.address &&& 0x0F) =
        { bitVector := 2 ^ incoming_msg.sender, state := .EM } ∧
      (∀ i, i ≠ incoming_msg.address &&& 0x0F →
        t1.local_node.directory i = t.local_node.directory i) ∧
      t1.local_node.memory = t.local_node.memory ∧
      t1.local_node.cache = t.local_node.cache ∧
      t1.awaiting_response = t.awaiting_response := by
  have hs8 : incoming_msg.sender < 8 := by unfold NUM_PROCS at hs; omega
  have hs32 : incoming_msg.sender < 32 := by omega
  unfold dispatch
  simp only [hty]
  unfold case_UPGRADE
  simp only
  refine ⟨_, _, rfl, rfl, rfl, fun i => testBit_clear_byte hb hs32 i, ?_, ?_, ?_, rfl, rfl, rfl⟩
  · simp [testBit_clear_byte hb hs32]
  · simp [one_shl_mod hs8]
  · intro i hi; simp [Function.update_noteq hi]

/-- Witness for C8: entry 0 of node 1 is `S` shared by nodes 0, 2 and 3 and
node 2 upgrades. -/
theorem UPGRADE_at_home_witness :
    upgradeFrom2.type = .UPGRADE ∧ upgradeFrom2.sender < NUM_PROCS ∧
      (homeShared023.local_node.directory (upgradeFrom2.address &&& 0x0F)).bitVector < 256 ∧
      ∃ t1 reply,
        dispatch 1 homeShared023 upgradeFrom2 = some (t1, [(upgradeFrom2.sender, reply)]) ∧
        reply.bitVector.testBit upgradeFrom2.sender = false ∧
        t1.local_node.directory 0 = { bitVector := 4, state := .EM } := by
  refine ⟨by decide, by decide, by decide, ?_⟩
  obtain ⟨t1, reply, h, _, _, _, hbit, hd, _⟩ :=
    UPGRADE_at_home 1 homeShared023 upgradeFrom2 (by decide) (by decide) (by decide)
  exact ⟨t1, reply, h, hbit, hd⟩

/-! ## Claim C9 -/

/-- Claim C9. When the home of `A` dispatches an `EVICT_SHARED` for `A` from `E`
in 0..3 (the sharer vector being a byte), bit `E` is cleared from the sharers
and then: with no sharer left the state becomes `U` and nothing is sent; with
one sharer `L` left the state becomes `EM` and exactly one `EVICT_SHARED` for
`A` carrying `memory[o]` is sent to `L` when `L` is not the home, nothing when
it is; with two or more left the state is unchanged and nothing is sent.
Memory is unchanged. -/
theorem EVICT_SHARED_at_home (current_thread : Nat) (t : threadState) (incoming_msg : message)
    (hty : incoming_msg.type = .EVICT_SHARED)
    (hhome : current_thread = (incoming_msg.address >>> 4) &&& 0x0F)
    (hs : incoming_msg.sender < NUM_PROCS)
    (hb : (t.local_node.directory (incoming_msg.address &&& 0x0F)).bitVector < 256) :
    ∃ t1 sends,
      dispatch current_thread t incoming_msg = some (t1, sends) ∧
      (∀ i, (t1.local_node.directory (incoming_msg.address &&& 0x0F)).bitVector.testBit i =
        ((t.local_node.directory (incoming_msg.address &&& 0x0F)).bitVector.testBit i &&
          decide (i ≠ incoming_msg.sender))) ∧
      (builtin_popcount (t1.local_node.directory (incoming_msg.address &&& 0x0F)).bitVector = 0 →
        (t1.local_node.directory (incoming_msg.address &&& 0x0F)).state = .U ∧ sends = []) ∧
      (builtin_popcount (t1.local_node.directory (incoming_msg.address &&& 0x0F)).bitVector = 1 →
        (t1.local_node.directory (incoming_msg.address &&& 0x0F)).state = .EM ∧
        ∃ L, (t1.local_node.directory (incoming_msg.address &&& 0x0F)).bitVector = 2 ^ L ∧
          sends = if L ≠ current_thread then
            [(L, { type := .EVICT_SHARED, sender := current_thread,
                   address := incoming_msg.address,
                   value := t.local_node.memory (incoming_msg.address &&& 0x0F),
                   bitVector := 0, secondReceiver := 0, dirState := .EM })]
          else []) ∧
      (2 ≤ builtin_popcount (t1.local_node.directory (incoming_msg.address &&& 0x0F)).bitVector →
        (t1.local_node.directory (incoming_msg.address &&& 0x0F)).state =
          (t.local_node.directory (incoming_msg.address &&& 0x0F)).state ∧ sends = []) ∧
      t1.local_node.memory = t.local_node.memory := by
  have hs32 : incoming_msg.sender < 32 := by unfold NUM_PROCS at hs; omega
  have hlt : ((t.local_node.directory (incoming_msg.address &&& 0x0F)).bitVector
      &&& notBit incoming_msg.sender) % 256 < 256 := Nat.mod_lt _ (by norm_num)
  unfold dispatch
  simp only [hty]
  unfold case_EVICT_SHARED
  simp only [← hhome, ne_eq, not_true_eq_false, ↓reduceIte]
  split
  · rename_i hc0
    refine ⟨_, _, rfl, ?_, ?_, ?_, ?_, rfl⟩
    · intro i; simpa using testBit_clear_byte hb hs32 i
    · intro _; simp
    · intro h; simp [hc0] at h
    · intro h; simp [hc0] at h
  · rename_i hc0
    split
    · rename_i hc1
      obtain ⟨L, _, hL1, hL2⟩ := popcount_one_byte _ hlt hc1
      simp only [hL1]
      by_cases hLh : L = current_thread
      · simp only [hLh, not_true_eq_false, ↓reduceIte]
        refine ⟨_, _, rfl, ?_, ?_, ?_, ?_, rfl⟩
        · intro i; simpa using testBit_clear_byte hb hs32 i
        · intro h; simp [hc1] at h
        · intro _
          refine ⟨by simp, L, by simpa using hL2, by simp [hLh]⟩
        · intro h; simp [hc1] at h
      · simp only [hLh, not_false_eq_true, ↓reduceIte]
        refine ⟨_, _, rfl, ?_, ?_, ?_, ?_, rfl⟩
        · intro i; simpa using testBit_clear_byte hb hs32 i
        · intro h; simp [hc1] at h
        · intro _
          refine ⟨by simp, L, by simpa using hL2, by simp [hLh]⟩
        · intro h; simp [hc1] at h
    · rename_i hc1
      refine ⟨_, _, rfl, ?_, ?_, ?_, ?_, rfl⟩
      · intro i; simpa using testBit_clear_byte hb hs32 i
      · intro h; simp at h; exact absurd h hc0
      · intro h; simp at h; exact absurd h hc1
      · intro _; simp

/-- Witness for C9: entry 0 of node 1 is `S` shared by nodes 0 and 2 and node
0 evicts, leaving node 2 as the sole sharer. -/
theorem EVICT_SHARED_at_home_witness :
    evictSharedFrom0.type = .EVICT_SHARED ∧
      1 = (evictSharedFrom0.address >>> 4) &&& 0x0F ∧
      evictSharedFrom0.sender < NUM_PROCS ∧
      (homeShared02.local_node.directory (evictSharedFrom0.address &&& 0x0F)).bitVector < 256 ∧
      ∃ t1 sends,
        dispatch 1 homeShared02 evictSharedFrom0 = some (t1, sends) ∧
        t1.local_node.memory = homeShared02.local_node.memory := by
  refine ⟨by decide, by decide, by decide, by decide, ?_⟩
  obtain ⟨t1, sends, h, _, _, _, _, hm⟩ :=
    EVICT_SHARED_at_home 1 homeShared02 evictSharedFrom0 (by decide) (by decide)
      (by decide) (by decide)
  exact ⟨t1, sends, h, hm⟩

/-! ## Claim C10 -/

/-- Claim C10, evaluated at a failing input. In the run where node 0 reads 0x10
and then 0x20 and node 2 writes 0x10, node 2 (not the home of 0x10) finds an
`EVICT_SHARED` for 0x10 at the head of its inbox while its slot 0 still holds
the initial line with address 0xFF in `INVALID`; the dispatch turns that line
`EXCLUSIVE`. -/
theorem promotion_hits_other_line :
    ∃ g g1, run (initialState (progsOf promotionProgs) junkInstr) promotionSchedule = some g ∧
      run (initialState (progsOf promotionProgs) junkInstr) (promotionSchedule ++ [.drain 2]) = some g1 ∧
      ((g.message_buffers 2).queue (g.message_buffers 2).head).type = .EVICT_SHARED ∧
      ((g.message_buffers 2).queue (g.message_buffers 2).head).address = 0x10 ∧
      (g.threads 2).local_node.cache 0 = { address := 0xFF, value := 0, state := .INVALID } ∧
      (g1.threads 2).local_node.cache 0 = { address := 0xFF, value := 0, state := .EXCLUSIVE } := by
  obtain ⟨g, hg, hq⟩ := @run_check (initialState (progsOf promotionProgs) junkInstr)
    promotionSchedule
    (fun g => ((g.message_buffers 2).queue (g.message_buffers 2).head).type = .EVICT_SHARED ∧
      ((g.message_buffers 2).queue (g.message_buffers 2).head).address = 0x10 ∧
      (g.threads 2).local_node.cache 0 = { address := 0xFF, value := 0, state := .INVALID })
    _ (by decide)
  obtain ⟨g1, hg1, hq1⟩ := @run_check (initialState (progsOf promotionProgs) junkInstr)
    (promotionSchedule ++ [.drain 2])
    (fun g => (g.threads 2).local_node.cache 0 =
      { address := 0xFF, value := 0, state := .EXCLUSIVE })
    _ (by decide)
  exact ⟨g, g1, hg, hg1, hq.1, hq.2.1, hq.2.2, hq1⟩

/-! ## C11: the instruction issue table -/

/-- Claim C11. When a node that is not blocked issues the instruction
`{ty, A, v}` whose home `A >>> 4` is a node id, with `s = (A &&& 0x0F) % 4`
and a hit meaning that `cache[s]` holds `A` in a state other than `INVALID`:
a read hit (first conjunct) sends nothing, leaves cache, memory and directory
as they were and does not block; a read miss (second) sends exactly one
`READ_REQUEST` with the sender and `A` to the home, blocks and leaves the
node unchanged; a write hit in `MODIFIED` or `EXCLUSIVE` (third) sends
nothing, sets `cache[s]` to `{A, v, MODIFIED}` and does not block; a write hit
in `SHARED` (fourth) sends exactly one `UPGRADE` for `A` to the home, blocks
and leaves the node unchanged; a write miss (fifth) sends exactly one
`WRITE_REQUEST` with `A` and `v` to the home, blocks and leaves the node
unchanged.  A read is an instruction of type `'R'` (82), a write any other. -/
theorem issue_table (k : Nat) (t : threadState) (ty A v : Nat)
    (hn : nextInstr t { type := ty, address := A, value := v })
    (hA : A >>> 4 < NUM_PROCS) :
    (ty = 82 → (t.local_node.cache ((A &&& 0x0F) % CACHE_SIZE)).address = A →
      (t.local_node.cache ((A &&& 0x0F) % CACHE_SIZE)).state ≠ .INVALID →
      (afterDrain k t).2 = ([], false) ∧
      (afterDrain k t).1.local_node = t.local_node ∧
      (afterDrain k t).1.awaiting_response = 0) ∧
    (ty = 82 →
      ((t.local_node.cache ((A &&& 0x0F) % CACHE_SIZE)).address ≠ A ∨
        (t.local_node.cache ((A &&& 0x0F) % CACHE_SIZE)).state = .INVALID) →
      (afterDrain k t).2 =
        ([(A >>> 4, { type := .READ_REQUEST, sender := k, address := A, value := 0,
                      bitVector := 0, secondReceiver := 0, dirState := .EM })], false) ∧
      (afterDrain k t).1.local_node = t.local_node ∧
      (afterDrain k t).1.awaiting_response = 1) ∧
    (ty ≠ 82 → (t.local_node.cache ((A &&& 0x0F) % CACHE_SIZE)).address = A →
      ((t.local_node.cache ((A &&& 0x0F) % CACHE_SIZE)).state = .MODIFIED ∨
        (t.local_node.cache ((A &&& 0x0F) % CACHE_SIZE)).state = .EXCLUSIVE) →
      (afterDrain k t).2 = ([], false) ∧
      (afterDrain k t).1.local_node.cache =
        Function.update t.local_node.cache ((A &&& 0x0F) % CACHE_SIZE)
          { address := A, value := v, state := .MODIFIED } ∧
      (afterDrain k t).1.local_node.memory = t.local_node.memory ∧
      (afterDrain k t).1.local_node.directory = t.local_node.directory ∧
      (afterDrain k t).1.awaiting_response = 0) ∧
    (ty ≠ 82 → (t.local_node.cache ((A &&& 0x0F) % CACHE_SIZE)).address = A →
      (t.local_node.cache ((A &&& 0x0F) % CACHE_SIZE)).state = .SHARED →
      (afterDrain k t).2 =
        ([(A >>> 4, { type := .UPGRADE, sender := k, address := A, value := v,
                      bitVector := 0, secondReceiver := 0, dirState := .EM })], false) ∧
      (afterDrain k t).1.local_node = t.local_node ∧
      (afterDrain k t).1.awaiting_response = 1) ∧
    (ty ≠ 82 →
      ((t.local_node.cache ((A &&& 0x0F) % CACHE_SIZE)).address ≠ A ∨
        (t.local_node.cache ((A &&& 0x0F) % CACHE_SIZE)).state = .INVALID) →
      (afterDrain k t).2 =
        ([(A >>> 4, { type := .WRITE_REQUEST, sender := k, address := A, value := v,
                      bitVector := 0, secondReceiver := 0, dirState := .EM })], false) ∧
      (afterDrain k t).1.local_node = t.local_node ∧
      (afterDrain k t).1.awaiting_response = 1) := by
  obtain ⟨haw, hc, hi⟩ := hn
  have hlt : ¬ (t.awaiting_response > 0) := by omega
  have hh : (A >>> 4) &&& 0x0F = A >>> 4 := by
    unfold NUM_PROCS at hA
    have : ∀ x, x < 4 → x &&& 0x0F = x := by decide
    exact this _ hA
  refine ⟨?_, ?_, ?_, ?_, ?_⟩
  · intro hty ha hs
    simp only [afterDrain, hlt, hc, ↓reduceIte, issue, hi, hty, ha, hs]
    simp [haw]
  · intro hty hm
    rcases hm with hm | hm
    · simp only [afterDrain, hlt, hc, ↓reduceIte, issue, hi, hty, hm, hh]
      exact ⟨rfl, rfl, rfl⟩
    · by_cases ha : (t.local_node.cache ((A &&& 0x0F) % CACHE_SIZE)).address = A
      · simp only [afterDrain, hlt, hc, ↓reduceIte, issue, hi, hty, hm, ha, hh]
        exact ⟨rfl, rfl, rfl⟩
      · simp only [afterDrain, hlt, hc, ↓reduceIte, issue, hi, hty, ha, hh]
        exact ⟨rfl, rfl, rfl⟩
  · intro hty ha hs
    have hni : (t.local_node.cache ((A &&& 0x0F) % CACHE_SIZE)).state ≠ .INVALID := by
      rcases hs with h | h <;> simp [h]
    simp only [afterDrain, hlt, hc, ↓reduceIte, issue, hi, hty, ha, hni, hs]
    simp [haw, ha]
  · intro hty ha hs
    simp only [afterDrain, hlt, hc, ↓reduceIte, issue, hi, hty, ha, hs, hh]
    simp
  · intro hty hm
    rcases hm with hm | hm
    · simp only [afterDrain, hlt, hc, ↓reduceIte, issue, hi, hty, hm, hh]
      exact ⟨rfl, rfl, rfl⟩
    · by_cases ha : (t.local_node.cache ((A &&& 0x0F) % CACHE_SIZE)).address = A
      · simp only [afterDrain, hlt, hc, ↓reduceIte, issue, hi, hty, hm, ha, hh]
        exact ⟨rfl, rfl, rfl⟩
      · simp only [afterDrain, hlt, hc, ↓reduceIte, issue, hi, hty, ha, hh]
        exact ⟨rfl, rfl, rfl⟩

/-- Witness for C11: node 0 issues `WR 0x10 5` while holding `0x10` in
`EXCLUSIVE`. -/
theorem issue_table_witness :
    nextInstr writerWithHit { type := 87, address := 0x10, value := 5 } ∧
    0x10 >>> 4 < NUM_PROCS ∧
    (afterDrain 0 writerWithHit).2 = ([], false) ∧
    (afterDrain 0 writerWithHit).1.local_node.cache =
      Function.update writerWithHit.local_node.cache ((0x10 &&& 0x0F) % CACHE_SIZE)
        { address := 0x10, value := 5, state := .MODIFIED } ∧
    (afterDrain 0 writerWithHit).1.local_node.memory = writerWithHit.local_node.memory ∧
    (afterDrain 0 writerWithHit).1.local_node.directory =
      writerWithHit.local_node.directory ∧
    (afterDrain 0 writerWithHit).1.awaiting_response = 0 :=
  ⟨by decide, by decide,
    (issue_table 0 writerWithHit 87 0x10 5 (by decide) (by decide)).2.2.1 (by decide)
      (by decide) (by decide)⟩

/-! ## C12: displacing a valid line sends its eviction notice -/

/-- Claim C12. If dispatching `m` at node `k` changes the address stored in
cache slot `s` (a byte), then the eviction notices among the messages sent are
determined by the line `old` that was in the slot: exactly one `EVICT_SHARED`
carrying `old.address` and sent to `old.address >>> 4` when `old` was
`EXCLUSIVE` or `SHARED`, exactly one `EVICT_MODIFIED` carrying `old.address`
and `old.value` and sent to `old.address >>> 4` when `old` was `MODIFIED`, and
none when `old` was `INVALID`. -/
theorem displacement_evicts (k : Nat) (t : threadState) (m : message) (t1 : threadState)
    (sends : List (Nat × message)) (s : Nat) (hd : dispatch k t m = some (t1, sends))
    (hchg : (t1.local_node.cache s).address ≠ (t.local_node.cache s).address)
    (hb : (t.local_node.cache s).address < 256) :
    (((t.local_node.cache s).state = .EXCLUSIVE ∨ (t.local_node.cache s).state = .SHARED) →
      sends.filter isEviction =
        [((t.local_node.cache s).address >>> 4,
          { type := .EVICT_SHARED, sender := k, address := (t.local_node.cache s).address,
            value := 0, bitVector := 0, secondReceiver := 0, dirState := .EM })]) ∧
    ((t.local_node.cache s).state = .MODIFIED →
      sends.filter isEviction =
        [((t.local_node.cache s).address >>> 4,
          { type := .EVICT_MODIFIED, sender := k, address := (t.local_node.cache s).address,
            value := (t.local_node.cache s).value, bitVector := 0, secondReceiver := 0,
            dirState := .EM })]) ∧
    ((t.local_node.cache s).state = .INVALID → sends.filter isEviction = []) := by
  rw [dispatch_evictions k t m t1 sends s hd hchg]
  unfold handleCacheReplacement
  simp only [home_byte _ hb]
  refine ⟨?_, ?_, ?_⟩
  · intro h
    rcases h with h | h <;> simp [h]
  · intro h
    simp [h]
  · intro h
    simp [h]

/-- Witness for C12: node 0 holds `0x20` in `MODIFIED` in slot 0 and installs
`0x10` from a `REPLY_RD`. -/
theorem displacement_evicts_witness :
    ∃ t1 sends, dispatch 0 holderOfModified replyRdFor0x10 = some (t1, sends) ∧
      (t1.local_node.cache 0).address ≠ (holderOfModified.local_node.cache 0).address ∧
      (holderOfModified.local_node.cache 0).address < 256 ∧
      (holderOfModified.local_node.cache 0).state = .MODIFIED ∧
      sends.filter isEviction =
        [((holderOfModified.local_node.cache 0).address >>> 4,
          { type := .EVICT_MODIFIED, sender := 0,
            address := (holderOfModified.local_node.cache 0).address,
            value := (holderOfModified.local_node.cache 0).value, bitVector := 0,
            secondReceiver := 0, dirState := .EM })] :=
  ⟨_, _, rfl, by decide, by decide, by decide,
    (displacement_evicts 0 holderOfModified replyRdFor0x10 _ _ 0 rfl (by decide)
      (by decide)).2.1 (by decide)⟩

/-! ## C13: `REPLY_ID` at the requester -/

/-- Claim C13. Dispatching a `REPLY_ID` for address `A` whose sharers
bitvector `b` has only bits of the node ids 0..3 set succeeds; the `INV`
messages sent are exactly one `INV` with address `A` to each node whose bit is
set in `b`, in increasing order of node id, so `popcount b` in all; every
other message sent is an eviction notice; afterwards the slot
`(A &&& 0x0F) % 4` holds `{A, current_instr.value, MODIFIED}`,
`awaiting_response` is 0, and directory and memory are unchanged. -/
theorem REPLY_ID_at_requester (k : Nat) (t : threadState) (m : message)
    (hty : m.type = .REPLY_ID) (hb : m.bitVector < 16) :
    ∃ t1 sends, dispatch k t m = some (t1, sends) ∧
      sends.filter isInv =
        ((List.range NUM_PROCS).filter (fun i => m.bitVector.testBit i)).map
          (fun i => (i,
            { type := .INV, sender := k, address := m.address, value := 0,
              bitVector := 0, secondReceiver := 0, dirState := .EM })) ∧
      (sends.filter isInv).length = builtin_popcount m.bitVector ∧
      (∀ p ∈ sends, isInv p = true ∨ isEviction p = true) ∧
      t1.local_node.cache =
        Function.update t.local_node.cache ((m.address &&& 0x0F) % CACHE_SIZE)
          { address := m.address, value := t.current_instr.value, state := .MODIFIED } ∧
      t1.awaiting_response = 0 ∧
      t1.local_node.directory = t.local_node.directory ∧
      t1.local_node.memory = t.local_node.memory := by
  obtain ⟨h1, h2⟩ := invLoop_bits m.bitVector hb
  have hinv : (invLoop k m ++ replaceIfOther k
      (t.local_node.cache ((m.address &&& 0x0F) % CACHE_SIZE)) m.address).filter isInv =
      ((List.range NUM_PROCS).filter (fun i => m.bitVector.testBit i)).map
          (fun i => (i,
            { type := .INV, sender := k, address := m.address, value := 0,
              bitVector := 0, secondReceiver := 0, dirState := .EM })) := by
    rw [List.filter_append, filter_inv_invLoop, filter_inv_replace, List.append_nil]
    unfold invLoop
    rw [h1]
  have hd : dispatch k t m = case_REPLY_ID k t m := by simp only [dispatch, hty]
  rw [hd]
  refine ⟨_, _, rfl, hinv, ?_, ?_, rfl, rfl, rfl, rfl⟩
  · rw [hinv, List.length_map, h2]
  · intro p hp
    rcases List.mem_append.mp hp with h | h
    · left; simp [isInv, mem_invLoop h]
    · right
      rcases mem_replaceIfOther h with h | h <;> simp [isEviction, h]

/-- Witness for C13: node 2, blocked on `WR 0x10 5`, receives a `REPLY_ID`
naming the sharers 1 and 3. -/
theorem REPLY_ID_at_requester_witness :
    replyIdFor2.type = .REPLY_ID ∧ replyIdFor2.bitVector < 16 ∧
    ∃ t1 sends, dispatch 2 writerBlocked replyIdFor2 = some (t1, sends) ∧
      (sends.filter isInv).length = builtin_popcount replyIdFor2.bitVector ∧
      t1.awaiting_response = 0 := by
  refine ⟨by decide, by decide, ?_⟩
  obtain ⟨t1, sends, h1, _, h3, _, _, h6, _⟩ :=
    REPLY_ID_at_requester 2 writerBlocked replyIdFor2 (by decide) (by decide)
  exact ⟨t1, sends, h1, h3, h6⟩

/-! ## C14: `INV` at a sharer -/

/-- Claim C14. Dispatching an `INV` for address `A` succeeds and sends nothing;
if the slot `(A &&& 0x0F) % 4` holds address `A`, that line becomes `INVALID`
with its address and value unchanged, otherwise the cache is unchanged;
directory, memory and `awaiting_response` are unchanged; and dispatching the
same `INV` again leaves the resulting state as it is. -/
theorem INV_at_sharer (k : Nat) (t : threadState) (m : message) (hty : m.type = .INV) :
    ∃ t1, dispatch k t m = some (t1, []) ∧
      ((t.local_node.cache ((m.address &&& 0x0F) % CACHE_SIZE)).address = m.address →
        t1.local_node.cache =
          Function.update t.local_node.cache ((m.address &&& 0x0F) % CACHE_SIZE)
            { address := (t.local_node.cache ((m.address &&& 0x0F) % CACHE_SIZE)).address,
              value := (t.local_node.cache ((m.address &&& 0x0F) % CACHE_SIZE)).value,
              state := .INVALID }) ∧
      ((t.local_node.cache ((m.address &&& 0x0F) % CACHE_SIZE)).address ≠ m.address →
        t1.local_node.cache = t.local_node.cache) ∧
      t1.local_node.directory = t.local_node.directory ∧
      t1.local_node.memory = t.local_node.memory ∧
      t1.awaiting_response = t.awaiting_response ∧
      dispatch k t1 m = some (t1, []) := by
  have hd : ∀ u, dispatch k u m = case_INV u m := by
    intro u; simp only [dispatch, hty]
  by_cases ha : (t.local_node.cache ((m.address &&& 0x0F) % CACHE_SIZE)).address = m.address
  · refine ⟨setCache t ((m.address &&& 0x0F) % CACHE_SIZE)
        { t.local_node.cache ((m.address &&& 0x0F) % CACHE_SIZE) with state := .INVALID },
      ?_, ?_, ?_, rfl, rfl, rfl, ?_⟩
    · rw [hd]; simp only [case_INV, ha, ↓reduceIte]
    · intro _; rfl
    · intro h; exact absurd ha h
    · rw [hd]
      simp only [case_INV, setCache_cache, Function.update_same, ha, ↓reduceIte]
      simp [setCache]
  · refine ⟨t, ?_, ?_, ?_, rfl, rfl, rfl, ?_⟩
    · rw [hd]; simp only [case_INV, ha, ↓reduceIte]
    · intro h; exact absurd h ha
    · intro _; rfl
    · rw [hd]; simp only [case_INV, ha, ↓reduceIte]

/-- Witness for C14: node 0 holds `0x10` in `EXCLUSIVE` and receives an `INV`
for it. -/
theorem INV_at_sharer_witness :
    invFor0x10.type = .INV ∧
    ∃ t1, dispatch 0 writerWithHit invFor0x10 = some (t1, []) ∧
      t1.local_node.directory = writerWithHit.local_node.directory ∧
      t1.local_node.memory = writerWithHit.local_node.memory ∧
      t1.awaiting_response = writerWithHit.awaiting_response ∧
      dispatch 0 t1 invFor0x10 = some (t1, []) := by
  refine ⟨by decide, ?_⟩
  obtain ⟨t1, h1, _, _, h4, h5, h6, h7⟩ := INV_at_sharer 0 writerWithHit invFor0x10 (by decide)
  exact ⟨t1, h1, h4, h5, h6, h7⟩

/-! ## C15: `WRITEBACK_INV` at the owner -/

/-- Claim C15. Dispatching a `WRITEBACK_INV` for address `A` (home
`A >>> 4` a node id) with `second_receiver = R` and any `value` succeeds and
sends exactly two messages, the same `FLUSH_INVACK` with address `A`,
`second_receiver = R` and the value that `cache[s]` held before, first to the
home and then to `R` (also when the two coincide); afterwards `cache[s]` is
`INVALID` with its address and value unchanged; directory, memory and
`awaiting_response` are unchanged; and the outcome does not depend on the
`value` carried by the `WRITEBACK_INV`. -/
theorem WRITEBACK_INV_at_owner (k : Nat) (t : threadState) (m : message)
    (hty : m.type = .WRITEBACK_INV) (hA : m.address >>> 4 < NUM_PROCS) :
    ∃ t1, dispatch k t m = some (t1,
        [(m.address >>> 4,
          { type := .FLUSH_INVACK, sender := k, address := m.address,
            value := (t.local_node.cache ((m.address &&& 0x0F) % CACHE_SIZE)).value,
            bitVector := 0, secondReceiver := m.secondReceiver, dirState := .EM }),
         (m.secondReceiver,
          { type := .FLUSH_INVACK, sender := k, address := m.address,
            value := (t.local_node.cache ((m.address &&& 0x0F) % CACHE_SIZE)).value,
            bitVector := 0, secondReceiver := m.secondReceiver, dirState := .EM })]) ∧
      t1.local_node.cache =
        Function.update t.local_node.cache ((m.address &&& 0x0F) % CACHE_SIZE)
          { address := (t.local_node.cache ((m.address &&& 0x0F) % CACHE_SIZE)).address,
            value := (t.local_node.cache ((m.address &&& 0x0F) % CACHE_SIZE)).value,
            state := .INVALID } ∧
      t1.local_node.directory = t.local_node.directory ∧
      t1.local_node.memory = t.local_node.memory ∧
      t1.awaiting_response = t.awaiting_response ∧
      ∀ V, dispatch k t { m with value := V } = dispatch k t m := by
  have hd : ∀ u : message, u.type = .WRITEBACK_INV →
      dispatch k t u = case_WRITEBACK_INV k t u := by
    intro u hu; simp only [dispatch, hu]
  rw [hd m hty]
  unfold case_WRITEBACK_INV
  simp only [home_node _ hA]
  refine ⟨_, rfl, rfl, rfl, rfl, rfl, ?_⟩
  intro V
  rw [hd { m with value := V } hty]
  simp only [case_WRITEBACK_INV, home_node _ hA]

/-- Witness for C15: node 0 holds `0x10` with value 20 and receives the
`WRITEBACK_INV` that home 1 forwards for the writer 2. -/
theorem WRITEBACK_INV_at_owner_witness :
    writebackInvFor2.type = .WRITEBACK_INV ∧ writebackInvFor2.address >>> 4 < NUM_PROCS ∧
    ∃ t1, dispatch 0 writerWithHit writebackInvFor2 = some (t1,
        [(writebackInvFor2.address >>> 4,
          { type := .FLUSH_INVACK, sender := 0, address := writebackInvFor2.address,
            value := (writerWithHit.local_node.cache
              ((writebackInvFor2.address &&& 0x0F) % CACHE_SIZE)).value,
            bitVector := 0, secondReceiver := writebackInvFor2.secondReceiver,
            dirState := .EM }),
         (writebackInvFor2.secondReceiver,
          { type := .FLUSH_INVACK, sender := 0, address := writebackInvFor2.address,
            value := (writerWithHit.local_node.cache
              ((writebackInvFor2.address &&& 0x0F) % CACHE_SIZE)).value,
            bitVector := 0, secondReceiver := writebackInvFor2.secondReceiver,
            dirState := .EM })]) ∧
      t1.awaiting_response = writerWithHit.awaiting_response := by
  refine ⟨by decide, by decide, ?_⟩
  obtain ⟨t1, h1, _, _, _, h5, _⟩ :=
    WRITEBACK_INV_at_owner 0 writerWithHit writebackInvFor2 (by decide) (by decide)
  exact ⟨t1, h1, h5⟩

/-! ## C16: the effects of `FLUSH` -/

/-- Claim C16. Dispatching at node `k` a `FLUSH` for address `A` (home
`A >>> 4` a node id) with value `v` and `second_receiver = R` (a node id)
succeeds, with `o = A &&& 0x0F` and `s = o % 4`.  If `k` is the home, then
afterwards `directory[o]` is in state `S`, its sharers are the old sharers
with bit `R` added, the other directory entries are unchanged and `memory[o]`
is `v`; if `k` is not the home, directory and memory are unchanged.  If `k` is
`R`, then afterwards `cache[s]` is `{A, v, SHARED}` and the messages sent are
the eviction notice for a resident of another address that was not `INVALID`;
if `k` is not `R`, the cache is unchanged and nothing is sent.  When `k` is
both the home and `R`, both effects occur. -/
theorem FLUSH_effects (k : Nat) (t : threadState) (m : message)
    (hty : m.type = .FLUSH) (hA : m.address >>> 4 < NUM_PROCS)
    (hR : m.secondReceiver < NUM_PROCS)
    (hb : (t.local_node.directory (m.address &&& 0x0F)).bitVector < 256) :
    ∃ t1 sends, dispatch k t m = some (t1, sends) ∧
      (k = m.address >>> 4 →
        (t1.local_node.directory (m.address &&& 0x0F)).state = .S ∧
        (∀ i, (t1.local_node.directory (m.address &&& 0x0F)).bitVector.testBit i =
          ((t.local_node.directory (m.address &&& 0x0F)).bitVector.testBit i ||
            decide (i = m.secondReceiver))) ∧
        (∀ j, j ≠ m.address &&& 0x0F →
          t1.local_node.directory j = t.local_node.directory j) ∧
        t1.local_node.memory =
          Function.update t.local_node.memory (m.address &&& 0x0F) m.value) ∧
      (k ≠ m.address >>> 4 →
        t1.local_node.directory = t.local_node.directory ∧
        t1.local_node.memory = t.local_node.memory) ∧
      (k = m.secondReceiver →
        t1.local_node.cache =
          Function.update t.local_node.cache ((m.address &&& 0x0F) % CACHE_SIZE)
            { address := m.address, value := m.value, state := .SHARED } ∧
        sends = replaceIfOther k (t.local_node.cache ((m.address &&& 0x0F) % CACHE_SIZE))
          m.address) ∧
      (k ≠ m.secondReceiver → t1.local_node.cache = t.local_node.cache ∧ sends = []) := by
  have hd : dispatch k t m = case_FLUSH k t m := by simp only [dispatch, hty]
  have hR8 : m.secondReceiver < 8 := by unfold NUM_PROCS at hR; omega
  rw [hd]
  unfold case_FLUSH
  simp only [home_node _ hA]
  by_cases hH : k = m.address >>> 4 <;> by_cases hX : k = m.secondReceiver
  · simp only [if_pos hH, if_pos hX]
    refine ⟨_, _, rfl, ?_, ?_, ?_, ?_⟩
    · intro _
      refine ⟨by simp, ?_, ?_, by simp⟩
      · intro i
        simp only [setMemory_directory, setDirectory_directory, setCache_directory,
          Function.update_same]
        exact testBit_set_byte hb hR8 i
      · intro j hj
        simp [Function.update_noteq hj]
    · intro h; exact absurd hH h
    · intro _; exact ⟨by simp, by simp⟩
    · intro h; exact absurd hX h
  · simp only [if_pos hH, if_neg hX]
    refine ⟨_, _, rfl, ?_, ?_, ?_, ?_⟩
    · intro _
      refine ⟨by simp, ?_, ?_, by simp⟩
      · intro i
        simp only [setMemory_directory, setDirectory_directory, setCache_directory,
          Function.update_same]
        exact testBit_set_byte hb hR8 i
      · intro j hj
        simp [Function.update_noteq hj]
    · intro h; exact absurd hH h
    · intro h; exact absurd h hX
    · intro _; exact ⟨by simp, rfl⟩
  · simp only [if_neg hH, if_pos hX]
    refine ⟨_, _, rfl, ?_, ?_, ?_, ?_⟩
    · intro h; exact absurd h hH
    · intro _; exact ⟨rfl, rfl⟩
    · intro _; exact ⟨rfl, rfl⟩
    · intro h; exact absurd hX h
  · simp only [if_neg hH, if_neg hX]
    refine ⟨_, _, rfl, ?_, ?_, ?_, ?_⟩
    · intro h; exact absurd h hH
    · intro _; exact ⟨rfl, rfl⟩
    · intro h; exact absurd h hX
    · intro _; exact ⟨rfl, rfl⟩

/-- Witness for C16: home 1, whose entry 0 is owned by node 0, receives the
`FLUSH` written on behalf of the reader 2. -/
theorem FLUSH_effects_witness :
    flushFor2.type = .FLUSH ∧ flushFor2.address >>> 4 < NUM_PROCS ∧
    flushFor2.secondReceiver < NUM_PROCS ∧
    (homeOwnedBy0.local_node.directory (flushFor2.address &&& 0x0F)).bitVector < 256 ∧
    ∃ t1 sends, dispatch 1 homeOwnedBy0 flushFor2 = some (t1, sends) ∧
      (t1.local_node.directory (flushFor2.address &&& 0x0F)).state = .S ∧
      t1.local_node.memory =
        Function.update homeOwnedBy0.local_node.memory (flushFor2.address &&& 0x0F)
          flushFor2.value ∧
      t1.local_node.cache = homeOwnedBy0.local_node.cache ∧ sends = [] := by
  refine ⟨by decide, by decide, by decide, by decide, ?_⟩
  obtain ⟨t1, sends, h1, h2, _, _, h5⟩ :=
    FLUSH_effects 1 homeOwnedBy0 flushFor2 (by decide) (by decide) (by decide) (by decide)
  exact ⟨t1, sends, h1, (h2 (by decide)).1, (h2 (by decide)).2.2.2, (h5 (by decide)).1,
    (h5 (by decide)).2⟩

/-! ## Claim C17 -/

/-- Claim C17, evaluated at a failing input. In the run where nodes 0 and 3
read `0x10` and its home, node 1, writes 5 to `0x20` and then 9 to `0x30`,
node 1 is blocked on its own `WRITE_REQUEST` for `0x20`
(`awaiting_response = 1`) when the `FLUSH` for `0x10` whose `second_receiver`
is node 3 reaches the head of its inbox; dispatching it sets
`awaiting_response` to 0.  At its next pass node 1 issues `WR 0x30 9` while
its `WRITE_REQUEST` for `0x20` is still waiting at the head of node 2's inbox,
and when the `REPLY_WR` for `0x20` arrives node 1 installs `0x20` with the
value 9 of the later instruction. -/
theorem flush_unblocks_home :
    ∃ g g1 g2 g3,
      run (initialState (progsOf homeAlsoWrites) junkInstr) homeAlsoWritesSchedule = some g ∧
      run (initialState (progsOf homeAlsoWrites) junkInstr)
        (homeAlsoWritesSchedule ++ [.drain 1]) = some g1 ∧
      run (initialState (progsOf homeAlsoWrites) junkInstr)
        (homeAlsoWritesSchedule ++ [.drain 1, .tail 1]) = some g2 ∧
      run (initialState (progsOf homeAlsoWrites) junkInstr)
        (homeAlsoWritesSchedule ++ [.drain 1, .tail 1, .drain 2, .drain 1]) = some g3 ∧
      (g.threads 1).awaiting_response = 1 ∧
      (g.threads 1).current_instr = { type := 87, address := 0x20, value := 5 } ∧
      (headMsg g 1).type = .FLUSH ∧ (headMsg g 1).address = 0x10 ∧
      (headMsg g 1).secondReceiver = 3 ∧
      (g1.threads 1).awaiting_response = 0 ∧
      (g1.threads 1).instr_counter = 0 ∧
      (g2.threads 1).instr_counter = 1 ∧
      (headMsg g2 2).type = .WRITE_REQUEST ∧ (headMsg g2 2).sender = 1 ∧
      (headMsg g2 2).address = 0x20 ∧
      (g3.threads 1).local_node.cache 0 =
        { address := 0x20, value := 9, state := .MODIFIED } := by
  obtain ⟨g, hg, hq⟩ := @run_check (initialState (progsOf homeAlsoWrites) junkInstr)
    homeAlsoWritesSchedule
    (fun g => (g.threads 1).awaiting_response = 1 ∧
      (g.threads 1).current_instr = { type := 87, address := 0x20, value := 5 } ∧
      (headMsg g 1).type = .FLUSH ∧ (headMsg g 1).address = 0x10 ∧
      (headMsg g 1).secondReceiver = 3)
    _ (by decide)
  obtain ⟨g1, hg1, hq1⟩ := @run_check (initialState (progsOf homeAlsoWrites) junkInstr)
    (homeAlsoWritesSchedule ++ [.drain 1])
    (fun g => (g.threads 1).awaiting_response = 0 ∧ (g.threads 1).instr_counter = 0)
    _ (by decide)
  obtain ⟨g2, hg2, hq2⟩ := @run_check (initialState (progsOf homeAlsoWrites) junkInstr)
    (homeAlsoWritesSchedule ++ [.drain 1, .tail 1])
    (fun g => (g.threads 1).instr_counter = 1 ∧
      (headMsg g 2).type = .WRITE_REQUEST ∧ (headMsg g 2).sender = 1 ∧
      (headMsg g 2).address = 0x20)
    _ (by decide)
  obtain ⟨g3, hg3, hq3⟩ := @run_check (initialState (progsOf homeAlsoWrites) junkInstr)
    (homeAlsoWritesSchedule ++ [.drain 1, .tail 1, .drain 2, .drain 1])
    (fun g => (g.threads 1).local_node.cache 0 =
      { address := 0x20, value := 9, state := .MODIFIED })
    _ (by decide)
  exact ⟨g, g1, g2, g3, hg, hg1, hg2, hg3, hq.1, hq.2.1, hq.2.2.1, hq.2.2.2.1, hq.2.2.2.2,
    hq1.1, hq1.2, hq2.1, hq2.2.1, hq2.2.2.1, hq2.2.2.2, hq3⟩

/-! ## C18: the ring buffer is a bounded FIFO -/

/-- Claim C18. Let the inbox `b` represent the list `l` of pending messages
(`head`, `tail` below 256, `count` at most 256,
`tail = (head + count) mod 256`, `l` the `count` messages
`queue[head]`, `queue[(head + 1) mod 256]`, ...).  When `count < 256` a send
writes the message at `tail`, advances `tail` modulo 256, increments `count`,
leaves `head` alone, and the inbox then represents `l` with the message
appended; when `count = 256` a send leaves the inbox as it is; `sendMessage`
is that send on the receiver's inbox; the dequeue of the drain loop returns
the first element of the list and leaves an inbox representing the rest.
Hence, for every sequence of sends and drain-loop iterations in which no send
finds the inbox full, the messages dequeued followed by those still pending
are the messages pending at the start followed by the messages sent, in
order. -/
theorem ring_buffer_refines_fifo (b : messageBuffer) (l : List message) (m : message)
    (hr : represents b l) :
    (b.count < MSG_BUFFER_SIZE →
      enqueue b m =
          { queue := Function.update b.queue b.tail m, head := b.head,
            tail := (b.tail + 1) % MSG_BUFFER_SIZE, count := b.count + 1 } ∧
        represents (enqueue b m) (l ++ [m])) ∧
    (b.count = MSG_BUFFER_SIZE → enqueue b m = b) ∧
    (∀ bufs r, r < NUM_PROCS →
      sendMessage bufs r m = some (Function.update bufs r (enqueue (bufs r) m))) ∧
    (∀ x rest, l = x :: rest → (dequeue b).1 = x ∧ represents (dequeue b).2 rest) ∧
    (∀ ops, noDrop b ops →
      ∃ pending, represents (inboxRun b ops).1 pending ∧
        (inboxRun b ops).2 ++ pending = l ++ sentBy ops) := by
  refine ⟨fun hc => ⟨?_, represents_enqueue m hr hc⟩, ?_, ?_, ?_, ?_⟩
  · unfold enqueue
    rw [if_pos hc]
  · intro hc
    unfold enqueue
    rw [if_neg (by omega)]
  · intro bufs r hlt
    unfold sendMessage
    rw [if_pos hlt]
  · intro x rest hl
    subst hl
    exact represents_dequeue hr
  · intro ops hn
    exact inboxRun_fifo ops b l hr hn

/-- Witness for C18: a `FLUSH` sent into the empty inbox. -/
theorem ring_buffer_refines_fifo_witness :
    represents emptyBuffer [] ∧
    represents (enqueue emptyBuffer flushFor2) ([] ++ [flushFor2]) :=
  ⟨⟨by decide, by decide, by decide, by decide, rfl,
      fun i h => absurd h (Nat.not_lt_zero i)⟩,
    ((ring_buffer_refines_fifo emptyBuffer [] flushFor2
      ⟨by decide, by decide, by decide, by decide, rfl,
        fun i h => absurd h (Nat.not_lt_zero i)⟩).1 (by decide)).2⟩

/-! ## Claim C19 -/

set_option maxRecDepth 1000000 in
/-- Claim C19, evaluated at a failing input. After 256 sends into the empty
inbox and no dequeue, the inbox holds 256 pending messages (`count = 256`,
`head = tail = 0`, so `tail = (head + count) mod 256`); the guard of the drain
loop is false, an iteration of the drain loop dequeues nothing and leaves the
inbox as it is, and a further send is dropped. -/
theorem drain_guard_false_when_full :
    fullInbox.count = 256 ∧ fullInbox.head = 0 ∧ fullInbox.tail = 0 ∧
    fullInbox.tail = (fullInbox.head + fullInbox.count) % MSG_BUFFER_SIZE ∧
    (fullInbox.queue 0).value = 0 ∧ (fullInbox.queue 255).value = 255 ∧
    drainGuard fullInbox = false ∧
    (inboxRun fullInbox [.receive]).2 = [] ∧
    (inboxRun fullInbox [.receive]).1.count = 256 ∧
    (enqueue fullInbox zeroMessage).count = 256 := by
  decide

/-! ## C20: the instruction cursor -/

/-- Claim C20. One pass through the code after the drain loop: if
`awaiting_response` is not 0 the pass changes nothing and sends nothing;
otherwise, if `instr_counter < instructionCount - 1`, the cursor increases by
exactly 1 and the instruction at the new cursor is fetched and issued;
otherwise the cursor and `current_instr` are unchanged and nothing is sent.
Consequently, in every execution of the loop of one node that starts with
`instr_counter = -1`, whatever messages it dispatches in between,
`-1 ≤ instr_counter ≤ instructionCount - 1` holds at the end, the passes that
issued an instruction issued `instructions[0]`, `instructions[1]`, ... up to
the final cursor, in this order and each once, and each of them started with
`awaiting_response = 0`. -/
theorem cursor_discipline (k : Nat) (t0 : threadState) (es : List loopEvent)
    (t : threadState) (tr : List (Int × instruction × Nat))
    (h0 : t0.instr_counter = -1) (hrun : loopRun k t0 es = some (t, tr)) :
    (∀ u : threadState, u.awaiting_response ≠ 0 → afterDrain k u = (u, [], false)) ∧
    (∀ u : threadState, u.awaiting_response = 0 →
      u.instr_counter < (u.local_node.instructionCount : Int) - 1 →
      afterDrain k u =
          ((issue k { u with instr_counter := u.instr_counter + 1 }).1,
           (issue k { u with instr_counter := u.instr_counter + 1 }).2, false) ∧
        (afterDrain k u).1.instr_counter = u.instr_counter + 1 ∧
        (afterDrain k u).1.current_instr =
          u.local_node.instructions (u.instr_counter + 1).toNat) ∧
    (∀ u : threadState, u.awaiting_response = 0 →
      ¬ u.instr_counter < (u.local_node.instructionCount : Int) - 1 →
      (afterDrain k u).1.instr_counter = u.instr_counter ∧ (afterDrain k u).2.1 = [] ∧
        (afterDrain k u).1.current_instr = u.current_instr) ∧
    -1 ≤ t.instr_counter ∧
    t.instr_counter ≤ (t0.local_node.instructionCount : Int) - 1 ∧
    tr.map (fun e => e.1) =
      (List.range (t.instr_counter + 1).toNat).map (fun (j : Nat) => (j : Int)) ∧
    ∀ e ∈ tr, e.2.1 = t0.local_node.instructions e.1.toNat ∧ e.2.2 = 0 := by
  obtain ⟨_, _, c3, c4, c5, c6⟩ :=
    loopRun_cursor k es t0 t tr hrun (by omega) (by omega)
  refine ⟨afterDrain_blocked k, afterDrain_advance k, ?_, by omega, c4, ?_, c6⟩
  · intro u h1 h2
    obtain ⟨a1, a2, a3, _, _⟩ := afterDrain_done k u h1 h2
    exact ⟨a1, a2, a3⟩
  · rw [c5, h0]
    have e : t.instr_counter - -1 = t.instr_counter + 1 := by omega
    rw [e]
    apply List.map_congr_left
    intro j _
    omega

/-- Witness for C20: node 0 runs `RD 0x10; WR 0x10 5`, receiving the
`REPLY_RD` for `0x10` between its two passes. -/
theorem cursor_discipline_witness :
    readThenWrite.instr_counter = -1 ∧
    ∃ t tr, loopRun 0 readThenWrite [.pass, .message replyRdFor0x10, .pass] = some (t, tr) ∧
      -1 ≤ t.instr_counter ∧
      t.instr_counter ≤ (readThenWrite.local_node.instructionCount : Int) - 1 ∧
      tr.map (fun e => e.1) =
        (List.range (t.instr_counter + 1).toNat).map (fun (j : Nat) => (j : Int)) ∧
      t.instr_counter = 1 := by
  refine ⟨by decide, _, _, rfl, ?_⟩
  have h := cursor_discipline 0 readThenWrite [.pass, .message replyRdFor0x10, .pass] _ _
    (by decide) rfl
  exact ⟨h.2.2.2.1, h.2.2.2.2.1, h.2.2.2.2.2.1, by decide⟩

/-! ## C21: the final state dump -/

/-- Counterexample for C21. Node 1, with no instructions, emits its dump at
its first pass; it then dispatches a `READ_REQUEST` for `0x10`, which re-arms
`should_print`, and emits the dump again at its next pass: two calls of
`printProcessorState`. -/
theorem dump_twice :
    dumpCount 1 (freshThread 1 []) [.pass, .message readRequestFrom2, .pass] = some 2 ∧
    ¬ (∀ n, dumpCount 1 (freshThread 1 []) [.pass, .message readRequestFrom2, .pass] = some n →
        n ≤ 1) := by
  refine ⟨by decide, ?_⟩
  intro h
  exact absurd (h 2 (by decide)) (by decide)

/-- Claim C21, amended. In every execution of the loop of one node that
starts with `should_print` at most 1 (it is 1 at the start of the program and
0 right after a dump), the number of calls of `printProcessorState` is at most
`should_print` plus the number of messages dispatched: at most one dump before
the first message and one more after each dispatched message, and no dump
after a dump until a further message is dispatched.  A pass emits the dump
exactly when the node is not blocked, has no instruction left and
`should_print` is positive, and it then decrements `should_print`. -/
theorem dump_bounded (k : Nat) (t0 : threadState) (es : List loopEvent) (n : Nat)
    (h0 : t0.should_print ≤ 1) (hrun : dumpCount k t0 es = some n) :
    n ≤ t0.should_print + messagesIn es ∧
    (messagesIn es = 0 → n ≤ t0.should_print) ∧
    ∀ u : threadState,
      ((afterDrain k u).2.2 = true ↔
        (u.awaiting_response = 0 ∧
          ¬ u.instr_counter < (u.local_node.instructionCount : Int) - 1 ∧
          0 < u.should_print)) ∧
      ((afterDrain k u).2.2 = true → (afterDrain k u).1.should_print = u.should_print - 1) := by
  have h := dumpCount_le k es t0 n h0 hrun
  refine ⟨h, fun hm => by omega, fun u => ?_⟩
  obtain ⟨d1, d2, _⟩ := afterDrain_dump k u
  exact ⟨d1, d2⟩

/-- Witness for C21: node 1 with no instructions dumps, dispatches one
`READ_REQUEST` and dumps again. -/
theorem dump_bounded_witness :
    (freshThread 1 []).should_print ≤ 1 ∧
    dumpCount 1 (freshThread 1 []) [.pass, .message readRequestFrom2, .pass] = some 2 ∧
    2 ≤ (freshThread 1 []).should_print +
      messagesIn [.pass, .message readRequestFrom2, .pass] :=
  ⟨by decide, by decide,
    (dump_bounded 1 (freshThread 1 []) [.pass, .message readRequestFrom2, .pass] 2
      (by decide) (by decide)).1⟩

/-! ## C22: scenario 3, two readers of `0x10` -/

/-- Counterexample for C22. After the run of scenario 3 the system is
quiescent and cache slot 0 of node 0 holds `0x10` in `SHARED` with value 20,
the initial content of `memory[0]` of node 1, and not `{0x10, 16, SHARED}`. -/
theorem scenario3_value_not_16 :
    ∃ g, run (initialState (progsOf sharedReaders) junkInstr) sharedReadersSchedule = some g ∧
      quiescent g ∧
      (initializeProcessor 1 (fun _ => junkInstr) 0).memory 0 = 20 ∧
      (g.threads 0).local_node.cache 0 ≠ { address := 0x10, value := 16, state := .SHARED } ∧
      (g.threads 2).local_node.cache 0 ≠ { address := 0x10, value := 16, state := .SHARED } := by
  obtain ⟨g, hg, hq⟩ := @run_check (initialState (progsOf sharedReaders) junkInstr)
    sharedReadersSchedule
    (fun g => quiescent g ∧
      (g.threads 0).local_node.cache 0 ≠ { address := 0x10, value := 16, state := .SHARED } ∧
      (g.threads 2).local_node.cache 0 ≠ { address := 0x10, value := 16, state := .SHARED })
    _ (by decide)
  exact ⟨g, hg, hq.1, by decide, hq.2.1, hq.2.2⟩

/-- Claim C22, amended. From the initial state in which nodes 0 and 2 each
have the program `RD 0x10`, the schedule in which node 0's read completes
before node 2 issues its read, followed by the dispatch of every message (the
two `FLUSH` messages in either order), ends in a quiescent state in which
entry 0 of node 1's directory is in state `S` with sharers `{0, 2}` (bit
vector 5), `memory[0]` of node 1 is 20, and cache slot 0 of node 0 and of
node 2 each hold `{0x10, 20, SHARED}`. -/
theorem scenario3_shared_readers :
    (∃ g, run (initialState (progsOf sharedReaders) junkInstr) sharedReadersSchedule = some g ∧
      quiescent g ∧
      (g.threads 1).local_node.directory 0 = { bitVector := 5, state := .S } ∧
      (g.threads 1).local_node.memory 0 = 20 ∧
      (g.threads 0).local_node.cache 0 = { address := 0x10, value := 20, state := .SHARED } ∧
      (g.threads 2).local_node.cache 0 = { address := 0x10, value := 20, state := .SHARED }) ∧
    (∃ g, run (initialState (progsOf sharedReaders) junkInstr) sharedReadersSchedule2 = some g ∧
      quiescent g ∧
      (g.threads 1).local_node.directory 0 = { bitVector := 5, state := .S } ∧
      (g.threads 1).local_node.memory 0 = 20 ∧
      (g.threads 0).local_node.cache 0 = { address := 0x10, value := 20, state := .SHARED } ∧
      (g.threads 2).local_node.cache 0 = { address := 0x10, value := 20, state := .SHARED }) := by
  obtain ⟨g, hg, hq⟩ := @run_check (initialState (progsOf sharedReaders) junkInstr)
    sharedReadersSchedule
    (fun g => quiescent g ∧
      (g.threads 1).local_node.directory 0 = { bitVector := 5, state := .S } ∧
      (g.threads 1).local_node.memory 0 = 20 ∧
      (g.threads 0).local_node.cache 0 = { address := 0x10, value := 20, state := .SHARED } ∧
      (g.threads 2).local_node.cache 0 = { address := 0x10, value := 20, state := .SHARED })
    _ (by decide)
  obtain ⟨g2, hg2, hq2⟩ := @run_check (initialState (progsOf sharedReaders) junkInstr)
    sharedReadersSchedule2
    (fun g => quiescent g ∧
      (g.threads 1).local_node.directory 0 = { bitVector := 5, state := .S } ∧
      (g.threads 1).local_node.memory 0 = 20 ∧
      (g.threads 0).local_node.cache 0 = { address := 0x10, value := 20, state := .SHARED } ∧
      (g.threads 2).local_node.cache 0 = { address := 0x10, value := 20, state := .SHARED })
    _ (by decide)
  exact ⟨⟨g, hg, hq⟩, ⟨g2, hg2, hq2⟩⟩

/-! ## Claim C23 -/

/-- Claim C23, evaluated at a failing input. The inbox of node 1 holds one
message and its lock is free; node 0 calls `sendMessage` on it while node 1
runs an iteration of its drain loop.  After node 0 has taken the lock, tested
`count` and written the slot, node 1 evaluates its guard, reads `head` and the
slot and writes `head`, all while node 0 holds the lock and is between two
statements of its enqueue.  In the continuation both threads load `count = 1`,
node 0 stores 2 and node 1 stores 0: both have finished, the message sent by
node 0 is in slot 1 between `head = 1` and `tail = 2`, but `count = 0`, so
`tail` is not `(head + count) mod 256` and the guard of the drain loop is
false. -/
theorem dequeue_without_lock :
    ∃ c c1,
      raceRun 0 writeRequestFrom2 raceStart raceInterleaving = some c ∧
      raceRun 0 writeRequestFrom2 raceStart raceLostUpdate = some c1 ∧
      c.shared.holder = some 0 ∧ c.sending.pc = .writeTail ∧
      c.draining.pc = .loadCount ∧ c.draining.incoming_msg = readRequestFrom2 ∧
      raceStart.shared.buf.head = 0 ∧ c.shared.buf.head = 1 ∧
      c1.sending.pc = .finished ∧ c1.draining.pc = .finished ∧
      c1.shared.holder = none ∧
      c1.shared.buf.head = 1 ∧ c1.shared.buf.tail = 2 ∧ c1.shared.buf.count = 0 ∧
      c1.shared.buf.queue 1 = writeRequestFrom2 ∧
      c1.shared.buf.tail ≠ (c1.shared.buf.head + c1.shared.buf.count) % MSG_BUFFER_SIZE ∧
      drainGuard c1.shared.buf = false := by
  have h1 : (raceRun 0 writeRequestFrom2 raceStart raceInterleaving).any
      (fun c => decide (c.shared.holder = some 0 ∧ c.sending.pc = .writeTail ∧
        c.draining.pc = .loadCount ∧ c.draining.incoming_msg = readRequestFrom2 ∧
        c.shared.buf.head = 1)) = true := by decide
  have h2 : (raceRun 0 writeRequestFrom2 raceStart raceLostUpdate).any
      (fun c1 => decide (c1.sending.pc = .finished ∧ c1.draining.pc = .finished ∧
        c1.shared.holder = none ∧
        c1.shared.buf.head = 1 ∧ c1.shared.buf.tail = 2 ∧ c1.shared.buf.count = 0 ∧
        c1.shared.buf.queue 1 = writeRequestFrom2 ∧
        c1.shared.buf.tail ≠ (c1.shared.buf.head + c1.shared.buf.count) % MSG_BUFFER_SIZE ∧
        drainGuard c1.shared.buf = false)) = true := by decide
  cases hc : raceRun 0 writeRequestFrom2 raceStart raceInterleaving with
  | none => rw [hc] at h1; cases h1
  | some c =>
      cases hc1 : raceRun 0 writeRequestFrom2 raceStart raceLostUpdate with
      | none => rw [hc1] at h2; cases h2
      | some c1 =>
          rw [hc] at h1
          rw [hc1] at h2
          simp only [Option.any_some, decide_eq_true_eq] at h1 h2
          obtain ⟨a1, a2, a3, a4, a5⟩ := h1
          obtain ⟨b1, b2, b3, b4, b5, b6, b7, b8, b9⟩ := h2
          exact ⟨c, c1, rfl, rfl, a1, a2, a3, a4, by decide, a5, b1, b2, b3, b4, b5, b6, b7,
            b8, b9⟩

/-! ## Claim C24 -/

/-- Claim C24, evaluated at a failing input. In the run where node 0 reads
`0x10` and then `0x20` and node 2 writes `0x10` (all addresses with upper
nibble in 0..3), a state is reached in which node 2 finds the `FLUSH_INVACK`
for `0x10` addressed to it at the head of its inbox while its slot 0 holds
`{0xFF, 0, EXCLUSIVE}`.  The dispatch calls `handleCacheReplacement` on that
line and sends an `EVICT_SHARED` for `0xFF` to receiver
`(0xFF >> 4) & 0x0F = 15`, which is not below `NUM_PROCS`; `sendMessage` is
undefined there and so is the step. -/
theorem eviction_to_node_15 :
    homed (progsOf promotionProgs) ∧
    ∃ g, run (initialState (progsOf promotionProgs) junkInstr) strayEvictionSchedule = some g ∧
      drainGuard (g.message_buffers 2) = true ∧
      (headMsg g 2).type = .FLUSH_INVACK ∧ (headMsg g 2).address = 0x10 ∧
      (headMsg g 2).secondReceiver = 2 ∧
      (g.threads 2).awaiting_response = 1 ∧
      (g.threads 2).local_node.cache 0 = { address := 0xFF, value := 0, state := .EXCLUSIVE } ∧
      (dispatch 2 (rearm (g.threads 2)) (headMsg g 2)).map (fun r => r.2) =
        some [(15, { type := .EVICT_SHARED, sender := 2, address := 0xFF, value := 0,
                     bitVector := 0, secondReceiver := 0, dirState := .EM })] ∧
      ¬ 15 < NUM_PROCS ∧
      (∀ bufs, sendMessage bufs 15
        { type := .EVICT_SHARED, sender := 2, address := 0xFF, value := 0,
          bitVector := 0, secondReceiver := 0, dirState := .EM } = none) ∧
      step g (.drain 2) = none := by
  refine ⟨homed_progsOf _ (by decide), ?_⟩
  obtain ⟨g, hg, hq⟩ := @run_check (initialState (progsOf promotionProgs) junkInstr)
    strayEvictionSchedule
    (fun g => drainGuard (g.message_buffers 2) = true ∧
      (headMsg g 2).type = .FLUSH_INVACK ∧ (headMsg g 2).address = 0x10 ∧
      (headMsg g 2).secondReceiver = 2 ∧
      (g.threads 2).awaiting_response = 1 ∧
      (g.threads 2).local_node.cache 0 = { address := 0xFF, value := 0, state := .EXCLUSIVE } ∧
      (dispatch 2 (rearm (g.threads 2)) (headMsg g 2)).map (fun r => r.2) =
        some [(15, { type := .EVICT_SHARED, sender := 2, address := 0xFF, value := 0,
                     bitVector := 0, secondReceiver := 0, dirState := .EM })] ∧
      (step g (.drain 2)).isNone = true)
    _ (by decide)
  obtain ⟨h1, h2, h3, h4, h5, h6, h7, h8⟩ := hq
  refine ⟨g, hg, h1, h2, h3, h4, h5, h6, h7, by decide, ?_, ?_⟩
  · intro bufs
    unfold sendMessage
    rw [if_neg (by decide)]
  · cases hs : step g (.drain 2) with
    | none => rfl
    | some x => rw [hs] at h8; cases h8

end Assignment
